import Mathlib

/-! HipSTR `SeqStutterGenotyper`: posterior engine and allele-set refinement.

A shallow embedding of the posterior engine of `src/seq_stutter_genotyper.cpp`
(`init_log_sample_priors`, `calc_log_sample_posteriors`, `get_optimal_genotypes` and the
phasing block of `write_vcf_record`) and of the two mutations of the allele set
(`get_uncalled_alleles` with `remove_alleles`, `get_stutter_candidate_alleles` with the merge
pass of `id_and_align_to_stutter_alleles`).

Conventions of the embedding:

* a C array reached through a `double*` / `int*` is a function `Nat → α` from the flat offset to
  the stored value; a store is `Function.update`-like (`store`), `std::fill` is `fill`;
* `double` is an arbitrary linearly ordered field `α` together with the two transcendental
  functions of `<cmath>` (`MathOps`); the theorems about probabilities instantiate `α` with `ℝ`
  and `exp`, `log` with `Real.exp`, `Real.log`;
* a counted `for` loop is `forLoop`; a pointer that is advanced inside the loop is part of the
  loop state;
* `assert` statements and the timing members (`clock()`) have no effect on the computed arrays
  and are left out;
* a `std::vector` built by `push_back` is a `List`, a `std::map` is the list of its entries in
  key order (`map_assign`, `map_find`), a `std::set` the ascending list of its elements
  (`set_insert`), `std::sort` is taken by its contract (`StdSort`);
* an `int` index addresses a vector through `Int.toNat`.
-/

namespace HipSTR

/-! ## Loops and arrays -/

/-- The loop `for (i = 0; i < n; ++i) st = body i st`. -/
def forLoop {σ : Type} : Nat → (Nat → σ → σ) → σ → σ
  | 0, _, init => init
  | k + 1, body, init => body k (forLoop k body init)

/-- The store `arr[i] = v`. -/
def store {α : Type} (arr : Nat → α) (i : Nat) (v : α) : Nat → α :=
  fun j => if j = i then v else arr j

/-- The call `std::fill(arr + lo, arr + hi, v)`. -/
def fill {α : Type} (arr : Nat → α) (lo hi : Nat) (v : α) : Nat → α :=
  fun j => if lo ≤ j ∧ j < hi then v else arr j

/-- The call `memcpy(dst, src, k*sizeof(double))`. -/
def memcpy {α : Type} (dst src : Nat → α) (k : Nat) : Nat → α :=
  fun j => if j < k then src j else dst j

/-! ## Numerical helpers -/

/-- The functions of `<cmath>` used by the genotyper. -/
structure MathOps (α : Type) where
  /-- The function `exp` of `<cmath>`. -/
  exp : α → α
  /-- The function `log` of `<cmath>`. -/
  log : α → α

section Numeric

variable {α : Type} [LinearOrderedField α]

/-- The constant `DBL_MAX` of `<cfloat>`: `(2 - 2^(-52)) * 2^1023`. -/
def DBL_MAX : α := 2 ^ 1024 - 2 ^ 971

/-- Modelled from the spec: `LOG_ONE_HALF` is declared in `mathops.h`, which is not among the
sources; the spec writes it `log½`. -/
def LOG_ONE_HALF (m : MathOps α) : α := m.log (1 / 2)

/-- Modelled from the spec: `int_log` is declared in `mathops.h`, which is not among the sources;
the spec's priors `1/(n(n+1))`, `2/(n(n+1))`, `1/n` "in log space" make it the logarithm of its
integer argument. -/
def int_log (m : MathOps α) (n : Nat) : α := m.log (n : α)

/-- Modelled from the spec: `log_sum_exp` is declared in `mathops.h`, which is not among the
sources; the spec asks for `logsumexp` "implemented with the standard max-subtraction trick". -/
def log_sum_exp (m : MathOps α) (log_v1 log_v2 : α) : α :=
  if log_v1 > log_v2 then log_v1 + m.log (1 + m.exp (log_v2 - log_v1))
  else log_v2 + m.log (1 + m.exp (log_v1 - log_v2))

/-- Modelled from the spec: `sum(begin, end)` is declared in `mathops.h`, which is not among the
sources; "the function returns the sum of per-sample totals". -/
def sum (arr : Nat → α) (lo hi : Nat) : α :=
  forLoop (hi - lo) (fun i acc => acc + arr (lo + i)) 0

end Numeric

/-! ## The repeat block and the alignment traces -/

/-- Modelled from the spec: class `RepeatBlock` (`SeqAlignment/RepeatBlock.h`) is not among the
sources. The spec's data model: a block exposes its genomic start and end and "the ordered
alternate sequences", alternate 0 being the reference. -/
structure RepeatBlock where
  /-- The value of `start()`. -/
  start : Int
  /-- The value of `end()`. -/
  stop : Int
  /-- The ordered alternate sequences. -/
  alternates : List String

/-- Modelled from the spec: the constructor `RepeatBlock(start, end, ref_seq, period,
stutter_model)` builds a block whose only alternate is the reference sequence. -/
def RepeatBlock.create (start stop : Int) (ref_seq : String) : RepeatBlock :=
  { start := start, stop := stop, alternates := [ref_seq] }

/-- Modelled from the spec: `num_options()` is the number of alternates. -/
def RepeatBlock.num_options (b : RepeatBlock) : Nat := b.alternates.length

/-- Modelled from the spec: `get_seq(i)` is alternate `i`. -/
def RepeatBlock.get_seq (b : RepeatBlock) (i : Nat) : String := b.alternates.getD i ""

/-- Modelled from the spec: "`add_alternate(seq)` appends". -/
def RepeatBlock.add_alternate (b : RepeatBlock) (seq : String) : RepeatBlock :=
  { b with alternates := b.alternates ++ [seq] }

/-- Modelled from the spec: "`contains(seq)` tests membership". -/
def RepeatBlock.contains (b : RepeatBlock) (seq : String) : Bool := decide (seq ∈ b.alternates)

/-- Modelled from the spec: "`index_of(seq)` returns the alternate index or MISSING"
(`MISSING` is `-1`). -/
def RepeatBlock.index_of (b : RepeatBlock) (seq : String) : Int :=
  if seq ∈ b.alternates then (b.alternates.indexOf seq : Int) else -1

/-- Modelled from the spec: "`remove_alleles(indices)` returns a new repeat block keeping
alternate 0 and those not in `indices`, preserving the relative order of survivors". -/
def RepeatBlock.remove_alleles (b : RepeatBlock) (allele_indices : List Nat) : RepeatBlock :=
  let kept := (List.range b.alternates.length).filter (fun i => i = 0 ∨ i ∉ allele_indices)
  { b with alternates := kept.map (fun i => b.alternates.getD i "") }

/-- Modelled from the spec: the members of an `AlignmentTrace` read by the genotyper: start and
stop of the traced alignment, "the integer stutter size applied to the repeat block" and the
traced repeat sequence `str_seq()`. -/
structure AlignmentTrace where
  traced_aln_start : Int
  traced_aln_stop : Int
  stutter_size : Int
  str_seq : String
deriving DecidableEq

/-- The locus descriptor `Region` (declared in `region.h`, not among the sources) as far as the
genotyper reads it: "inclusive start/stop on the reference". -/
structure Region where
  start : Int
  stop : Int

/-! ## The genotyper state used by the posterior engine -/

/-- The members of `SeqStutterGenotyper` read or written by the posterior engine.
`log_allele_priors_ = none` is the C++ `NULL`. -/
structure SeqStutterGenotyper (α : Type) where
  num_reads_ : Nat
  num_samples_ : Nat
  num_alleles_ : Nat
  haploid_ : Bool
  log_allele_priors_ : Option (Nat → α)
  log_aln_probs_ : Nat → α
  log_p1_ : Nat → α
  log_p2_ : Nat → α
  sample_label_ : Nat → Nat
  log_sample_posteriors_ : Nat → α
  sample_total_LLs_ : Nat → α
  seed_positions_ : Nat → Int := fun _ => 0
  call_sample_ : Nat → Bool := fun _ => true
  require_one_read_ : Bool := false
  alleles_ : List String := []
  /-- The repeat block `hap_blocks_[1]`, also reached as `haplotype_->get_block(1)`; the two
  flank blocks never change and are not modelled. -/
  hap_blocks_ : RepeatBlock := { start := 0, stop := 0, alternates := [] }
  /-- The map `trace_cache_` from `(pool_index, allele_index)` to the cached trace, as the list
  of its entries. -/
  trace_cache_ : List ((Int × Int) × AlignmentTrace) := []
  region_ : Region := { start := 0, stop := 0 }
  pos_ : Int := 0
  /-- The vector `pool_index_`: the pool of identical sequences a read belongs to, the read's own
  index when reads are not pooled. -/
  pool_index_ : Nat → Int := fun read_index => (read_index : Int)
  /-- Whether `ref_vcf_` is not `NULL`. -/
  ref_vcf_ : Bool := false
  /-- The vector `sample_names_`: the name of every sample index. -/
  sample_names_ : List String := []
  /-- The map `sample_indices_` from a sample name to its index, as the list of its entries. -/
  sample_indices_ : List (String × Int) := []

section Engine

variable {α : Type} [LinearOrderedField α]

/-- The method `SeqStutterGenotyper::init_log_sample_priors(double* log_sample_ptr)`; the result
is the array behind `log_sample_ptr` after the call. -/
def init_log_sample_priors (m : MathOps α) (g : SeqStutterGenotyper α)
    (log_sample_ptr : Nat → α) : Nat → α :=
  match g.log_allele_priors_ with
  | some log_allele_priors =>
    memcpy log_sample_ptr log_allele_priors (g.num_alleles_ * g.num_alleles_ * g.num_samples_)
  | none =>
    if !g.haploid_ then
      let log_hetz_prior : α := -int_log m g.num_alleles_ - int_log m (g.num_alleles_ + 1)
      let filled := fill log_sample_ptr 0 (g.num_alleles_ * g.num_alleles_ * g.num_samples_)
        log_hetz_prior
      let log_homoz_prior : α :=
        int_log m 2 - int_log m g.num_alleles_ - int_log m (g.num_alleles_ + 1)
      forLoop g.num_alleles_ (fun i arr =>
        let LL_ptr := i * g.num_alleles_ * g.num_samples_ + i * g.num_samples_
        fill arr LL_ptr (LL_ptr + g.num_samples_) log_homoz_prior) filled
    else
      let filled := fill log_sample_ptr 0 (g.num_alleles_ * g.num_alleles_ * g.num_samples_)
        (-DBL_MAX / 2)
      let log_homoz_prior : α := -int_log m g.num_alleles_
      forLoop g.num_alleles_ (fun i arr =>
        let LL_ptr := i * g.num_alleles_ * g.num_samples_ + i * g.num_samples_
        fill arr LL_ptr (LL_ptr + g.num_samples_) log_homoz_prior) filled

/-- The per-read term of the E-step,
`log_sum_exp(LOG_ONE_HALF + log_p1_[r] + read_LL_ptr[index_1],
             LOG_ONE_HALF + log_p2_[r] + read_LL_ptr[index_2])`,
where `read_LL_ptr` is an offset into `log_aln_probs_`. -/
def read_LL_term (m : MathOps α) (g : SeqStutterGenotyper α)
    (read_LL_ptr read_index index_1 index_2 : Nat) : α :=
  log_sum_exp m
    (LOG_ONE_HALF m + g.log_p1_ read_index + g.log_aln_probs_ (read_LL_ptr + index_1))
    (LOG_ONE_HALF m + g.log_p2_ read_index + g.log_aln_probs_ (read_LL_ptr + index_2))

/-- The read loop of `calc_log_sample_posteriors` (lines 666-672) for one ordered genotype:
the state is the posterior array and `read_LL_ptr`. -/
def accumulate_reads (m : MathOps α) (g : SeqStutterGenotyper α) (read_weights : Nat → Int)
    (index_1 index_2 sample_LL_ptr : Nat) (post : Nat → α) : (Nat → α) × Nat :=
  forLoop g.num_reads_ (fun read_index st =>
    (store st.1 (sample_LL_ptr + g.sample_label_ read_index)
        (st.1 (sample_LL_ptr + g.sample_label_ read_index)
          + (read_weights read_index : α) * read_LL_term m g st.2 read_index index_1 index_2),
      st.2 + g.num_alleles_)) (post, 0)

/-- State of the genotype loops of `calc_log_sample_posteriors` (lines 664-679). -/
structure AccumState (α : Type) where
  post : Nat → α
  sample_max_LLs : Nat → α
  sample_LL_ptr : Nat

/-- The update of the per-sample maxima (lines 674-675). -/
def update_sample_max_LLs (g : SeqStutterGenotyper α) (post sample_max_LLs : Nat → α)
    (sample_LL_ptr : Nat) : Nat → α :=
  forLoop g.num_samples_ (fun sample_index mx =>
    store mx sample_index (max (mx sample_index) (post (sample_LL_ptr + sample_index))))
    sample_max_LLs

/-- The two genotype loops of `calc_log_sample_posteriors` (lines 664-679). -/
def accumulate_genotypes (m : MathOps α) (g : SeqStutterGenotyper α) (read_weights : Nat → Int)
    (init : AccumState α) : AccumState α :=
  forLoop g.num_alleles_ (fun index_1 st =>
    forLoop g.num_alleles_ (fun index_2 st =>
      let post := (accumulate_reads m g read_weights index_1 index_2 st.sample_LL_ptr st.post).1
      { post := post
        sample_max_LLs := update_sample_max_LLs g post st.sample_max_LLs st.sample_LL_ptr
        sample_LL_ptr := st.sample_LL_ptr + g.num_samples_ }) st) init

/-- The loops of lines 684-687: `sample_total_LLs_[s] += exp(*sample_LL_ptr - sample_max_LLs[s])`
with `sample_LL_ptr` advanced in the innermost loop. -/
def accumulate_totals (m : MathOps α) (g : SeqStutterGenotyper α)
    (post sample_max_LLs totals : Nat → α) : (Nat → α) × Nat :=
  forLoop g.num_alleles_ (fun _ st =>
    forLoop g.num_alleles_ (fun _ st =>
      forLoop g.num_samples_ (fun sample_index st =>
        (store st.1 sample_index
            (st.1 sample_index + m.exp (post st.2 - sample_max_LLs sample_index)),
          st.2 + 1)) st) st) (totals, 0)

/-- The loop of lines 688-691: `sample_total_LLs_[s] = sample_max_LLs[s] + log(...)`. -/
def finish_totals (m : MathOps α) (g : SeqStutterGenotyper α)
    (sample_max_LLs totals : Nat → α) : Nat → α :=
  forLoop g.num_samples_ (fun sample_index tot =>
    store tot sample_index (sample_max_LLs sample_index + m.log (tot sample_index))) totals

/-- The loops of lines 696-700: `*sample_LL_ptr -= sample_total_LLs_[s]`. -/
def normalize (g : SeqStutterGenotyper α) (totals post : Nat → α) : (Nat → α) × Nat :=
  forLoop g.num_alleles_ (fun _ st =>
    forLoop g.num_alleles_ (fun _ st =>
      forLoop g.num_samples_ (fun sample_index st =>
        (store st.1 st.2 (st.1 st.2 - totals sample_index), st.2 + 1)) st) st) (post, 0)

/-- The un-normalised array held in `log_sample_posteriors_` after line 679, together with the
per-sample maxima. -/
def unnormalized (m : MathOps α) (g : SeqStutterGenotyper α) (read_weights : Nat → Int) :
    AccumState α :=
  accumulate_genotypes m g read_weights
    { post := init_log_sample_priors m g g.log_sample_posteriors_
      sample_max_LLs := fun _ => -DBL_MAX
      sample_LL_ptr := 0 }

/-- The method `SeqStutterGenotyper::calc_log_sample_posteriors(std::vector<int>& read_weights)`:
the returned `total_LL` and the object after the call (timing members are not modelled). -/
def calc_log_sample_posteriors (m : MathOps α) (g : SeqStutterGenotyper α)
    (read_weights : Nat → Int) : α × SeqStutterGenotyper α :=
  let acc := unnormalized m g read_weights
  let totals := fill g.sample_total_LLs_ 0 g.num_samples_ 0
  let totals := (accumulate_totals m g acc.post acc.sample_max_LLs totals).1
  let totals := finish_totals m g acc.sample_max_LLs totals
  let total_LL := sum totals 0 g.num_samples_
  let post := (normalize g totals acc.post).1
  (total_LL, { g with log_sample_posteriors_ := post, sample_total_LLs_ := totals })

/-- The overload `calc_log_sample_posteriors()`: every read has weight 1. -/
def calc_log_sample_posteriors_default (m : MathOps α) (g : SeqStutterGenotyper α) :
    α × SeqStutterGenotyper α :=
  calc_log_sample_posteriors m g (fun _ => 1)

/-- State of the loops of `get_optimal_genotypes`. -/
structure GtState (α : Type) where
  gts : Nat → Int × Int
  log_phased_posteriors : Nat → α
  log_posterior_ptr : Nat

/-- The loops of `get_optimal_genotypes` (lines 729-735), also those of `write_vcf_record`
(lines 954-961) as far as `gts` and `log_phased_posteriors` go. -/
def optimal_genotypes_loop (g : SeqStutterGenotyper α) (log_posterior : Nat → α) : GtState α :=
  forLoop g.num_alleles_ (fun index_1 st =>
    forLoop g.num_alleles_ (fun index_2 st =>
      forLoop g.num_samples_ (fun sample_index st =>
        if log_posterior st.log_posterior_ptr > st.log_phased_posteriors sample_index then
          { gts := store st.gts sample_index ((index_1 : Int), (index_2 : Int))
            log_phased_posteriors :=
              store st.log_phased_posteriors sample_index (log_posterior st.log_posterior_ptr)
            log_posterior_ptr := st.log_posterior_ptr + 1 }
        else { st with log_posterior_ptr := st.log_posterior_ptr + 1 }) st) st)
    { gts := fun _ => (-1, -1)
      log_phased_posteriors := fun _ => -DBL_MAX
      log_posterior_ptr := 0 }

/-- The method `SeqStutterGenotyper::get_optimal_genotypes(double* log_posterior_ptr, gts)`:
the vector `gts` after the call, as a function of the sample index. -/
def get_optimal_genotypes (g : SeqStutterGenotyper α) (log_posterior : Nat → α) :
    Nat → Int × Int :=
  (optimal_genotypes_loop g log_posterior).gts

/-- The phasing block of `write_vcf_record` (lines 1001-1016): the vectors
`log_unphased_posteriors` and `phase_probs`, built by `push_back`. `gts` and
`log_phased_posteriors` are those of the loops of lines 954-961. -/
def write_vcf_record_phasing (m : MathOps α) (g : SeqStutterGenotyper α) :
    List α × List α :=
  let st := optimal_genotypes_loop g g.log_sample_posteriors_
  forLoop g.num_samples_ (fun sample_index out =>
    let gt_a := (st.gts sample_index).1
    let gt_b := (st.gts sample_index).2
    if gt_a = gt_b then
      (out.1 ++ [st.log_phased_posteriors sample_index], out.2 ++ [1])
    else
      let log_p1 := st.log_phased_posteriors sample_index
      let log_p2 := g.log_sample_posteriors_
        (gt_b * g.num_alleles_ * g.num_samples_ + gt_a * g.num_samples_ + sample_index).toNat
      let log_tot := log_sum_exp m log_p1 log_p2
      (out.1 ++ [log_tot], out.2 ++ [m.exp (log_p1 - log_tot)])) ([], [])

/-- The offset of the cell of ordered genotype `(index_1, index_2)` and sample `sample_index`
in the posterior array: `index_1*num_alleles_*num_samples_ + index_2*num_samples_ + sample_index`
(lines 639, 965, 1011). -/
def cell_index (g : SeqStutterGenotyper α) (index_1 index_2 sample_index : Nat) : Nat :=
  index_1 * g.num_alleles_ * g.num_samples_ + index_2 * g.num_samples_ + sample_index

/-- The sum over the reads `r` with `sample_label_[r] = s` of
`read_weights[r] * read_LL_term` for the ordered genotype `(a, b)`; read `r` owns the row of
`log_aln_probs_` at offset `r * num_alleles_`. -/
def read_sum (m : MathOps α) (g : SeqStutterGenotyper α) (read_weights : Nat → Int)
    (a b s : Nat) : α :=
  ∑ r in Finset.range g.num_reads_,
    if g.sample_label_ r = s then
      (read_weights r : α) * read_LL_term m g (r * g.num_alleles_) r a b
    else 0

/-- The un-normalised cell as the spec writes it: the prior cell plus, for every read `r` of
sample `s`, `w_r · logsumexp(log½ + log_p1_r + A[r,a], log½ + log_p2_r + A[r,b])`, with
`logsumexp(x, y) = log (exp x + exp y)` and `A[r,k]` at offset `r * num_alleles_ + k`. -/
def spec_unnormalized_cell (m : MathOps α) (g : SeqStutterGenotyper α) (read_weights : Nat → Int)
    (a b s : Nat) : α :=
  init_log_sample_priors m g g.log_sample_posteriors_ (cell_index g a b s)
    + ∑ r in Finset.range g.num_reads_,
        if g.sample_label_ r = s then
          (read_weights r : α) * m.log
            (m.exp (m.log (1 / 2) + g.log_p1_ r + g.log_aln_probs_ (r * g.num_alleles_ + a))
              + m.exp (m.log (1 / 2) + g.log_p2_ r + g.log_aln_probs_ (r * g.num_alleles_ + b)))
        else 0

/-- The normalising constant of sample `s` as the spec writes it: the `logsumexp` over all ordered
genotypes of the un-normalised cells of `s`. -/
def spec_sample_total (m : MathOps α) (g : SeqStutterGenotyper α) (read_weights : Nat → Int)
    (s : Nat) : α :=
  m.log (∑ a in Finset.range g.num_alleles_, ∑ b in Finset.range g.num_alleles_,
    m.exp (spec_unnormalized_cell m g read_weights a b s))

/-- The ordered genotype `(a, b)` is visited by the genotype loops before `(i1, i2)`. -/
def lex_before (i1 i2 a b : Nat) : Prop := a < i1 ∨ (a = i1 ∧ b < i2)

/-- Invariant of the loops of `get_optimal_genotypes` for sample `s0` when the genotypes before
`(i1, i2)` have been visited: either none of them exceeded `-DBL_MAX` and the entry of `s0` is
untouched, or `gts[s0]` is the first visited genotype whose cell is maximal among the visited
ones, and `log_phased_posteriors[s0]` is that cell. -/
def map_invariant (g : SeqStutterGenotyper α) (P : Nat → α) (s0 i1 i2 : Nat)
    (st : GtState α) : Prop :=
  (st.gts s0 = (-1, -1) ∧ st.log_phased_posteriors s0 = -DBL_MAX
      ∧ ∀ a b, b < g.num_alleles_ → lex_before i1 i2 a b → P (cell_index g a b s0) ≤ -DBL_MAX)
  ∨ ∃ a b, b < g.num_alleles_ ∧ lex_before i1 i2 a b
      ∧ st.gts s0 = ((a : Int), (b : Int))
      ∧ st.log_phased_posteriors s0 = P (cell_index g a b s0)
      ∧ -DBL_MAX < P (cell_index g a b s0)
      ∧ ∀ a' b', b' < g.num_alleles_ → lex_before i1 i2 a' b' →
          P (cell_index g a' b' s0) ≤ P (cell_index g a b s0)
          ∧ (P (cell_index g a' b' s0) = P (cell_index g a b s0) → lex_before a' (b' + 1) a b)

/-- A posterior array over `ℚ` for `example_diploid`: sample 0 has its maximum `-1` at the
genotypes `(0, 1)` and `(1, 1)`, sample 1 at `(0, 1)`. -/
def example_posteriors : Nat → ℚ := fun i => if i = 2 ∨ i = 3 ∨ i = 6 then -1 else -2

/-- A single-allele input after the posterior step: the only cell `(0, 0)` of the only sample
holds log-posterior 0. -/
def example_single_allele (α : Type) [LinearOrderedField α] : SeqStutterGenotyper α where
  num_reads_ := 0
  num_samples_ := 1
  num_alleles_ := 1
  haploid_ := false
  log_allele_priors_ := none
  log_aln_probs_ := fun _ => 0
  log_p1_ := fun _ => 0
  log_p2_ := fun _ => 0
  sample_label_ := fun _ => 0
  log_sample_posteriors_ := fun _ => 0
  sample_total_LLs_ := fun _ => 0

/-- A small haploid input: three alleles, one sample, two reads, default priors. -/
def example_haploid (α : Type) [LinearOrderedField α] : SeqStutterGenotyper α where
  num_reads_ := 2
  num_samples_ := 1
  num_alleles_ := 3
  haploid_ := true
  log_allele_priors_ := none
  log_aln_probs_ := fun i => if i % 3 = 1 then -1 else -5
  log_p1_ := fun _ => -1
  log_p2_ := fun _ => -1
  sample_label_ := fun _ => 0
  log_sample_posteriors_ := fun _ => 0
  sample_total_LLs_ := fun _ => 0

/-- A haploid input with finite, non-positive entries on which the sentinel prior is outweighed:
two alleles, one sample, two reads with uniform phase priors; read 0 fits allele 0 (`A = 0`) and
has `A = -DBL_MAX` for allele 1, read 1 the other way round. -/
def example_haploid_extreme {α : Type} [LinearOrderedField α] (m : MathOps α) :
    SeqStutterGenotyper α where
  num_reads_ := 2
  num_samples_ := 1
  num_alleles_ := 2
  haploid_ := true
  log_allele_priors_ := none
  log_aln_probs_ := fun i => if i = 0 ∨ i = 3 then 0 else -DBL_MAX
  log_p1_ := fun _ => LOG_ONE_HALF m
  log_p2_ := fun _ => LOG_ONE_HALF m
  sample_label_ := fun _ => 0
  log_sample_posteriors_ := fun _ => 0
  sample_total_LLs_ := fun _ => 0

/-- An input with external priors that are not normalised: one allele, one sample, no reads,
and the external prior cell `-1`. -/
def example_external_prior (α : Type) [LinearOrderedField α] : SeqStutterGenotyper α where
  num_reads_ := 0
  num_samples_ := 1
  num_alleles_ := 1
  haploid_ := false
  log_allele_priors_ := some (fun _ => -1)
  log_aln_probs_ := fun _ => 0
  log_p1_ := fun _ => 0
  log_p2_ := fun _ => 0
  sample_label_ := fun _ => 0
  log_sample_posteriors_ := fun _ => 0
  sample_total_LLs_ := fun _ => 0

/-- A small diploid input: two alleles, two samples, three reads (two of sample 0, one of
sample 1), default priors. -/
def example_diploid (α : Type) [LinearOrderedField α] : SeqStutterGenotyper α where
  num_reads_ := 3
  num_samples_ := 2
  num_alleles_ := 2
  haploid_ := false
  log_allele_priors_ := none
  log_aln_probs_ := fun i => if i % 2 = 0 then -1 else -3
  log_p1_ := fun _ => -1
  log_p2_ := fun _ => -2
  sample_label_ := fun r => if r < 2 then 0 else 1
  log_sample_posteriors_ := fun _ => 0
  sample_total_LLs_ := fun _ => 0

/-- The vector `aligned_read` of `get_uncalled_alleles` (lines 40-44): which samples have a read
with `seed_positions_[r] >= 0`. -/
def aligned_read (g : SeqStutterGenotyper α) : Nat → Bool :=
  forLoop g.num_reads_ (fun read_index ar =>
    if g.seed_positions_ read_index ≥ 0 then store ar (g.sample_label_ read_index) true else ar)
    (fun _ => false)

/-- The vector `called` of `get_uncalled_alleles` (lines 51-57). An allele index of type `int`
addresses the vector through `Int.toNat`. -/
def called_alleles (g : SeqStutterGenotyper α) (gts : Nat → Int × Int) : Nat → Bool :=
  forLoop g.num_samples_ (fun i called =>
    if (!g.require_one_read_ || aligned_read g i) && g.call_sample_ i then
      store (store called (gts i).1.toNat true) (gts i).2.toNat true
    else called) (fun _ => false)

/-- The method `SeqStutterGenotyper::get_uncalled_alleles(std::vector<int>& allele_indices)`:
the vector `allele_indices` after the call. The last loop runs over `i = 1, ..., called.size()-1`
with `called.size() = num_alleles_`. -/
def get_uncalled_alleles (g : SeqStutterGenotyper α) : List Nat :=
  let gts := get_optimal_genotypes g g.log_sample_posteriors_
  let called := called_alleles g gts
  forLoop (g.num_alleles_ - 1) (fun k allele_indices =>
    if !called (k + 1) then allele_indices ++ [k + 1] else allele_indices) []

/-- Fresh memory `new double[k]`: its content is never read before it is written. -/
def new_array : Nat → α := fun _ => 0

/-- The assignment `m[k] = v` of a `std::map`, on the list of its entries; `lt` is the key
order. -/
def map_assign {κ ν : Type} [DecidableEq κ] (lt : κ → κ → Bool) :
    List (κ × ν) → κ → ν → List (κ × ν)
  | [], k, v => [(k, v)]
  | (k', v') :: rest, k, v =>
    if lt k k' then (k, v) :: (k', v') :: rest
    else if k = k' then (k, v) :: rest
    else (k', v') :: map_assign lt rest k v

/-- The lookup `m.find(k)` of a `std::map`, on the list of its entries. -/
def map_find {κ ν : Type} [DecidableEq κ] : List (κ × ν) → κ → Option ν
  | [], _ => none
  | (k', v') :: rest, k => if k = k' then some v' else map_find rest k

/-- The order `operator<` of `std::pair<int,int>`. -/
def pair_lt (a b : Int × Int) : Bool := decide (a.1 < b.1 ∨ (a.1 = b.1 ∧ a.2 < b.2))

/-- The vector `keep_allele` of `remove_alleles` (lines 69-74). -/
def keep_allele (allele_indices : List Nat) : Nat → Bool :=
  allele_indices.foldl (fun keep i => store keep i false) (fun _ => true)

/-- The loop of lines 80-87 of `remove_alleles`: `fixed_alleles`, `allele_mapping` and
`keep_count`. -/
def fix_alleles (g : SeqStutterGenotyper α) (keep : Nat → Bool) : List String × List Int × Int :=
  forLoop g.alleles_.length (fun i st =>
    if keep i then (st.1 ++ [g.alleles_.getD i ""], st.2.1 ++ [st.2.2], st.2.2 + 1)
    else (st.1, st.2.1 ++ [-1], st.2.2)) ([], [], 0)

/-- The loops of lines 90-100 of `remove_alleles`: the new array and the offsets
`old_log_aln_ptr`, `new_log_aln_ptr`. -/
def fix_log_aln_probs (g : SeqStutterGenotyper α) (keep : Nat → Bool) : (Nat → α) × Nat × Nat :=
  forLoop g.num_reads_ (fun _ st =>
    forLoop g.num_alleles_ (fun j st =>
      if keep j then (store st.1 st.2.2 (g.log_aln_probs_ st.2.1), st.2.1 + 1, st.2.2 + 1)
      else (st.1, st.2.1 + 1, st.2.2)) st) (new_array, 0, 0)

/-- The loop of lines 118-123 of `remove_alleles`: the re-keyed trace cache. -/
def fix_trace_cache (trace_cache : List ((Int × Int) × AlignmentTrace))
    (allele_mapping : List Int) : List ((Int × Int) × AlignmentTrace) :=
  trace_cache.foldl (fun new_trace_cache entry =>
    if allele_mapping.getD entry.1.2.toNat (-1) ≠ -1 then
      map_assign pair_lt new_trace_cache
        (entry.1.1, allele_mapping.getD entry.1.2.toNat (-1)) entry.2
    else new_trace_cache) []

/-- The method `SeqStutterGenotyper::remove_alleles(std::vector<int>& allele_indices)`: the
object after the call. `fixed_num_alleles` is `num_alleles_ - allele_indices.size()`, which the
assertion of line 67 keeps positive. -/
def remove_alleles (m : MathOps α) (g : SeqStutterGenotyper α) (allele_indices : List Nat) :
    SeqStutterGenotyper α :=
  let keep := keep_allele allele_indices
  let fixed_num_alleles := g.num_alleles_ - allele_indices.length
  let fixed := fix_alleles g keep
  (calc_log_sample_posteriors_default m
    { g with
      log_aln_probs_ := (fix_log_aln_probs g keep).1
      num_alleles_ := fixed_num_alleles
      alleles_ := fixed.1
      hap_blocks_ := g.hap_blocks_.remove_alleles allele_indices
      trace_cache_ := fix_trace_cache g.trace_cache_ fixed.2.1
      log_sample_posteriors_ := new_array }).2

/-- The rank of the old allele index `j` among the kept ones: the number of kept indices
below `j`. -/
def kept_rank (allele_indices : List Nat) (j : Nat) : Nat :=
  ((List.range j).filter (fun i => i ∉ allele_indices)).length

/-- Five alleles, two reads of one sample; read 0 fits allele 0, read 1 allele 2, so the MAP
genotype of the sample is `(0, 2)`. -/
def example_five_alleles (α : Type) [LinearOrderedField α] : SeqStutterGenotyper α where
  num_reads_ := 2
  num_samples_ := 1
  num_alleles_ := 5
  haploid_ := false
  log_allele_priors_ := none
  log_aln_probs_ := fun i => if i = 0 ∨ i = 7 then 0 else -(i : α) - 10
  log_p1_ := fun _ => -1
  log_p2_ := fun _ => -1
  sample_label_ := fun _ => 0
  log_sample_posteriors_ := fun _ => 0
  sample_total_LLs_ := fun _ => 0
  alleles_ := ["TACACG", "TACG", "TACACACG", "TACACACACG", "TACACACACACG"]
  hap_blocks_ := { start := 100, stop := 104,
                   alternates := ["ACAC", "AC", "ACACAC", "ACACACAC", "ACACACACAC"] }
  trace_cache_ := [((0, 0), ⟨95, 110, 0, "ACAC"⟩), ((1, 2), ⟨95, 112, 0, "ACACAC"⟩),
                   ((1, 3), ⟨95, 112, -2, "ACACAC"⟩)]

/-! ### Strings, sorting, sets -/

/-- Modelled from the spec: `uppercase` is declared in `stringops.h`, which is not among the
sources. -/
def uppercase (s : String) : String := s.toUpper

/-- The call `s.substr(pos, len)` of `std::string`. -/
def substr (s : String) (pos len : Int) : String :=
  String.mk ((s.toList.drop pos.toNat).take len.toNat)

/-- The call `std::sort(first, last, stringLengthLT)` by its contract: the result is a
permutation of the input in which no element is shorter than an earlier one; the order among
strings of equal length is unspecified. `stringLengthLT` is declared in `stringops.h`, which is
not among the sources, and is modelled from the spec ("sort by length ascending"). -/
structure StdSort where
  sort : List String → List String
  perm : ∀ l, (sort l).Perm l
  sorted : ∀ l, (sort l).Sorted (fun a b => a.length ≤ b.length)

/-- The call `set.insert(x)` of a `std::set<std::string>`, on the ascending list of its
elements. -/
def set_insert : List String → String → List String
  | [], x => [x]
  | y :: rest, x =>
    if x < y then x :: y :: rest
    else if x = y then y :: rest
    else y :: set_insert rest x

/-- The statement `counts[k]++` of a `std::map<std::string,int>`, on the list of its entries. -/
def map_increment (counts : List (String × Int)) (k : String) : List (String × Int) :=
  map_assign (fun a b => decide (a < b)) counts k ((map_find counts k).getD 0 + 1)

/-! ### Candidate alleles from stutter artifacts -/

/-- The read loop of `get_stutter_candidate_alleles` (lines 832-854): `sample_counts` and
`sample_stutter_counts`. `traced_alns[r]` is `none` for a `NULL` trace. -/
def count_stutter_traces (g : SeqStutterGenotyper α) (traced_alns : Nat → Option AlignmentTrace) :
    (Nat → Int) × (Nat → List (String × Int)) :=
  forLoop g.num_reads_ (fun read_index st =>
    match traced_alns read_index with
    | none => st
    | some trace =>
      if trace.traced_aln_start < g.hap_blocks_.start then
        if trace.traced_aln_stop > g.hap_blocks_.stop then
          (store st.1 (g.sample_label_ read_index) (st.1 (g.sample_label_ read_index) + 1),
            if trace.stutter_size ≠ 0 then
              store st.2 (g.sample_label_ read_index)
                (map_increment (st.2 (g.sample_label_ read_index)) trace.str_seq)
            else st.2)
        else st
      else st) (fun _ => 0, fun _ => [])

/-- The method `SeqStutterGenotyper::get_stutter_candidate_alleles`, given the vector
`traced_alns` that `retrace_alignments` returned: the vector `candidate_seqs` after the call.
The test `1.0*count/sample_counts[i] >= 0.15` is taken over the rationals. -/
def get_stutter_candidate_alleles (g : SeqStutterGenotyper α)
    (traced_alns : Nat → Option AlignmentTrace) : List String :=
  let counts := count_stutter_traces g traced_alns
  forLoop g.num_samples_ (fun i candidate_set =>
    (counts.2 i).foldl (fun candidate_set seq_iter =>
      if !g.hap_blocks_.contains seq_iter.1 then
        if seq_iter.2 ≥ 2 ∧ ((seq_iter.2 : ℚ) / (counts.1 i : ℚ) ≥ 15 / 100) then
          set_insert candidate_set seq_iter.1
        else candidate_set
      else candidate_set) candidate_set) []

/-! ### Merging candidate alleles -/

/-- The method `SeqStutterGenotyper::get_alleles(chrom_seq, alleles)`: the vector `alleles` and
the member `pos_` after the call. -/
def get_alleles (g : SeqStutterGenotyper α) (chrom_seq : String) : List String × Int :=
  let block := g.hap_blocks_
  let start := block.start
  let stop := block.stop
  let left_flank :=
    if start ≥ g.region_.start then
      uppercase (substr chrom_seq g.region_.start (start - g.region_.start))
    else ""
  let right_flank :=
    if stop ≤ g.region_.stop then uppercase (substr chrom_seq stop (g.region_.stop - stop))
    else ""
  let pos := min g.region_.start start
  let ref_seq := block.get_seq 0
  let pad_left := left_flank.isEmpty
    && (List.range' 1 (block.num_options - 1)).any
        (fun i => (block.get_seq i).toList.headD (Char.ofNat 0)
          != ref_seq.toList.headD (Char.ofNat 0))
  let pos := if pad_left then pos - 1 else pos
  let left_flank := if pad_left then uppercase (substr chrom_seq pos 1) else left_flank
  let alleles := forLoop block.num_options (fun i alleles =>
    alleles ++ [left_flank ++ block.get_seq i ++ right_flank]) []
  (alleles, pos + 1)

/-- Lines 381-389 of `id_and_align_to_stutter_alleles`: the repeat block with all alleles. -/
def merged_str_block (srt : StdSort) (block : RepeatBlock) (stutter_seqs : List String) :
    RepeatBlock :=
  let str_seqs := forLoop block.num_options (fun i seqs => seqs ++ [block.get_seq i]) []
  let str_seqs := forLoop stutter_seqs.length (fun i seqs => seqs ++ [stutter_seqs.getD i ""])
    str_seqs
  let str_seqs := match str_seqs with
    | [] => []
    | first :: rest => first :: srt.sort rest
  forLoop (str_seqs.length - 1) (fun k (b : RepeatBlock) =>
    b.add_alternate (str_seqs.getD (k + 1) ""))
    (RepeatBlock.create block.start block.stop (block.get_seq 0))

/-- Lines 392-396: `original_indices` and `stutter_indices`. -/
def merged_indices (g : SeqStutterGenotyper α) (str_block : RepeatBlock)
    (stutter_seqs : List String) : List Int × List Int :=
  (forLoop g.num_alleles_ (fun i l => l ++ [str_block.index_of (g.hap_blocks_.get_seq i)]) [],
    forLoop stutter_seqs.length (fun i l => l ++ [str_block.index_of (stutter_seqs.getD i "")])
      [])

/-- Lines 399-410: the combined alignment array; the state is the new array and the offsets
`log_aln_ptr_original`, `log_aln_ptr_stutter`, `log_aln_ptr_all`. -/
def merged_log_aln_probs (g : SeqStutterGenotyper α) (original_indices stutter_indices : List Int)
    (num_stutter : Nat) (new_log_aln_probs : Nat → α) : (Nat → α) × Nat × Nat × Nat :=
  let total_alleles := g.num_alleles_ + num_stutter
  forLoop g.num_reads_ (fun _ st =>
    let st1 := forLoop g.num_alleles_ (fun j (st : (Nat → α) × Nat × Nat × Nat) =>
      (store st.1 ((st.2.2.2 : Int) + original_indices.getD j (-1)).toNat
          (g.log_aln_probs_ st.2.1),
        st.2.1 + 1, st.2.2.1, st.2.2.2)) st
    let st2 := forLoop num_stutter (fun j (st : (Nat → α) × Nat × Nat × Nat) =>
      (store st.1 ((st.2.2.2 : Int) + stutter_indices.getD j (-1)).toNat
          (new_log_aln_probs st.2.2.1),
        st.2.1, st.2.2.1 + 1, st.2.2.2)) st1
    (st2.1, st2.2.1, st2.2.2.1, st2.2.2.2 + total_alleles)) (new_array, 0, 0, 0)

/-- Lines 416-420: the re-keyed trace cache. -/
def merged_trace_cache (trace_cache : List ((Int × Int) × AlignmentTrace))
    (original_indices : List Int) : List ((Int × Int) × AlignmentTrace) :=
  trace_cache.foldl (fun new_trace_cache entry =>
    map_assign pair_lt new_trace_cache
      (entry.1.1, original_indices.getD entry.1.2.toNat (-1)) entry.2) []

/-- One pass through the body of the loop of `id_and_align_to_stutter_alleles` after the length
check (lines 367-437), for the sorted candidates `stutter_seqs` and the array
`new_log_aln_probs` that `calc_hap_aln_probs` filled for the haplotype of the candidates:
the object after the pass. -/
def merge_stutter_alleles (m : MathOps α) (srt : StdSort) (g : SeqStutterGenotyper α)
    (chrom_seq : String) (stutter_seqs : List String) (new_log_aln_probs : Nat → α) :
    SeqStutterGenotyper α :=
  let str_block := merged_str_block srt g.hap_blocks_ stutter_seqs
  let indices := merged_indices g str_block stutter_seqs
  let total_alleles := g.num_alleles_ + stutter_seqs.length
  let fixed_log_aln_probs :=
    (merged_log_aln_probs g indices.1 indices.2 stutter_seqs.length new_log_aln_probs).1
  let g1 : SeqStutterGenotyper α :=
    { g with
      log_aln_probs_ := fixed_log_aln_probs
      trace_cache_ := merged_trace_cache g.trace_cache_ indices.1
      num_alleles_ := total_alleles
      hap_blocks_ := str_block }
  let alleles := get_alleles g1 chrom_seq
  (calc_log_sample_posteriors_default m
    { g1 with
      alleles_ := alleles.1
      pos_ := alleles.2
      log_sample_posteriors_ := new_array }).2

/-- The allele dimension of the object is consistent: `num_alleles_` is the number of entries of
`alleles_` and of alternates of the repeat block, and every key of the trace cache names an
allele below `num_alleles_`. -/
def dimension_consistent (g : SeqStutterGenotyper α) : Prop :=
  g.num_alleles_ = g.alleles_.length ∧ g.num_alleles_ = g.hap_blocks_.num_options
    ∧ ∀ entry ∈ g.trace_cache_, 0 ≤ entry.1.2 ∧ entry.1.2 < g.num_alleles_

/-- An instance of the contract of `std::sort`: insertion sort by length. -/
def insertion_sort_by_length : StdSort where
  sort := List.insertionSort (fun a b => a.length ≤ b.length)
  perm := fun l => List.perm_insertionSort _ l
  sorted := fun l =>
    @List.sorted_insertionSort String (fun a b => a.length ≤ b.length) _
      ⟨fun a b => Nat.le_total a.length b.length⟩ ⟨fun _ _ _ h1 h2 => Nat.le_trans h1 h2⟩ l

/-- The new trace cache is the old one re-keyed by sequence identity: every trace stored under
`(pool, a)` whose allele survives is stored under `(pool, a')` with
`a' = new_block.index_of(old sequence of a)`, alternate `a'` of the new block being that
sequence; and every entry of the new cache arises in this way from a surviving entry. -/
def cache_rekeyed_by_sequence (old_block new_block : RepeatBlock)
    (old_cache new_cache : List ((Int × Int) × AlignmentTrace)) (survives : Int → Prop) : Prop :=
  (∀ pool a trace, map_find old_cache (pool, a) = some trace → survives a →
      map_find new_cache (pool, new_block.index_of (old_block.get_seq a.toNat)) = some trace
      ∧ new_block.get_seq (new_block.index_of (old_block.get_seq a.toNat)).toNat
          = old_block.get_seq a.toNat)
  ∧ ∀ pool a' trace, map_find new_cache (pool, a') = some trace →
      ∃ a, map_find old_cache (pool, a) = some trace ∧ survives a
        ∧ a' = new_block.index_of (old_block.get_seq a.toNat)

/-! ### Counts of tracebacks -/

/-- The test of lines 840-841: the traced alignment starts before and stops after the repeat
block. -/
def spans_block (g : SeqStutterGenotyper α) (trace : AlignmentTrace) : Bool :=
  decide (trace.traced_aln_start < g.hap_blocks_.start)
    && decide (trace.traced_aln_stop > g.hap_blocks_.stop)

/-- The reads below `n` of sample `s` whose traceback spans the repeat block. -/
def spanning_reads (g : SeqStutterGenotyper α) (traced_alns : Nat → Option AlignmentTrace)
    (n s : Nat) : List Nat :=
  (List.range n).filter (fun r =>
    match traced_alns r with
    | none => false
    | some trace => spans_block g trace && decide (g.sample_label_ r = s))

/-- The reads below `n` of sample `s` whose traceback spans the repeat block, has a stutter size
other than zero and reports the repeat sequence `seq`. -/
def stutter_reads (g : SeqStutterGenotyper α) (traced_alns : Nat → Option AlignmentTrace)
    (n s : Nat) (seq : String) : List Nat :=
  (List.range n).filter (fun r =>
    match traced_alns r with
    | none => false
    | some trace => spans_block g trace && decide (trace.stutter_size ≠ 0)
        && decide (g.sample_label_ r = s) && decide (trace.str_seq = seq))

/-- As claim C16 words it, the reads below `n` of sample `s` of which `seq` is the traced repeat
sequence. -/
def reads_reporting (g : SeqStutterGenotyper α) (traced_alns : Nat → Option AlignmentTrace)
    (n s : Nat) (seq : String) : List Nat :=
  (List.range n).filter (fun r =>
    match traced_alns r with
    | none => false
    | some trace => decide (g.sample_label_ r = s) && decide (trace.str_seq = seq))

/-- As claim C16 words it, the tracebacks of sample `s` that span the repeat block and of which
`seq` is the traced repeat sequence. -/
def spanning_reads_reporting (g : SeqStutterGenotyper α)
    (traced_alns : Nat → Option AlignmentTrace) (n s : Nat) (seq : String) : List Nat :=
  (List.range n).filter (fun r =>
    match traced_alns r with
    | none => false
    | some trace => spans_block g trace && decide (g.sample_label_ r = s)
        && decide (trace.str_seq = seq))

/-- The condition of claim C16 as the claim words it: `seq` is not an alternate and in some
sample it is the traced repeat sequence of at least 2 reads and of at least 15% of the sample's
spanning tracebacks. -/
def claimed_candidate (g : SeqStutterGenotyper α) (traced_alns : Nat → Option AlignmentTrace)
    (seq : String) : Prop :=
  seq ∉ g.hap_blocks_.alternates
    ∧ ∃ s, s < g.num_samples_
      ∧ 2 ≤ (reads_reporting g traced_alns g.num_reads_ s seq).length
      ∧ (15 / 100 : ℚ) ≤ ((spanning_reads_reporting g traced_alns g.num_reads_ s seq).length : ℚ)
          / ((spanning_reads g traced_alns g.num_reads_ s).length : ℚ)

/-- Four reads of one sample at a locus whose repeat block has the reference `"ACAC"` as its
only alternate. -/
def example_reference_only (α : Type) [LinearOrderedField α] : SeqStutterGenotyper α where
  num_reads_ := 4
  num_samples_ := 1
  num_alleles_ := 1
  haploid_ := false
  log_allele_priors_ := none
  log_aln_probs_ := fun _ => -1
  log_p1_ := fun _ => -1
  log_p2_ := fun _ => -1
  sample_label_ := fun _ => 0
  log_sample_posteriors_ := fun _ => 0
  sample_total_LLs_ := fun _ => 0
  alleles_ := ["TACACG"]
  hap_blocks_ := { start := 100, stop := 104, alternates := ["ACAC"] }

/-- Tracebacks of the four reads that span the block and report the sequence `"ACACA"` with the
stutter size `stutter`. -/
def example_traces (stutter : Int) : Nat → Option AlignmentTrace :=
  fun r => if r < 4 then some ⟨95, 110, stutter, "ACACA"⟩ else none

/-- Tracebacks of reads 0 and 1 that span the block and report `"ACACA"`, read 0 with
stutter size 1 and read 1 with stutter size 0. -/
def example_mixed_traces : Nat → Option AlignmentTrace :=
  fun r => if r = 0 then some ⟨95, 110, 1, "ACACA"⟩
    else if r = 1 then some ⟨95, 110, 0, "ACACA"⟩ else none

/-! ### Pruning twice -/

/-- The object at line 127 of `remove_alleles`, before `calc_log_sample_posteriors()` runs. -/
def pruned (g : SeqStutterGenotyper α) (allele_indices : List Nat) : SeqStutterGenotyper α :=
  { g with
    log_aln_probs_ := (fix_log_aln_probs g (keep_allele allele_indices)).1
    num_alleles_ := g.num_alleles_ - allele_indices.length
    alleles_ := (fix_alleles g (keep_allele allele_indices)).1
    hap_blocks_ := g.hap_blocks_.remove_alleles allele_indices
    trace_cache_ := fix_trace_cache g.trace_cache_ (fix_alleles g (keep_allele allele_indices)).2.1
    log_sample_posteriors_ := new_array }

/-! ### Tracebacks -/

/-- The aligner and the stutter model behind a haplotype, as far as the genotyper calls them:
`HapAligner` and `RepeatStutterInfo` are declared in `SeqAlignment/`, which is not among the
sources. A haplotype is given by its repeat block. -/
structure HapAligner (α : Type) where
  /-- The value of `rep_block->get_repeat_info()->max_deletion()`. -/
  max_deletion : Int
  /-- The arrays `log_aln_probs` and `seed_positions` after
  `calc_hap_aln_probs(haplotype, log_aln_probs, seed_positions)`, which fills them through
  `HapAligner::process_reads`. -/
  calc_hap_aln_probs : RepeatBlock → (Nat → α) × (Nat → Int)
  /-- The trace that `hap_aligner.trace_optimal_aln(alns_[idx_1][idx_2], seed, best_gt,
  &base_quality_)` returns; the arguments are the repeat block of `haplotype_`, `idx_1`, `idx_2`,
  the seed position and `best_gt`. -/
  trace_optimal_aln : RepeatBlock → Nat → Nat → Int → Int → AlignmentTrace

/-- The allele `best_gt` of `retrace_alignments` (line 807); `read_LL_ptr` is an offset into
`log_aln_probs_`. -/
def retrace_best_gt (m : MathOps α) (g : SeqStutterGenotyper α) (read_LL_ptr read_index : Nat)
    (gt_a gt_b : Int) : Int :=
  if LOG_ONE_HALF m + g.log_p1_ read_index + g.log_aln_probs_ ((read_LL_ptr : Int) + gt_a).toNat
      > LOG_ONE_HALF m + g.log_p2_ read_index
        + g.log_aln_probs_ ((read_LL_ptr : Int) + gt_b).toNat then gt_a
  else gt_b

/-- The key `trace_key` of `retrace_alignments` (line 811). -/
def retrace_trace_key (m : MathOps α) (g : SeqStutterGenotyper α) (read_LL_ptr read_index : Nat)
    (gt_a gt_b : Int) : Int × Int :=
  (g.pool_index_ read_index, retrace_best_gt m g read_LL_ptr read_index gt_a gt_b)

/-- The value `log_phase_one` of `write_vcf_record` (lines 1041-1042), in exact arithmetic: the
rounding of the sum and of the difference in `double` is not part of the embedding. -/
def log_phase_one (m : MathOps α) (g : SeqStutterGenotyper α) (read_LL_ptr read_index : Nat)
    (gt_a gt_b : Int) : α :=
  let total_read_LL := log_sum_exp m
    (LOG_ONE_HALF m + g.log_p1_ read_index + g.log_aln_probs_ ((read_LL_ptr : Int) + gt_a).toNat)
    (LOG_ONE_HALF m + g.log_p2_ read_index + g.log_aln_probs_ ((read_LL_ptr : Int) + gt_b).toNat)
  LOG_ONE_HALF m + g.log_p1_ read_index + g.log_aln_probs_ ((read_LL_ptr : Int) + gt_a).toNat
    - total_read_LL

/-- The allele `best_gt` of `write_vcf_record` (line 1047), with the test taken in exact
arithmetic. When the two arguments of `log_sum_exp` are equal, `log_phase_one` is `LOG_ONE_HALF`
itself; in `double` the rounded difference can land above it, and the program then takes `gt_a`
where this definition takes `gt_b`. -/
def write_vcf_best_gt (m : MathOps α) (g : SeqStutterGenotyper α) (read_LL_ptr read_index : Nat)
    (gt_a gt_b : Int) : Int :=
  if log_phase_one m g read_LL_ptr read_index gt_a gt_b > LOG_ONE_HALF m then gt_a else gt_b

/-- The key `trace_key` of `write_vcf_record` (line 1049). -/
def write_vcf_trace_key (m : MathOps α) (g : SeqStutterGenotyper α) (read_LL_ptr read_index : Nat)
    (gt_a gt_b : Int) : Int × Int :=
  (g.pool_index_ read_index, write_vcf_best_gt m g read_LL_ptr read_index gt_a gt_b)

/-- State of the read loop of `retrace_alignments`. -/
structure RetraceState where
  traced_alns : List (Option AlignmentTrace)
  trace_cache : List ((Int × Int) × AlignmentTrace)
  num_proc_alns : Nat → Nat
  read_LL_ptr : Nat

/-- The lookup of lines 812-818 and 1051-1057: the trace stored under `trace_key`, or else the
trace that the aligner computes, which is then stored under the key; the result is the trace and
the cache. -/
def cached_trace (aligner : HapAligner α) (g : SeqStutterGenotyper α)
    (trace_cache : List ((Int × Int) × AlignmentTrace)) (trace_key : Int × Int)
    (idx_1 idx_2 read_index : Nat) :
    AlignmentTrace × List ((Int × Int) × AlignmentTrace) :=
  match map_find trace_cache trace_key with
  | none =>
    let trace := aligner.trace_optimal_aln g.hap_blocks_ idx_1 idx_2
      (g.seed_positions_ read_index) trace_key.2
    (trace, map_assign pair_lt trace_cache trace_key trace)
  | some trace => (trace, trace_cache)

/-- The method `SeqStutterGenotyper::retrace_alignments(logger, traced_alns)`: the vector
`traced_alns` (`none` is `NULL`) and the member `trace_cache_` after the call. -/
def retrace_alignments (m : MathOps α) (aligner : HapAligner α) (g : SeqStutterGenotyper α) :
    RetraceState :=
  let gts := get_optimal_genotypes g g.log_sample_posteriors_
  forLoop g.num_reads_ (fun read_index (st : RetraceState) =>
    if g.seed_positions_ read_index < 0 then
      { st with
        read_LL_ptr := st.read_LL_ptr + g.num_alleles_
        num_proc_alns := store st.num_proc_alns (g.sample_label_ read_index)
          (st.num_proc_alns (g.sample_label_ read_index) + 1)
        traced_alns := st.traced_alns ++ [none] }
    else
      let gt_a := (gts (g.sample_label_ read_index)).1
      let gt_b := (gts (g.sample_label_ read_index)).2
      let idx_1 := g.sample_label_ read_index
      let idx_2 := st.num_proc_alns (g.sample_label_ read_index)
      let trace_key := retrace_trace_key m g st.read_LL_ptr read_index gt_a gt_b
      let trace := cached_trace aligner g st.trace_cache trace_key idx_1 idx_2 read_index
      { traced_alns := st.traced_alns ++ [some trace.1]
        trace_cache := trace.2
        num_proc_alns := store st.num_proc_alns idx_1 (st.num_proc_alns idx_1 + 1)
        read_LL_ptr := st.read_LL_ptr + g.num_alleles_ })
    { traced_alns := [], trace_cache := g.trace_cache_, num_proc_alns := fun _ => 0,
      read_LL_ptr := 0 }

/-- The vector `allele_bp_diffs` of `write_vcf_record` (lines 938-940). -/
def allele_bp_diffs (g : SeqStutterGenotyper α) : List Int :=
  forLoop g.alleles_.length (fun i diffs =>
    diffs ++ [((g.alleles_.getD i "").length : Int) - ((g.alleles_.getD 0 "").length : Int)]) []

/-- State of the read loop of `write_vcf_record` (lines 1029-1096); the counters of reads with
SNPs, with flank indels and per strand, the base pair differences per sample and `max_LL_alns_`
are not modelled. -/
structure VcfReadState (α : Type) where
  read_LL_ptr : Nat
  num_proc_alns : Nat → Nat
  trace_cache : List ((Int × Int) × AlignmentTrace)
  num_aligned_reads : Nat → Int
  num_reads_with_stutter : Nat → Int
  read_str_sizes : List Int
  log_read_phases : Nat → List α

/-- The read loop of `write_vcf_record` (lines 1029-1096) on the object that
`filter_alignments` left; `gts` is the vector of the loops of lines 954-961. -/
def write_vcf_record_reads (m : MathOps α) (aligner : HapAligner α) (g : SeqStutterGenotyper α) :
    VcfReadState α :=
  let gts := (optimal_genotypes_loop g g.log_sample_posteriors_).gts
  forLoop g.num_reads_ (fun read_index (st : VcfReadState α) =>
    if g.seed_positions_ read_index < 0 then
      { st with
        read_LL_ptr := st.read_LL_ptr + g.num_alleles_
        num_proc_alns := store st.num_proc_alns (g.sample_label_ read_index)
          (st.num_proc_alns (g.sample_label_ read_index) + 1)
        read_str_sizes := st.read_str_sizes ++ [-999] }
    else
      let gt_a := (gts (g.sample_label_ read_index)).1
      let gt_b := (gts (g.sample_label_ read_index)).2
      let best_gt := write_vcf_best_gt m g st.read_LL_ptr read_index gt_a gt_b
      let trace_key := write_vcf_trace_key m g st.read_LL_ptr read_index gt_a gt_b
      let idx_1 := g.sample_label_ read_index
      let idx_2 := st.num_proc_alns (g.sample_label_ read_index)
      let trace := cached_trace aligner g st.trace_cache trace_key idx_1 idx_2 read_index
      { read_LL_ptr := st.read_LL_ptr + g.num_alleles_
        num_proc_alns := store st.num_proc_alns idx_1 (st.num_proc_alns idx_1 + 1)
        trace_cache := trace.2
        num_aligned_reads := store st.num_aligned_reads idx_1 (st.num_aligned_reads idx_1 + 1)
        num_reads_with_stutter :=
          if trace.1.stutter_size ≠ 0 then
            store st.num_reads_with_stutter idx_1 (st.num_reads_with_stutter idx_1 + 1)
          else st.num_reads_with_stutter
        read_str_sizes := st.read_str_sizes
          ++ [(allele_bp_diffs g).getD best_gt.toNat 0 + trace.1.stutter_size]
        log_read_phases := store st.log_read_phases idx_1
          (st.log_read_phases idx_1
            ++ [log_phase_one m g st.read_LL_ptr read_index gt_a gt_b]) })
    { read_LL_ptr := 0, num_proc_alns := fun _ => 0, trace_cache := g.trace_cache_,
      num_aligned_reads := fun _ => 0, num_reads_with_stutter := fun _ => 0,
      read_str_sizes := [], log_read_phases := fun _ => [] }

/-- A diploid input with uniform SNP priors: two alleles, one sample and two reads with
`log_p1 = log_p2`; read 0 fits allele 0 and read 1 fits allele 1. -/
def example_uniform_snp (α : Type) [LinearOrderedField α] : SeqStutterGenotyper α where
  num_reads_ := 2
  num_samples_ := 1
  num_alleles_ := 2
  haploid_ := false
  log_allele_priors_ := none
  log_aln_probs_ := fun i => if i = 0 ∨ i = 3 then 0 else -20
  log_p1_ := fun _ => -1
  log_p2_ := fun _ => -1
  sample_label_ := fun _ => 0
  log_sample_posteriors_ := fun _ => 0
  sample_total_LLs_ := fun _ => 0

/-! ### Bootstrap qualities -/

/-- The vector `reads_by_sample` of `compute_bootstrap_qualities` (lines 1397-1400). -/
def reads_by_sample (g : SeqStutterGenotyper α) : Nat → List Nat :=
  forLoop g.num_reads_ (fun i rbs =>
    if g.seed_positions_ i ≥ 0 then
      store rbs (g.sample_label_ i) (rbs (g.sample_label_ i) ++ [i])
    else rbs) (fun _ => [])

/-- The array `read_gt_LLs` of `compute_bootstrap_qualities` (lines 1408-1419) and the offset
`ptr` after the loops; the innermost state also holds the offset `read_LL_ptr`. -/
def read_gt_LLs (m : MathOps α) (g : SeqStutterGenotyper α) : (Nat → α) × Nat :=
  forLoop g.num_alleles_ (fun index_1 st =>
    forLoop g.num_alleles_ (fun index_2 st =>
      (forLoop g.num_reads_ (fun read_index (st : ((Nat → α) × Nat) × Nat) =>
        ((store st.1.1 st.1.2 (read_LL_term m g st.2 read_index index_1 index_2), st.1.2 + 1),
          st.2 + g.num_alleles_)) (st, 0)).1) st) (new_array, 0)

/-- The draws for sample `j` (lines 1426-1428): the state is the vector `bootstrap_weights` and
the number of calls of `unif_dist(gen)` made so far; `draws k` is the value of call `k`. -/
def bootstrap_sample (rbs : Nat → List Nat) (draws : Nat → Nat) (j : Nat)
    (st : (Nat → Int) × Nat) : (Nat → Int) × Nat :=
  let mod := (rbs j).length
  forLoop mod (fun _ st =>
    (store st.1 ((rbs j).getD (draws st.2 % mod) 0)
        (st.1 ((rbs j).getD (draws st.2 % mod) 0) + 1),
      st.2 + 1)) st

/-- The vector `bootstrap_weights` of one iteration (lines 1422-1429) and the number of calls
of `unif_dist(gen)` after it. -/
def bootstrap_weights (g : SeqStutterGenotyper α) (rbs : Nat → List Nat) (draws : Nat → Nat)
    (num_draws : Nat) : (Nat → Int) × Nat :=
  forLoop g.num_samples_ (fun j st => bootstrap_sample rbs draws j st) (fun _ => 0, num_draws)

/-- The array `bstrap_LLs` of one iteration (lines 1432-1441), with the offsets `sample_LL_ptr`
and `read_LL_ptr`. -/
def bootstrap_LLs (m : MathOps α) (g : SeqStutterGenotyper α) (read_gt_LLs : Nat → α)
    (bootstrap_weights : Nat → Int) (bstrap_LLs : Nat → α) : (Nat → α) × Nat × Nat :=
  forLoop g.num_alleles_ (fun _ st =>
    forLoop g.num_alleles_ (fun _ st =>
      let st1 := forLoop g.num_reads_ (fun read_index (st : (Nat → α) × Nat × Nat) =>
        (store st.1 (st.2.1 + g.sample_label_ read_index)
          (st.1 (st.2.1 + g.sample_label_ read_index)
            + (bootstrap_weights read_index : α) * read_gt_LLs st.2.2),
          st.2.1, st.2.2 + 1)) st
      (st1.1, st1.2.1 + g.num_samples_, st1.2.2)) st)
    (init_log_sample_priors m g bstrap_LLs, 0, 0)

/-- The loop of lines 1446-1451: the vector `ML_gt_counts`. -/
def count_matches (g : SeqStutterGenotyper α) (ML_gts bootstrap_gts : Nat → Int × Int)
    (ML_gt_counts : Nat → Int) : Nat → Int :=
  forLoop g.num_samples_ (fun i counts =>
    if (bootstrap_gts i).1 = (ML_gts i).1 ∧ (bootstrap_gts i).2 = (ML_gts i).2 then
      store counts i (counts i + 1)
    else if (bootstrap_gts i).1 = (ML_gts i).2 ∧ (bootstrap_gts i).2 = (ML_gts i).1 then
      store counts i (counts i + 1)
    else counts) ML_gt_counts

/-- State of the iterations of `compute_bootstrap_qualities`: the array `bstrap_LLs`, the vector
`ML_gt_counts` and the number of calls of `unif_dist(gen)` made so far. -/
structure BootstrapState (α : Type) where
  bstrap_LLs : Nat → α
  ML_gt_counts : Nat → Int
  num_draws : Nat

/-- The vector `bootstrap_gts` of the iteration that starts in state `st` (line 1445). -/
def bootstrap_gts (m : MathOps α) (g : SeqStutterGenotyper α) (draws : Nat → Nat)
    (st : BootstrapState α) : Nat → Int × Int :=
  get_optimal_genotypes g
    (bootstrap_LLs m g (read_gt_LLs m g).1
      (bootstrap_weights g (reads_by_sample g) draws st.num_draws).1 st.bstrap_LLs).1

/-- The first `num_iter` iterations of the loop of lines 1421-1452. -/
def bootstrap_iterations (m : MathOps α) (g : SeqStutterGenotyper α) (draws : Nat → Nat)
    (num_iter : Nat) : BootstrapState α :=
  forLoop num_iter (fun _ (st : BootstrapState α) =>
    let weights := bootstrap_weights g (reads_by_sample g) draws st.num_draws
    let bstrap_LLs := (bootstrap_LLs m g (read_gt_LLs m g).1 weights.1 st.bstrap_LLs).1
    { bstrap_LLs := bstrap_LLs
      ML_gt_counts := count_matches g (get_optimal_genotypes g g.log_sample_posteriors_)
        (get_optimal_genotypes g bstrap_LLs) st.ML_gt_counts
      num_draws := weights.2 })
    { bstrap_LLs := new_array, ML_gt_counts := fun _ => 0, num_draws := 0 }

/-- The method `SeqStutterGenotyper::compute_bootstrap_qualities(num_iter,
bootstrap_qualities)`: the vector `bootstrap_qualities` after the call, for a non-negative
`num_iter` and the values `draws 0, draws 1, ...` of the successive calls of `unif_dist(gen)`. -/
def compute_bootstrap_qualities (m : MathOps α) (g : SeqStutterGenotyper α) (num_iter : Nat)
    (draws : Nat → Nat) : List α :=
  let st := bootstrap_iterations m g draws num_iter
  forLoop g.num_samples_ (fun i bootstrap_qualities =>
    bootstrap_qualities ++ [1 * (st.ML_gt_counts i : α) / (num_iter : α)]) []

/-- The test of lines 1447-1450: the pairs agree as unordered pairs. -/
def unordered_match (x y : Int × Int) : Bool :=
  decide ((x.1 = y.1 ∧ x.2 = y.2) ∨ (x.1 = y.2 ∧ x.2 = y.1))

/-- The number of iterations below `num_iter` in which the bootstrap MAP pair of sample `i`
equals the original MAP pair as an unordered pair. -/
def matching_iterations (m : MathOps α) (g : SeqStutterGenotyper α) (draws : Nat → Nat)
    (num_iter i : Nat) : Nat :=
  ((List.range num_iter).filter (fun t =>
    unordered_match (bootstrap_gts m g draws (bootstrap_iterations m g draws t) i)
      (get_optimal_genotypes g g.log_sample_posteriors_ i))).length

/-- The vector `bootstrap_weights` of iteration `t`. -/
def iteration_weights (m : MathOps α) (g : SeqStutterGenotyper α) (draws : Nat → Nat)
    (t : Nat) : Nat → Int :=
  (bootstrap_weights g (reads_by_sample g) draws (bootstrap_iterations m g draws t).num_draws).1

/-- The number of reads of sample `j` with `seed_positions_[r] >= 0`. -/
def num_seeded_reads (g : SeqStutterGenotyper α) (j : Nat) : Nat :=
  ((List.range g.num_reads_).filter (fun r =>
    decide (g.seed_positions_ r ≥ 0) && decide (g.sample_label_ r = j))).length

/-! ### The VCF record -/

/-- The method `SeqStutterGenotyper::use_read(AlignmentTrace* trace)`, whose body is
`return true`. -/
def use_read (_trace : Option AlignmentTrace) : Bool := true

/-- State of the read loop of `filter_alignments` (lines 761-780). -/
structure FilterState (α : Type) where
  seed_positions : Nat → Int
  log_aln_probs : Nat → α
  masked_reads : Nat → Int
  read_LL_ptr : Nat
  filt_count : Int
  keep_count : Int

/-- The method `SeqStutterGenotyper::filter_alignments(logger, masked_reads)`: the object and
the vector `masked_reads` after the call. -/
def filter_alignments (m : MathOps α) (aligner : HapAligner α) (g : SeqStutterGenotyper α) :
    SeqStutterGenotyper α × (Nat → Int) :=
  let traced := retrace_alignments m aligner g
  let st := forLoop g.num_reads_ (fun read_index (st : FilterState α) =>
    if st.seed_positions read_index < 0 then
      { st with
        masked_reads := store st.masked_reads (g.sample_label_ read_index)
          (st.masked_reads (g.sample_label_ read_index) + 1)
        read_LL_ptr := st.read_LL_ptr + g.num_alleles_ }
    else if !use_read (traced.traced_alns.getD read_index none) then
      { seed_positions := store st.seed_positions read_index (-2)
        log_aln_probs := fill st.log_aln_probs st.read_LL_ptr (st.read_LL_ptr + g.num_alleles_) 0
        masked_reads := store st.masked_reads (g.sample_label_ read_index)
          (st.masked_reads (g.sample_label_ read_index) + 1)
        read_LL_ptr := st.read_LL_ptr + g.num_alleles_
        filt_count := st.filt_count + 1
        keep_count := st.keep_count }
    else
      { st with
        keep_count := st.keep_count + 1
        read_LL_ptr := st.read_LL_ptr + g.num_alleles_ })
    { seed_positions := g.seed_positions_, log_aln_probs := g.log_aln_probs_,
      masked_reads := fun _ => 0, read_LL_ptr := 0, filt_count := 0, keep_count := 0 }
  ((calc_log_sample_posteriors_default m
      { g with
        trace_cache_ := traced.trace_cache
        seed_positions_ := st.seed_positions
        log_aln_probs_ := st.log_aln_probs }).2,
    st.masked_reads)

/-- The vectors `gls` of `write_vcf_record` (lines 954-972) and the offset `log_post_ptr`;
`LOG_E_BASE_10` is a constant of `mathops.h`, which is not among the sources. -/
def write_vcf_gls (m : MathOps α) (g : SeqStutterGenotyper α) (LOG_E_BASE_10 : α) :
    (Nat → List α) × Nat :=
  forLoop g.num_alleles_ (fun index_1 st =>
    forLoop g.num_alleles_ (fun index_2 st =>
      forLoop g.num_samples_ (fun sample_index (st : (Nat → List α) × Nat) =>
        (if index_2 ≤ index_1 then
          let gl_base_e := g.sample_total_LLs_ sample_index + LOG_ONE_HALF m
            + log_sum_exp m (g.log_sample_posteriors_ st.2)
                (g.log_sample_posteriors_
                  (index_2 * g.num_alleles_ * g.num_samples_ + index_1 * g.num_samples_
                    + sample_index))
          if !g.haploid_ || index_1 = index_2 then
            store st.1 sample_index (st.1 sample_index ++ [gl_base_e * LOG_E_BASE_10])
          else st.1
        else st.1, st.2 + 1)) st) st) (fun _ => [], 0)

/-- The value `*(std::max_element(first, last))` of a vector. -/
def max_element (l : List α) : α := l.foldl max (l.headD 0)

/-- The vector `gl_diffs` of `write_vcf_record` (lines 974-999); `TOLERANCE` is a constant that
is not declared among the sources. The vectors `bp_dosages` and `pls` are not modelled. -/
def write_vcf_gl_diffs (m : MathOps α) (g : SeqStutterGenotyper α) (LOG_E_BASE_10 TOLERANCE : α) :
    List α :=
  let gts := (optimal_genotypes_loop g g.log_sample_posteriors_).gts
  let gls := (write_vcf_gls m g LOG_E_BASE_10).1
  forLoop g.num_samples_ (fun sample_index gl_diffs =>
    let max_gl := max_element (gls sample_index)
    let second_gl := forLoop (gls sample_index).length (fun j second_gl =>
      if (gls sample_index).getD j 0 < max_gl then max second_gl ((gls sample_index).getD j 0)
      else second_gl) (-DBL_MAX)
    if g.num_alleles_ = 1 then gl_diffs ++ [-1000]
    else
      let gl_index : Int :=
        if g.haploid_ then (gts sample_index).1
        else
          let min_gt := min (gts sample_index).1 (gts sample_index).2
          let max_gt := max (gts sample_index).1 (gts sample_index).2
          max_gt * (max_gt + 1) / 2 + min_gt
      let second_gl := if second_gl = -DBL_MAX then max_gl else second_gl
      gl_diffs ++ [if |max_gl - (gls sample_index).getD gl_index.toNat 0| < TOLERANCE then
          max_gl - second_gl
        else (gls sample_index).getD gl_index.toNat 0 - max_gl]) []

/-- The set `samples_of_interest` of `write_vcf_record` (line 1105). -/
def samples_of_interest (sample_names : List String) : List String :=
  sample_names.foldl set_insert []

/-- The loop of lines 1106-1125 of `write_vcf_record`: the vector `allele_counts` and
`skip_count`. -/
def allele_counts (g : SeqStutterGenotyper α) (sample_names : List String)
    (gts : Nat → Int × Int) (num_aligned_reads : Nat → Int) : (Nat → Int) × Int :=
  forLoop g.num_samples_ (fun sample_index (st : (Nat → Int) × Int) =>
    if g.sample_names_.getD sample_index "" ∉ samples_of_interest sample_names then st
    else if g.require_one_read_ = true ∧ num_aligned_reads sample_index = 0 then st
    else if g.call_sample_ sample_index then
      if g.haploid_ then
        (store st.1 (gts sample_index).1.toNat (st.1 (gts sample_index).1.toNat + 1), st.2)
      else
        let counts := store st.1 (gts sample_index).1.toNat (st.1 (gts sample_index).1.toNat + 1)
        (store counts (gts sample_index).2.toNat (counts (gts sample_index).2.toNat + 1), st.2)
    else (st.1, st.2 + 1)) (fun _ => 0, 0)

/-- The fields written for a sample by `write_vcf_record` (lines 1231-1272) as far as they are
modelled: the genotype, the base pair differences, the unphased posterior, the numbers of
aligned reads and of reads with stutter, and the GLDIFF field, where `none` is the text `"."`. -/
structure SampleFields (α : Type) where
  genotype : List Int
  bp_diffs : List Int
  unphased_posterior : α
  num_aligned_reads : Int
  num_reads_with_stutter : Int
  gl_diff : Option α

/-- The sample column that `write_vcf_record` writes for the name `sample_names[i]` (lines
1218-1272); `none` is the column `"."`. -/
def write_vcf_sample (m : MathOps α) (g : SeqStutterGenotyper α) (reads : VcfReadState α)
    (gl_diffs : List α) (name : String) : Option (SampleFields α) :=
  match map_find g.sample_indices_ name with
  | none => none
  | some sample_index =>
    if g.require_one_read_ = true ∧ reads.num_aligned_reads sample_index.toNat = 0 then none
    else if !g.call_sample_ sample_index.toNat then none
    else
      let gts := (optimal_genotypes_loop g g.log_sample_posteriors_).gts
      let first := (gts sample_index.toNat).1
      let second := (gts sample_index.toNat).2
      some
        { genotype := if !g.haploid_ then [first, second] else [first]
          bp_diffs :=
            if !g.haploid_ then
              [(allele_bp_diffs g).getD first.toNat 0, (allele_bp_diffs g).getD second.toNat 0]
            else [(allele_bp_diffs g).getD first.toNat 0]
          unphased_posterior :=
            m.exp ((write_vcf_record_phasing m g).1.getD sample_index.toNat 0)
          num_aligned_reads := reads.num_aligned_reads sample_index.toNat
          num_reads_with_stutter := reads.num_reads_with_stutter sample_index.toNat
          gl_diff :=
            if g.num_alleles_ = 1 then none else some (gl_diffs.getD sample_index.toNat 0) }

/-- What `write_vcf_record` computes, as far as it is modelled: the allele counts, `skip_count`,
the vector `gl_diffs`, the sample columns in the order of `sample_names` and the vector
`read_str_sizes`. -/
structure VcfRecord (α : Type) where
  allele_counts : Nat → Int
  skip_count : Int
  gl_diffs : List α
  samples : List (Option (SampleFields α))
  read_str_sizes : List Int

/-- The method `SeqStutterGenotyper::write_vcf_record(sample_names, ...)`: the record and the
object after the call. The optional output fields and the visualisation are not modelled. -/
def write_vcf_record (m : MathOps α) (aligner : HapAligner α) (LOG_E_BASE_10 TOLERANCE : α)
    (g : SeqStutterGenotyper α) (sample_names : List String) :
    VcfRecord α × SeqStutterGenotyper α :=
  let g1 := (filter_alignments m aligner g).1
  let gts := (optimal_genotypes_loop g1 g1.log_sample_posteriors_).gts
  let gl_diffs := write_vcf_gl_diffs m g1 LOG_E_BASE_10 TOLERANCE
  let reads := write_vcf_record_reads m aligner g1
  let counts := allele_counts g1 sample_names gts reads.num_aligned_reads
  ({ allele_counts := counts.1
     skip_count := counts.2
     gl_diffs := gl_diffs
     samples := forLoop sample_names.length (fun i out =>
       out ++ [write_vcf_sample m g1 reads gl_diffs (sample_names.getD i "")]) []
     read_str_sizes := reads.read_str_sizes },
    { g1 with trace_cache_ := reads.trace_cache })

/-- The test of lines 1109-1113 of `write_vcf_record`: the sample adds to the allele counts. -/
def contributes (g : SeqStutterGenotyper α) (sample_names : List String)
    (num_aligned_reads : Nat → Int) (sample_index : Nat) : Bool :=
  decide (g.sample_names_.getD sample_index "" ∈ samples_of_interest sample_names)
    && !(g.require_one_read_ && decide (num_aligned_reads sample_index = 0))
    && g.call_sample_ sample_index

/-- The single-allele locus `example_single_allele` with its sample named `"s"`. -/
def example_named_sample (α : Type) [LinearOrderedField α] : SeqStutterGenotyper α :=
  { example_single_allele α with
    alleles_ := ["TACACG"]
    sample_names_ := ["s"]
    sample_indices_ := [("s", 0)] }

/-- An aligner whose every traceback spans 95 to 110 with the repeat sequence `"ACAC"` and no
stutter, with the alignment log-probability `-1` and the seed position 0 for every read. -/
def example_aligner (α : Type) [LinearOrderedField α] : HapAligner α where
  max_deletion := -2
  calc_hap_aln_probs := fun _ => (fun _ => -1, fun _ => 0)
  trace_optimal_aln := fun _ _ _ _ _ => ⟨95, 110, 0, "ACAC"⟩
/-- The vector `gts` of `write_vcf_record` (lines 954-961), computed on the object that
`filter_alignments` left. -/
def write_vcf_gts (m : MathOps α) (aligner : HapAligner α) (g : SeqStutterGenotyper α) :
    Nat → Int × Int :=
  (optimal_genotypes_loop (filter_alignments m aligner g).1
    (filter_alignments m aligner g).1.log_sample_posteriors_).gts

/-- Whether sample `sample_index` adds to the allele counts of `write_vcf_record`. -/
def write_vcf_contributes (m : MathOps α) (aligner : HapAligner α) (g : SeqStutterGenotyper α)
    (sample_names : List String) (sample_index : Nat) : Bool :=
  contributes (filter_alignments m aligner g).1 sample_names
    (write_vcf_record_reads m aligner (filter_alignments m aligner g).1).num_aligned_reads
    sample_index

/-! ### The flanks of the alleles -/

/-- The character `s[0]` of a `std::string`, which is the null character for the empty
string. -/
def first_base (s : String) : Char := s.toList.headD (Char.ofNat 0)

/-- The string `left_flank` of `get_alleles` as line 560 sets it. -/
def initial_left_flank (g : SeqStutterGenotyper α) (chrom_seq : String) : String :=
  if g.hap_blocks_.start ≥ g.region_.start then
    uppercase (substr chrom_seq g.region_.start (g.hap_blocks_.start - g.region_.start))
  else ""

/-- The string `right_flank` of `get_alleles` (line 561). -/
def right_flank (g : SeqStutterGenotyper α) (chrom_seq : String) : String :=
  if g.hap_blocks_.stop ≤ g.region_.stop then
    uppercase (substr chrom_seq g.hap_blocks_.stop (g.region_.stop - g.hap_blocks_.stop))
  else ""

/-- The flag `pad_left` of `get_alleles` (lines 565-573), `false` when the left flank is not
empty. -/
def pad_left (g : SeqStutterGenotyper α) (chrom_seq : String) : Bool :=
  (initial_left_flank g chrom_seq).isEmpty
    && (List.range' 1 (g.hap_blocks_.num_options - 1)).any
        (fun i => first_base (g.hap_blocks_.get_seq i) != first_base (g.hap_blocks_.get_seq 0))

/-- The string `left_flank` of `get_alleles` when the alleles are built (line 581). -/
def left_flank (g : SeqStutterGenotyper α) (chrom_seq : String) : String :=
  if pad_left g chrom_seq then
    uppercase (substr chrom_seq (min g.region_.start g.hap_blocks_.start - 1) 1)
  else initial_left_flank g chrom_seq

/-- A locus whose repeat block starts at the region start 2 of the chromosome `"ttacacgg"`,
with the alternates `"ACAC"` and `"GCAC"`. -/
def example_padded_locus (α : Type) [LinearOrderedField α] : SeqStutterGenotyper α :=
  { example_single_allele α with
    num_alleles_ := 2
    hap_blocks_ := { start := 2, stop := 6, alternates := ["ACAC", "GCAC"] }
    region_ := { start := 2, stop := 6 } }

/-! ### Initialisation -/

/-- The constant `INT_MAX` of `<climits>`. -/
def INT_MAX : Int := 2 ^ 31 - 1

/-- The constant `INT_MIN` of `<climits>`. -/
def INT_MIN : Int := -2 ^ 31

/-- Modelled from the spec: class `Alignment` (`SeqAlignment/AlignmentData.h`) is not among the
sources; `init` reads the start, the stop and the sequence of an alignment. -/
structure Alignment where
  start : Int
  stop : Int
  sequence : String

/-- A read handed to `init`: the member `QueryBases` of `BamTools::BamAlignment` and the results
of the two external calls `init` makes on the read. -/
structure BamAlignment where
  QueryBases : String
  /-- The value of `BamProcessor::passes_filters(alignment)`. -/
  passes_filters : Bool
  /-- The alignment that `realign(alignment, chrom_seq, new_aln)` builds; `none` when the call
  returns `false`. -/
  realign : Option Alignment

/-- State of the read loops of `init` (lines 176-226); `bp_diffs_` and `pool_index_` are not
modelled. -/
structure InitState (α : Type) where
  num_reads_ : Int
  read_index : Int
  seq_to_alns : List (String × (Nat × Nat))
  alns_ : Nat → List Alignment
  use_for_haps_ : Nat → List Bool
  min_start : Int
  max_stop : Int
  align_fail_count : Int
  log_p1_ : Nat → α
  log_p2_ : Nat → α
  sample_label_ : Nat → Nat

/-- The body of the inner read loop of `init` (lines 180-225) for read `j` of sample `i`,
followed by the increment `++read_index` of the loop header. -/
def init_read (log_p1 log_p2 : Nat → Nat → α) (i j : Nat) (read : BamAlignment)
    (st : InitState α) : InitState α :=
  let have_prev :=
    match map_find st.seq_to_alns read.QueryBases with
    | none => false
    | some iter =>
      decide (((st.alns_ iter.1).getD iter.2 ⟨0, 0, ""⟩).sequence.length = read.QueryBases.length)
  let use_in_haplotype_gen := read.passes_filters
  let finish (st : InitState α) : InitState α :=
    { st with
      log_p1_ := store st.log_p1_ st.read_index.toNat (log_p1 i j)
      log_p2_ := store st.log_p2_ st.read_index.toNat (log_p2 i j)
      sample_label_ := store st.sample_label_ st.read_index.toNat i
      read_index := st.read_index + 1 }
  if !have_prev then
    match read.realign with
    | some new_aln =>
      finish
        { st with
          seq_to_alns := map_assign (fun a b => decide (a < b)) st.seq_to_alns read.QueryBases
            (i, (st.alns_ i ++ [new_aln]).length - 1)
          alns_ := store st.alns_ i (st.alns_ i ++ [new_aln])
          use_for_haps_ := store st.use_for_haps_ i (st.use_for_haps_ i ++ [use_in_haplotype_gen])
          min_start := if use_in_haplotype_gen then min st.min_start new_aln.start
            else st.min_start
          max_stop := if use_in_haplotype_gen then max st.max_stop new_aln.stop
            else st.max_stop }
    | none =>
      { st with
        align_fail_count := st.align_fail_count + 1
        num_reads_ := st.num_reads_ - 1
        read_index := st.read_index - 1 + 1 }
  else
    match map_find st.seq_to_alns read.QueryBases with
    | none => st
    | some iter =>
      let prev_aln := (st.alns_ iter.1).getD iter.2 ⟨0, 0, ""⟩
      let new_aln : Alignment := ⟨prev_aln.start, prev_aln.stop, uppercase read.QueryBases⟩
      finish
        { st with
          alns_ := store st.alns_ i (st.alns_ i ++ [new_aln])
          use_for_haps_ := store st.use_for_haps_ i
            (st.use_for_haps_ i ++ [use_in_haplotype_gen]) }

/-- The read loops of `init` (lines 156-226). -/
def init_reads (alignments : List (List BamAlignment)) (log_p1 log_p2 : Nat → Nat → α) :
    InitState α :=
  let num_reads := forLoop alignments.length (fun i (n : Int) =>
    n + ((alignments.getD i []).length : Int)) 0
  forLoop alignments.length (fun i (st : InitState α) =>
    forLoop (alignments.getD i []).length (fun j (st : InitState α) =>
      init_read log_p1 log_p2 i j ((alignments.getD i []).getD j ⟨"", false, none⟩) st) st)
    { num_reads_ := num_reads, read_index := 0, seq_to_alns := [], alns_ := fun _ => [],
      use_for_haps_ := fun _ => [], min_start := INT_MAX, max_stop := INT_MIN,
      align_fail_count := 0, log_p1_ := new_array, log_p2_ := new_array,
      sample_label_ := fun _ => 0 }

/-- The results of the external calls by which `init` obtains its haplotype: `read_vcf_alleles`
or `extract_vcf_alleles_and_log_priors` (`vcf_input.h`) and the two overloads of
`generate_haplotype` (`SeqAlignment/HaplotypeGenerator.h`); none is among the sources. -/
structure HaplotypeSource (α : Type) where
  /-- Whether the VCF has the format key `PGP_KEY`, so that priors are read with the alleles. -/
  vcf_has_priors : Bool
  vcf_alleles : List String
  vcf_pos : Int
  vcf_success : Bool
  vcf_log_allele_priors : Option (Nat → α)
  got_priors : Nat → Bool
  /-- The repeat block of the haplotype generated from the alleles of the VCF. -/
  vcf_hap_block : RepeatBlock
  /-- The repeat block of the haplotype generated from the alignments `gen_hap_alns`. -/
  bam_hap_block : (Nat → List Alignment) → RepeatBlock

/-- The vector `gen_hap_alns` of `init` (lines 281-285). -/
def gen_hap_alns (alns : Nat → List Alignment) (use_for_haps : Nat → List Bool) :
    Nat → List Alignment :=
  fun i => forLoop (alns i).length (fun j out =>
    if (use_for_haps i).getD j false then out ++ [(alns i).getD j ⟨0, 0, ""⟩] else out) []

/-- The method `SeqStutterGenotyper::init(alignments, log_p1, log_p2, sample_names, chrom_seq,
logger)`: the object after the call. -/
def init (source : HaplotypeSource α) (g : SeqStutterGenotyper α)
    (alignments : List (List BamAlignment)) (log_p1 log_p2 : Nat → Nat → α)
    (chrom_seq : String) : SeqStutterGenotyper α :=
  let st := init_reads alignments log_p1 log_p2
  let g0 : SeqStutterGenotyper α :=
    { g with
      num_reads_ := st.num_reads_.toNat
      log_p1_ := st.log_p1_
      log_p2_ := st.log_p2_
      sample_label_ := st.sample_label_
      sample_total_LLs_ := new_array }
  let g1 : SeqStutterGenotyper α :=
    if st.min_start ≥ g.region_.start - 5 ∨ st.max_stop < g.region_.stop + 5 then
      { g0 with pos_ := -1 }
    else if g.ref_vcf_ then
      let g2 : SeqStutterGenotyper α :=
        { g0 with
          alleles_ := source.vcf_alleles
          pos_ := source.vcf_pos
          log_allele_priors_ :=
            if source.vcf_has_priors then source.vcf_log_allele_priors else g0.log_allele_priors_
          num_alleles_ := source.vcf_alleles.length }
      if source.vcf_success then
        { g2 with
          hap_blocks_ := source.vcf_hap_block
          call_sample_ := fun i =>
            if g2.log_allele_priors_.isSome then true && source.got_priors i else true }
      else { g2 with pos_ := -1 }
    else
      let g2 : SeqStutterGenotyper α :=
        { g0 with
          hap_blocks_ := source.bam_hap_block (gen_hap_alns st.alns_ st.use_for_haps_)
          call_sample_ := fun _ => true
          num_alleles_ :=
            (source.bam_hap_block (gen_hap_alns st.alns_ st.use_for_haps_)).num_options }
      { g2 with
        alleles_ := (get_alleles g2 chrom_seq).1
        pos_ := (get_alleles g2 chrom_seq).2 }
  if g1.pos_ ≠ -1 then
    { g1 with
      log_sample_posteriors_ := new_array
      log_aln_probs_ := new_array
      seed_positions_ := fun _ => 0 }
  else g1

/-! ### The genotyping call -/

/-- Modelled from the spec: `min_size()` of a repeat block is the length of "the shortest
repeat-block alternate". -/
def RepeatBlock.min_size (b : RepeatBlock) : Nat :=
  (b.alternates.map String.length).foldl min (b.alternates.headD "").length

/-- The haplotype of lines 368-374 of `id_and_align_to_stutter_alleles`, which holds the
candidates only, by its repeat block. -/
def stutter_block (block : RepeatBlock) (stutter_seqs : List String) : RepeatBlock :=
  forLoop (stutter_seqs.length - 1) (fun k (b : RepeatBlock) =>
    b.add_alternate (stutter_seqs.getD (k + 1) ""))
    (RepeatBlock.create block.start block.stop (stutter_seqs.getD 0 ""))

/-- Lines 367-437 of `id_and_align_to_stutter_alleles`: the object after the body of the loop
has run for the sorted candidates `stutter_seqs`, with the call of `calc_hap_aln_probs` for the
haplotype of the candidates. -/
def stutter_pass (m : MathOps α) (srt : StdSort) (aligner : HapAligner α) (chrom_seq : String)
    (g : SeqStutterGenotyper α) (stutter_seqs : List String) : SeqStutterGenotyper α :=
  let aln := aligner.calc_hap_aln_probs (stutter_block g.hap_blocks_ stutter_seqs)
  merge_stutter_alleles m srt { g with seed_positions_ := aln.2 } chrom_seq stutter_seqs aln.1

/-- The call `get_stutter_candidate_alleles(logger, stutter_seqs)` with the tracebacks that its
call of `retrace_alignments` returns: the vector `stutter_seqs` and the object after the
call. -/
def discover_candidates (m : MathOps α) (aligner : HapAligner α) (g : SeqStutterGenotyper α) :
    List String × SeqStutterGenotyper α :=
  let traced := retrace_alignments m aligner g
  (get_stutter_candidate_alleles g (fun r => traced.traced_alns.getD r none),
    { g with trace_cache_ := traced.trace_cache })

/-- The test of line 364: the first of the sorted candidates is shorter than
`abs(max_deletion)`. -/
def candidate_too_short (srt : StdSort) (aligner : HapAligner α) (stutter_seqs : List String) :
    Bool :=
  decide ((((srt.sort stutter_seqs).getD 0 "").length : Int) < |aligner.max_deletion|)

/-- The loop of `id_and_align_to_stutter_alleles` (lines 361-441), entered with the vector
`stutter_seqs`; `fuel` bounds the number of evaluations of the loop condition, and the result
is `none` when the bound is reached. -/
def id_and_align_loop (m : MathOps α) (srt : StdSort) (aligner : HapAligner α)
    (chrom_seq : String) :
    Nat → List String → SeqStutterGenotyper α → Option (Bool × SeqStutterGenotyper α)
  | 0, _, _ => none
  | fuel + 1, stutter_seqs, g =>
    if stutter_seqs.length ≠ 0 then
      if candidate_too_short srt aligner stutter_seqs then some (false, g)
      else
        let next := discover_candidates m aligner
          (stutter_pass m srt aligner chrom_seq g (srt.sort stutter_seqs))
        id_and_align_loop m srt aligner chrom_seq fuel next.1 next.2
    else some (true, g)

/-- The method `SeqStutterGenotyper::id_and_align_to_stutter_alleles(chrom_seq, logger)`: the
returned flag and the object after the call. -/
def id_and_align_to_stutter_alleles (m : MathOps α) (srt : StdSort) (aligner : HapAligner α)
    (chrom_seq : String) (fuel : Nat) (g : SeqStutterGenotyper α) :
    Option (Bool × SeqStutterGenotyper α) :=
  let first := discover_candidates m aligner g
  id_and_align_loop m srt aligner chrom_seq fuel first.1 first.2

/-- Lines 475-483 of `genotype`: the removal of the uncalled alleles. -/
def prune_uncalled (m : MathOps α) (g : SeqStutterGenotyper α) : SeqStutterGenotyper α :=
  if g.log_allele_priors_.isNone then
    if (get_uncalled_alleles g).length ≠ 0 then remove_alleles m g (get_uncalled_alleles g)
    else g
  else g

/-- The method `SeqStutterGenotyper::genotype(chrom_seq, logger)`: the returned flag and the
object after the call. -/
def genotype (m : MathOps α) (srt : StdSort) (aligner : HapAligner α) (chrom_seq : String)
    (fuel : Nat) (g : SeqStutterGenotyper α) : Option (Bool × SeqStutterGenotyper α) :=
  if g.pos_ = -1 then some (false, g)
  else if (g.hap_blocks_.min_size : Int) < |aligner.max_deletion| then some (false, g)
  else
    let aln := aligner.calc_hap_aln_probs g.hap_blocks_
    let g1 := (calc_log_sample_posteriors_default m
      { g with log_aln_probs_ := aln.1, seed_positions_ := aln.2 }).2
    let refined :=
      if g1.ref_vcf_ then some (true, g1)
      else id_and_align_to_stutter_alleles m srt aligner chrom_seq fuel g1
    match refined with
    | none => none
    | some (false, g2) => some (false, g2)
    | some (true, g2) =>
      let g3 := prune_uncalled m g2
      some (true, if g3.ref_vcf_ then { g3 with pos_ := g3.pos_ + 1 } else g3)

/-- The method `SeqStutterGenotyper::recompute_stutter_model(chrom_seq, logger, ...)`: the
returned flag and the object after the call. `trained` is the value that
`EMStutterGenotyper::train` returns and `retrained` is the aligner under the stutter model that
the training produced; `aligner` is the aligner under the model in place at the call. -/
def recompute_stutter_model (m : MathOps α) (srt : StdSort) (aligner retrained : HapAligner α)
    (LOG_E_BASE_10 TOLERANCE : α) (trained : Bool) (chrom_seq : String) (fuel : Nat)
    (g : SeqStutterGenotyper α) : Option (Bool × SeqStutterGenotyper α) :=
  let g1 := (write_vcf_record m aligner LOG_E_BASE_10 TOLERANCE g []).2
  if trained then genotype m srt retrained chrom_seq fuel { g1 with trace_cache_ := [] }
  else some (false, g1)
/-- Some read that passes the filters and is realigned has the alignment start `v`. -/
def usable_start (alignments : List (List BamAlignment)) (v : Int) : Prop :=
  ∃ reads ∈ alignments, ∃ read ∈ reads, ∃ aln,
    read.passes_filters = true ∧ read.realign = some aln ∧ aln.start = v

/-- Some read that passes the filters and is realigned has the alignment stop `v`. -/
def usable_stop (alignments : List (List BamAlignment)) (v : Int) : Prop :=
  ∃ reads ∈ alignments, ∃ read ∈ reads, ∃ aln,
    read.passes_filters = true ∧ read.realign = some aln ∧ aln.stop = v

/-- Two reads of one sample, both usable for haplotype generation: the first is realigned to
80-104, the second to 96-130. -/
def example_one_sided_reads : List (List BamAlignment) :=
  [[⟨"ACGT", true, some ⟨80, 104, "ACGT"⟩⟩, ⟨"TTGA", true, some ⟨96, 130, "TTGA"⟩⟩]]

/-- A haplotype source without VCF whose generated repeat block spans 100-120 with the
reference as its only alternate. -/
def example_source (α : Type) [LinearOrderedField α] : HaplotypeSource α where
  vcf_has_priors := false
  vcf_alleles := []
  vcf_pos := 0
  vcf_success := false
  vcf_log_allele_priors := none
  got_priors := fun _ => false
  vcf_hap_block := { start := 100, stop := 120, alternates := ["ACACACACACACACACACAC"] }
  bam_hap_block := fun _ =>
    { start := 100, stop := 120, alternates := ["ACACACACACACACACACAC"] }

/-- A chromosome of 140 bases with the repeat `(AC)10` at positions 100-119. -/
def example_region_chromosome : String :=
  String.mk (List.replicate 100 't' ++ "ACACACACACACACACACAC".toList ++ List.replicate 20 'g')

/-- A genotyper before `init` for the region 100-120, without reference VCF. -/
def example_uninitialised (α : Type) [LinearOrderedField α] : SeqStutterGenotyper α :=
  { example_single_allele α with region_ := { start := 100, stop := 120 } }

/-! ### Iterations of the discovery loop -/

/-- One pass through the loop of `id_and_align_to_stutter_alleles` that does not return: from
the vector `stutter_seqs` and the object at one evaluation of the loop condition to those at
the next. -/
def loop_step (m : MathOps α) (srt : StdSort) (aligner : HapAligner α) (chrom_seq : String)
    (st : List String × SeqStutterGenotyper α) : List String × SeqStutterGenotyper α :=
  discover_candidates m aligner (stutter_pass m srt aligner chrom_seq st.2 (srt.sort st.1))

/-- The vector `stutter_seqs` and the object at evaluation `k` of the loop condition of
`id_and_align_to_stutter_alleles` (counted from 0) when no earlier iteration returned. -/
def loop_state (m : MathOps α) (srt : StdSort) (aligner : HapAligner α) (chrom_seq : String)
    (g : SeqStutterGenotyper α) (k : Nat) : List String × SeqStutterGenotyper α :=
  (loop_step m srt aligner chrom_seq)^[k] (discover_candidates m aligner g)

/-- The iteration entered with the vector `stutter_seqs` runs the merge pass: the vector is not
empty and its first candidate after sorting is not shorter than `abs(max_deletion)`. -/
def merges (srt : StdSort) (aligner : HapAligner α) (stutter_seqs : List String) : Prop :=
  stutter_seqs ≠ [] ∧ candidate_too_short srt aligner stutter_seqs = false
/-! ### Re-entry after retraining -/

/-- The object of `genotype` after lines 468-469: the alignment probabilities and seed positions
are those of the current haplotype and the posteriors are recomputed. -/
def aligned (m : MathOps α) (aligner : HapAligner α) (g : SeqStutterGenotyper α) :
    SeqStutterGenotyper α :=
  (calc_log_sample_posteriors_default m
    { g with
      log_aln_probs_ := (aligner.calc_hap_aln_probs g.hap_blocks_).1
      seed_positions_ := (aligner.calc_hap_aln_probs g.hap_blocks_).2 }).2

/-- The object on which `recompute_stutter_model` calls `genotype` after a successful
training (lines 1349-1379). -/
def retraining_input (m : MathOps α) (aligner : HapAligner α) (LOG_E_BASE_10 TOLERANCE : α)
    (g : SeqStutterGenotyper α) : SeqStutterGenotyper α :=
  { (write_vcf_record m aligner LOG_E_BASE_10 TOLERANCE g []).2 with trace_cache_ := [] }

/-- The candidates that the first discovery pass of the second call of `genotype` finds. -/
def reentry_candidates (m : MathOps α) (aligner retrained : HapAligner α)
    (LOG_E_BASE_10 TOLERANCE : α) (g : SeqStutterGenotyper α) : List String :=
  (discover_candidates m retrained
    (aligned m retrained (retraining_input m aligner LOG_E_BASE_10 TOLERANCE g))).1

/-- A chromosome of 110 bases with the repeat `ACAC` at positions 100-103. -/
def example_chromosome : String :=
  String.mk (List.replicate 100 't' ++ ['A', 'C', 'A', 'C', 'g', 'g', 'g', 'g', 'g', 'g'])

/-- The locus of `example_reference_only` after `init`: four reads of one sample, the region
100-104, the repeat block 100-104 with the reference `"ACAC"` as its only alternate, and the
position 101 that `get_alleles` leaves for it. -/
def example_locus (α : Type) [LinearOrderedField α] : SeqStutterGenotyper α :=
  { example_reference_only α with
    alleles_ := ["ACAC"]
    region_ := { start := 100, stop := 104 }
    pos_ := 101 }

/-- The aligner under a retrained stutter model: every traceback spans 95 to 110 and reports
the repeat sequence `"GCACAC"` with the stutter size 2. -/
def example_retrained_aligner (α : Type) [LinearOrderedField α] : HapAligner α where
  max_deletion := -2
  calc_hap_aln_probs := fun _ => (fun _ => -1, fun _ => 0)
  trace_optimal_aln := fun _ _ _ _ _ => ⟨95, 110, 2, "GCACAC"⟩

end Engine

/-! ## Loop rules -/

theorem forLoop_succ {σ : Type} (n : Nat) (body : Nat → σ → σ) (init : σ) :
    forLoop (n + 1) body init = body n (forLoop n body init) := rfl

/-- The loop-invariant rule for `forLoop`. -/
theorem forLoop_inv {σ : Type} (I : Nat → σ → Prop) (n : Nat) (body : Nat → σ → σ) (init : σ)
    (h0 : I 0 init) (hstep : ∀ i s, i < n → I i s → I (i + 1) (body i s)) :
    I n (forLoop n body init) := by
  induction n with
  | zero => exact h0
  | succ k ih =>
    rw [forLoop_succ]
    exact hstep k _ (Nat.lt_succ_self k)
      (ih (fun i s hi hI => hstep i s (Nat.lt_succ_of_lt hi) hI))

/-- A loop whose body adds to every entry an amount that does not depend on the state adds the
sum of these amounts. -/
theorem forLoop_additive {α : Type} [AddCommMonoid α] (n : Nat) (body : Nat → (Nat → α) → Nat → α)
    (D : Nat → Nat → α) (h : ∀ i x j, i < n → body i x j = x j + D i j) (x : Nat → α) (j : Nat) :
    forLoop n body x j = x j + ∑ i in Finset.range n, D i j := by
  induction n with
  | zero => simp [forLoop]
  | succ k ih =>
    rw [forLoop_succ, h k _ j (Nat.lt_succ_self k),
      ih (fun i x j hi => h i x j (Nat.lt_succ_of_lt hi)), Finset.sum_range_succ, add_assoc]

/-- A loop over pairs whose second component is a pointer advanced by `k` in each iteration. -/
theorem forLoop_ptr {β : Type} (k n : Nat) (body : Nat → β × Nat → β × Nat)
    (F : Nat → Nat → β → β) (h : ∀ i st, i < n → body i st = (F i st.2 st.1, st.2 + k))
    (x : β) (p : Nat) :
    forLoop n body (x, p) = (forLoop n (fun i y => F i (p + i * k) y) x, p + n * k) := by
  induction n with
  | zero => simp [forLoop]
  | succ j ih =>
    rw [forLoop_succ, ih (fun i st hi => h i st (Nat.lt_succ_of_lt hi)),
      h j _ (Nat.lt_succ_self j), forLoop_succ]
    simp [Nat.succ_mul, Nat.add_assoc]

/-! ## Offsets of the posterior array -/

section Offsets

variable {α : Type}

theorem cell_index_eq (g : SeqStutterGenotyper α) (a b s : Nat) :
    cell_index g a b s = (a * g.num_alleles_ + b) * g.num_samples_ + s := by
  unfold cell_index
  ring

theorem cell_index_add (g : SeqStutterGenotyper α) (a b s : Nat) :
    cell_index g a b 0 + s = cell_index g a b s := by
  unfold cell_index
  omega

theorem cell_index_next_allele (g : SeqStutterGenotyper α) (a b : Nat) :
    cell_index g a b 0 + g.num_samples_ = cell_index g a (b + 1) 0 := by
  unfold cell_index
  ring

theorem cell_index_next_row (g : SeqStutterGenotyper α) (a : Nat) :
    cell_index g a g.num_alleles_ 0 = cell_index g (a + 1) 0 0 := by
  unfold cell_index
  ring

/-- Distinct in-range (genotype, sample) triples occupy distinct cells. -/
theorem cell_index_inj (g : SeqStutterGenotyper α) {a b s a' b' s' : Nat}
    (hb : b < g.num_alleles_) (hb' : b' < g.num_alleles_)
    (hs : s < g.num_samples_) (hs' : s' < g.num_samples_)
    (h : cell_index g a b s = cell_index g a' b' s') : a = a' ∧ b = b' ∧ s = s' := by
  rw [cell_index_eq, cell_index_eq] at h
  have hS : 0 < g.num_samples_ := Nat.lt_of_le_of_lt (Nat.zero_le _) hs
  have hN : 0 < g.num_alleles_ := Nat.lt_of_le_of_lt (Nat.zero_le _) hb
  have e1 : s = s' := by
    have := congrArg (· % g.num_samples_) h
    simpa [Nat.add_mod, Nat.mul_mod_left, Nat.mod_eq_of_lt hs, Nat.mod_eq_of_lt hs'] using this
  have e2 : a * g.num_alleles_ + b = a' * g.num_alleles_ + b' := by
    subst e1
    exact Nat.eq_of_mul_eq_mul_right hS (Nat.add_right_cancel h)
  have e3 : b = b' := by
    have := congrArg (· % g.num_alleles_) e2
    simpa [Nat.add_mod, Nat.mul_mod_left, Nat.mod_eq_of_lt hb, Nat.mod_eq_of_lt hb'] using this
  subst e3
  exact ⟨Nat.eq_of_mul_eq_mul_right hN (Nat.add_right_cancel e2), rfl, e1⟩

theorem cell_index_lt (g : SeqStutterGenotyper α) {a b s : Nat}
    (ha : a < g.num_alleles_) (hb : b < g.num_alleles_) (hs : s < g.num_samples_) :
    cell_index g a b s < g.num_alleles_ * g.num_alleles_ * g.num_samples_ := by
  rw [cell_index_eq]
  have h1 : a * g.num_alleles_ + b + 1 ≤ g.num_alleles_ * g.num_alleles_ := by
    have : (a + 1) * g.num_alleles_ ≤ g.num_alleles_ * g.num_alleles_ :=
      Nat.mul_le_mul_right _ ha
    rw [Nat.succ_mul] at this
    omega
  have h2 : (a * g.num_alleles_ + b + 1) * g.num_samples_
      ≤ g.num_alleles_ * g.num_alleles_ * g.num_samples_ := Nat.mul_le_mul_right _ h1
  rw [Nat.succ_mul] at h2
  omega

/-- A double sum over genotypes that is supported on one genotype. -/
theorem sum_genotypes_single {β : Type} [AddCommMonoid β] (n a0 b0 : Nat) (ha : a0 < n)
    (hb : b0 < n) (f : Nat → Nat → β) :
    (∑ a in Finset.range n, ∑ b in Finset.range n, if a = a0 ∧ b = b0 then f a b else 0)
      = f a0 b0 := by
  have h1 : ∀ a ∈ Finset.range n,
      (∑ b in Finset.range n, if a = a0 ∧ b = b0 then f a b else 0)
        = if a = a0 then f a b0 else 0 := by
    intro a _
    by_cases h : a = a0
    · simp [h, Finset.sum_ite_eq', hb]
    · simp [h]
  rw [Finset.sum_congr rfl h1]
  simp [Finset.sum_ite_eq', ha]

/-- A sum over all cells that is supported on one cell. -/
theorem sum_cells_single {β : Type} [AddCommMonoid β] (g : SeqStutterGenotyper α) {a b s : Nat}
    (ha : a < g.num_alleles_) (hb : b < g.num_alleles_) (hs : s < g.num_samples_)
    (f : Nat → Nat → Nat → β) :
    (∑ a' in Finset.range g.num_alleles_, ∑ b' in Finset.range g.num_alleles_,
      ∑ s' in Finset.range g.num_samples_,
        if cell_index g a b s = cell_index g a' b' s' then f a' b' s' else 0) = f a b s := by
  have h1 : ∀ a' ∈ Finset.range g.num_alleles_, ∀ b' ∈ Finset.range g.num_alleles_,
      (∑ s' in Finset.range g.num_samples_,
        if cell_index g a b s = cell_index g a' b' s' then f a' b' s' else 0)
        = if a' = a ∧ b' = b then f a' b' s else 0 := by
    intro a' _ b' hb'
    have h2 : ∀ s' ∈ Finset.range g.num_samples_,
        (if cell_index g a b s = cell_index g a' b' s' then f a' b' s' else 0)
          = if s' = s then (if a' = a ∧ b' = b then f a' b' s else 0) else 0 := by
      intro s' hs'
      by_cases h : cell_index g a b s = cell_index g a' b' s'
      · obtain ⟨e1, e2, e3⟩ := cell_index_inj g hb (Finset.mem_range.mp hb') hs
          (Finset.mem_range.mp hs') h
        subst e1 e2 e3
        simp
      · have : ¬ (s' = s ∧ a' = a ∧ b' = b) := by
          rintro ⟨e1, e2, e3⟩
          subst e1 e2 e3
          exact h rfl
        by_cases e1 : s' = s
        · by_cases e2 : a' = a ∧ b' = b
          · exact absurd ⟨e1, e2⟩ this
          · simp [h, e2]
        · simp [h, e1]
    rw [Finset.sum_congr rfl h2, Finset.sum_ite_eq' (Finset.range g.num_samples_) s]
    simp [hs]
  rw [Finset.sum_congr rfl (fun a' ha' => Finset.sum_congr rfl (h1 a' ha'))]
  exact sum_genotypes_single g.num_alleles_ a b ha hb (fun a' b' => f a' b' s)

/-- The loop that overwrites the homozygous cells (lines 638-641 and 649-652) writes `v` into
every cell `(a, a, s)` and leaves every cell `(a, b, s)` with `a ≠ b` alone. -/
theorem fill_homozygotes (g : SeqStutterGenotyper α) (v : α) (arr0 : Nat → α) {a b s : Nat}
    (ha : a < g.num_alleles_) (hb : b < g.num_alleles_) (hs : s < g.num_samples_) :
    forLoop g.num_alleles_ (fun i arr =>
        fill arr (i * g.num_alleles_ * g.num_samples_ + i * g.num_samples_)
          (i * g.num_alleles_ * g.num_samples_ + i * g.num_samples_ + g.num_samples_) v) arr0
        (cell_index g a b s)
      = if a = b then v else arr0 (cell_index g a b s) := by
  have key := forLoop_inv (fun k (arr : Nat → α) =>
      arr (cell_index g a b s) = if a = b ∧ a < k then v else arr0 (cell_index g a b s))
    g.num_alleles_ (fun i arr =>
        fill arr (i * g.num_alleles_ * g.num_samples_ + i * g.num_samples_)
          (i * g.num_alleles_ * g.num_samples_ + i * g.num_samples_ + g.num_samples_) v) arr0
    (by simp) (by
      intro i arr hi harr
      have hrow : i * g.num_alleles_ * g.num_samples_ + i * g.num_samples_
          = cell_index g i i 0 := rfl
      simp only [fill, hrow]
      by_cases hmem : cell_index g i i 0 ≤ cell_index g a b s
          ∧ cell_index g a b s < cell_index g i i 0 + g.num_samples_
      · have hcell : cell_index g a b s
            = cell_index g i i (cell_index g a b s - cell_index g i i 0) := by
          rw [← cell_index_add g i i]
          omega
        obtain ⟨e1, e2, _⟩ := cell_index_inj g hb hi hs (by omega) hcell
        subst e1 e2
        simp [hmem]
      · have hne : ¬ (a = b ∧ a = i) := by
          rintro ⟨e1, e2⟩
          subst e1 e2
          apply hmem
          rw [← cell_index_add g a a s]
          omega
        have hiff : (a = b ∧ a < i + 1) ↔ (a = b ∧ a < i) := by
          constructor
          · rintro ⟨e1, e2⟩
            exact ⟨e1, by
              rcases Nat.lt_succ_iff_lt_or_eq.mp e2 with h | h
              · exact h
              · exact absurd ⟨e1, h⟩ hne⟩
          · rintro ⟨e1, e2⟩
            exact ⟨e1, Nat.lt_succ_of_lt e2⟩
        rw [if_neg hmem, harr]
        simp only [hiff])
  rw [key]
  simp [ha]

end Offsets

/-! ## Closed forms of the loops of `calc_log_sample_posteriors` -/

section ClosedForms

variable {α : Type} [LinearOrderedField α]

theorem store_add_apply (arr : Nat → α) (i : Nat) (d : α) (j : Nat) :
    store arr i (arr i + d) j = arr j + if j = i then d else 0 := by
  unfold store
  by_cases h : j = i
  · simp [h]
  · simp [h]

/-- The read loop adds to the cell of each read's sample the weighted term of the read. -/
theorem accumulate_reads_post (m : MathOps α) (g : SeqStutterGenotyper α)
    (read_weights : Nat → Int) (index_1 index_2 ptr : Nat) (post : Nat → α) (j : Nat) :
    (accumulate_reads m g read_weights index_1 index_2 ptr post).1 j
      = post j + ∑ r in Finset.range g.num_reads_,
          if j = ptr + g.sample_label_ r then
            (read_weights r : α) * read_LL_term m g (r * g.num_alleles_) r index_1 index_2
          else 0 := by
  unfold accumulate_reads
  rw [forLoop_ptr g.num_alleles_ g.num_reads_ _
    (fun r p x => store x (ptr + g.sample_label_ r)
      (x (ptr + g.sample_label_ r)
        + (read_weights r : α) * read_LL_term m g p r index_1 index_2))
    (fun _ _ _ => rfl)]
  simp only [Nat.zero_add]
  exact forLoop_additive g.num_reads_ _
    (fun r j => if j = ptr + g.sample_label_ r then
      (read_weights r : α) * read_LL_term m g (r * g.num_alleles_) r index_1 index_2 else 0)
    (fun r x j _ => store_add_apply x _ _ j) post j

/-- The inner genotype loop of `calc_log_sample_posteriors`, started at the first cell of row
`index_1`: pointer and posterior array after the loop. -/
theorem accumulate_inner (m : MathOps α) (g : SeqStutterGenotyper α) (read_weights : Nat → Int)
    (index_1 k : Nat) (st : AccumState α) (hp : st.sample_LL_ptr = cell_index g index_1 0 0) :
    (forLoop k (fun index_2 st =>
        ({ post := (accumulate_reads m g read_weights index_1 index_2 st.sample_LL_ptr st.post).1
           sample_max_LLs := update_sample_max_LLs g
             (accumulate_reads m g read_weights index_1 index_2 st.sample_LL_ptr st.post).1
             st.sample_max_LLs st.sample_LL_ptr
           sample_LL_ptr := st.sample_LL_ptr + g.num_samples_ } : AccumState α)) st).sample_LL_ptr
        = cell_index g index_1 k 0
      ∧ ∀ j, (forLoop k (fun index_2 st =>
        ({ post := (accumulate_reads m g read_weights index_1 index_2 st.sample_LL_ptr st.post).1
           sample_max_LLs := update_sample_max_LLs g
             (accumulate_reads m g read_weights index_1 index_2 st.sample_LL_ptr st.post).1
             st.sample_max_LLs st.sample_LL_ptr
           sample_LL_ptr := st.sample_LL_ptr + g.num_samples_ } : AccumState α)) st).post j
        = st.post j + ∑ b in Finset.range k, ∑ r in Finset.range g.num_reads_,
            if j = cell_index g index_1 b (g.sample_label_ r) then
              (read_weights r : α) * read_LL_term m g (r * g.num_alleles_) r index_1 b
            else 0 := by
  refine forLoop_inv (fun i2 (s : AccumState α) =>
    s.sample_LL_ptr = cell_index g index_1 i2 0
      ∧ ∀ j, s.post j = st.post j + ∑ b in Finset.range i2, ∑ r in Finset.range g.num_reads_,
          if j = cell_index g index_1 b (g.sample_label_ r) then
            (read_weights r : α) * read_LL_term m g (r * g.num_alleles_) r index_1 b
          else 0) k _ st ⟨hp, fun j => by simp⟩ ?_
  rintro i2 s _ ⟨hptr, hpost⟩
  refine ⟨?_, fun j => ?_⟩
  · simp only [hptr, cell_index_next_allele]
  · simp only [accumulate_reads_post, hpost j, hptr, cell_index_add, Finset.sum_range_succ,
      add_assoc]

/-- The posterior array after the two genotype loops: each cell has received the weighted terms
of the reads whose sample label points at it. -/
theorem accumulate_genotypes_post (m : MathOps α) (g : SeqStutterGenotyper α)
    (read_weights : Nat → Int) (init : AccumState α) (hp : init.sample_LL_ptr = 0) (j : Nat) :
    (accumulate_genotypes m g read_weights init).post j
      = init.post j + ∑ a in Finset.range g.num_alleles_, ∑ b in Finset.range g.num_alleles_,
          ∑ r in Finset.range g.num_reads_,
            if j = cell_index g a b (g.sample_label_ r) then
              (read_weights r : α) * read_LL_term m g (r * g.num_alleles_) r a b
            else 0 := by
  have key := forLoop_inv (fun i1 (s : AccumState α) =>
    s.sample_LL_ptr = cell_index g i1 0 0
      ∧ ∀ j, s.post j = init.post j + ∑ a in Finset.range i1,
          ∑ b in Finset.range g.num_alleles_, ∑ r in Finset.range g.num_reads_,
            if j = cell_index g a b (g.sample_label_ r) then
              (read_weights r : α) * read_LL_term m g (r * g.num_alleles_) r a b
            else 0) g.num_alleles_
    (fun index_1 st =>
      forLoop g.num_alleles_ (fun index_2 st =>
        ({ post := (accumulate_reads m g read_weights index_1 index_2 st.sample_LL_ptr st.post).1
           sample_max_LLs := update_sample_max_LLs g
             (accumulate_reads m g read_weights index_1 index_2 st.sample_LL_ptr st.post).1
             st.sample_max_LLs st.sample_LL_ptr
           sample_LL_ptr := st.sample_LL_ptr + g.num_samples_ } : AccumState α)) st)
    init ⟨by simp [hp, cell_index], fun j => by simp⟩ (by
      rintro i1 s _ ⟨hptr, hpost⟩
      obtain ⟨h1, h2⟩ := accumulate_inner m g read_weights i1 g.num_alleles_ s hptr
      refine ⟨?_, fun j => ?_⟩
      · rw [h1, cell_index_next_row]
      · rw [h2 j, hpost j, Finset.sum_range_succ, add_assoc])
  exact key.2 j

/-- Three nested loops over `(index_1, index_2, sample_index)` that walk a pointer through the
posterior array and add `d` to entry `q` of the state. -/
theorem forLoop_cells (g : SeqStutterGenotyper α) (body : Nat → (Nat → α) × Nat → (Nat → α) × Nat)
    (q : Nat → Nat → Nat) (d : Nat → Nat → α)
    (hbody : ∀ s st, body s st = (store st.1 (q s st.2) (st.1 (q s st.2) + d s st.2), st.2 + 1))
    (x0 : Nat → α) (j : Nat) :
    (forLoop g.num_alleles_ (fun _ st =>
      forLoop g.num_alleles_ (fun _ st =>
        forLoop g.num_samples_ body st) st) (x0, 0)).1 j
      = x0 j + ∑ a in Finset.range g.num_alleles_, ∑ b in Finset.range g.num_alleles_,
          ∑ s in Finset.range g.num_samples_,
            if j = q s (cell_index g a b s) then d s (cell_index g a b s) else 0 := by
  have inner : ∀ (a b k : Nat) (st : (Nat → α) × Nat), st.2 = cell_index g a b 0 →
      (forLoop k body st).2 = cell_index g a b k
        ∧ ∀ j, (forLoop k body st).1 j = st.1 j + ∑ s in Finset.range k,
            if j = q s (cell_index g a b s) then d s (cell_index g a b s) else 0 := by
    intro a b k st hp
    refine forLoop_inv (fun i (t : (Nat → α) × Nat) => t.2 = cell_index g a b i
      ∧ ∀ j, t.1 j = st.1 j + ∑ s in Finset.range i,
          if j = q s (cell_index g a b s) then d s (cell_index g a b s) else 0) k _ st
      ⟨hp, fun j => by simp⟩ ?_
    rintro i t _ ⟨hptr, hval⟩
    rw [hbody]
    refine ⟨?_, fun j => ?_⟩
    · simp only [hptr, cell_index]
      omega
    · simp only [store_add_apply, hval j, hptr, Finset.sum_range_succ, add_assoc]
  have middle : ∀ (a k : Nat) (st : (Nat → α) × Nat), st.2 = cell_index g a 0 0 →
      (forLoop k (fun _ st => forLoop g.num_samples_ body st) st).2 = cell_index g a k 0
        ∧ ∀ j, (forLoop k (fun _ st => forLoop g.num_samples_ body st) st).1 j
          = st.1 j + ∑ b in Finset.range k, ∑ s in Finset.range g.num_samples_,
            if j = q s (cell_index g a b s) then d s (cell_index g a b s) else 0 := by
    intro a k st hp
    refine forLoop_inv (fun i (t : (Nat → α) × Nat) => t.2 = cell_index g a i 0
      ∧ ∀ j, t.1 j = st.1 j + ∑ b in Finset.range i, ∑ s in Finset.range g.num_samples_,
          if j = q s (cell_index g a b s) then d s (cell_index g a b s) else 0) k _ st
      ⟨hp, fun j => by simp⟩ ?_
    rintro i t _ ⟨hptr, hval⟩
    obtain ⟨h1, h2⟩ := inner a i g.num_samples_ t hptr
    refine ⟨?_, fun j => ?_⟩
    · rw [h1, ← cell_index_add, cell_index_next_allele]
    · rw [h2 j, hval j, Finset.sum_range_succ, add_assoc]
  have outer := forLoop_inv (fun i (t : (Nat → α) × Nat) => t.2 = cell_index g i 0 0
      ∧ ∀ j, t.1 j = x0 j + ∑ a in Finset.range i, ∑ b in Finset.range g.num_alleles_,
          ∑ s in Finset.range g.num_samples_,
            if j = q s (cell_index g a b s) then d s (cell_index g a b s) else 0)
    g.num_alleles_
    (fun _ st => forLoop g.num_alleles_ (fun _ st => forLoop g.num_samples_ body st) st)
    (x0, 0) ⟨by simp [cell_index], fun j => by simp⟩ (by
      rintro i t _ ⟨hptr, hval⟩
      obtain ⟨h1, h2⟩ := middle i g.num_alleles_ t hptr
      refine ⟨?_, fun j => ?_⟩
      · rw [h1, cell_index_next_row]
      · rw [h2 j, hval j, Finset.sum_range_succ, add_assoc])
  exact outer.2 j

/-- The per-sample sums of lines 684-687. -/
theorem accumulate_totals_apply (m : MathOps α) (g : SeqStutterGenotyper α)
    (post sample_max_LLs totals : Nat → α) {s : Nat} (hs : s < g.num_samples_) :
    (accumulate_totals m g post sample_max_LLs totals).1 s
      = totals s + ∑ a in Finset.range g.num_alleles_, ∑ b in Finset.range g.num_alleles_,
          m.exp (post (cell_index g a b s) - sample_max_LLs s) := by
  unfold accumulate_totals
  rw [forLoop_cells g _ (fun s' _ => s') (fun s' p => m.exp (post p - sample_max_LLs s'))
    (fun _ _ => rfl)]
  congr 1
  refine Finset.sum_congr rfl (fun a _ => Finset.sum_congr rfl (fun b _ => ?_))
  rw [Finset.sum_ite_eq (Finset.range g.num_samples_) s]
  simp [hs]

/-- The loop of lines 688-691 rewrites the entries of the samples and no other. -/
theorem finish_totals_apply (m : MathOps α) (g : SeqStutterGenotyper α)
    (sample_max_LLs totals : Nat → α) (s : Nat) :
    finish_totals m g sample_max_LLs totals s
      = if s < g.num_samples_ then sample_max_LLs s + m.log (totals s) else totals s := by
  unfold finish_totals
  refine forLoop_inv (fun k (t : Nat → α) => ∀ j,
    t j = if j < k then sample_max_LLs j + m.log (totals j) else totals j) g.num_samples_ _ totals
    (fun j => by simp) ?_ s
  intro k t _ ht j
  unfold store
  by_cases h : j = k
  · subst h
    simp [ht j]
  · have : j < k + 1 ↔ j < k := by omega
    simp [h, ht j, this]

/-- The loops of lines 696-700 subtract the total of sample `s` from each of its cells. -/
theorem normalize_apply (g : SeqStutterGenotyper α) (totals post : Nat → α) {a b s : Nat}
    (ha : a < g.num_alleles_) (hb : b < g.num_alleles_) (hs : s < g.num_samples_) :
    (normalize g totals post).1 (cell_index g a b s) = post (cell_index g a b s) - totals s := by
  unfold normalize
  rw [forLoop_cells g _ (fun _ p => p) (fun s' _ => -totals s')
    (fun _ _ => by simp only [sub_eq_add_neg]),
    sum_cells_single g ha hb hs (fun _ _ s' => -totals s'), sub_eq_add_neg]

/-- The un-normalised cell of genotype `(a, b)` and sample `s`: the prior plus the weighted
terms of the reads of `s`. -/
theorem unnormalized_post (m : MathOps α) (g : SeqStutterGenotyper α) (read_weights : Nat → Int)
    (hlabel : ∀ r, r < g.num_reads_ → g.sample_label_ r < g.num_samples_) {a b s : Nat}
    (ha : a < g.num_alleles_) (hb : b < g.num_alleles_) (hs : s < g.num_samples_) :
    (unnormalized m g read_weights).post (cell_index g a b s)
      = init_log_sample_priors m g g.log_sample_posteriors_ (cell_index g a b s)
        + read_sum m g read_weights a b s := by
  unfold unnormalized
  rw [accumulate_genotypes_post m g read_weights _ rfl]
  congr 1
  have h1 : ∀ a' ∈ Finset.range g.num_alleles_, ∀ b' ∈ Finset.range g.num_alleles_,
      (∑ r in Finset.range g.num_reads_,
        if cell_index g a b s = cell_index g a' b' (g.sample_label_ r) then
          (read_weights r : α) * read_LL_term m g (r * g.num_alleles_) r a' b' else 0)
        = if a' = a ∧ b' = b then read_sum m g read_weights a' b' s else 0 := by
    intro a' _ b' hb'
    by_cases e : a' = a ∧ b' = b
    · obtain ⟨e1, e2⟩ := e
      subst e1 e2
      simp only [true_and, if_true, read_sum]
      refine Finset.sum_congr rfl (fun r hr => ?_)
      by_cases h : g.sample_label_ r = s
      · simp [h]
      · have : cell_index g a' b' s ≠ cell_index g a' b' (g.sample_label_ r) := fun hc =>
          h (cell_index_inj g hb hb hs (hlabel r (Finset.mem_range.mp hr)) hc).2.2.symm
        simp [h, this]
    · rw [if_neg e]
      refine Finset.sum_eq_zero (fun r hr => ?_)
      have : cell_index g a b s ≠ cell_index g a' b' (g.sample_label_ r) := fun hc =>
        e (by
          obtain ⟨e1, e2, _⟩ := cell_index_inj g hb (Finset.mem_range.mp hb') hs
            (hlabel r (Finset.mem_range.mp hr)) hc
          exact ⟨e1.symm, e2.symm⟩)
      simp [this]
  rw [Finset.sum_congr rfl (fun a' ha' => Finset.sum_congr rfl (h1 a' ha'))]
  exact sum_genotypes_single g.num_alleles_ a b ha hb (fun a' b' => read_sum m g read_weights a' b' s)

/-- The helper `sum` adds up the entries `lo, ..., hi - 1`. -/
theorem sum_eq (arr : Nat → α) (n : Nat) :
    sum arr 0 n = ∑ i in Finset.range n, arr i := by
  unfold sum
  simp only [Nat.sub_zero, Nat.zero_add]
  induction n with
  | zero => simp [forLoop]
  | succ k ih => rw [forLoop_succ, ih, Finset.sum_range_succ]

/-- The default diploid prior: heterozygous cells hold `-int_log n - int_log (n+1)`, homozygous
cells `int_log 2 - int_log n - int_log (n+1)`. -/
theorem init_log_sample_priors_diploid (m : MathOps α) (g : SeqStutterGenotyper α)
    (hp : g.log_allele_priors_ = none) (hd : g.haploid_ = false) (ptr : Nat → α) {a b s : Nat}
    (ha : a < g.num_alleles_) (hb : b < g.num_alleles_) (hs : s < g.num_samples_) :
    init_log_sample_priors m g ptr (cell_index g a b s)
      = if a = b then int_log m 2 - int_log m g.num_alleles_ - int_log m (g.num_alleles_ + 1)
        else -int_log m g.num_alleles_ - int_log m (g.num_alleles_ + 1) := by
  simp only [init_log_sample_priors, hp, hd, Bool.not_false, if_true]
  rw [fill_homozygotes g _ _ ha hb hs]
  simp [fill, cell_index_lt g ha hb hs]

/-- The default haploid prior: off-diagonal cells hold `-DBL_MAX/2`, diagonal cells
`-int_log n`. -/
theorem init_log_sample_priors_haploid (m : MathOps α) (g : SeqStutterGenotyper α)
    (hp : g.log_allele_priors_ = none) (hd : g.haploid_ = true) (ptr : Nat → α) {a b s : Nat}
    (ha : a < g.num_alleles_) (hb : b < g.num_alleles_) (hs : s < g.num_samples_) :
    init_log_sample_priors m g ptr (cell_index g a b s)
      = if a = b then -int_log m g.num_alleles_ else -DBL_MAX / 2 := by
  simp only [init_log_sample_priors, hp, hd, Bool.not_true]
  rw [if_neg (by simp), fill_homozygotes g _ _ ha hb hs]
  simp [fill, cell_index_lt g ha hb hs]

/-- External priors are copied cell by cell. -/
theorem init_log_sample_priors_external (m : MathOps α) (g : SeqStutterGenotyper α)
    (priors : Nat → α) (hp : g.log_allele_priors_ = some priors) (ptr : Nat → α) {a b s : Nat}
    (ha : a < g.num_alleles_) (hb : b < g.num_alleles_) (hs : s < g.num_samples_) :
    init_log_sample_priors m g ptr (cell_index g a b s) = priors (cell_index g a b s) := by
  simp [init_log_sample_priors, hp, memcpy, cell_index_lt g ha hb hs]

end ClosedForms

/-! ## MAP extraction -/

section MapExtraction

variable {α : Type} [LinearOrderedField α]

theorem lex_before_succ (i1 i2 a b : Nat) :
    lex_before i1 (i2 + 1) a b ↔ lex_before i1 i2 a b ∨ (a = i1 ∧ b = i2) := by
  unfold lex_before
  constructor
  · rintro (h | ⟨h1, h2⟩)
    · exact Or.inl (Or.inl h)
    · rcases Nat.lt_succ_iff_lt_or_eq.mp h2 with h | h
      · exact Or.inl (Or.inr ⟨h1, h⟩)
      · exact Or.inr ⟨h1, h⟩
  · rintro ((h | ⟨h1, h2⟩) | ⟨h1, h2⟩)
    · exact Or.inl h
    · exact Or.inr ⟨h1, Nat.lt_succ_of_lt h2⟩
    · exact Or.inr ⟨h1, by omega⟩

/-- Visiting the cell of `(i1, i2)` for sample `s0` preserves the invariant. -/
theorem map_invariant_visit (g : SeqStutterGenotyper α) (P : Nat → α) (s0 i1 i2 : Nat)
    (hi2 : i2 < g.num_alleles_) (st : GtState α) (hst : map_invariant g P s0 i1 i2 st)
    (hptr : st.log_posterior_ptr = cell_index g i1 i2 s0) :
    map_invariant g P s0 i1 (i2 + 1)
      (if P st.log_posterior_ptr > st.log_phased_posteriors s0 then
        { gts := store st.gts s0 ((i1 : Int), (i2 : Int))
          log_phased_posteriors := store st.log_phased_posteriors s0 (P st.log_posterior_ptr)
          log_posterior_ptr := st.log_posterior_ptr + 1 }
      else { st with log_posterior_ptr := st.log_posterior_ptr + 1 }) := by
  rw [hptr]
  by_cases hc : P (cell_index g i1 i2 s0) > st.log_phased_posteriors s0
  · rw [if_pos hc]
    refine Or.inr ⟨i1, i2, hi2, (lex_before_succ _ _ _ _).mpr (Or.inr ⟨rfl, rfl⟩),
      by simp [store], by simp [store], ?_, ?_⟩
    · rcases hst with ⟨_, h2, _⟩ | ⟨a, b, _, _, _, h4, h5, _⟩
      · rw [h2] at hc
        exact hc
      · rw [h4] at hc
        exact lt_trans h5 hc
    · intro a' b' hb' hbef
      rcases (lex_before_succ _ _ _ _).mp hbef with h | ⟨e1, e2⟩
      · have hlt : P (cell_index g a' b' s0) < P (cell_index g i1 i2 s0) := by
          rcases hst with ⟨_, h2, h3⟩ | ⟨a, b, _, _, _, h4, _, h6⟩
          · rw [h2] at hc
            exact lt_of_le_of_lt (h3 a' b' hb' h) hc
          · rw [h4] at hc
            exact lt_of_le_of_lt (h6 a' b' hb' h).1 hc
        exact ⟨hlt.le, fun e => absurd e hlt.ne⟩
      · subst e1 e2
        exact ⟨le_refl _, fun _ => Or.inr ⟨rfl, Nat.lt_succ_self _⟩⟩
  · rw [if_neg hc]
    have hle := not_lt.mp hc
    rcases hst with ⟨h1, h2, h3⟩ | ⟨a, b, hb, h2, h3, h4, h5, h6⟩
    · refine Or.inl ⟨h1, h2, fun a' b' hb' hbef => ?_⟩
      rcases (lex_before_succ _ _ _ _).mp hbef with h | ⟨e1, e2⟩
      · exact h3 a' b' hb' h
      · subst e1 e2
        rw [h2] at hle
        exact hle
    · refine Or.inr ⟨a, b, hb, (lex_before_succ _ _ _ _).mpr (Or.inl h2), h3, h4, h5, ?_⟩
      intro a' b' hb' hbef
      rcases (lex_before_succ _ _ _ _).mp hbef with h | ⟨e1, e2⟩
      · exact h6 a' b' hb' h
      · subst e1 e2
        rw [h4] at hle
        refine ⟨hle, fun _ => ?_⟩
        rcases h2 with h | ⟨e, h⟩
        · exact Or.inl h
        · exact Or.inr ⟨e, Nat.lt_succ_of_lt h⟩

/-- Visiting a cell of another sample does not touch the entry of `s0`. -/
theorem map_invariant_other (g : SeqStutterGenotyper α) (P : Nat → α) (s0 i1 i2 j1 j2 k : Nat)
    (hk : k ≠ s0) (st : GtState α) (hst : map_invariant g P s0 i1 i2 st) :
    map_invariant g P s0 i1 i2
      (if P st.log_posterior_ptr > st.log_phased_posteriors k then
        { gts := store st.gts k ((j1 : Int), (j2 : Int))
          log_phased_posteriors := store st.log_phased_posteriors k (P st.log_posterior_ptr)
          log_posterior_ptr := st.log_posterior_ptr + 1 }
      else { st with log_posterior_ptr := st.log_posterior_ptr + 1 }) := by
  have hk' : s0 ≠ k := fun e => hk e.symm
  split_ifs
  · simpa [map_invariant, store, hk'] using hst
  · simpa [map_invariant] using hst

theorem map_invariant_next_row (g : SeqStutterGenotyper α) (P : Nat → α) (s0 i1 : Nat)
    (st : GtState α) (hst : map_invariant g P s0 i1 g.num_alleles_ st) :
    map_invariant g P s0 (i1 + 1) 0 st := by
  have hiff : ∀ a b, b < g.num_alleles_ →
      (lex_before (i1 + 1) 0 a b ↔ lex_before i1 g.num_alleles_ a b) := by
    intro a b hb
    unfold lex_before
    constructor
    · rintro (h | ⟨_, h⟩)
      · rcases Nat.lt_succ_iff_lt_or_eq.mp h with h | h
        · exact Or.inl h
        · exact Or.inr ⟨h, hb⟩
      · exact absurd h (Nat.not_lt_zero _)
    · rintro (h | ⟨h, _⟩)
      · exact Or.inl (Nat.lt_succ_of_lt h)
      · exact Or.inl (by omega)
  rcases hst with ⟨h1, h2, h3⟩ | ⟨a, b, hb, h2, h3, h4, h5, h6⟩
  · exact Or.inl ⟨h1, h2, fun a b hb h => h3 a b hb ((hiff a b hb).mp h)⟩
  · exact Or.inr ⟨a, b, hb, (hiff a b hb).mpr h2, h3, h4, h5,
      fun a' b' hb' h => h6 a' b' hb' ((hiff a' b' hb').mp h)⟩

/-- After the loops of `get_optimal_genotypes` the invariant holds with every genotype
visited. -/
theorem optimal_genotypes_loop_invariant (g : SeqStutterGenotyper α) (P : Nat → α) (s0 : Nat)
    (hs0 : s0 < g.num_samples_) :
    map_invariant g P s0 g.num_alleles_ 0 (optimal_genotypes_loop g P) := by
  have inner : ∀ (i1 i2 : Nat) (st : GtState α), i2 < g.num_alleles_ →
      st.log_posterior_ptr = cell_index g i1 i2 0 → map_invariant g P s0 i1 i2 st →
      (forLoop g.num_samples_ (fun sample_index (st : GtState α) =>
        if P st.log_posterior_ptr > st.log_phased_posteriors sample_index then
          { gts := store st.gts sample_index ((i1 : Int), (i2 : Int))
            log_phased_posteriors :=
              store st.log_phased_posteriors sample_index (P st.log_posterior_ptr)
            log_posterior_ptr := st.log_posterior_ptr + 1 }
        else { st with log_posterior_ptr := st.log_posterior_ptr + 1 }) st).log_posterior_ptr
          = cell_index g i1 (i2 + 1) 0
      ∧ map_invariant g P s0 i1 (i2 + 1)
        (forLoop g.num_samples_ (fun sample_index (st : GtState α) =>
          if P st.log_posterior_ptr > st.log_phased_posteriors sample_index then
            { gts := store st.gts sample_index ((i1 : Int), (i2 : Int))
              log_phased_posteriors :=
                store st.log_phased_posteriors sample_index (P st.log_posterior_ptr)
              log_posterior_ptr := st.log_posterior_ptr + 1 }
          else { st with log_posterior_ptr := st.log_posterior_ptr + 1 }) st) := by
    intro i1 i2 st hi2 hp hst
    have key := forLoop_inv (fun k (t : GtState α) =>
        t.log_posterior_ptr = cell_index g i1 i2 k
          ∧ (if s0 < k then map_invariant g P s0 i1 (i2 + 1) t
             else map_invariant g P s0 i1 i2 t)) g.num_samples_
      (fun sample_index (st : GtState α) =>
        if P st.log_posterior_ptr > st.log_phased_posteriors sample_index then
          { gts := store st.gts sample_index ((i1 : Int), (i2 : Int))
            log_phased_posteriors :=
              store st.log_phased_posteriors sample_index (P st.log_posterior_ptr)
            log_posterior_ptr := st.log_posterior_ptr + 1 }
        else { st with log_posterior_ptr := st.log_posterior_ptr + 1 }) st
      ⟨hp, by simpa using hst⟩ (by
        rintro k t _ ⟨hptr, hinv⟩
        refine ⟨?_, ?_⟩
        · have : cell_index g i1 i2 (k + 1) = cell_index g i1 i2 k + 1 := by
            unfold cell_index
            omega
          rw [this, ← hptr]
          dsimp only
          split_ifs <;> rfl
        · by_cases hk : k = s0
          · subst hk
            rw [if_neg (Nat.lt_irrefl k)] at hinv
            rw [if_pos (Nat.lt_succ_self k)]
            exact map_invariant_visit g P k i1 i2 hi2 t hinv hptr
          · by_cases hlt : s0 < k
            · rw [if_pos hlt] at hinv
              rw [if_pos (Nat.lt_succ_of_lt hlt)]
              exact map_invariant_other g P s0 i1 (i2 + 1) i1 i2 k hk t hinv
            · rw [if_neg hlt] at hinv
              rw [if_neg (by omega)]
              exact map_invariant_other g P s0 i1 i2 i1 i2 k hk t hinv)
    refine ⟨?_, ?_⟩
    · rw [key.1, ← cell_index_add, cell_index_next_allele]
    · have := key.2
      rwa [if_pos hs0] at this
  have middle : ∀ (i1 : Nat) (st : GtState α),
      st.log_posterior_ptr = cell_index g i1 0 0 → map_invariant g P s0 i1 0 st →
      (forLoop g.num_alleles_ (fun index_2 (st : GtState α) =>
        forLoop g.num_samples_ (fun sample_index (st : GtState α) =>
          if P st.log_posterior_ptr > st.log_phased_posteriors sample_index then
            { gts := store st.gts sample_index ((i1 : Int), (index_2 : Int))
              log_phased_posteriors :=
                store st.log_phased_posteriors sample_index (P st.log_posterior_ptr)
              log_posterior_ptr := st.log_posterior_ptr + 1 }
          else { st with log_posterior_ptr := st.log_posterior_ptr + 1 }) st)
        st).log_posterior_ptr = cell_index g i1 g.num_alleles_ 0
      ∧ map_invariant g P s0 i1 g.num_alleles_
        (forLoop g.num_alleles_ (fun index_2 (st : GtState α) =>
          forLoop g.num_samples_ (fun sample_index (st : GtState α) =>
            if P st.log_posterior_ptr > st.log_phased_posteriors sample_index then
              { gts := store st.gts sample_index ((i1 : Int), (index_2 : Int))
                log_phased_posteriors :=
                  store st.log_phased_posteriors sample_index (P st.log_posterior_ptr)
                log_posterior_ptr := st.log_posterior_ptr + 1 }
            else { st with log_posterior_ptr := st.log_posterior_ptr + 1 }) st) st) := by
    intro i1 st hp hst
    exact forLoop_inv (fun i2 (t : GtState α) =>
        t.log_posterior_ptr = cell_index g i1 i2 0 ∧ map_invariant g P s0 i1 i2 t)
      g.num_alleles_ _ st ⟨hp, hst⟩
      (fun i2 t hi2 ht => inner i1 i2 t hi2 ht.1 ht.2)
  have outer := forLoop_inv (fun i1 (t : GtState α) =>
      t.log_posterior_ptr = cell_index g i1 0 0 ∧ map_invariant g P s0 i1 0 t)
    g.num_alleles_
    (fun index_1 (st : GtState α) =>
      forLoop g.num_alleles_ (fun index_2 (st : GtState α) =>
        forLoop g.num_samples_ (fun sample_index (st : GtState α) =>
          if P st.log_posterior_ptr > st.log_phased_posteriors sample_index then
            { gts := store st.gts sample_index ((index_1 : Int), (index_2 : Int))
              log_phased_posteriors :=
                store st.log_phased_posteriors sample_index (P st.log_posterior_ptr)
              log_posterior_ptr := st.log_posterior_ptr + 1 }
          else { st with log_posterior_ptr := st.log_posterior_ptr + 1 }) st) st)
    { gts := fun _ => (-1, -1)
      log_phased_posteriors := fun _ => -DBL_MAX
      log_posterior_ptr := 0 }
    ⟨by simp [cell_index], Or.inl ⟨rfl, rfl, fun a b _ h => by
      rcases h with h | ⟨_, h⟩
      · exact absurd h (Nat.not_lt_zero _)
      · exact absurd h (Nat.not_lt_zero _)⟩⟩
    (by
      rintro i1 t _ ⟨hptr, hinv⟩
      obtain ⟨h1, h2⟩ := middle i1 t hptr hinv
      exact ⟨by rw [h1, cell_index_next_row], map_invariant_next_row g P s0 i1 _ h2⟩)
  exact outer.2

/-- Claim C6: if sample `s` has at least one cell greater than `-DBL_MAX`,
`get_optimal_genotypes` returns for `s` a pair `(a, b)` whose cell is maximal among the cells of
`s`, and `(a, b)` is the lexicographically smallest ordered pair attaining the maximum. -/
theorem get_optimal_genotypes_argmax (g : SeqStutterGenotyper α) (P : Nat → α) (s : Nat)
    (hs : s < g.num_samples_)
    (hP : ∃ a b, a < g.num_alleles_ ∧ b < g.num_alleles_ ∧ -DBL_MAX < P (cell_index g a b s)) :
    ∃ a b, a < g.num_alleles_ ∧ b < g.num_alleles_
      ∧ get_optimal_genotypes g P s = ((a : Int), (b : Int))
      ∧ (∀ a' b', a' < g.num_alleles_ → b' < g.num_alleles_ →
          P (cell_index g a' b' s) ≤ P (cell_index g a b s))
      ∧ (∀ a' b', a' < g.num_alleles_ → b' < g.num_alleles_ →
          P (cell_index g a' b' s) = P (cell_index g a b s) → a < a' ∨ (a = a' ∧ b ≤ b')) := by
  have hall : ∀ a b, a < g.num_alleles_ → lex_before g.num_alleles_ 0 a b := fun a b ha => Or.inl ha
  rcases optimal_genotypes_loop_invariant g P s hs with ⟨_, _, h3⟩ | ⟨a, b, hb, h2, h3, _, _, h6⟩
  · obtain ⟨a, b, ha, hb, hlt⟩ := hP
    exact absurd (h3 a b hb (hall a b ha)) (not_le.mpr hlt)
  · have ha : a < g.num_alleles_ := by
      rcases h2 with h | ⟨_, h⟩
      · exact h
      · exact absurd h (Nat.not_lt_zero _)
    refine ⟨a, b, ha, hb, h3, fun a' b' ha' hb' => (h6 a' b' hb' (hall a' b' ha')).1,
      fun a' b' ha' hb' he => ?_⟩
    rcases (h6 a' b' hb' (hall a' b' ha')).2 he with h | ⟨e, h⟩
    · exact Or.inl h
    · exact Or.inr ⟨e, Nat.lt_succ_iff.mp h⟩

/-- Witness of C6: sample 0 of `example_posteriors`. -/
theorem get_optimal_genotypes_argmax_witness :
    ∃ a b, a < (example_diploid ℚ).num_alleles_ ∧ b < (example_diploid ℚ).num_alleles_
      ∧ get_optimal_genotypes (example_diploid ℚ) example_posteriors 0 = ((a : Int), (b : Int))
      ∧ (∀ a' b', a' < (example_diploid ℚ).num_alleles_ →
          b' < (example_diploid ℚ).num_alleles_ →
          example_posteriors (cell_index (example_diploid ℚ) a' b' 0)
            ≤ example_posteriors (cell_index (example_diploid ℚ) a b 0))
      ∧ (∀ a' b', a' < (example_diploid ℚ).num_alleles_ →
          b' < (example_diploid ℚ).num_alleles_ →
          example_posteriors (cell_index (example_diploid ℚ) a' b' 0)
            = example_posteriors (cell_index (example_diploid ℚ) a b 0) →
          a < a' ∨ (a = a' ∧ b ≤ b')) :=
  get_optimal_genotypes_argmax (example_diploid ℚ) example_posteriors 0 (by decide)
    ⟨0, 1, by decide, by decide, by
      simp only [example_posteriors, cell_index, example_diploid, DBL_MAX]
      norm_num⟩

/-- The entries of `gts` and `log_phased_posteriors` agree: if `gts[s]` is the pair `(a, b)` of
allele indices, `log_phased_posteriors[s]` is the cell of `(a, b)`. -/
theorem log_phased_posteriors_eq (g : SeqStutterGenotyper α) (P : Nat → α) {s a b : Nat}
    (hs : s < g.num_samples_)
    (hgt : (optimal_genotypes_loop g P).gts s = ((a : Int), (b : Int))) :
    (optimal_genotypes_loop g P).log_phased_posteriors s = P (cell_index g a b s) := by
  rcases optimal_genotypes_loop_invariant g P s hs with ⟨h1, _, _⟩ | ⟨a0, b0, _, _, h3, h4, _, _⟩
  · rw [h1] at hgt
    have := congrArg Prod.fst hgt
    simp only at this
    omega
  · rw [h3] at hgt
    have e1 := congrArg Prod.fst hgt
    have e2 := congrArg Prod.snd hgt
    simp only [Nat.cast_inj] at e1 e2
    subst e1 e2
    exact h4

/-- A loop that appends one element to each of two vectors builds the two mapped ranges. -/
theorem forLoop_push_back {β γ : Type} (n : Nat) (body : Nat → List β × List γ → List β × List γ)
    (f : Nat → β) (h : Nat → γ) (hbody : ∀ i out, body i out = (out.1 ++ [f i], out.2 ++ [h i])) :
    forLoop n body ([], []) = ((List.range n).map f, (List.range n).map h) := by
  induction n with
  | zero => rfl
  | succ k ih => rw [forLoop_succ, ih, hbody, List.range_succ, List.map_append, List.map_append]; rfl

end MapExtraction

/-! ## The posterior engine over the reals -/

section Reals

open Real

/-- Over the reals the max-subtraction form of `log_sum_exp` is `log (exp x + exp y)`. -/
theorem log_sum_exp_real (x y : ℝ) :
    log_sum_exp ⟨Real.exp, Real.log⟩ x y = Real.log (Real.exp x + Real.exp y) := by
  have key : ∀ u v : ℝ, u + Real.log (1 + Real.exp (v - u)) = Real.log (Real.exp u + Real.exp v) := by
    intro u v
    have h1 : 0 < 1 + Real.exp (v - u) := by positivity
    have h2 : Real.exp u * (1 + Real.exp (v - u)) = Real.exp u + Real.exp v := by
      rw [mul_add, mul_one, ← Real.exp_add]
      congr 2
      ring
    rw [← h2, Real.log_mul (Real.exp_pos u).ne' h1.ne', Real.log_exp]
  unfold log_sum_exp
  split_ifs
  · exact key x y
  · rw [key y x, add_comm]

/-- The sum of `exp` over the cells of a sample is positive as soon as there is one allele. -/
theorem sum_exp_pos (g : SeqStutterGenotyper ℝ) (hn : 1 ≤ g.num_alleles_) (f : Nat → Nat → ℝ) :
    0 < ∑ a in Finset.range g.num_alleles_, ∑ b in Finset.range g.num_alleles_,
      Real.exp (f a b) := by
  have hne : (Finset.range g.num_alleles_).Nonempty := Finset.nonempty_range_iff.mpr (by omega)
  exact Finset.sum_pos (fun a _ => Finset.sum_pos (fun b _ => Real.exp_pos _) hne) hne

/-- The normalising constant of sample `s` (lines 681-691) is the log of the sum of `exp` over
the un-normalised cells of `s`, whatever the running maximum was. -/
theorem sample_total_LLs_eq (g : SeqStutterGenotyper ℝ) (read_weights : Nat → Int)
    (hn : 1 ≤ g.num_alleles_) {s : Nat} (hs : s < g.num_samples_) :
    (calc_log_sample_posteriors ⟨Real.exp, Real.log⟩ g read_weights).2.sample_total_LLs_ s
      = Real.log (∑ a in Finset.range g.num_alleles_, ∑ b in Finset.range g.num_alleles_,
          Real.exp ((unnormalized ⟨Real.exp, Real.log⟩ g read_weights).post
            (cell_index g a b s))) := by
  simp only [calc_log_sample_posteriors]
  rw [finish_totals_apply, if_pos hs, accumulate_totals_apply _ _ _ _ _ hs]
  simp only [fill, Nat.zero_le, true_and, hs, if_true, zero_add]
  have h1 : ∀ a ∈ Finset.range g.num_alleles_, ∀ b ∈ Finset.range g.num_alleles_,
      Real.exp ((unnormalized ⟨Real.exp, Real.log⟩ g read_weights).post (cell_index g a b s)
          - (unnormalized ⟨Real.exp, Real.log⟩ g read_weights).sample_max_LLs s)
        = Real.exp ((unnormalized ⟨Real.exp, Real.log⟩ g read_weights).post (cell_index g a b s))
          * Real.exp (-(unnormalized ⟨Real.exp, Real.log⟩ g read_weights).sample_max_LLs s) := by
    intro a _ b _
    rw [← Real.exp_add, sub_eq_add_neg]
  rw [Finset.sum_congr rfl (fun a ha => Finset.sum_congr rfl (h1 a ha))]
  simp only [← Finset.sum_mul]
  rw [Real.log_mul (sum_exp_pos g hn _).ne' (Real.exp_pos _).ne', Real.log_exp]
  ring

/-- Each cell of the posterior array is the un-normalised cell minus the normalising constant of
its sample (lines 696-700). -/
theorem log_sample_posteriors_eq (g : SeqStutterGenotyper ℝ) (read_weights : Nat → Int)
    {a b s : Nat} (ha : a < g.num_alleles_) (hb : b < g.num_alleles_)
    (hs : s < g.num_samples_) :
    (calc_log_sample_posteriors ⟨Real.exp, Real.log⟩ g read_weights).2.log_sample_posteriors_
        (cell_index g a b s)
      = (unnormalized ⟨Real.exp, Real.log⟩ g read_weights).post (cell_index g a b s)
        - (calc_log_sample_posteriors ⟨Real.exp, Real.log⟩ g read_weights).2.sample_total_LLs_ s := by
  simp only [calc_log_sample_posteriors]
  rw [normalize_apply g _ _ ha hb hs]

/-- The un-normalised cell agrees with the spec's formula. -/
theorem unnormalized_eq_spec (g : SeqStutterGenotyper ℝ) (read_weights : Nat → Int)
    (hlabel : ∀ r, r < g.num_reads_ → g.sample_label_ r < g.num_samples_) {a b s : Nat}
    (ha : a < g.num_alleles_) (hb : b < g.num_alleles_) (hs : s < g.num_samples_) :
    (unnormalized ⟨Real.exp, Real.log⟩ g read_weights).post (cell_index g a b s)
      = spec_unnormalized_cell ⟨Real.exp, Real.log⟩ g read_weights a b s := by
  rw [unnormalized_post _ g read_weights hlabel ha hb hs]
  simp only [spec_unnormalized_cell, read_sum, read_LL_term, log_sum_exp_real, LOG_ONE_HALF]

/-- Claim C1: for every input with at least one allele, after
`calc_log_sample_posteriors(read_weights)` the posteriors of every sample `s` sum to one over
all ordered genotypes, `Σ_{a,b} exp(P[a,b,s]) = 1` (over the reals). -/
theorem calc_log_sample_posteriors_sum_one (g : SeqStutterGenotyper ℝ)
    (read_weights : Nat → Int) (hn : 1 ≤ g.num_alleles_) (s : Nat) (hs : s < g.num_samples_) :
    (∑ a in Finset.range g.num_alleles_, ∑ b in Finset.range g.num_alleles_,
      Real.exp ((calc_log_sample_posteriors ⟨Real.exp, Real.log⟩ g
        read_weights).2.log_sample_posteriors_ (cell_index g a b s))) = 1 := by
  have hZ := sum_exp_pos g hn (fun a b =>
    (unnormalized ⟨Real.exp, Real.log⟩ g read_weights).post (cell_index g a b s))
  have h1 : ∀ a ∈ Finset.range g.num_alleles_, ∀ b ∈ Finset.range g.num_alleles_,
      Real.exp ((calc_log_sample_posteriors ⟨Real.exp, Real.log⟩ g
        read_weights).2.log_sample_posteriors_ (cell_index g a b s))
        = Real.exp ((unnormalized ⟨Real.exp, Real.log⟩ g read_weights).post (cell_index g a b s))
          / (∑ a in Finset.range g.num_alleles_, ∑ b in Finset.range g.num_alleles_,
              Real.exp ((unnormalized ⟨Real.exp, Real.log⟩ g read_weights).post
                (cell_index g a b s))) := by
    intro a ha b hb
    rw [log_sample_posteriors_eq g read_weights (Finset.mem_range.mp ha) (Finset.mem_range.mp hb)
      hs, sample_total_LLs_eq g read_weights hn hs, Real.exp_sub, Real.exp_log hZ]
  rw [Finset.sum_congr rfl (fun a ha => Finset.sum_congr rfl (h1 a ha))]
  simp only [← Finset.sum_div]
  exact div_self hZ.ne'

/-- Witness of C1 on `example_diploid`, sample 1. -/
theorem calc_log_sample_posteriors_sum_one_witness :
    1 ≤ (example_diploid ℝ).num_alleles_ ∧ 1 < (example_diploid ℝ).num_samples_ ∧
    (∑ a in Finset.range (example_diploid ℝ).num_alleles_,
      ∑ b in Finset.range (example_diploid ℝ).num_alleles_,
        Real.exp ((calc_log_sample_posteriors ⟨Real.exp, Real.log⟩ (example_diploid ℝ)
          (fun _ => 1)).2.log_sample_posteriors_ (cell_index (example_diploid ℝ) a b 1))) = 1 :=
  ⟨by decide, by decide,
    calc_log_sample_posteriors_sum_one (example_diploid ℝ) (fun _ => 1) (by decide) 1
      (by decide)⟩

/-- Each un-normalised cell is at most the log of the sum of `exp` over the cells of its
sample. -/
theorem unnormalized_le_log_sum (g : SeqStutterGenotyper ℝ)
    (read_weights : Nat → Int) {a b s : Nat} (ha : a < g.num_alleles_)
    (hb : b < g.num_alleles_) :
    (unnormalized ⟨Real.exp, Real.log⟩ g read_weights).post (cell_index g a b s)
      ≤ Real.log (∑ a in Finset.range g.num_alleles_, ∑ b in Finset.range g.num_alleles_,
          Real.exp ((unnormalized ⟨Real.exp, Real.log⟩ g read_weights).post
            (cell_index g a b s))) := by
  have hn : 1 ≤ g.num_alleles_ := by omega
  rw [Real.le_log_iff_exp_le (sum_exp_pos g hn _)]
  have h1 : Real.exp ((unnormalized ⟨Real.exp, Real.log⟩ g read_weights).post
      (cell_index g a b s))
      ≤ ∑ b' in Finset.range g.num_alleles_,
          Real.exp ((unnormalized ⟨Real.exp, Real.log⟩ g read_weights).post
            (cell_index g a b' s)) :=
    Finset.single_le_sum (f := fun b' => Real.exp ((unnormalized ⟨Real.exp, Real.log⟩ g
      read_weights).post (cell_index g a b' s)))
      (fun _ _ => (Real.exp_pos _).le) (Finset.mem_range.mpr hb)
  exact h1.trans (Finset.single_le_sum (f := fun a' => ∑ b' in Finset.range g.num_alleles_,
      Real.exp ((unnormalized ⟨Real.exp, Real.log⟩ g read_weights).post (cell_index g a' b' s)))
    (fun _ _ => Finset.sum_nonneg (fun _ _ => (Real.exp_pos _).le)) (Finset.mem_range.mpr ha))

/-- Claim C3: after `calc_log_sample_posteriors` every cell `P[a,b,s]` is at most 0. -/
theorem calc_log_sample_posteriors_nonpos (g : SeqStutterGenotyper ℝ)
    (read_weights : Nat → Int) (a b s : Nat) (ha : a < g.num_alleles_)
    (hb : b < g.num_alleles_) (hs : s < g.num_samples_) :
    (calc_log_sample_posteriors ⟨Real.exp, Real.log⟩ g read_weights).2.log_sample_posteriors_
      (cell_index g a b s) ≤ 0 := by
  have hn : 1 ≤ g.num_alleles_ := by omega
  rw [log_sample_posteriors_eq g read_weights ha hb hs, sample_total_LLs_eq g read_weights hn hs,
    sub_nonpos]
  exact unnormalized_le_log_sum g read_weights ha hb

/-- Witness of C3 on `example_diploid`, genotype (1, 0) of sample 0. -/
theorem calc_log_sample_posteriors_nonpos_witness :
    1 < (example_diploid ℝ).num_alleles_ ∧ 0 < (example_diploid ℝ).num_alleles_ ∧
    0 < (example_diploid ℝ).num_samples_ ∧
    (calc_log_sample_posteriors ⟨Real.exp, Real.log⟩ (example_diploid ℝ)
      (fun _ => 1)).2.log_sample_posteriors_ (cell_index (example_diploid ℝ) 1 0 0) ≤ 0 :=
  ⟨by decide, by decide, by decide,
    calc_log_sample_posteriors_nonpos (example_diploid ℝ) (fun _ => 1) 1 0 0 (by decide)
      (by decide) (by decide)⟩

theorem example_diploid_labels (α : Type) [LinearOrderedField α] :
    ∀ r, r < (example_diploid α).num_reads_ →
      (example_diploid α).sample_label_ r < (example_diploid α).num_samples_ := by
  intro r _
  simp only [example_diploid]
  split_ifs <;> omega

/-- Claim C2: for every input (at least one allele, sample labels in range), after
`calc_log_sample_posteriors(read_weights)` the cell of ordered genotype `(a, b)` and sample `s`
is `prior[a,b,s] + Σ_{r : sample_label[r] = s} w_r · logsumexp(log½ + log_p1[r] + A[r,a],
log½ + log_p2[r] + A[r,b]) - T_s`, where `T_s` is the logsumexp over all `(a, b)` of the
un-normalised cells of `s`; `sample_total_LLs_[s] = T_s`, and the function returns `Σ_s T_s`. -/
theorem calc_log_sample_posteriors_closed_form (g : SeqStutterGenotyper ℝ)
    (read_weights : Nat → Int) (hn : 1 ≤ g.num_alleles_)
    (hlabel : ∀ r, r < g.num_reads_ → g.sample_label_ r < g.num_samples_) :
    (∀ a b s, a < g.num_alleles_ → b < g.num_alleles_ → s < g.num_samples_ →
      (calc_log_sample_posteriors ⟨Real.exp, Real.log⟩ g read_weights).2.log_sample_posteriors_
          (cell_index g a b s)
        = spec_unnormalized_cell ⟨Real.exp, Real.log⟩ g read_weights a b s
          - spec_sample_total ⟨Real.exp, Real.log⟩ g read_weights s)
    ∧ (∀ s, s < g.num_samples_ →
      (calc_log_sample_posteriors ⟨Real.exp, Real.log⟩ g read_weights).2.sample_total_LLs_ s
        = spec_sample_total ⟨Real.exp, Real.log⟩ g read_weights s)
    ∧ (calc_log_sample_posteriors ⟨Real.exp, Real.log⟩ g read_weights).1
        = ∑ s in Finset.range g.num_samples_,
            spec_sample_total ⟨Real.exp, Real.log⟩ g read_weights s := by
  have htot : ∀ s, s < g.num_samples_ →
      (calc_log_sample_posteriors ⟨Real.exp, Real.log⟩ g read_weights).2.sample_total_LLs_ s
        = spec_sample_total ⟨Real.exp, Real.log⟩ g read_weights s := by
    intro s hs
    have hsum : (∑ a in Finset.range g.num_alleles_, ∑ b in Finset.range g.num_alleles_,
        Real.exp ((unnormalized ⟨Real.exp, Real.log⟩ g read_weights).post (cell_index g a b s)))
        = ∑ a in Finset.range g.num_alleles_, ∑ b in Finset.range g.num_alleles_,
            Real.exp (spec_unnormalized_cell ⟨Real.exp, Real.log⟩ g read_weights a b s) :=
      Finset.sum_congr rfl (fun a ha => Finset.sum_congr rfl (fun b hb => by
        rw [unnormalized_eq_spec g read_weights hlabel (Finset.mem_range.mp ha)
          (Finset.mem_range.mp hb) hs]))
    rw [sample_total_LLs_eq g read_weights hn hs, hsum, spec_sample_total]
  refine ⟨fun a b s ha hb hs => ?_, htot, ?_⟩
  · rw [log_sample_posteriors_eq g read_weights ha hb hs, htot s hs,
      unnormalized_eq_spec g read_weights hlabel ha hb hs]
  · have h1 : (calc_log_sample_posteriors ⟨Real.exp, Real.log⟩ g read_weights).1
        = sum (calc_log_sample_posteriors ⟨Real.exp, Real.log⟩ g
            read_weights).2.sample_total_LLs_ 0 g.num_samples_ := rfl
    rw [h1, sum_eq]
    exact Finset.sum_congr rfl (fun s hs => htot s (Finset.mem_range.mp hs))

/-- Witness of C2 on `example_diploid` with read weights 2. -/
theorem calc_log_sample_posteriors_closed_form_witness :
    (∀ a b s, a < (example_diploid ℝ).num_alleles_ → b < (example_diploid ℝ).num_alleles_ →
      s < (example_diploid ℝ).num_samples_ →
      (calc_log_sample_posteriors ⟨Real.exp, Real.log⟩ (example_diploid ℝ)
          (fun _ => 2)).2.log_sample_posteriors_ (cell_index (example_diploid ℝ) a b s)
        = spec_unnormalized_cell ⟨Real.exp, Real.log⟩ (example_diploid ℝ) (fun _ => 2) a b s
          - spec_sample_total ⟨Real.exp, Real.log⟩ (example_diploid ℝ) (fun _ => 2) s)
    ∧ (∀ s, s < (example_diploid ℝ).num_samples_ →
      (calc_log_sample_posteriors ⟨Real.exp, Real.log⟩ (example_diploid ℝ)
          (fun _ => 2)).2.sample_total_LLs_ s
        = spec_sample_total ⟨Real.exp, Real.log⟩ (example_diploid ℝ) (fun _ => 2) s)
    ∧ (calc_log_sample_posteriors ⟨Real.exp, Real.log⟩ (example_diploid ℝ) (fun _ => 2)).1
        = ∑ s in Finset.range (example_diploid ℝ).num_samples_,
            spec_sample_total ⟨Real.exp, Real.log⟩ (example_diploid ℝ) (fun _ => 2) s :=
  calc_log_sample_posteriors_closed_form (example_diploid ℝ) (fun _ => 2) (by decide)
    (example_diploid_labels ℝ)

/-- Over the reals the default diploid prior cells are `log(2/(n(n+1)))` on the diagonal and
`log(1/(n(n+1)))` off it. -/
theorem init_log_sample_priors_diploid_real (g : SeqStutterGenotyper ℝ)
    (hp : g.log_allele_priors_ = none) (hd : g.haploid_ = false) (ptr : Nat → ℝ) {a b s : Nat}
    (ha : a < g.num_alleles_) (hb : b < g.num_alleles_) (hs : s < g.num_samples_) :
    init_log_sample_priors ⟨Real.exp, Real.log⟩ g ptr (cell_index g a b s)
      = if a = b then Real.log (2 / ((g.num_alleles_ : ℝ) * (g.num_alleles_ + 1)))
        else Real.log (1 / ((g.num_alleles_ : ℝ) * (g.num_alleles_ + 1))) := by
  have hn0 : (0 : ℝ) < g.num_alleles_ := by exact_mod_cast (by omega : 0 < g.num_alleles_)
  have hn1 : (0 : ℝ) < (g.num_alleles_ : ℝ) + 1 := by positivity
  rw [init_log_sample_priors_diploid _ g hp hd ptr ha hb hs]
  simp only [int_log, Nat.cast_add, Nat.cast_one, Nat.cast_ofNat]
  rw [Real.log_div (by norm_num) (by positivity), Real.log_div (by norm_num) (by positivity),
    Real.log_mul hn0.ne' hn1.ne', Real.log_one]
  split_ifs <;> ring

/-- The default diploid prior of a sample sums to one. -/
theorem init_log_sample_priors_diploid_sum (g : SeqStutterGenotyper ℝ)
    (hp : g.log_allele_priors_ = none) (hd : g.haploid_ = false) (hn : 1 ≤ g.num_alleles_)
    (ptr : Nat → ℝ) (s : Nat) (hs : s < g.num_samples_) :
    (∑ a in Finset.range g.num_alleles_, ∑ b in Finset.range g.num_alleles_,
      Real.exp (init_log_sample_priors ⟨Real.exp, Real.log⟩ g ptr (cell_index g a b s))) = 1 := by
  have hn0 : (0 : ℝ) < g.num_alleles_ := by exact_mod_cast hn
  have hn1 : (0 : ℝ) < (g.num_alleles_ : ℝ) + 1 := by positivity
  have hexp : ∀ a b, a < g.num_alleles_ → b < g.num_alleles_ →
      Real.exp (init_log_sample_priors ⟨Real.exp, Real.log⟩ g ptr (cell_index g a b s))
        = 1 / ((g.num_alleles_ : ℝ) * (g.num_alleles_ + 1))
          + if b = a then 1 / ((g.num_alleles_ : ℝ) * (g.num_alleles_ + 1)) else 0 := by
    intro a b ha hb
    rw [init_log_sample_priors_diploid_real g hp hd ptr ha hb hs]
    by_cases h : a = b
    · rw [if_pos h, if_pos h.symm, Real.exp_log (by positivity)]
      ring
    · rw [if_neg h, if_neg (fun e => h e.symm), Real.exp_log (by positivity), add_zero]
  have h1 : ∀ a ∈ Finset.range g.num_alleles_,
      (∑ b in Finset.range g.num_alleles_,
        Real.exp (init_log_sample_priors ⟨Real.exp, Real.log⟩ g ptr (cell_index g a b s)))
        = ((g.num_alleles_ : ℝ) + 1) * (1 / ((g.num_alleles_ : ℝ) * (g.num_alleles_ + 1))) := by
    intro a ha
    rw [Finset.sum_congr rfl (fun b hb => hexp a b (Finset.mem_range.mp ha)
      (Finset.mem_range.mp hb)), Finset.sum_add_distrib, Finset.sum_ite_eq', if_pos ha]
    simp only [Finset.sum_const, Finset.card_range, nsmul_eq_mul]
    ring
  rw [Finset.sum_congr rfl h1]
  simp only [Finset.sum_const, Finset.card_range, nsmul_eq_mul]
  field_simp

/-- Claim C4: with no external priors and a diploid genotyper, for `n = num_alleles ≥ 1`
`init_log_sample_priors` writes `log(1/(n(n+1)))` into every cell with `a ≠ b` and
`log(2/(n(n+1)))` into every cell with `a = b`, for every sample; every unordered genotype has
total prior mass `2/(n(n+1))` and the prior of each sample sums to 1. -/
theorem init_log_sample_priors_diploid_default (g : SeqStutterGenotyper ℝ)
    (hp : g.log_allele_priors_ = none) (hd : g.haploid_ = false) (hn : 1 ≤ g.num_alleles_)
    (ptr : Nat → ℝ) :
    (∀ a b s, a < g.num_alleles_ → b < g.num_alleles_ → s < g.num_samples_ →
      init_log_sample_priors ⟨Real.exp, Real.log⟩ g ptr (cell_index g a b s)
        = if a = b then Real.log (2 / ((g.num_alleles_ : ℝ) * (g.num_alleles_ + 1)))
          else Real.log (1 / ((g.num_alleles_ : ℝ) * (g.num_alleles_ + 1))))
    ∧ (∀ a b s, a < g.num_alleles_ → b < g.num_alleles_ → s < g.num_samples_ →
      Real.exp (init_log_sample_priors ⟨Real.exp, Real.log⟩ g ptr (cell_index g a b s))
        + (if a = b then 0
           else Real.exp (init_log_sample_priors ⟨Real.exp, Real.log⟩ g ptr (cell_index g b a s)))
        = 2 / ((g.num_alleles_ : ℝ) * (g.num_alleles_ + 1)))
    ∧ (∀ s, s < g.num_samples_ →
      (∑ a in Finset.range g.num_alleles_, ∑ b in Finset.range g.num_alleles_,
        Real.exp (init_log_sample_priors ⟨Real.exp, Real.log⟩ g ptr (cell_index g a b s)))
        = 1) := by
  have hn0 : (0 : ℝ) < g.num_alleles_ := by exact_mod_cast hn
  have hn1 : (0 : ℝ) < (g.num_alleles_ : ℝ) + 1 := by positivity
  have hcell := fun a b s (ha : a < g.num_alleles_) (hb : b < g.num_alleles_)
    (hs : s < g.num_samples_) => init_log_sample_priors_diploid_real g hp hd ptr ha hb hs
  refine ⟨hcell, fun a b s ha hb hs => ?_,
    fun s hs => init_log_sample_priors_diploid_sum g hp hd hn ptr s hs⟩
  rw [hcell a b s ha hb hs, hcell b a s hb ha hs]
  by_cases h : a = b
  · rw [if_pos h, if_pos h, Real.exp_log (by positivity), add_zero]
  · rw [if_neg h, if_neg h, if_neg (fun e => h e.symm), Real.exp_log (by positivity)]
    ring

/-- Witness of C4 on `example_diploid`. -/
theorem init_log_sample_priors_diploid_default_witness :
    (∀ a b s, a < (example_diploid ℝ).num_alleles_ → b < (example_diploid ℝ).num_alleles_ →
      s < (example_diploid ℝ).num_samples_ →
      init_log_sample_priors ⟨Real.exp, Real.log⟩ (example_diploid ℝ) (fun _ => 0)
          (cell_index (example_diploid ℝ) a b s)
        = if a = b then
            Real.log (2 / (((example_diploid ℝ).num_alleles_ : ℝ)
              * ((example_diploid ℝ).num_alleles_ + 1)))
          else Real.log (1 / (((example_diploid ℝ).num_alleles_ : ℝ)
              * ((example_diploid ℝ).num_alleles_ + 1))))
    ∧ (∑ a in Finset.range (example_diploid ℝ).num_alleles_,
        ∑ b in Finset.range (example_diploid ℝ).num_alleles_,
          Real.exp (init_log_sample_priors ⟨Real.exp, Real.log⟩ (example_diploid ℝ) (fun _ => 0)
            (cell_index (example_diploid ℝ) a b 0))) = 1 :=
  ⟨(init_log_sample_priors_diploid_default (example_diploid ℝ) rfl rfl (by decide)
      (fun _ => 0)).1,
    (init_log_sample_priors_diploid_default (example_diploid ℝ) rfl rfl (by decide)
      (fun _ => 0)).2.2 0 (by decide)⟩

/-- Claim C5: with no external priors and a haploid genotyper, `init_log_sample_priors` writes
the sentinel `-DBL_MAX/2` into every off-diagonal cell and `log(1/n)` into every diagonal cell,
for every sample. -/
theorem init_log_sample_priors_haploid_default (g : SeqStutterGenotyper ℝ)
    (hp : g.log_allele_priors_ = none) (hd : g.haploid_ = true) (ptr : Nat → ℝ) (a b s : Nat)
    (ha : a < g.num_alleles_) (hb : b < g.num_alleles_) (hs : s < g.num_samples_) :
    init_log_sample_priors ⟨Real.exp, Real.log⟩ g ptr (cell_index g a b s)
      = if a = b then Real.log (1 / (g.num_alleles_ : ℝ)) else -DBL_MAX / 2 := by
  rw [init_log_sample_priors_haploid _ g hp hd ptr ha hb hs]
  simp only [int_log, one_div, Real.log_inv]

/-- Witness of C5 on `example_haploid`, cell (2, 1) of sample 0. -/
theorem init_log_sample_priors_haploid_default_witness :
    init_log_sample_priors ⟨Real.exp, Real.log⟩ (example_haploid ℝ) (fun _ => 0)
        (cell_index (example_haploid ℝ) 2 1 0)
      = if 2 = 1 then Real.log (1 / ((example_haploid ℝ).num_alleles_ : ℝ)) else -DBL_MAX / 2 :=
  init_log_sample_priors_haploid_default (example_haploid ℝ) rfl rfl (fun _ => 0) 2 1 0
    (by decide) (by decide) (by decide)

theorem toNat_cell_index (g : SeqStutterGenotyper ℝ) (a b s : Nat) :
    ((b : Int) * g.num_alleles_ * g.num_samples_ + (a : Int) * g.num_samples_ + s).toNat
      = cell_index g b a s := by
  unfold cell_index
  have : ((b : Int) * g.num_alleles_ * g.num_samples_ + (a : Int) * g.num_samples_ + s)
      = ((b * g.num_alleles_ * g.num_samples_ + a * g.num_samples_ + s : Nat) : Int) := by
    push_cast
    ring
  rw [this, Int.toNat_natCast]

/-- Claim C7, as the code has it: for a sample `s` whose MAP genotype is `(a, b)`, the unphased
log posterior of `write_vcf_record` is `logsumexp(P[a,b,s], P[b,a,s])` and the phase probability
`exp(P[a,b,s] - unphased)` when `a ≠ b`; when `a = b` the unphased log posterior is `P[a,a,s]`
and the phase probability is 1. -/
theorem write_vcf_record_phasing_entries (g : SeqStutterGenotyper ℝ) (s a b : Nat)
    (hs : s < g.num_samples_)
    (hgt : get_optimal_genotypes g g.log_sample_posteriors_ s = ((a : Int), (b : Int))) :
    (write_vcf_record_phasing ⟨Real.exp, Real.log⟩ g).1[s]?
        = some (if a = b then g.log_sample_posteriors_ (cell_index g a a s)
            else Real.log (Real.exp (g.log_sample_posteriors_ (cell_index g a b s))
              + Real.exp (g.log_sample_posteriors_ (cell_index g b a s))))
    ∧ (write_vcf_record_phasing ⟨Real.exp, Real.log⟩ g).2[s]?
        = some (if a = b then 1
            else Real.exp (g.log_sample_posteriors_ (cell_index g a b s)
              - Real.log (Real.exp (g.log_sample_posteriors_ (cell_index g a b s))
                + Real.exp (g.log_sample_posteriors_ (cell_index g b a s))))) := by
  have hbest := log_phased_posteriors_eq g g.log_sample_posteriors_ hs hgt
  have hgt' : (optimal_genotypes_loop g g.log_sample_posteriors_).gts s
      = ((a : Int), (b : Int)) := hgt
  unfold write_vcf_record_phasing
  rw [forLoop_push_back g.num_samples_ _
    (fun sample_index =>
      if ((optimal_genotypes_loop g g.log_sample_posteriors_).gts sample_index).1
          = ((optimal_genotypes_loop g g.log_sample_posteriors_).gts sample_index).2 then
        (optimal_genotypes_loop g g.log_sample_posteriors_).log_phased_posteriors sample_index
      else log_sum_exp ⟨Real.exp, Real.log⟩
        ((optimal_genotypes_loop g g.log_sample_posteriors_).log_phased_posteriors sample_index)
        (g.log_sample_posteriors_
          (((optimal_genotypes_loop g g.log_sample_posteriors_).gts sample_index).2
              * g.num_alleles_ * g.num_samples_
            + ((optimal_genotypes_loop g g.log_sample_posteriors_).gts sample_index).1
              * g.num_samples_ + sample_index).toNat))
    (fun sample_index =>
      if ((optimal_genotypes_loop g g.log_sample_posteriors_).gts sample_index).1
          = ((optimal_genotypes_loop g g.log_sample_posteriors_).gts sample_index).2 then 1
      else Real.exp
        ((optimal_genotypes_loop g g.log_sample_posteriors_).log_phased_posteriors sample_index
          - log_sum_exp ⟨Real.exp, Real.log⟩
            ((optimal_genotypes_loop g g.log_sample_posteriors_).log_phased_posteriors
              sample_index)
            (g.log_sample_posteriors_
              (((optimal_genotypes_loop g g.log_sample_posteriors_).gts sample_index).2
                  * g.num_alleles_ * g.num_samples_
                + ((optimal_genotypes_loop g g.log_sample_posteriors_).gts sample_index).1
                  * g.num_samples_ + sample_index).toNat)))
    (fun i out => by dsimp only; split_ifs <;> rfl)]
  simp only [List.getElem?_map, List.getElem?_range hs, Option.map_some', hgt', hbest,
    toNat_cell_index, log_sum_exp_real, Nat.cast_inj]
  by_cases h : a = b
  · subst h
    simp
  · simp [h]

/-- Witness of C7 as amended: a heterozygous MAP genotype. -/
theorem write_vcf_record_phasing_entries_witness :
    (write_vcf_record_phasing ⟨Real.exp, Real.log⟩
        { example_single_allele ℝ with
          num_alleles_ := 2
          log_sample_posteriors_ := fun i => if i = 1 then -1 else -2 }).1[0]?
      = some (Real.log (Real.exp (-1) + Real.exp (-2))) := by
  have h := (write_vcf_record_phasing_entries
    { example_single_allele ℝ with
      num_alleles_ := 2
      log_sample_posteriors_ := fun i => if i = 1 then -1 else -2 } 0 0 1 (by decide) (by
        norm_num [get_optimal_genotypes, optimal_genotypes_loop, forLoop, store,
          example_single_allele, DBL_MAX])).1
  simpa [cell_index, example_single_allele] using h

/-- Counterexample to C7 as stated: on `example_single_allele` the MAP genotype of sample 0 is
the homozygous `(0, 0)` and the unphased log posterior written by `write_vcf_record` is
`P[0,0,0] = 0`, not `logsumexp(P[0,0,0], P[0,0,0]) = log 2`. -/
theorem write_vcf_record_phasing_homozygous_counterexample :
    get_optimal_genotypes (example_single_allele ℝ)
        (example_single_allele ℝ).log_sample_posteriors_ 0 = (0, 0)
    ∧ (write_vcf_record_phasing ⟨Real.exp, Real.log⟩ (example_single_allele ℝ)).1[0]? = some 0
    ∧ (write_vcf_record_phasing ⟨Real.exp, Real.log⟩ (example_single_allele ℝ)).1[0]?
      ≠ some (Real.log
          (Real.exp ((example_single_allele ℝ).log_sample_posteriors_
              (cell_index (example_single_allele ℝ) 0 0 0))
            + Real.exp ((example_single_allele ℝ).log_sample_posteriors_
              (cell_index (example_single_allele ℝ) 0 0 0)))) := by
  have hgt : get_optimal_genotypes (example_single_allele ℝ)
      (example_single_allele ℝ).log_sample_posteriors_ 0 = (0, 0) := by
    norm_num [get_optimal_genotypes, optimal_genotypes_loop, forLoop, store,
      example_single_allele, DBL_MAX]
  have hval : (write_vcf_record_phasing ⟨Real.exp, Real.log⟩ (example_single_allele ℝ)).1[0]?
      = some 0 := by
    have hgt' : (optimal_genotypes_loop (example_single_allele ℝ)
        (example_single_allele ℝ).log_sample_posteriors_).gts 0 = (0, 0) := hgt
    have hbest := log_phased_posteriors_eq (example_single_allele ℝ)
      (example_single_allele ℝ).log_sample_posteriors_ (s := 0) (a := 0) (b := 0)
      (by decide) (by simpa using hgt')
    simp only [write_vcf_record_phasing, forLoop, hgt', hbest]
    simp [example_single_allele]
  refine ⟨hgt, hval, ?_⟩
  rw [hval]
  simp only [example_single_allele, Real.exp_zero, ne_eq, Option.some.injEq]
  have : (0 : ℝ) < Real.log (1 + 1) := Real.log_pos (by norm_num)
  exact fun h => absurd h this.ne

/-! ### Haploid mode -/

theorem half_DBL_MAX_gt : (10 : ℝ) ^ 100 + 2 ^ 33 < DBL_MAX / 2 := by
  unfold DBL_MAX
  norm_num

/-- If every un-normalised cell of the sample is at most `c`, the normalising constant is at
most `c + log (n * n)`. -/
theorem total_le_of_cells_le (g : SeqStutterGenotyper ℝ) (read_weights : Nat → Int)
    (hn : 1 ≤ g.num_alleles_) {s : Nat} (hs : s < g.num_samples_) (c : ℝ)
    (hc : ∀ a b, a < g.num_alleles_ → b < g.num_alleles_ →
      (unnormalized ⟨Real.exp, Real.log⟩ g read_weights).post (cell_index g a b s) ≤ c) :
    (calc_log_sample_posteriors ⟨Real.exp, Real.log⟩ g read_weights).2.sample_total_LLs_ s
      ≤ c + Real.log ((g.num_alleles_ : ℝ) * g.num_alleles_) := by
  have hn0 : (0 : ℝ) < g.num_alleles_ := by exact_mod_cast hn
  rw [sample_total_LLs_eq g read_weights hn hs, ← Real.log_exp c,
    ← Real.log_mul (Real.exp_pos c).ne' (by positivity)]
  apply Real.log_le_log (sum_exp_pos g hn _)
  have h1 : ∀ a ∈ Finset.range g.num_alleles_,
      (∑ b in Finset.range g.num_alleles_,
        Real.exp ((unnormalized ⟨Real.exp, Real.log⟩ g read_weights).post (cell_index g a b s)))
        ≤ ∑ _b in Finset.range g.num_alleles_, Real.exp c :=
    fun a ha => Finset.sum_le_sum (fun b hb => Real.exp_le_exp.mpr
      (hc a b (Finset.mem_range.mp ha) (Finset.mem_range.mp hb)))
  refine (Finset.sum_le_sum h1).trans (le_of_eq ?_)
  simp only [Finset.sum_const, Finset.card_range, nsmul_eq_mul]
  ring

theorem le_log_exp_add (x y : ℝ) : x ≤ Real.log (Real.exp x + Real.exp y) := by
  rw [Real.le_log_iff_exp_le (by positivity)]
  linarith [Real.exp_pos y]

theorem log_half_nonpos : Real.log (1 / 2) ≤ 0 :=
  Real.log_nonpos (by norm_num) (by norm_num)

theorem le_log_add_exp (x y : ℝ) : y ≤ Real.log (Real.exp x + Real.exp y) := by
  rw [add_comm]
  exact le_log_exp_add y x

theorem log_exp_add_le (x y u : ℝ) (hx : x ≤ u) (hy : y ≤ u) :
    Real.log (Real.exp x + Real.exp y) ≤ u + Real.log 2 := by
  rw [← Real.log_exp u, ← Real.log_mul (Real.exp_pos u).ne' (by norm_num)]
  apply Real.log_le_log (by positivity)
  have h1 := Real.exp_le_exp.mpr hx
  have h2 := Real.exp_le_exp.mpr hy
  linarith

/-- The un-normalised cells of `example_haploid_extreme`: both off-diagonal cells are at least
`-DBL_MAX/2 + 4 log½`, both diagonal cells at most `4 log½ + log 2 - DBL_MAX`, and every cell is
at most `-DBL_MAX/2 + 4 log½ + 2 log 2`. -/
theorem example_haploid_extreme_cells (a b : Nat) (ha : a < 2) (hb : b < 2) :
    (a ≠ b → -DBL_MAX / 2 + 4 * Real.log (1 / 2)
      ≤ (unnormalized ⟨Real.exp, Real.log⟩ (example_haploid_extreme ⟨Real.exp, Real.log⟩)
          (fun _ => 1)).post
          (cell_index (example_haploid_extreme ⟨Real.exp, Real.log⟩) a b 0))
    ∧ (a = b →
      (unnormalized ⟨Real.exp, Real.log⟩ (example_haploid_extreme ⟨Real.exp, Real.log⟩)
          (fun _ => 1)).post
          (cell_index (example_haploid_extreme ⟨Real.exp, Real.log⟩) a b 0)
        ≤ 4 * Real.log (1 / 2) + Real.log 2 - DBL_MAX)
    ∧ (unnormalized ⟨Real.exp, Real.log⟩ (example_haploid_extreme ⟨Real.exp, Real.log⟩)
          (fun _ => 1)).post
          (cell_index (example_haploid_extreme ⟨Real.exp, Real.log⟩) a b 0)
        ≤ -DBL_MAX / 2 + 4 * Real.log (1 / 2) + 2 * Real.log 2 := by
  have hK := half_DBL_MAX_gt
  have hK' : -DBL_MAX / 2 = -((DBL_MAX : ℝ) / 2) := by ring
  have hD : (DBL_MAX : ℝ) = 2 * (DBL_MAX / 2) := by ring
  have hD0 : (0 : ℝ) ≤ DBL_MAX := by
    rw [hD]
    linarith [(by positivity : (0 : ℝ) < 10 ^ 100 + 2 ^ 33)]
  have hlog2 : (0 : ℝ) ≤ Real.log 2 := Real.log_nonneg (by norm_num)
  have hlog2' : Real.log 2 ≤ 1 := by
    have := Real.log_le_sub_one_of_pos (by norm_num : (0 : ℝ) < 2)
    linarith
  have hprior := init_log_sample_priors_haploid ⟨Real.exp, Real.log⟩
    (example_haploid_extreme ⟨Real.exp, Real.log⟩) rfl rfl
    (example_haploid_extreme ⟨Real.exp, Real.log⟩).log_sample_posteriors_ (a := a) (b := b)
    (s := 0) ha hb (by decide)
  rw [unnormalized_eq_spec _ _ (fun _ _ => by simp [example_haploid_extreme]) ha hb
    (by decide), spec_unnormalized_cell, hprior]
  simp only [example_haploid_extreme, Finset.sum_range_succ, Finset.sum_range_zero, int_log,
    if_true, Int.cast_one, one_mul, zero_add, Nat.cast_ofNat, LOG_ONE_HALF]
  have hL : Real.log (1 / 2) + Real.log (1 / 2) + -DBL_MAX
      ≤ Real.log (1 / 2) + Real.log (1 / 2) := by linarith
  have hlo1 := le_log_exp_add (Real.log (1 / 2) + Real.log (1 / 2))
    (Real.log (1 / 2) + Real.log (1 / 2) + -DBL_MAX)
  have hlo2 := le_log_add_exp (Real.log (1 / 2) + Real.log (1 / 2) + -DBL_MAX)
    (Real.log (1 / 2) + Real.log (1 / 2))
  have h00 := log_exp_add_le (Real.log (1 / 2) + Real.log (1 / 2))
    (Real.log (1 / 2) + Real.log (1 / 2)) _ (le_refl _) (le_refl _)
  have h0K := log_exp_add_le (Real.log (1 / 2) + Real.log (1 / 2))
    (Real.log (1 / 2) + Real.log (1 / 2) + -DBL_MAX) _ (le_refl _) hL
  have hK0 := log_exp_add_le (Real.log (1 / 2) + Real.log (1 / 2) + -DBL_MAX)
    (Real.log (1 / 2) + Real.log (1 / 2)) _ hL (le_refl _)
  have hKK := log_exp_add_le (Real.log (1 / 2) + Real.log (1 / 2) + -DBL_MAX)
    (Real.log (1 / 2) + Real.log (1 / 2) + -DBL_MAX) _ (le_refl _) (le_refl _)
  interval_cases a <;> interval_cases b <;> norm_num <;>
    refine ⟨?_, ?_⟩ <;> linarith

/-- Claim C8, at the failing input: `example_haploid_extreme` is haploid with default priors and
finite, non-positive alignment log-probabilities and phase log-priors, yet after
`calc_log_sample_posteriors()` the off-diagonal cell `P[0,1,0]` is not below `-1e100`, and
`get_optimal_genotypes` returns a pair with `a ≠ b`, which the assertion of line 1115
(`gt_iter->first == gt_iter->second` for a haploid genotyper) excludes. -/
theorem haploid_sentinel_heterozygous_map :
    (example_haploid_extreme (⟨Real.exp, Real.log⟩ : MathOps ℝ)).haploid_ = true
    ∧ (example_haploid_extreme (⟨Real.exp, Real.log⟩ : MathOps ℝ)).log_allele_priors_ = none
    ∧ (∀ i, (example_haploid_extreme (⟨Real.exp, Real.log⟩ : MathOps ℝ)).log_aln_probs_ i ≤ 0)
    ∧ (∀ r, (example_haploid_extreme (⟨Real.exp, Real.log⟩ : MathOps ℝ)).log_p1_ r ≤ 0
        ∧ (example_haploid_extreme (⟨Real.exp, Real.log⟩ : MathOps ℝ)).log_p2_ r ≤ 0)
    ∧ ¬ ((calc_log_sample_posteriors_default ⟨Real.exp, Real.log⟩
          (example_haploid_extreme ⟨Real.exp, Real.log⟩)).2.log_sample_posteriors_
          (cell_index (example_haploid_extreme (⟨Real.exp, Real.log⟩ : MathOps ℝ)) 0 1 0)
        < -(10 ^ 100))
    ∧ ∃ a b : Nat, a ≠ b
      ∧ get_optimal_genotypes
          (calc_log_sample_posteriors_default ⟨Real.exp, Real.log⟩
            (example_haploid_extreme ⟨Real.exp, Real.log⟩)).2
          (calc_log_sample_posteriors_default ⟨Real.exp, Real.log⟩
            (example_haploid_extreme ⟨Real.exp, Real.log⟩)).2.log_sample_posteriors_ 0
        = ((a : Int), (b : Int)) := by
  have hK := half_DBL_MAX_gt
  have hK' : -DBL_MAX / 2 = -((DBL_MAX : ℝ) / 2) := by ring
  have hD : (DBL_MAX : ℝ) = 2 * (DBL_MAX / 2) := by ring
  have hpos : (0 : ℝ) < 10 ^ 100 + 2 ^ 33 := by positivity
  have hpos' : (0 : ℝ) < 10 ^ 100 := by positivity
  have hlog2 : Real.log 2 ≤ 1 := by
    have := Real.log_le_sub_one_of_pos (by norm_num : (0 : ℝ) < 2)
    linarith
  have hlog2' : (0 : ℝ) ≤ Real.log 2 := Real.log_nonneg (by norm_num)
  have hlog4 : Real.log
      (((example_haploid_extreme (⟨Real.exp, Real.log⟩ : MathOps ℝ)).num_alleles_ : ℝ)
        * ((example_haploid_extreme (⟨Real.exp, Real.log⟩ : MathOps ℝ)).num_alleles_ : ℝ))
      ≤ 3 := by
    have e : ((example_haploid_extreme (⟨Real.exp, Real.log⟩ : MathOps ℝ)).num_alleles_ : ℝ)
        = 2 := by simp [example_haploid_extreme]
    have := Real.log_le_sub_one_of_pos (by norm_num : (0 : ℝ) < 2 * 2)
    rw [e]
    linarith
  have hT := total_le_of_cells_le (example_haploid_extreme ⟨Real.exp, Real.log⟩) (fun _ => 1)
    (by decide) (s := 0) (by decide) (-DBL_MAX / 2 + 4 * Real.log (1 / 2) + 2 * Real.log 2)
    (fun a b ha hb => (example_haploid_extreme_cells a b ha hb).2.2)
  have hT' : (calc_log_sample_posteriors ⟨Real.exp, Real.log⟩
      (example_haploid_extreme ⟨Real.exp, Real.log⟩) (fun _ => 1)).2.sample_total_LLs_ 0
      ≤ -DBL_MAX / 2 + 4 * Real.log (1 / 2) + 2 * Real.log 2 + 3 := by linarith
  have hP : ∀ a b, a < 2 → b < 2 →
      (calc_log_sample_posteriors_default ⟨Real.exp, Real.log⟩
          (example_haploid_extreme ⟨Real.exp, Real.log⟩)).2.log_sample_posteriors_
          (cell_index (example_haploid_extreme (⟨Real.exp, Real.log⟩ : MathOps ℝ)) a b 0)
        = (unnormalized ⟨Real.exp, Real.log⟩ (example_haploid_extreme ⟨Real.exp, Real.log⟩)
            (fun _ => 1)).post
            (cell_index (example_haploid_extreme ⟨Real.exp, Real.log⟩) a b 0)
          - (calc_log_sample_posteriors ⟨Real.exp, Real.log⟩
            (example_haploid_extreme ⟨Real.exp, Real.log⟩) (fun _ => 1)).2.sample_total_LLs_ 0 :=
    fun a b ha hb => log_sample_posteriors_eq (example_haploid_extreme ⟨Real.exp, Real.log⟩)
      (fun _ => 1) ha hb (by decide)
  have h01 := (example_haploid_extreme_cells 0 1 (by decide) (by decide)).1 (by decide)
  have hP01 : -5 ≤ (calc_log_sample_posteriors_default ⟨Real.exp, Real.log⟩
      (example_haploid_extreme ⟨Real.exp, Real.log⟩)).2.log_sample_posteriors_
      (cell_index (example_haploid_extreme (⟨Real.exp, Real.log⟩ : MathOps ℝ)) 0 1 0) := by
    rw [hP 0 1 (by decide) (by decide)]
    linarith
  refine ⟨rfl, rfl, fun i => ?_, fun r => ⟨log_half_nonpos, log_half_nonpos⟩,
    fun h => by linarith, ?_⟩
  · simp only [example_haploid_extreme]
    split_ifs
    · exact le_refl _
    · linarith
  · have hall : ∀ a b, a < 2 → lex_before 2 0 a b := fun a b ha => Or.inl ha
    rcases optimal_genotypes_loop_invariant
      (calc_log_sample_posteriors_default ⟨Real.exp, Real.log⟩
        (example_haploid_extreme ⟨Real.exp, Real.log⟩)).2
      (calc_log_sample_posteriors_default ⟨Real.exp, Real.log⟩
        (example_haploid_extreme ⟨Real.exp, Real.log⟩)).2.log_sample_posteriors_ 0
      (by decide) with ⟨_, _, h3⟩ | ⟨a, b, hb, h2, h3, _, _, h6⟩
    · have h := h3 0 1 (by decide) (hall 0 1 (by decide))
      have hc : cell_index (calc_log_sample_posteriors_default ⟨Real.exp, Real.log⟩
          (example_haploid_extreme ⟨Real.exp, Real.log⟩)).2 0 1 0
          = cell_index (example_haploid_extreme (⟨Real.exp, Real.log⟩ : MathOps ℝ)) 0 1 0 := rfl
      rw [hc] at h
      exfalso
      linarith
    · have ha : a < 2 := by
        rcases h2 with h | ⟨_, h⟩
        · exact h
        · exact absurd h (Nat.not_lt_zero _)
      have hb' : b < 2 := hb
      refine ⟨a, b, fun hab => ?_, h3⟩
      have h := (h6 0 1 (by decide) (hall 0 1 (by decide))).1
      have hc1 : cell_index (calc_log_sample_posteriors_default ⟨Real.exp, Real.log⟩
          (example_haploid_extreme ⟨Real.exp, Real.log⟩)).2 0 1 0
          = cell_index (example_haploid_extreme (⟨Real.exp, Real.log⟩ : MathOps ℝ)) 0 1 0 := rfl
      have hc2 : cell_index (calc_log_sample_posteriors_default ⟨Real.exp, Real.log⟩
          (example_haploid_extreme ⟨Real.exp, Real.log⟩)).2 a b 0
          = cell_index (example_haploid_extreme (⟨Real.exp, Real.log⟩ : MathOps ℝ)) a b 0 := rfl
      rw [hc1, hc2, hP 0 1 (by decide) (by decide), hP a b ha hb'] at h
      have hdiag := (example_haploid_extreme_cells a b ha hb').2.1 hab
      linarith

/-! ### Samples without reads, uninformative reads -/

/-- The posterior cell in terms of the un-normalised cells of its sample. -/
theorem log_sample_posteriors_eq_sub_log (g : SeqStutterGenotyper ℝ) (read_weights : Nat → Int)
    {a b s : Nat} (ha : a < g.num_alleles_) (hb : b < g.num_alleles_)
    (hs : s < g.num_samples_) :
    (calc_log_sample_posteriors ⟨Real.exp, Real.log⟩ g read_weights).2.log_sample_posteriors_
        (cell_index g a b s)
      = (unnormalized ⟨Real.exp, Real.log⟩ g read_weights).post (cell_index g a b s)
        - Real.log (∑ a' in Finset.range g.num_alleles_, ∑ b' in Finset.range g.num_alleles_,
            Real.exp ((unnormalized ⟨Real.exp, Real.log⟩ g read_weights).post
              (cell_index g a' b' s))) := by
  rw [log_sample_posteriors_eq g read_weights ha hb hs,
    sample_total_LLs_eq g read_weights (by omega) hs]

/-- Claim C9, as the code has it: for a sample `s` to which no read is assigned, after
`calc_log_sample_posteriors` every cell `P[a,b,s]` is the prior cell written by
`init_log_sample_priors` minus the logsumexp of the prior cells of `s`; with the default diploid
prior, which is normalised, `P[a,b,s]` equals the prior cell. -/
theorem posterior_of_sample_without_reads (g : SeqStutterGenotyper ℝ) (read_weights : Nat → Int)
    (hlabel : ∀ r, r < g.num_reads_ → g.sample_label_ r < g.num_samples_) (s : Nat)
    (hs : s < g.num_samples_) (hno : ∀ r, r < g.num_reads_ → g.sample_label_ r ≠ s) :
    (∀ a b, a < g.num_alleles_ → b < g.num_alleles_ →
      (calc_log_sample_posteriors ⟨Real.exp, Real.log⟩ g read_weights).2.log_sample_posteriors_
          (cell_index g a b s)
        = init_log_sample_priors ⟨Real.exp, Real.log⟩ g g.log_sample_posteriors_
            (cell_index g a b s)
          - Real.log (∑ a' in Finset.range g.num_alleles_,
              ∑ b' in Finset.range g.num_alleles_,
                Real.exp (init_log_sample_priors ⟨Real.exp, Real.log⟩ g g.log_sample_posteriors_
                  (cell_index g a' b' s))))
    ∧ (g.log_allele_priors_ = none → g.haploid_ = false →
      ∀ a b, a < g.num_alleles_ → b < g.num_alleles_ →
        (calc_log_sample_posteriors ⟨Real.exp, Real.log⟩ g read_weights).2.log_sample_posteriors_
            (cell_index g a b s)
          = init_log_sample_priors ⟨Real.exp, Real.log⟩ g g.log_sample_posteriors_
              (cell_index g a b s)) := by
  have hX : ∀ a b, a < g.num_alleles_ → b < g.num_alleles_ →
      (unnormalized ⟨Real.exp, Real.log⟩ g read_weights).post (cell_index g a b s)
        = init_log_sample_priors ⟨Real.exp, Real.log⟩ g g.log_sample_posteriors_
            (cell_index g a b s) := by
    intro a b ha hb
    rw [unnormalized_post _ g read_weights hlabel ha hb hs, read_sum,
      Finset.sum_eq_zero (fun r hr => if_neg (hno r (Finset.mem_range.mp hr))), add_zero]
  have hgen : ∀ a b, a < g.num_alleles_ → b < g.num_alleles_ →
      (calc_log_sample_posteriors ⟨Real.exp, Real.log⟩ g read_weights).2.log_sample_posteriors_
          (cell_index g a b s)
        = init_log_sample_priors ⟨Real.exp, Real.log⟩ g g.log_sample_posteriors_
            (cell_index g a b s)
          - Real.log (∑ a' in Finset.range g.num_alleles_,
              ∑ b' in Finset.range g.num_alleles_,
                Real.exp (init_log_sample_priors ⟨Real.exp, Real.log⟩ g g.log_sample_posteriors_
                  (cell_index g a' b' s))) := by
    intro a b ha hb
    rw [log_sample_posteriors_eq_sub_log g read_weights ha hb hs, hX a b ha hb,
      Finset.sum_congr rfl (fun a' ha' => Finset.sum_congr rfl (fun b' hb' => by
        rw [hX a' b' (Finset.mem_range.mp ha') (Finset.mem_range.mp hb')]))]
  refine ⟨hgen, fun hp hd a b ha hb => ?_⟩
  rw [hgen a b ha hb, (init_log_sample_priors_diploid_sum g hp hd (by omega)
    g.log_sample_posteriors_ s hs), Real.log_one, sub_zero]

/-- Witness of C9 as amended: sample 1 of `example_diploid` with its only read relabelled to
sample 0. -/
theorem posterior_of_sample_without_reads_witness :
    (calc_log_sample_posteriors ⟨Real.exp, Real.log⟩
        { example_diploid ℝ with sample_label_ := fun _ => 0 }
        (fun _ => 1)).2.log_sample_posteriors_
        (cell_index { example_diploid ℝ with sample_label_ := fun _ => 0 } 0 1 1)
      = init_log_sample_priors ⟨Real.exp, Real.log⟩
          { example_diploid ℝ with sample_label_ := fun _ => 0 } (fun _ => 0)
          (cell_index { example_diploid ℝ with sample_label_ := fun _ => 0 } 0 1 1) :=
  (posterior_of_sample_without_reads { example_diploid ℝ with sample_label_ := fun _ => 0 }
    (fun _ => 1) (fun _ _ => by simp [example_diploid]) 1 (by decide)
    (fun _ _ => by simp)).2 rfl rfl 0 1 (by decide) (by decide)

/-- Counterexample to C9 as stated: `example_external_prior` has one sample without reads whose
external prior cell is `-1`; after `calc_log_sample_posteriors()` the cell holds `0`, not the
prior `-1`. -/
theorem posterior_of_sample_without_reads_counterexample :
    init_log_sample_priors ⟨Real.exp, Real.log⟩ (example_external_prior ℝ)
        (example_external_prior ℝ).log_sample_posteriors_
        (cell_index (example_external_prior ℝ) 0 0 0) = -1
    ∧ (calc_log_sample_posteriors_default ⟨Real.exp, Real.log⟩
        (example_external_prior ℝ)).2.log_sample_posteriors_
        (cell_index (example_external_prior ℝ) 0 0 0) = 0
    ∧ (calc_log_sample_posteriors_default ⟨Real.exp, Real.log⟩
        (example_external_prior ℝ)).2.log_sample_posteriors_
        (cell_index (example_external_prior ℝ) 0 0 0)
      ≠ init_log_sample_priors ⟨Real.exp, Real.log⟩ (example_external_prior ℝ)
        (example_external_prior ℝ).log_sample_posteriors_
        (cell_index (example_external_prior ℝ) 0 0 0) := by
  have hprior : ∀ ptr : Nat → ℝ, init_log_sample_priors ⟨Real.exp, Real.log⟩
      (example_external_prior ℝ) ptr (cell_index (example_external_prior ℝ) 0 0 0) = -1 :=
    fun ptr => init_log_sample_priors_external _ (example_external_prior ℝ) (fun _ => -1) rfl ptr
      (a := 0) (b := 0) (s := 0) (by decide) (by decide) (by decide)
  have hX : (unnormalized ⟨Real.exp, Real.log⟩ (example_external_prior ℝ) (fun _ => 1)).post
      (cell_index (example_external_prior ℝ) 0 0 0) = -1 := by
    rw [unnormalized_post _ (example_external_prior ℝ) (fun _ => 1)
      (fun r hr => absurd hr (Nat.not_lt_zero r)) (a := 0) (b := 0) (s := 0) (by decide)
      (by decide) (by decide), hprior]
    simp [read_sum, example_external_prior]
  have hP : (calc_log_sample_posteriors_default ⟨Real.exp, Real.log⟩
      (example_external_prior ℝ)).2.log_sample_posteriors_
      (cell_index (example_external_prior ℝ) 0 0 0) = 0 := by
    have h := log_sample_posteriors_eq_sub_log (example_external_prior ℝ) (fun _ => 1)
      (a := 0) (b := 0) (s := 0) (by decide) (by decide) (by decide)
    have hn : (example_external_prior ℝ).num_alleles_ = 1 := rfl
    rw [hn] at h
    simp only [Finset.sum_range_one, hX, Real.log_exp, sub_self] at h
    exact h
  refine ⟨hprior _, hP, ?_⟩
  rw [hP, hprior]
  norm_num

/-- Shifting every un-normalised cell of a sample by the same amount shifts the log of the sum
of their `exp` by that amount. -/
theorem log_sum_exp_shift (n : Nat) (hn : 1 ≤ n) (f : Nat → Nat → ℝ) (d : ℝ) :
    Real.log (∑ a in Finset.range n, ∑ b in Finset.range n, Real.exp (f a b + d))
      = Real.log (∑ a in Finset.range n, ∑ b in Finset.range n, Real.exp (f a b)) + d := by
  have hne : (Finset.range n).Nonempty := Finset.nonempty_range_iff.mpr (by omega)
  have hpos : 0 < ∑ a in Finset.range n, ∑ b in Finset.range n, Real.exp (f a b) :=
    Finset.sum_pos (fun a _ => Finset.sum_pos (fun b _ => Real.exp_pos _) hne) hne
  simp only [Real.exp_add, ← Finset.sum_mul]
  rw [Real.log_mul hpos.ne' (Real.exp_pos d).ne', Real.log_exp]

/-- Claim C10: if the row of `A` of read `r0` is identically zero across alleles, the normalised
posterior array produced by `calc_log_sample_posteriors` is the same as the one produced when
`r0` is given weight 0: such a read does not change any `P[a,b,s]`. -/
theorem uninformative_read_weight_zero (g : SeqStutterGenotyper ℝ) (read_weights : Nat → Int)
    (hlabel : ∀ r, r < g.num_reads_ → g.sample_label_ r < g.num_samples_) (r0 : Nat)
    (hr0 : r0 < g.num_reads_)
    (hrow : ∀ a, a < g.num_alleles_ → g.log_aln_probs_ (r0 * g.num_alleles_ + a) = 0)
    (a b s : Nat) (ha : a < g.num_alleles_) (hb : b < g.num_alleles_)
    (hs : s < g.num_samples_) :
    (calc_log_sample_posteriors ⟨Real.exp, Real.log⟩ g read_weights).2.log_sample_posteriors_
        (cell_index g a b s)
      = (calc_log_sample_posteriors ⟨Real.exp, Real.log⟩ g
          (fun r => if r = r0 then 0 else read_weights r)).2.log_sample_posteriors_
          (cell_index g a b s) := by
  have hshift : ∀ a' b', a' < g.num_alleles_ → b' < g.num_alleles_ →
      (unnormalized ⟨Real.exp, Real.log⟩ g read_weights).post (cell_index g a' b' s)
        = (unnormalized ⟨Real.exp, Real.log⟩ g
            (fun r => if r = r0 then 0 else read_weights r)).post (cell_index g a' b' s)
          + (if g.sample_label_ r0 = s then
              (read_weights r0 : ℝ) * log_sum_exp ⟨Real.exp, Real.log⟩
                (LOG_ONE_HALF ⟨Real.exp, Real.log⟩ + g.log_p1_ r0 + 0)
                (LOG_ONE_HALF ⟨Real.exp, Real.log⟩ + g.log_p2_ r0 + 0)
            else 0) := by
    intro a' b' ha' hb'
    rw [unnormalized_post _ g read_weights hlabel ha' hb' hs,
      unnormalized_post _ g _ hlabel ha' hb' hs, add_assoc]
    congr 1
    unfold read_sum
    have hterm : ∀ r ∈ Finset.range g.num_reads_,
        (if g.sample_label_ r = s then
          (read_weights r : ℝ) * read_LL_term ⟨Real.exp, Real.log⟩ g (r * g.num_alleles_) r a' b'
         else 0)
        = (if g.sample_label_ r = s then
            (((if r = r0 then 0 else read_weights r : Int)) : ℝ)
              * read_LL_term ⟨Real.exp, Real.log⟩ g (r * g.num_alleles_) r a' b'
           else 0)
          + (if r = r0 then
              (if g.sample_label_ r0 = s then
                (read_weights r0 : ℝ) * log_sum_exp ⟨Real.exp, Real.log⟩
                  (LOG_ONE_HALF ⟨Real.exp, Real.log⟩ + g.log_p1_ r0 + 0)
                  (LOG_ONE_HALF ⟨Real.exp, Real.log⟩ + g.log_p2_ r0 + 0)
               else 0)
             else 0) := by
      intro r _
      by_cases h : r = r0
      · subst h
        simp only [if_true, Int.cast_zero, zero_mul, ite_self, zero_add, read_LL_term,
          hrow a' ha', hrow b' hb']
      · simp only [if_neg h, add_zero]
    rw [Finset.sum_congr rfl hterm, Finset.sum_add_distrib, Finset.sum_ite_eq',
      if_pos (Finset.mem_range.mpr hr0)]
  rw [log_sample_posteriors_eq_sub_log g read_weights ha hb hs,
    log_sample_posteriors_eq_sub_log g _ ha hb hs, hshift a b ha hb,
    Finset.sum_congr rfl (fun a' ha' => Finset.sum_congr rfl (fun b' hb' => by
      rw [hshift a' b' (Finset.mem_range.mp ha') (Finset.mem_range.mp hb')])),
    log_sum_exp_shift g.num_alleles_ (by omega)]
  ring

/-- Witness of C10: `example_diploid` with the row of read 1 set to zero. -/
theorem uninformative_read_weight_zero_witness :
    (calc_log_sample_posteriors ⟨Real.exp, Real.log⟩
        { example_diploid ℝ with log_aln_probs_ := fun i => if i / 2 = 1 then 0 else -3 }
        (fun _ => 1)).2.log_sample_posteriors_
        (cell_index (example_diploid ℝ) 0 1 0)
      = (calc_log_sample_posteriors ⟨Real.exp, Real.log⟩
          { example_diploid ℝ with log_aln_probs_ := fun i => if i / 2 = 1 then 0 else -3 }
          (fun r => if r = 1 then 0 else 1)).2.log_sample_posteriors_
          (cell_index (example_diploid ℝ) 0 1 0) :=
  uninformative_read_weight_zero
    { example_diploid ℝ with log_aln_probs_ := fun i => if i / 2 = 1 then 0 else -3 }
    (fun _ => 1) (example_diploid_labels ℝ) 1 (by decide)
    (fun a ha => by
      have ha' : a < 2 := ha
      have : (1 * 2 + a) / 2 = 1 := by omega
      simp [example_diploid, this])
    0 1 0 (by decide) (by decide) (by decide)

end Reals

/-! ## Uncalled alleles -/

section UncalledLoops
variable {α : Type}

theorem aligned_read_iff (g : SeqStutterGenotyper α) (s : Nat) :
    aligned_read g s = true
      ↔ ∃ r, r < g.num_reads_ ∧ 0 ≤ g.seed_positions_ r ∧ g.sample_label_ r = s := by
  unfold aligned_read
  refine forLoop_inv (fun k (ar : Nat → Bool) =>
    ar s = true ↔ ∃ r, r < k ∧ 0 ≤ g.seed_positions_ r ∧ g.sample_label_ r = s)
    g.num_reads_ _ _ (by simp) ?_
  intro k ar _ h
  by_cases hk : g.seed_positions_ k ≥ 0
  · simp only [hk, if_true, store]
    by_cases hs : s = g.sample_label_ k
    · simp only [hs, if_true, true_iff]
      exact ⟨k, Nat.lt_succ_self k, hk, rfl⟩
    · simp only [hs, if_false, h]
      constructor
      · rintro ⟨r, hr, h1, h2⟩
        exact ⟨r, Nat.lt_succ_of_lt hr, h1, h2⟩
      · rintro ⟨r, hr, h1, h2⟩
        rcases Nat.lt_succ_iff_lt_or_eq.mp hr with h' | h'
        · exact ⟨r, h', h1, h2⟩
        · subst h'
          exact absurd h2.symm hs
  · simp only [hk, if_false, h]
    constructor
    · rintro ⟨r, hr, h1, h2⟩
      exact ⟨r, Nat.lt_succ_of_lt hr, h1, h2⟩
    · rintro ⟨r, hr, h1, h2⟩
      rcases Nat.lt_succ_iff_lt_or_eq.mp hr with h' | h'
      · exact ⟨r, h', h1, h2⟩
      · subst h'
        exact absurd h1 hk

theorem called_alleles_iff (g : SeqStutterGenotyper α) (gts : Nat → Int × Int) (i : Nat) :
    called_alleles g gts i = true
      ↔ ∃ s, s < g.num_samples_
          ∧ ((!g.require_one_read_ || aligned_read g s) && g.call_sample_ s) = true
          ∧ ((gts s).1.toNat = i ∨ (gts s).2.toNat = i) := by
  unfold called_alleles
  refine forLoop_inv (fun k (c : Nat → Bool) =>
    c i = true ↔ ∃ s, s < k
          ∧ ((!g.require_one_read_ || aligned_read g s) && g.call_sample_ s) = true
          ∧ ((gts s).1.toNat = i ∨ (gts s).2.toNat = i))
    g.num_samples_ _ _ (by simp) ?_
  intro k c _ h
  have hsplit : ∀ (p : Nat → Prop), (∃ s, s < k + 1 ∧ p s) ↔ ((∃ s, s < k ∧ p s) ∨ p k) := by
    intro p
    constructor
    · rintro ⟨s, hs, hp⟩
      rcases Nat.lt_succ_iff_lt_or_eq.mp hs with h' | h'
      · exact Or.inl ⟨s, h', hp⟩
      · subst h'
        exact Or.inr hp
    · rintro (⟨s, hs, hp⟩ | hp)
      · exact ⟨s, Nat.lt_succ_of_lt hs, hp⟩
      · exact ⟨k, Nat.lt_succ_self k, hp⟩
  rw [hsplit, ← h]
  by_cases hc : ((!g.require_one_read_ || aligned_read g k) && g.call_sample_ k) = true
  · simp only [hc, if_true, store, true_and]
    by_cases h2 : i = (gts k).2.toNat
    · simp [h2]
    · by_cases h1 : i = (gts k).1.toNat
      · simp [h1]
      · have h1' : ¬ (gts k).1.toNat = i := fun e => h1 e.symm
        have h2' : ¬ (gts k).2.toNat = i := fun e => h2 e.symm
        simp [h1, h2, h1', h2']
  · simp [hc]

/-- A loop that appends the indices `k + 1` that pass a test builds the filtered range. -/
theorem forLoop_filter (n : Nat) (p : Nat → Bool) :
    forLoop n (fun k (out : List Nat) => if p (k + 1) then out ++ [k + 1] else out) []
      = ((List.range n).map (· + 1)).filter p := by
  induction n with
  | zero => rfl
  | succ k ih =>
    rw [forLoop_succ, ih, List.range_succ, List.map_append, List.filter_append]
    by_cases h : p (k + 1) = true
    · simp [h]
    · simp [h]

end UncalledLoops

section Uncalled
variable {α : Type} [LinearOrderedField α]

theorem get_uncalled_alleles_eq (g : SeqStutterGenotyper α) :
    get_uncalled_alleles g
      = ((List.range (g.num_alleles_ - 1)).map (· + 1)).filter
          (fun i => !called_alleles g (get_optimal_genotypes g g.log_sample_posteriors_) i) := by
  unfold get_uncalled_alleles
  exact forLoop_filter (g.num_alleles_ - 1)
    (fun i => !called_alleles g (get_optimal_genotypes g g.log_sample_posteriors_) i)


/-- Claim C11: `get_uncalled_alleles` returns exactly the allele indices `i` with
`1 ≤ i < num_alleles` that do not occur in the MAP pair of any sample that is eligible
(`require_one_read` is false or the sample has a read with `seed_position ≥ 0`) and whose
`call_sample` flag is true; the list is strictly ascending and never contains index 0. -/
theorem get_uncalled_alleles_spec (g : SeqStutterGenotyper α) :
    (∀ i, i ∈ get_uncalled_alleles g ↔
      1 ≤ i ∧ i < g.num_alleles_
        ∧ ∀ s, s < g.num_samples_ →
          (g.require_one_read_ = false
            ∨ ∃ r, r < g.num_reads_ ∧ 0 ≤ g.seed_positions_ r ∧ g.sample_label_ r = s) →
          g.call_sample_ s = true →
          (get_optimal_genotypes g g.log_sample_posteriors_ s).1 ≠ (i : Int)
            ∧ (get_optimal_genotypes g g.log_sample_posteriors_ s).2 ≠ (i : Int))
    ∧ List.Sorted (· < ·) (get_uncalled_alleles g)
    ∧ 0 ∉ get_uncalled_alleles g := by
  rw [get_uncalled_alleles_eq]
  refine ⟨fun i => ?_, ?_, ?_⟩
  · simp only [List.mem_filter, List.mem_map, List.mem_range, Bool.not_eq_true']
    have hcall : called_alleles g (get_optimal_genotypes g g.log_sample_posteriors_) i = false
        ↔ ¬ called_alleles g (get_optimal_genotypes g g.log_sample_posteriors_) i = true := by
      simp
    rw [hcall, called_alleles_iff]
    constructor
    · rintro ⟨⟨k, hk, rfl⟩, hnot⟩
      refine ⟨by omega, by omega, fun s hs helig hcs => ?_⟩
      have hcond : ((!g.require_one_read_ || aligned_read g s) && g.call_sample_ s) = true := by
        rcases helig with h | h
        · simp [h, hcs]
        · simp [(aligned_read_iff g s).mpr h, hcs]
      constructor
      · intro e
        exact hnot ⟨s, hs, hcond, Or.inl (by rw [e]; simp)⟩
      · intro e
        exact hnot ⟨s, hs, hcond, Or.inr (by rw [e]; simp)⟩
    · rintro ⟨h1, h2, h3⟩
      refine ⟨⟨i - 1, by omega, by omega⟩, ?_⟩
      rintro ⟨s, hs, hcond, hgt⟩
      simp only [Bool.and_eq_true, Bool.or_eq_true, Bool.not_eq_true'] at hcond
      have helig : g.require_one_read_ = false
          ∨ ∃ r, r < g.num_reads_ ∧ 0 ≤ g.seed_positions_ r ∧ g.sample_label_ r = s := by
        rcases hcond.1 with h | h
        · exact Or.inl h
        · exact Or.inr ((aligned_read_iff g s).mp h)
      obtain ⟨n1, n2⟩ := h3 s hs helig hcond.2
      rcases hgt with h | h
      · exact n1 (by omega)
      · exact n2 (by omega)
  · apply List.Sorted.filter
    exact List.Pairwise.map _ (fun a b h => Nat.succ_lt_succ h) (List.pairwise_lt_range _)
  · simp [List.mem_filter]

end Uncalled

/-! ## Removing alleles -/

section RemoveAllelesLists

variable {α : Type}

theorem keep_allele_eq (allele_indices : List Nat) (i : Nat) :
    keep_allele allele_indices i = decide (i ∉ allele_indices) := by
  unfold keep_allele
  have h : ∀ (l : List Nat) (k : Nat → Bool),
      l.foldl (fun keep i => store keep i false) k i = (k i && decide (i ∉ l)) := by
    intro l
    induction l with
    | nil => intro k; simp
    | cons a l ih =>
      intro k
      rw [List.foldl_cons, ih]
      unfold store
      by_cases e : i = a
      · simp [e]
      · simp [e]
  rw [h]
  simp

/-- The number of kept indices among the first `n` is `n` minus the number of removed ones. -/
theorem kept_rank_total (allele_indices : List Nat) (n : Nat) (hnd : allele_indices.Nodup)
    (hlt : ∀ i ∈ allele_indices, i < n) :
    kept_rank allele_indices n = n - allele_indices.length := by
  unfold kept_rank
  have h1 : ((List.range n).filter (fun i => i ∉ allele_indices)).length
      + ((List.range n).filter (fun i => i ∈ allele_indices)).length = n := by
    have := List.length_eq_length_filter_add (fun i => decide (i ∉ allele_indices)) (l := List.range n)
    simpa using this.symm
  have h2 : ((List.range n).filter (fun i => i ∈ allele_indices)).Perm allele_indices := by
    apply (List.perm_ext_iff_of_nodup ((List.nodup_range n).filter _) hnd).mpr
    intro a
    simp only [List.mem_filter, List.mem_range, decide_eq_true_eq]
    exact ⟨fun h => h.2, fun h => ⟨hlt a h, h⟩⟩
  have h3 := h2.length_eq
  omega

theorem kept_rank_succ (allele_indices : List Nat) (j : Nat) :
    kept_rank allele_indices (j + 1)
      = kept_rank allele_indices j + if j ∉ allele_indices then 1 else 0 := by
  unfold kept_rank
  rw [List.range_succ, List.filter_append]
  by_cases h : j ∈ allele_indices
  · simp [h]
  · simp [h]

theorem kept_rank_mono (allele_indices : List Nat) {i j : Nat} (h : i ≤ j) :
    kept_rank allele_indices i ≤ kept_rank allele_indices j := by
  induction j with
  | zero =>
    have : i = 0 := by omega
    subst this
    exact le_refl _
  | succ k ih =>
    rcases Nat.lt_succ_iff_lt_or_eq.mp (Nat.lt_succ_of_le h) with h' | h'
    · have := ih (Nat.lt_succ_iff.mp h')
      rw [kept_rank_succ]
      omega
    · subst h'
      exact le_refl _

theorem kept_rank_lt (allele_indices : List Nat) {i j : Nat} (h : i < j)
    (hi : i ∉ allele_indices) :
    kept_rank allele_indices i < kept_rank allele_indices j := by
  have h1 := kept_rank_mono allele_indices (Nat.succ_le_of_lt h)
  rw [kept_rank_succ, if_pos hi] at h1
  omega

/-- The loop of lines 80-87: the kept alleles in their old order, the rank of every kept index
(`-1` for a removed one) and the number of kept alleles. -/
theorem fix_alleles_eq (g : SeqStutterGenotyper α) (allele_indices : List Nat) :
    fix_alleles g (keep_allele allele_indices)
      = (((List.range g.alleles_.length).filter (fun i => i ∉ allele_indices)).map
            (fun i => g.alleles_.getD i ""),
          (List.range g.alleles_.length).map
            (fun j => if j ∉ allele_indices then (kept_rank allele_indices j : Int) else -1),
          (kept_rank allele_indices g.alleles_.length : Int)) := by
  unfold fix_alleles
  refine forLoop_inv (fun k (st : List String × List Int × Int) =>
    st = (((List.range k).filter (fun i => i ∉ allele_indices)).map
            (fun i => g.alleles_.getD i ""),
          (List.range k).map
            (fun j => if j ∉ allele_indices then (kept_rank allele_indices j : Int) else -1),
          (kept_rank allele_indices k : Int))) g.alleles_.length _ _ (by simp [kept_rank]) ?_
  intro k st _ hst
  subst hst
  rw [keep_allele_eq, kept_rank_succ, List.range_succ, List.filter_append, List.map_append,
    List.map_append]
  by_cases h : k ∈ allele_indices
  · simp [h]
  · simp [h]

end RemoveAllelesLists

section RemoveAlleles

variable {α : Type} [LinearOrderedField α]

/-- The loops of lines 90-100 compact every row: the entry of read `r` and kept old index `j`
lands at offset `r * K + rank j`, where `K` is the number of kept indices. -/
theorem fix_log_aln_probs_apply (g : SeqStutterGenotyper α) (allele_indices : List Nat)
    {r j : Nat} (hr : r < g.num_reads_) (hj : j < g.num_alleles_) (hkeep : j ∉ allele_indices) :
    (fix_log_aln_probs g (keep_allele allele_indices)).1
        (r * kept_rank allele_indices g.num_alleles_ + kept_rank allele_indices j)
      = g.log_aln_probs_ (r * g.num_alleles_ + j) := by
  have hK : ∀ j', j' < g.num_alleles_ → j' ∉ allele_indices →
      kept_rank allele_indices j' < kept_rank allele_indices g.num_alleles_ :=
    fun j' h1 h2 => kept_rank_lt allele_indices h1 h2
  have inner : ∀ (i k : Nat) (st : (Nat → α) × Nat × Nat), k ≤ g.num_alleles_ →
      (st.2.1 = i * g.num_alleles_ ∧ st.2.2 = i * kept_rank allele_indices g.num_alleles_
        ∧ ∀ i' j', i' < i → j' < g.num_alleles_ → j' ∉ allele_indices →
          st.1 (i' * kept_rank allele_indices g.num_alleles_ + kept_rank allele_indices j')
            = g.log_aln_probs_ (i' * g.num_alleles_ + j')) →
      ((forLoop k (fun j (st : (Nat → α) × Nat × Nat) =>
          if keep_allele allele_indices j then
            (store st.1 st.2.2 (g.log_aln_probs_ st.2.1), st.2.1 + 1, st.2.2 + 1)
          else (st.1, st.2.1 + 1, st.2.2)) st).2.1 = i * g.num_alleles_ + k
        ∧ (forLoop k (fun j (st : (Nat → α) × Nat × Nat) =>
          if keep_allele allele_indices j then
            (store st.1 st.2.2 (g.log_aln_probs_ st.2.1), st.2.1 + 1, st.2.2 + 1)
          else (st.1, st.2.1 + 1, st.2.2)) st).2.2
            = i * kept_rank allele_indices g.num_alleles_ + kept_rank allele_indices k
        ∧ ∀ i' j', (i' < i ∧ j' < g.num_alleles_) ∨ (i' = i ∧ j' < k) → j' ∉ allele_indices →
          (forLoop k (fun j (st : (Nat → α) × Nat × Nat) =>
            if keep_allele allele_indices j then
              (store st.1 st.2.2 (g.log_aln_probs_ st.2.1), st.2.1 + 1, st.2.2 + 1)
            else (st.1, st.2.1 + 1, st.2.2)) st).1
              (i' * kept_rank allele_indices g.num_alleles_ + kept_rank allele_indices j')
            = g.log_aln_probs_ (i' * g.num_alleles_ + j')) := by
    intro i k st hk ⟨h1, h2, h3⟩
    induction k with
    | zero =>
      refine ⟨by simpa [forLoop] using h1, by simpa [forLoop, kept_rank] using h2, ?_⟩
      rintro i' j' (⟨hi', hj'⟩ | ⟨_, hj'⟩) hkeep'
      · exact h3 i' j' hi' hj' hkeep'
      · exact absurd hj' (Nat.not_lt_zero _)
    | succ k ih =>
      obtain ⟨e1, e2, e3⟩ := ih (Nat.le_of_succ_le hk)
      rw [forLoop_succ, keep_allele_eq]
      by_cases hmem : k ∈ allele_indices
      · simp only [hmem, not_true_eq_false, decide_False, Bool.false_eq_true, if_false]
        refine ⟨by rw [e1]; ring, by rw [e2, kept_rank_succ]; simp [hmem], ?_⟩
        rintro i' j' (⟨hi', hj'⟩ | ⟨hi', hj'⟩) hkeep'
        · exact e3 i' j' (Or.inl ⟨hi', hj'⟩) hkeep'
        · rcases Nat.lt_succ_iff_lt_or_eq.mp hj' with h | h
          · exact e3 i' j' (Or.inr ⟨hi', h⟩) hkeep'
          · subst h
            exact absurd hmem hkeep'
      · simp only [hmem, not_false_eq_true, decide_True, if_true]
        refine ⟨by rw [e1]; ring, by rw [e2, kept_rank_succ]; simp [hmem]; ring, ?_⟩
        rintro i' j' hcase hkeep'
        rw [e1, e2]
        unfold store
        by_cases hpos : i' * kept_rank allele_indices g.num_alleles_
            + kept_rank allele_indices j'
            = i * kept_rank allele_indices g.num_alleles_ + kept_rank allele_indices k
        · rw [if_pos hpos]
          rcases hcase with ⟨hi', hj'⟩ | ⟨hi', hj'⟩
          · exfalso
            have hlt := hK j' hj' hkeep'
            have : (i' + 1) * kept_rank allele_indices g.num_alleles_
                ≤ i * kept_rank allele_indices g.num_alleles_ :=
              Nat.mul_le_mul_right _ hi'
            rw [Nat.succ_mul] at this
            omega
          · subst hi'
            have hjk : j' = k := by
              rcases Nat.lt_succ_iff_lt_or_eq.mp hj' with h | h
              · have := kept_rank_lt allele_indices h hkeep'
                omega
              · exact h
            rw [hjk]
        · rw [if_neg hpos]
          rcases hcase with ⟨hi', hj'⟩ | ⟨hi', hj'⟩
          · exact e3 i' j' (Or.inl ⟨hi', hj'⟩) hkeep'
          · rcases Nat.lt_succ_iff_lt_or_eq.mp hj' with h | h
            · exact e3 i' j' (Or.inr ⟨hi', h⟩) hkeep'
            · subst h
              subst hi'
              exact absurd rfl hpos
  have outer := forLoop_inv (fun i (st : (Nat → α) × Nat × Nat) =>
      st.2.1 = i * g.num_alleles_ ∧ st.2.2 = i * kept_rank allele_indices g.num_alleles_
        ∧ ∀ i' j', i' < i → j' < g.num_alleles_ → j' ∉ allele_indices →
          st.1 (i' * kept_rank allele_indices g.num_alleles_ + kept_rank allele_indices j')
            = g.log_aln_probs_ (i' * g.num_alleles_ + j'))
    g.num_reads_
    (fun _ st => forLoop g.num_alleles_ (fun j (st : (Nat → α) × Nat × Nat) =>
        if keep_allele allele_indices j then
          (store st.1 st.2.2 (g.log_aln_probs_ st.2.1), st.2.1 + 1, st.2.2 + 1)
        else (st.1, st.2.1 + 1, st.2.2)) st)
    (new_array, 0, 0)
    ⟨by simp, by simp, fun i' j' hi' => absurd hi' (Nat.not_lt_zero _)⟩ (by
      intro i st _ hst
      obtain ⟨e1, e2, e3⟩ := inner i g.num_alleles_ st (le_refl _) hst
      refine ⟨by rw [e1]; ring, by rw [e2]; ring, fun i' j' hi' hj' hkeep' => ?_⟩
      rcases Nat.lt_succ_iff_lt_or_eq.mp hi' with h | h
      · exact e3 i' j' (Or.inl ⟨h, hj'⟩) hkeep'
      · exact e3 i' j' (Or.inr ⟨h, hj'⟩) hkeep')
  exact outer.2.2 r j hr hj hkeep

/-- Claim C12: for a list of distinct in-range allele indices, `remove_alleles` leaves
`alleles_` equal to the old list with exactly the listed indices deleted and the survivors in
their old order, sets `num_alleles_` to the old value minus the length of the list, and for every
read `r` and every kept old index `j` with new rank `k` sets the new `A[r,k]` to the old
`A[r,j]`. -/
theorem remove_alleles_spec (m : MathOps α) (g : SeqStutterGenotyper α)
    (allele_indices : List Nat) (hnd : allele_indices.Nodup)
    (hlt : ∀ i ∈ allele_indices, i < g.num_alleles_)
    (hsize : g.alleles_.length = g.num_alleles_) :
    (remove_alleles m g allele_indices).alleles_
        = ((List.range g.num_alleles_).filter (fun i => i ∉ allele_indices)).map
            (fun i => g.alleles_.getD i "")
    ∧ (remove_alleles m g allele_indices).num_alleles_
        = g.num_alleles_ - allele_indices.length
    ∧ ∀ r j, r < g.num_reads_ → j < g.num_alleles_ → j ∉ allele_indices →
        (remove_alleles m g allele_indices).log_aln_probs_
            (r * (g.num_alleles_ - allele_indices.length) + kept_rank allele_indices j)
          = g.log_aln_probs_ (r * g.num_alleles_ + j) := by
  refine ⟨?_, rfl, fun r j hr hj hkeep => ?_⟩
  · show (fix_alleles g (keep_allele allele_indices)).1 = _
    rw [fix_alleles_eq, hsize]
  · show (fix_log_aln_probs g (keep_allele allele_indices)).1 _ = _
    rw [← kept_rank_total allele_indices g.num_alleles_ hnd hlt]
    exact fix_log_aln_probs_apply g allele_indices hr hj hkeep

/-- Witness of C12: five alleles with `{1, 3, 4}` removed leave the two alleles
`[ref, old_2]` and two columns. -/
theorem remove_alleles_spec_witness :
    (remove_alleles ⟨id, id⟩ (example_five_alleles ℚ) [1, 3, 4]).alleles_
        = ["TACACG", "TACACACG"]
    ∧ (remove_alleles ⟨id, id⟩ (example_five_alleles ℚ) [1, 3, 4]).num_alleles_ = 2
    ∧ (remove_alleles ⟨id, id⟩ (example_five_alleles ℚ) [1, 3, 4]).log_aln_probs_ (1 * 2 + 1)
        = (example_five_alleles ℚ).log_aln_probs_ (1 * 5 + 2) := by
  have h := remove_alleles_spec ⟨id, id⟩ (example_five_alleles ℚ) [1, 3, 4] (by decide)
    (by decide) (by decide)
  refine ⟨?_, h.2.1, ?_⟩
  · rw [h.1]
    decide
  · have h2 := h.2.2 1 2 (by decide) (by decide) (by decide)
    exact h2

end RemoveAlleles

/-! ## The repeat block under pruning and merging -/

section Blocks

/-- A loop that copies the entries of a vector one by one appends the vector. -/
theorem forLoop_copy {β : Type} (l : List β) (d : β) (init : List β) :
    forLoop l.length (fun i acc => acc ++ [l.getD i d]) init = init ++ l := by
  induction l using List.reverseRecOn with
  | nil => simp [forLoop]
  | append_singleton l a ih =>
    rw [List.length_append, List.length_singleton, forLoop_succ]
    have h : forLoop l.length (fun i acc => acc ++ [(l ++ [a]).getD i d]) init
        = forLoop l.length (fun i acc => acc ++ [l.getD i d]) init := by
      have hgen : ∀ k, k ≤ l.length →
          forLoop k (fun i acc => acc ++ [(l ++ [a]).getD i d]) init
            = forLoop k (fun i acc => acc ++ [l.getD i d]) init := by
        intro k
        induction k with
        | zero => intro _; rfl
        | succ k ihk =>
          intro hk
          rw [forLoop_succ, forLoop_succ, ihk (Nat.le_of_succ_le hk)]
          congr 2
          simp only [List.getD_eq_getElem?_getD]
          rw [List.getElem?_append_left (by omega)]
      exact hgen l.length (le_refl _)
    rw [h, ih]
    simp [List.getD_eq_getElem?_getD]

/-- A loop of `add_alternate` appends the added sequences to the alternates. -/
theorem forLoop_add_alternate (k : Nat) (f : Nat → String) (b : RepeatBlock) :
    (forLoop k (fun i (b : RepeatBlock) => b.add_alternate (f i)) b).alternates
      = b.alternates ++ (List.range k).map f := by
  induction k with
  | zero => simp [forLoop]
  | succ k ih =>
    rw [forLoop_succ, RepeatBlock.add_alternate, ih, List.range_succ, List.map_append]
    simp

theorem map_getD_succ_range (l : List String) (a : String) :
    (List.range l.length).map (fun k => (a :: l).getD (k + 1) "") = l := by
  apply List.ext_getElem
  · simp
  · intro i h1 h2
    simp at h1
    simp [List.getD_eq_getElem?_getD, List.getElem?_eq_getElem h1]

/-- The merged repeat block: the old alternate 0 followed by the other old alternates and the
candidates, sorted. -/
theorem merged_str_block_alternates (srt : StdSort) (block : RepeatBlock)
    (stutter_seqs : List String) (a0 : String) (rest : List String)
    (h : block.alternates = a0 :: rest) :
    (merged_str_block srt block stutter_seqs).alternates
      = a0 :: srt.sort (rest ++ stutter_seqs) := by
  unfold merged_str_block
  simp only [RepeatBlock.num_options, RepeatBlock.get_seq]
  rw [forLoop_copy, forLoop_copy, List.nil_append, h]
  simp only [List.cons_append, List.length_cons, Nat.add_sub_cancel]
  rw [forLoop_add_alternate]
  simp only [RepeatBlock.create, List.getD_cons_zero, List.singleton_append]
  rw [map_getD_succ_range]

/-- The merged repeat block starts with the old alternate 0, whatever the old block. -/
theorem merged_str_block_get_seq_zero (srt : StdSort) (block : RepeatBlock)
    (stutter_seqs : List String) :
    (merged_str_block srt block stutter_seqs).get_seq 0 = block.get_seq 0 := by
  unfold merged_str_block
  simp only [RepeatBlock.get_seq]
  rw [forLoop_add_alternate]
  simp [RepeatBlock.create]

/-- The block returned by `RepeatBlock::remove_alleles` starts with the old alternate 0. -/
theorem remove_alleles_block_get_seq_zero (block : RepeatBlock) (allele_indices : List Nat) :
    (block.remove_alleles allele_indices).get_seq 0 = block.get_seq 0 := by
  unfold RepeatBlock.remove_alleles RepeatBlock.get_seq
  cases h : block.alternates with
  | nil => simp
  | cons a rest =>
    simp [List.range_succ_eq_map, List.filter_cons]

end Blocks

section BlockClaims

variable {α : Type} [LinearOrderedField α]

/-- Claim C15: the reference allele is preserved by every allele-set mutation: after pruning
(`get_uncalled_alleles` followed by `remove_alleles`) and after a merge pass of
`id_and_align_to_stutter_alleles`, alternate 0 of the repeat block is the same sequence as
alternate 0 before the operation. -/
theorem reference_allele_preserved (m : MathOps α) (srt : StdSort) (g : SeqStutterGenotyper α)
    (chrom_seq : String) (stutter_seqs : List String) (new_log_aln_probs : Nat → α) :
    (remove_alleles m g (get_uncalled_alleles g)).hap_blocks_.get_seq 0
        = g.hap_blocks_.get_seq 0
    ∧ (merge_stutter_alleles m srt g chrom_seq stutter_seqs new_log_aln_probs).hap_blocks_.get_seq
        0 = g.hap_blocks_.get_seq 0 :=
  ⟨remove_alleles_block_get_seq_zero g.hap_blocks_ (get_uncalled_alleles g),
    merged_str_block_get_seq_zero srt g.hap_blocks_ stutter_seqs⟩

/-- Claim C18: in a merge pass the alternate list of the new repeat block is a permutation of
the current alternates plus the candidates, its index 0 is the old alternate 0, and the
alternates at the indices from 1 on are in non-decreasing order of length. -/
theorem merged_str_block_sorted_perm (m : MathOps α) (srt : StdSort) (g : SeqStutterGenotyper α)
    (chrom_seq : String) (stutter_seqs : List String) (new_log_aln_probs : Nat → α)
    (hne : 1 ≤ g.hap_blocks_.num_options) :
    ((merge_stutter_alleles m srt g chrom_seq stutter_seqs
        new_log_aln_probs).hap_blocks_.alternates).Perm
        (g.hap_blocks_.alternates ++ stutter_seqs)
    ∧ (merge_stutter_alleles m srt g chrom_seq stutter_seqs new_log_aln_probs).hap_blocks_.get_seq
        0 = g.hap_blocks_.get_seq 0
    ∧ ((merge_stutter_alleles m srt g chrom_seq stutter_seqs
        new_log_aln_probs).hap_blocks_.alternates.tail).Sorted
        (fun a b => a.length ≤ b.length) := by
  have hblock : (merge_stutter_alleles m srt g chrom_seq stutter_seqs
      new_log_aln_probs).hap_blocks_ = merged_str_block srt g.hap_blocks_ stutter_seqs := rfl
  rw [hblock]
  cases h : g.hap_blocks_.alternates with
  | nil =>
    rw [RepeatBlock.num_options, h] at hne
    exact absurd hne (by decide)
  | cons a0 rest =>
    rw [merged_str_block_alternates srt g.hap_blocks_ stutter_seqs a0 rest h]
    refine ⟨?_, ?_, ?_⟩
    · rw [List.cons_append]
      exact List.Perm.cons a0 (srt.perm _)
    · rw [merged_str_block_get_seq_zero]
    · exact srt.sorted _

/-- Witness of C18: the five alleles of `example_five_alleles` merged with the candidates
`A` and `ACA`. -/
theorem merged_str_block_sorted_perm_witness :
    ((merge_stutter_alleles ⟨id, id⟩ insertion_sort_by_length (example_five_alleles ℚ) "ACGT"
        ["A", "ACA"] (fun _ => -7)).hap_blocks_.alternates).Perm
        ((example_five_alleles ℚ).hap_blocks_.alternates ++ ["A", "ACA"])
    ∧ (merge_stutter_alleles ⟨id, id⟩ insertion_sort_by_length (example_five_alleles ℚ) "ACGT"
        ["A", "ACA"] (fun _ => -7)).hap_blocks_.get_seq 0
        = (example_five_alleles ℚ).hap_blocks_.get_seq 0
    ∧ ((merge_stutter_alleles ⟨id, id⟩ insertion_sort_by_length (example_five_alleles ℚ) "ACGT"
        ["A", "ACA"] (fun _ => -7)).hap_blocks_.alternates.tail).Sorted
        (fun a b => a.length ≤ b.length) :=
  merged_str_block_sorted_perm ⟨id, id⟩ insertion_sort_by_length (example_five_alleles ℚ) "ACGT"
    ["A", "ACA"] (fun _ => -7) (by decide)

end BlockClaims

/-! ## Maps -/

section Maps

variable {κ ν : Type} [DecidableEq κ]

/-- After `m[k] = v` the lookup of `k` finds `v` and every other lookup is unchanged. -/
theorem map_find_assign (lt : κ → κ → Bool) (l : List (κ × ν)) (k : κ) (v : ν) (k' : κ) :
    map_find (map_assign lt l k v) k' = if k' = k then some v else map_find l k' := by
  induction l with
  | nil => simp [map_assign, map_find]
  | cons e rest ih =>
    obtain ⟨k0, v0⟩ := e
    unfold map_assign
    by_cases h1 : lt k k0 = true
    · simp only [h1, if_true]
      by_cases e1 : k' = k
      · simp [map_find, e1]
      · simp [map_find, e1]
    · simp only [h1, Bool.false_eq_true, if_false]
      by_cases h2 : k = k0
      · subst h2
        by_cases e1 : k' = k
        · simp [map_find, e1]
        · simp [map_find, e1]
      · simp only [h2, if_false]
        by_cases e1 : k' = k0
        · subst e1
          have : ¬ k' = k := fun e => h2 e.symm
          simp [map_find, this]
        · simp only [map_find, e1, if_false, ih]

theorem map_find_mem (l : List (κ × ν)) (k : κ) (v : ν) (h : map_find l k = some v) :
    (k, v) ∈ l := by
  induction l with
  | nil => simp [map_find] at h
  | cons e rest ih =>
    obtain ⟨k0, v0⟩ := e
    unfold map_find at h
    by_cases e1 : k = k0
    · simp only [e1, if_true, Option.some.injEq] at h
      subst e1 h
      exact List.mem_cons_self _ _
    · simp only [e1, if_false] at h
      exact List.mem_cons_of_mem _ (ih h)

theorem map_find_of_mem (l : List (κ × ν)) (hnd : (l.map Prod.fst).Nodup) (e : κ × ν)
    (h : e ∈ l) : map_find l e.1 = some e.2 := by
  induction l with
  | nil => simp at h
  | cons e0 rest ih =>
    obtain ⟨k0, v0⟩ := e0
    simp only [List.map_cons, List.nodup_cons] at hnd
    rcases List.mem_cons.mp h with h1 | h1
    · subst h1
      simp [map_find]
    · have hne : e.1 ≠ k0 := by
        intro e1
        apply hnd.1
        rw [← e1]
        exact List.mem_map_of_mem Prod.fst h1
      simp only [map_find, hne, if_false]
      exact ih hnd.2 h1

/-- Every entry of a re-keyed map comes from the start map or from an entry of the old map that
was kept. -/
theorem map_find_rekey_source (lt : κ → κ → Bool) (keep : κ → Bool) (nk : κ → κ)
    (cache : List (κ × ν)) (init : List (κ × ν)) (k' : κ) (t : ν)
    (h : map_find (cache.foldl (fun acc e =>
      if keep e.1 then map_assign lt acc (nk e.1) e.2 else acc) init) k' = some t) :
    map_find init k' = some t ∨ ∃ e ∈ cache, keep e.1 = true ∧ nk e.1 = k' ∧ e.2 = t := by
  induction cache generalizing init with
  | nil => exact Or.inl h
  | cons e0 rest ih =>
    rw [List.foldl_cons] at h
    rcases ih _ h with h1 | ⟨e, he, h2⟩
    · by_cases hk : keep e0.1 = true
      · rw [if_pos hk, map_find_assign] at h1
        by_cases e1 : k' = nk e0.1
        · rw [if_pos e1] at h1
          exact Or.inr ⟨e0, List.mem_cons_self _ _, hk, e1.symm, Option.some.inj h1⟩
        · rw [if_neg e1] at h1
          exact Or.inl h1
      · rw [if_neg hk] at h1
        exact Or.inl h1
    · exact Or.inr ⟨e, List.mem_cons_of_mem _ he, h2⟩

/-- A key that no kept entry is mapped to keeps its lookup. -/
theorem map_find_rekey_other (lt : κ → κ → Bool) (keep : κ → Bool) (nk : κ → κ)
    (cache : List (κ × ν)) (init : List (κ × ν)) (k' : κ)
    (h : ∀ e ∈ cache, keep e.1 = true → nk e.1 ≠ k') :
    map_find (cache.foldl (fun acc e =>
      if keep e.1 then map_assign lt acc (nk e.1) e.2 else acc) init) k'
      = map_find init k' := by
  induction cache generalizing init with
  | nil => rfl
  | cons e0 rest ih =>
    rw [List.foldl_cons, ih _ (fun e he => h e (List.mem_cons_of_mem _ he))]
    by_cases hk : keep e0.1 = true
    · rw [if_pos hk, map_find_assign,
        if_neg (fun e1 => h e0 (List.mem_cons_self _ _) hk e1.symm)]
    · rw [if_neg hk]

/-- A kept entry of the old map is found under its new key, when the old keys are distinct and
the new keys of kept entries are distinct. -/
theorem map_find_rekey_target (lt : κ → κ → Bool) (keep : κ → Bool) (nk : κ → κ)
    (cache : List (κ × ν)) (init : List (κ × ν)) (hnd : (cache.map Prod.fst).Nodup)
    (hinj : ∀ e1 ∈ cache, ∀ e2 ∈ cache, keep e1.1 = true → keep e2.1 = true →
      nk e1.1 = nk e2.1 → e1.1 = e2.1)
    (e : κ × ν) (he : e ∈ cache) (hk : keep e.1 = true) :
    map_find (cache.foldl (fun acc e =>
      if keep e.1 then map_assign lt acc (nk e.1) e.2 else acc) init) (nk e.1) = some e.2 := by
  induction cache generalizing init with
  | nil => simp at he
  | cons e0 rest ih =>
    simp only [List.map_cons, List.nodup_cons] at hnd
    rw [List.foldl_cons]
    rcases List.mem_cons.mp he with h1 | h1
    · subst h1
      rw [map_find_rekey_other lt keep nk rest _ (nk e.1), if_pos hk, map_find_assign, if_pos rfl]
      intro e' he' hk' heq
      have := hinj e' (List.mem_cons_of_mem _ he') e (List.mem_cons_self _ _) hk' hk heq
      apply hnd.1
      rw [← this]
      exact List.mem_map_of_mem Prod.fst he'
    · exact ih _ hnd.2 (fun e1 h1' e2 h2' => hinj e1 (List.mem_cons_of_mem _ h1') e2
        (List.mem_cons_of_mem _ h2')) h1

end Maps

/-! ## Re-keying after an allele-set mutation -/

section Rekey

/-- The kept index `j` sits at position `rank j` of the list of kept indices. -/
theorem kept_getElem?_rank (allele_indices : List Nat) (n j : Nat) (hj : j < n)
    (hkeep : j ∉ allele_indices) :
    ((List.range n).filter (fun i => i ∉ allele_indices))[kept_rank allele_indices j]?
      = some j := by
  induction n with
  | zero => exact absurd hj (Nat.not_lt_zero _)
  | succ n ih =>
    rw [List.range_succ, List.filter_append]
    rcases Nat.lt_succ_iff_lt_or_eq.mp hj with h | h
    · have h1 := ih h
      have hlt : kept_rank allele_indices j
          < ((List.range n).filter (fun i => i ∉ allele_indices)).length := by
        by_contra hc
        rw [List.getElem?_eq_none (not_lt.mp hc)] at h1
        exact absurd h1 (by simp)
      rw [List.getElem?_append_left hlt]
      exact h1
    · subst h
      have hlen : ((List.range j).filter (fun i => i ∉ allele_indices)).length
          = kept_rank allele_indices j := rfl
      rw [List.getElem?_append_right (by omega), hlen, Nat.sub_self]
      simp [hkeep]

theorem kept_rank_inj (allele_indices : List Nat) {i j : Nat} (hi : i ∉ allele_indices)
    (hj : j ∉ allele_indices) (h : kept_rank allele_indices i = kept_rank allele_indices j) :
    i = j := by
  rcases Nat.lt_trichotomy i j with h1 | h1 | h1
  · have := kept_rank_lt allele_indices h1 hi
    omega
  · exact h1
  · have := kept_rank_lt allele_indices h1 hj
    omega

/-- The alternates of the block returned by `RepeatBlock::remove_alleles` when the reference is
not listed: the alternates at the kept indices, in order. -/
theorem remove_alleles_block_alternates (block : RepeatBlock) (allele_indices : List Nat)
    (h0 : 0 ∉ allele_indices) :
    (block.remove_alleles allele_indices).alternates
      = ((List.range block.alternates.length).filter (fun i => i ∉ allele_indices)).map
          (fun i => block.alternates.getD i "") := by
  unfold RepeatBlock.remove_alleles
  simp only
  congr 1
  apply List.filter_congr
  intro i _
  by_cases hi : i = 0
  · subst hi
    simp [h0]
  · simp [hi]

theorem remove_alleles_block_num_options (block : RepeatBlock) (allele_indices : List Nat)
    (h0 : 0 ∉ allele_indices) (hnd : allele_indices.Nodup)
    (hlt : ∀ i ∈ allele_indices, i < block.num_options) :
    (block.remove_alleles allele_indices).num_options
      = block.num_options - allele_indices.length := by
  rw [RepeatBlock.num_options, remove_alleles_block_alternates block allele_indices h0,
    List.length_map]
  exact kept_rank_total allele_indices block.alternates.length hnd hlt

/-- The kept alternate `j` is alternate `rank j` of the new block. -/
theorem remove_alleles_block_get_seq (block : RepeatBlock) (allele_indices : List Nat)
    (h0 : 0 ∉ allele_indices) {j : Nat} (hj : j < block.num_options)
    (hkeep : j ∉ allele_indices) :
    (block.remove_alleles allele_indices).get_seq (kept_rank allele_indices j)
      = block.get_seq j := by
  unfold RepeatBlock.get_seq
  have hj' : j < block.alternates.length := hj
  rw [remove_alleles_block_alternates block allele_indices h0, List.getD_eq_getElem?_getD,
    List.getElem?_map, kept_getElem?_rank allele_indices _ j hj' hkeep]
  rfl

theorem remove_alleles_block_nodup (block : RepeatBlock) (allele_indices : List Nat)
    (h0 : 0 ∉ allele_indices) (hnd : block.alternates.Nodup) :
    (block.remove_alleles allele_indices).alternates.Nodup := by
  rw [remove_alleles_block_alternates block allele_indices h0]
  apply List.Nodup.map_on _ ((List.nodup_range _).filter _)
  intro i hi j hj hij
  have hi' : i < block.alternates.length := List.mem_range.mp (List.mem_filter.mp hi).1
  have hj' : j < block.alternates.length := List.mem_range.mp (List.mem_filter.mp hj).1
  simp only [List.getD_eq_getElem?_getD, List.getElem?_eq_getElem hi',
    List.getElem?_eq_getElem hj', Option.getD_some] at hij
  exact (List.Nodup.getElem_inj_iff hnd).mp hij

/-- In a block without repeated alternates `index_of(get_seq(i)) = i`. -/
theorem index_of_get_seq (block : RepeatBlock) (hnd : block.alternates.Nodup) {i : Nat}
    (hi : i < block.num_options) : block.index_of (block.get_seq i) = (i : Int) := by
  unfold RepeatBlock.index_of RepeatBlock.get_seq
  have hi' : i < block.alternates.length := hi
  simp only [List.getD_eq_getElem?_getD, List.getElem?_eq_getElem hi', Option.getD_some]
  rw [if_pos (List.getElem_mem _), List.indexOf_getElem hnd]

/-- For a sequence of the block, `get_seq(index_of(seq)) = seq`. -/
theorem get_seq_index_of (block : RepeatBlock) {seq : String} (h : seq ∈ block.alternates) :
    block.get_seq (block.index_of seq).toNat = seq
      ∧ 0 ≤ block.index_of seq ∧ block.index_of seq < block.num_options := by
  unfold RepeatBlock.index_of RepeatBlock.get_seq RepeatBlock.num_options
  rw [if_pos h]
  have hlt : List.indexOf seq block.alternates < block.alternates.length :=
    List.indexOf_lt_length.mpr h
  refine ⟨?_, by omega, by exact_mod_cast hlt⟩
  simp only [Int.toNat_natCast, List.getD_eq_getElem?_getD, List.getElem?_eq_getElem hlt,
    Option.getD_some]
  exact List.getElem_indexOf hlt

theorem get_seq_mem (block : RepeatBlock) {i : Nat} (hi : i < block.num_options) :
    block.get_seq i ∈ block.alternates := by
  unfold RepeatBlock.get_seq
  have hi' : i < block.alternates.length := hi
  simp only [List.getD_eq_getElem?_getD, List.getElem?_eq_getElem hi', Option.getD_some]
  exact List.getElem_mem _

theorem get_seq_inj (block : RepeatBlock) (hnd : block.alternates.Nodup) {i j : Nat}
    (hi : i < block.num_options) (hj : j < block.num_options)
    (h : block.get_seq i = block.get_seq j) : i = j := by
  have h1 := index_of_get_seq block hnd hi
  have h2 := index_of_get_seq block hnd hj
  rw [h] at h1
  omega

/-- The generic re-keying of a trace cache: kept entries move to `(pool, newidx a)`. -/
theorem rekey_spec (cache : List ((Int × Int) × AlignmentTrace)) (keepA : Int → Bool)
    (newidx : Int → Int) (hnd : (cache.map Prod.fst).Nodup)
    (hinj : ∀ e1 ∈ cache, ∀ e2 ∈ cache, keepA e1.1.2 = true → keepA e2.1.2 = true →
      newidx e1.1.2 = newidx e2.1.2 → e1.1.2 = e2.1.2) :
    (∀ pool a trace, map_find cache (pool, a) = some trace → keepA a = true →
      map_find (cache.foldl (fun acc e =>
        if keepA e.1.2 then map_assign pair_lt acc (e.1.1, newidx e.1.2) e.2 else acc) [])
        (pool, newidx a) = some trace)
    ∧ ∀ pool a' trace, map_find (cache.foldl (fun acc e =>
        if keepA e.1.2 then map_assign pair_lt acc (e.1.1, newidx e.1.2) e.2 else acc) [])
        (pool, a') = some trace →
        ∃ a, map_find cache (pool, a) = some trace ∧ keepA a = true ∧ a' = newidx a := by
  constructor
  · intro pool a trace hfind hkeep
    have hmem := map_find_mem cache (pool, a) trace hfind
    exact map_find_rekey_target pair_lt (fun k => keepA k.2) (fun k => (k.1, newidx k.2)) cache []
      hnd (fun e1 h1 e2 h2 k1 k2 heq => by
        have heq' : (e1.1.1, newidx e1.1.2) = (e2.1.1, newidx e2.1.2) := heq
        simp only [Prod.mk.injEq] at heq'
        exact Prod.ext heq'.1 (hinj e1 h1 e2 h2 k1 k2 heq'.2)) ((pool, a), trace) hmem hkeep
  · intro pool a' trace hfind
    rcases map_find_rekey_source pair_lt (fun k => keepA k.2) (fun k => (k.1, newidx k.2)) cache []
      (pool, a') trace hfind with h | ⟨e, he, hk, hkey, ht⟩
    · simp [map_find] at h
    · obtain ⟨⟨p, a⟩, t⟩ := e
      simp only [Prod.mk.injEq] at hkey
      obtain ⟨hp, ha⟩ := hkey
      subst hp ht
      exact ⟨a, map_find_of_mem cache hnd _ he, hk, ha.symm⟩

/-- The vector `allele_mapping` of `remove_alleles`. -/
theorem allele_mapping_getD {α : Type} (g : SeqStutterGenotyper α) (allele_indices : List Nat)
    (a : Nat) :
    (fix_alleles g (keep_allele allele_indices)).2.1.getD a (-1)
      = if a < g.alleles_.length ∧ a ∉ allele_indices then (kept_rank allele_indices a : Int)
        else -1 := by
  rw [fix_alleles_eq]
  simp only [List.getD_eq_getElem?_getD, List.getElem?_map]
  by_cases ha : a < g.alleles_.length
  · rw [List.getElem?_range ha]
    by_cases hk : a ∈ allele_indices
    · simp [hk]
    · simp [hk, ha]
  · rw [List.getElem?_eq_none (by simpa using not_lt.mp ha)]
    simp [ha]

/-- The vectors `original_indices` and `stutter_indices` of the merge pass. -/
theorem merged_indices_eq {α : Type} (g : SeqStutterGenotyper α) (str_block : RepeatBlock)
    (stutter_seqs : List String) :
    merged_indices g str_block stutter_seqs
      = ((List.range g.num_alleles_).map (fun i => str_block.index_of (g.hap_blocks_.get_seq i)),
          stutter_seqs.map str_block.index_of) := by
  unfold merged_indices
  have h1 : ∀ (n : Nat) (f : Nat → Int),
      forLoop n (fun i (l : List Int) => l ++ [f i]) [] = (List.range n).map f := by
    intro n f
    induction n with
    | zero => rfl
    | succ k ih => rw [forLoop_succ, ih, List.range_succ, List.map_append]; rfl
  rw [h1, h1]
  congr 1
  apply List.ext_getElem
  · simp
  · intro i hi1 hi2
    simp only [List.length_map, List.length_range] at hi1
    simp [List.getD_eq_getElem?_getD, List.getElem?_eq_getElem hi1]

/-- In `remove_alleles` the trace cache is re-keyed by sequence identity. -/
theorem remove_alleles_cache_rekeyed {α : Type} [LinearOrderedField α]
    (g : SeqStutterGenotyper α) (allele_indices : List Nat)
    (hdim : dimension_consistent g) (hkeys : (g.trace_cache_.map Prod.fst).Nodup)
    (halt : g.hap_blocks_.alternates.Nodup) (h0 : 0 ∉ allele_indices)
    (hnd : allele_indices.Nodup) (hlt : ∀ i ∈ allele_indices, i < g.num_alleles_) :
    cache_rekeyed_by_sequence g.hap_blocks_ (g.hap_blocks_.remove_alleles allele_indices)
      g.trace_cache_
      (fix_trace_cache g.trace_cache_ (fix_alleles g (keep_allele allele_indices)).2.1)
      (fun a => a.toNat ∉ allele_indices) := by
  obtain ⟨hsize, hopts, hrange⟩ := hdim
  have hmap : ∀ a : Int, 0 ≤ a → a < g.num_alleles_ →
      (fix_alleles g (keep_allele allele_indices)).2.1.getD a.toNat (-1)
        = if a.toNat ∉ allele_indices then (kept_rank allele_indices a.toNat : Int) else -1 := by
    intro a h1 h2
    rw [allele_mapping_getD]
    have : a.toNat < g.alleles_.length := by omega
    simp [this]
  have hfold : fix_trace_cache g.trace_cache_ (fix_alleles g (keep_allele allele_indices)).2.1
      = g.trace_cache_.foldl (fun acc e =>
          if (decide ((fix_alleles g (keep_allele allele_indices)).2.1.getD e.1.2.toNat (-1)
              ≠ -1)) then
            map_assign pair_lt acc
              (e.1.1, (fix_alleles g (keep_allele allele_indices)).2.1.getD e.1.2.toNat (-1)) e.2
          else acc) [] := by
    unfold fix_trace_cache
    congr 1
    funext acc e
    by_cases h : (fix_alleles g (keep_allele allele_indices)).2.1.getD e.1.2.toNat (-1) = -1
    · simp [h]
    · simp [h]
  have hidx : ∀ j, j < g.num_alleles_ → j ∉ allele_indices →
      (g.hap_blocks_.remove_alleles allele_indices).index_of (g.hap_blocks_.get_seq j)
        = (kept_rank allele_indices j : Int) := by
    intro j hj hk
    rw [← remove_alleles_block_get_seq g.hap_blocks_ allele_indices h0 (by omega) hk]
    apply index_of_get_seq _ (remove_alleles_block_nodup g.hap_blocks_ allele_indices h0 halt)
    rw [remove_alleles_block_num_options g.hap_blocks_ allele_indices h0 hnd
      (fun i hi => by have := hlt i hi; omega), ← hopts,
      ← kept_rank_total allele_indices g.num_alleles_ hnd hlt]
    exact kept_rank_lt allele_indices hj hk
  have hspec := rekey_spec g.trace_cache_
    (fun a => decide ((fix_alleles g (keep_allele allele_indices)).2.1.getD a.toNat (-1) ≠ -1))
    (fun a => (fix_alleles g (keep_allele allele_indices)).2.1.getD a.toNat (-1)) hkeys (by
      intro e1 h1 e2 h2 k1 k2 heq
      obtain ⟨p1, p2⟩ := hrange e1 h1
      obtain ⟨q1, q2⟩ := hrange e2 h2
      simp only [decide_eq_true_eq] at k1 k2
      dsimp only at heq
      rw [hmap e1.1.2 p1 p2] at k1 heq
      rw [hmap e2.1.2 q1 q2] at k2 heq
      by_cases m1 : e1.1.2.toNat ∈ allele_indices
      · simp [m1] at k1
      · by_cases m2 : e2.1.2.toNat ∈ allele_indices
        · simp [m2] at k2
        · simp only [m1, m2, not_false_eq_true, if_true, Nat.cast_inj] at heq
          have := kept_rank_inj allele_indices m1 m2 heq
          omega)
  rw [hfold]
  constructor
  · intro pool a trace hfind hsurv
    obtain ⟨p1, p2⟩ := hrange _ (map_find_mem _ _ _ hfind)
    simp only at p1 p2 hsurv
    have hnew := hspec.1 pool a trace hfind (by
      simp only [decide_eq_true_eq]
      rw [hmap a p1 p2, if_pos hsurv]
      omega)
    simp only at hnew
    rw [hmap a p1 p2, if_pos hsurv] at hnew
    have hj : a.toNat < g.num_alleles_ := by omega
    rw [hidx a.toNat hj hsurv]
    refine ⟨hnew, ?_⟩
    rw [Int.toNat_natCast]
    exact remove_alleles_block_get_seq g.hap_blocks_ allele_indices h0 (by omega) hsurv
  · intro pool a' trace hfind
    obtain ⟨a, hold, hk, ha'⟩ := hspec.2 pool a' trace hfind
    obtain ⟨p1, p2⟩ := hrange _ (map_find_mem _ _ _ hold)
    simp only at p1 p2
    simp only [decide_eq_true_eq] at hk
    dsimp only at ha'
    rw [hmap a p1 p2] at hk ha'
    by_cases m : a.toNat ∈ allele_indices
    · simp [m] at hk
    · simp only [m, not_false_eq_true, if_true] at ha'
      exact ⟨a, hold, m, by rw [ha', hidx a.toNat (by omega) m]⟩

/-- The merged block holds the old alternates and the candidates. -/
theorem merged_str_block_perm (srt : StdSort) (block : RepeatBlock) (stutter_seqs : List String)
    (hne : 1 ≤ block.num_options) :
    (merged_str_block srt block stutter_seqs).alternates.Perm
      (block.alternates ++ stutter_seqs) := by
  cases h : block.alternates with
  | nil =>
    rw [RepeatBlock.num_options, h] at hne
    exact absurd hne (by decide)
  | cons a0 rest =>
    rw [merged_str_block_alternates srt block stutter_seqs a0 rest h, List.cons_append]
    exact List.Perm.cons a0 (srt.perm _)

theorem index_of_inj (block : RepeatBlock) {s1 s2 : String} (h1 : s1 ∈ block.alternates)
    (h2 : s2 ∈ block.alternates) (h : block.index_of s1 = block.index_of s2) : s1 = s2 := by
  unfold RepeatBlock.index_of at h
  rw [if_pos h1, if_pos h2] at h
  exact (List.indexOf_inj h1 h2).mp (by exact_mod_cast h)

/-- In a merge pass the trace cache is re-keyed by sequence identity and no trace is lost. -/
theorem merge_cache_rekeyed {α : Type} [LinearOrderedField α] (srt : StdSort)
    (g : SeqStutterGenotyper α) (stutter_seqs : List String)
    (hdim : dimension_consistent g) (hkeys : (g.trace_cache_.map Prod.fst).Nodup)
    (halt : g.hap_blocks_.alternates.Nodup) :
    cache_rekeyed_by_sequence g.hap_blocks_ (merged_str_block srt g.hap_blocks_ stutter_seqs)
      g.trace_cache_
      (merged_trace_cache g.trace_cache_
        (merged_indices g (merged_str_block srt g.hap_blocks_ stutter_seqs) stutter_seqs).1)
      (fun _ => True) := by
  obtain ⟨_, hopts, hrange⟩ := hdim
  have hmap : ∀ a : Int, 0 ≤ a → a < g.num_alleles_ →
      (merged_indices g (merged_str_block srt g.hap_blocks_ stutter_seqs) stutter_seqs).1.getD
          a.toNat (-1)
        = (merged_str_block srt g.hap_blocks_ stutter_seqs).index_of
            (g.hap_blocks_.get_seq a.toNat) := by
    intro a h1 h2
    have hlt : a.toNat < g.num_alleles_ := by omega
    rw [merged_indices_eq]
    simp [List.getD_eq_getElem?_getD, List.getElem?_range hlt]
  have hmem : ∀ a : Int, 0 ≤ a → a < g.num_alleles_ →
      g.hap_blocks_.get_seq a.toNat
        ∈ (merged_str_block srt g.hap_blocks_ stutter_seqs).alternates := by
    intro a h1 h2
    have hlt : a.toNat < g.hap_blocks_.num_options := by omega
    exact (merged_str_block_perm srt g.hap_blocks_ stutter_seqs (by omega)).mem_iff.mpr
      (List.mem_append_left _ (get_seq_mem g.hap_blocks_ hlt))
  have hfold : merged_trace_cache g.trace_cache_
      (merged_indices g (merged_str_block srt g.hap_blocks_ stutter_seqs) stutter_seqs).1
      = g.trace_cache_.foldl (fun acc e =>
          if (fun _ : Int => true) e.1.2 then
            map_assign pair_lt acc
              (e.1.1, (merged_indices g (merged_str_block srt g.hap_blocks_ stutter_seqs)
                stutter_seqs).1.getD e.1.2.toNat (-1)) e.2
          else acc) [] := by
    unfold merged_trace_cache
    simp
  have hspec := rekey_spec g.trace_cache_ (fun _ => true)
    (fun a => (merged_indices g (merged_str_block srt g.hap_blocks_ stutter_seqs)
      stutter_seqs).1.getD a.toNat (-1)) hkeys (by
      intro e1 h1 e2 h2 _ _ heq
      obtain ⟨p1, p2⟩ := hrange e1 h1
      obtain ⟨q1, q2⟩ := hrange e2 h2
      dsimp only at heq
      rw [hmap e1.1.2 p1 p2, hmap e2.1.2 q1 q2] at heq
      have hseq := index_of_inj _ (hmem e1.1.2 p1 p2) (hmem e2.1.2 q1 q2) heq
      have := get_seq_inj g.hap_blocks_ halt (by omega) (by omega) hseq
      omega)
  rw [hfold]
  constructor
  · intro pool a trace hfind _
    obtain ⟨p1, p2⟩ := hrange _ (map_find_mem _ _ _ hfind)
    simp only at p1 p2
    have hnew := hspec.1 pool a trace hfind rfl
    dsimp only at hnew
    rw [hmap a p1 p2] at hnew
    exact ⟨hnew, (get_seq_index_of _ (hmem a p1 p2)).1⟩
  · intro pool a' trace hfind
    obtain ⟨a, hold, _, ha'⟩ := hspec.2 pool a' trace hfind
    obtain ⟨p1, p2⟩ := hrange _ (map_find_mem _ _ _ hold)
    simp only at p1 p2
    dsimp only at ha'
    rw [hmap a p1 p2] at ha'
    exact ⟨a, hold, trivial, ha'⟩

end Rekey

/-! ## Claims on the trace cache -/

section CacheClaims

variable {α : Type} [LinearOrderedField α]

/-- Claim C20: on an object whose allele dimension is consistent, whose cache keys are distinct
(it is a `std::map`) and whose alternates are pairwise distinct, both allele-set mutations re-key
the trace cache by sequence identity. After `remove_alleles` of distinct in-range non-reference
indices, and after a merge pass, every trace stored under `(pool, a_old)` whose allele survives
is stored under `(pool, a_new)` with `a_new = new_block.index_of(old sequence)`, and alternate
`a_new` of the new block is that sequence; every entry of the new cache is such a re-keyed
surviving entry, so the traces of removed alleles are gone and none is moved to another
sequence. In a merge pass every allele survives. -/
theorem trace_cache_rekeyed_by_sequence (m : MathOps α) (srt : StdSort)
    (g : SeqStutterGenotyper α) (allele_indices : List Nat) (chrom_seq : String)
    (stutter_seqs : List String) (new_log_aln_probs : Nat → α)
    (hdim : dimension_consistent g) (hkeys : (g.trace_cache_.map Prod.fst).Nodup)
    (halt : g.hap_blocks_.alternates.Nodup) (h0 : 0 ∉ allele_indices)
    (hnd : allele_indices.Nodup) (hlt : ∀ i ∈ allele_indices, i < g.num_alleles_) :
    cache_rekeyed_by_sequence g.hap_blocks_ (remove_alleles m g allele_indices).hap_blocks_
        g.trace_cache_ (remove_alleles m g allele_indices).trace_cache_
        (fun a => a.toNat ∉ allele_indices)
    ∧ cache_rekeyed_by_sequence g.hap_blocks_
        (merge_stutter_alleles m srt g chrom_seq stutter_seqs new_log_aln_probs).hap_blocks_
        g.trace_cache_
        (merge_stutter_alleles m srt g chrom_seq stutter_seqs new_log_aln_probs).trace_cache_
        (fun _ => True) :=
  ⟨remove_alleles_cache_rekeyed g allele_indices hdim hkeys halt h0 hnd hlt,
    merge_cache_rekeyed srt g stutter_seqs hdim hkeys halt⟩

/-- Witness of C20: the five-allele example, pruned of `{1, 3, 4}` or merged with the candidate
`"ACA"`. -/
theorem trace_cache_rekeyed_by_sequence_witness :
    cache_rekeyed_by_sequence (example_five_alleles ℚ).hap_blocks_
        (remove_alleles ⟨id, id⟩ (example_five_alleles ℚ) [1, 3, 4]).hap_blocks_
        (example_five_alleles ℚ).trace_cache_
        (remove_alleles ⟨id, id⟩ (example_five_alleles ℚ) [1, 3, 4]).trace_cache_
        (fun a => a.toNat ∉ [1, 3, 4])
    ∧ cache_rekeyed_by_sequence (example_five_alleles ℚ).hap_blocks_
        (merge_stutter_alleles ⟨id, id⟩ insertion_sort_by_length (example_five_alleles ℚ)
          "" ["ACA"] (fun _ => -3)).hap_blocks_
        (example_five_alleles ℚ).trace_cache_
        (merge_stutter_alleles ⟨id, id⟩ insertion_sort_by_length (example_five_alleles ℚ)
          "" ["ACA"] (fun _ => -3)).trace_cache_
        (fun _ => True) :=
  trace_cache_rekeyed_by_sequence ⟨id, id⟩ insertion_sort_by_length (example_five_alleles ℚ)
    [1, 3, 4] "" ["ACA"] (fun _ => -3)
    ⟨by decide, by decide, by
      intro entry h
      simp only [example_five_alleles, List.mem_cons, List.mem_singleton, List.not_mem_nil,
        or_false] at h
      rcases h with h | h | h <;> subst h <;> decide⟩
    (by decide) (by decide) (by decide) (by decide) (by decide)

end CacheClaims

/-! ## The allele dimension -/

section DimensionLists

variable {κ ν : Type} [DecidableEq κ]

/-- An entry of the map after `m[k] = v` is the new entry or an old one. -/
theorem map_assign_mem (lt : κ → κ → Bool) (l : List (κ × ν)) (k : κ) (v : ν) (e : κ × ν)
    (h : e ∈ map_assign lt l k v) : e = (k, v) ∨ e ∈ l := by
  induction l with
  | nil =>
    simp only [map_assign, List.mem_singleton] at h
    exact Or.inl h
  | cons e0 rest ih =>
    obtain ⟨k0, v0⟩ := e0
    unfold map_assign at h
    split_ifs at h with h1 h2
    · rcases List.mem_cons.mp h with h | h
      · exact Or.inl h
      · exact Or.inr h
    · rcases List.mem_cons.mp h with h | h
      · exact Or.inl h
      · exact Or.inr (List.mem_cons_of_mem _ h)
    · rcases List.mem_cons.mp h with h | h
      · exact Or.inr (h ▸ List.mem_cons_self _ _)
      · rcases ih h with h | h
        · exact Or.inl h
        · exact Or.inr (List.mem_cons_of_mem _ h)

/-- Every entry of a re-keyed map comes from a kept entry of the old one. -/
theorem rekey_mem (lt : κ → κ → Bool) (keep : κ → Bool) (nk : κ → κ)
    (cache : List (κ × ν)) (init : List (κ × ν)) (e : κ × ν)
    (h : e ∈ cache.foldl (fun acc e =>
      if keep e.1 then map_assign lt acc (nk e.1) e.2 else acc) init) :
    e ∈ init ∨ ∃ e0 ∈ cache, keep e0.1 = true ∧ e = (nk e0.1, e0.2) := by
  induction cache generalizing init with
  | nil => exact Or.inl h
  | cons c rest ih =>
    rw [List.foldl_cons] at h
    rcases ih _ h with h | ⟨e0, he0, hk, he⟩
    · by_cases hc : keep c.1 = true
      · rw [if_pos hc] at h
        rcases map_assign_mem _ _ _ _ _ h with h | h
        · exact Or.inr ⟨c, List.mem_cons_self _ _, hc, h⟩
        · exact Or.inl h
      · rw [if_neg hc] at h
        exact Or.inl h
    · exact Or.inr ⟨e0, List.mem_cons_of_mem _ he0, hk, he⟩

end DimensionLists

section DimensionVectors

variable {α : Type}

/-- The vector that `get_alleles` fills has one entry per alternate of the repeat block. -/
theorem get_alleles_length (g : SeqStutterGenotyper α) (chrom_seq : String) :
    (get_alleles g chrom_seq).1.length = g.hap_blocks_.num_options := by
  unfold get_alleles
  dsimp only
  generalize g.hap_blocks_.num_options = n
  refine forLoop_inv (fun i (l : List String) => l.length = i) n _ [] rfl ?_
  intro i s _ hs
  rw [List.length_append, hs, List.length_singleton]

/-- The vector `fixed_alleles` has `num_alleles_ - allele_indices.size()` entries. -/
theorem fix_alleles_length (g : SeqStutterGenotyper α) (allele_indices : List Nat)
    (hnd : allele_indices.Nodup) (hlt : ∀ i ∈ allele_indices, i < g.alleles_.length) :
    (fix_alleles g (keep_allele allele_indices)).1.length
      = g.alleles_.length - allele_indices.length := by
  rw [fix_alleles_eq, List.length_map, ← kept_rank_total allele_indices _ hnd hlt]
  rfl

end DimensionVectors

section Dimension

variable {α : Type} [LinearOrderedField α]

/-- The offsets of `remove_alleles` after the loops: all `num_reads_ * num_alleles_` old cells
were read and `num_reads_ * fixed_num_alleles` new cells written. -/
theorem fix_log_aln_probs_ptrs (g : SeqStutterGenotyper α) (allele_indices : List Nat) :
    (fix_log_aln_probs g (keep_allele allele_indices)).2.1 = g.num_reads_ * g.num_alleles_
    ∧ (fix_log_aln_probs g (keep_allele allele_indices)).2.2
        = g.num_reads_ * kept_rank allele_indices g.num_alleles_ := by
  unfold fix_log_aln_probs
  refine forLoop_inv (fun i (st : (Nat → α) × Nat × Nat) =>
    st.2.1 = i * g.num_alleles_ ∧ st.2.2 = i * kept_rank allele_indices g.num_alleles_)
    g.num_reads_ _ _ ⟨by simp, by simp⟩ ?_
  intro i st _ hst
  have inner := forLoop_inv (fun j (st' : (Nat → α) × Nat × Nat) =>
    st'.2.1 = st.2.1 + j ∧ st'.2.2 = st.2.2 + kept_rank allele_indices j)
    g.num_alleles_ (fun j (st : (Nat → α) × Nat × Nat) =>
      if keep_allele allele_indices j then
        (store st.1 st.2.2 (g.log_aln_probs_ st.2.1), st.2.1 + 1, st.2.2 + 1)
      else (st.1, st.2.1 + 1, st.2.2)) st ⟨by simp, by simp [kept_rank]⟩ (by
      intro j st' _ hst'
      dsimp only
      rw [kept_rank_succ, keep_allele_eq]
      by_cases hk : j ∉ allele_indices
      · simp only [hk, not_false_eq_true, decide_True, if_true]
        exact ⟨by rw [hst'.1]; ring, by rw [hst'.2]; ring⟩
      · simp only [hk, decide_False, Bool.false_eq_true, if_false, add_zero]
        exact ⟨by rw [hst'.1]; ring, hst'.2⟩)
  exact ⟨by rw [inner.1, hst.1]; ring, by rw [inner.2, hst.2]; ring⟩

/-- The offsets of a merge pass after the loops: the old array and the array of the candidates
were read to their ends and `num_reads_ * total_alleles` is the end of the new one. -/
theorem merged_log_aln_probs_ptrs (g : SeqStutterGenotyper α)
    (original_indices stutter_indices : List Int) (num_stutter : Nat)
    (new_log_aln_probs : Nat → α) :
    (merged_log_aln_probs g original_indices stutter_indices num_stutter new_log_aln_probs).2
      = (g.num_reads_ * g.num_alleles_, g.num_reads_ * num_stutter,
          g.num_reads_ * (g.num_alleles_ + num_stutter)) := by
  unfold merged_log_aln_probs
  dsimp only
  refine forLoop_inv (fun i (st : (Nat → α) × Nat × Nat × Nat) =>
    st.2 = (i * g.num_alleles_, i * num_stutter, i * (g.num_alleles_ + num_stutter)))
    g.num_reads_ _ _ (by simp) ?_
  intro i st _ hst
  have h1 := forLoop_inv (fun j (st' : (Nat → α) × Nat × Nat × Nat) =>
    st'.2 = (st.2.1 + j, st.2.2.1, st.2.2.2))
    g.num_alleles_ (fun j (st : (Nat → α) × Nat × Nat × Nat) =>
      (store st.1 ((st.2.2.2 : Int) + original_indices.getD j (-1)).toNat
          (g.log_aln_probs_ st.2.1),
        st.2.1 + 1, st.2.2.1, st.2.2.2)) st rfl (by
      intro j st' _ hst'
      simp only [hst']
      rfl)
  have h2 := forLoop_inv (fun j (st' : (Nat → α) × Nat × Nat × Nat) =>
    st'.2 = (st.2.1 + g.num_alleles_, st.2.2.1 + j, st.2.2.2))
    num_stutter (fun j (st : (Nat → α) × Nat × Nat × Nat) =>
      (store st.1 ((st.2.2.2 : Int) + stutter_indices.getD j (-1)).toNat
          (new_log_aln_probs st.2.2.1),
        st.2.1, st.2.2.1 + 1, st.2.2.2)) _ h1 (by
      intro j st' _ hst'
      simp only [hst']
      rfl)
  simp only [h2, hst]
  simp only [Prod.mk.injEq]
  exact ⟨by ring, by ring, by ring⟩

/-- After `remove_alleles` of distinct in-range non-reference indices the allele dimension is
consistent. -/
theorem remove_alleles_dimension (m : MathOps α) (g : SeqStutterGenotyper α)
    (allele_indices : List Nat) (hdim : dimension_consistent g) (h0 : 0 ∉ allele_indices)
    (hnd : allele_indices.Nodup) (hlt : ∀ i ∈ allele_indices, i < g.num_alleles_) :
    dimension_consistent (remove_alleles m g allele_indices) := by
  obtain ⟨hsize, hopts, hrange⟩ := hdim
  refine ⟨?_, ?_, ?_⟩
  · show g.num_alleles_ - allele_indices.length
      = (fix_alleles g (keep_allele allele_indices)).1.length
    rw [fix_alleles_length g allele_indices hnd (fun i hi => hsize ▸ hlt i hi), hsize]
  · show g.num_alleles_ - allele_indices.length
      = (g.hap_blocks_.remove_alleles allele_indices).num_options
    rw [remove_alleles_block_num_options _ _ h0 hnd (fun i hi => hopts ▸ hlt i hi), hopts]
  · intro entry hentry
    have hmem : entry ∈ g.trace_cache_.foldl (fun acc (e : (Int × Int) × AlignmentTrace) =>
        if (fun k : Int × Int => decide ((fix_alleles g (keep_allele allele_indices)).2.1.getD
            k.2.toNat (-1) ≠ -1)) e.1 then
          map_assign pair_lt acc
            ((fun k : Int × Int => (k.1, (fix_alleles g (keep_allele allele_indices)).2.1.getD
              k.2.toNat (-1))) e.1) e.2
        else acc) [] := by
      have : (remove_alleles m g allele_indices).trace_cache_
          = fix_trace_cache g.trace_cache_ (fix_alleles g (keep_allele allele_indices)).2.1 := rfl
      rw [this] at hentry
      unfold fix_trace_cache at hentry
      simpa using hentry
    rcases rekey_mem pair_lt
      (fun k : Int × Int => decide ((fix_alleles g (keep_allele allele_indices)).2.1.getD
            k.2.toNat (-1) ≠ -1))
      (fun k : Int × Int => (k.1, (fix_alleles g (keep_allele allele_indices)).2.1.getD
              k.2.toNat (-1))) g.trace_cache_ [] entry hmem with h | ⟨e0, he0, hk, he⟩
    · exact absurd h (List.not_mem_nil _)
    · obtain ⟨p1, p2⟩ := hrange e0 he0
      have hk' : (fix_alleles g (keep_allele allele_indices)).2.1.getD e0.1.2.toNat (-1) ≠ -1 := by
        simpa using hk
      rw [allele_mapping_getD] at hk'
      have hcond : e0.1.2.toNat < g.alleles_.length ∧ e0.1.2.toNat ∉ allele_indices := by
        by_contra hc
        exact hk' (if_neg hc)
      have hnew : entry.1.2 = (kept_rank allele_indices e0.1.2.toNat : Int) := by
        rw [he]
        show (fix_alleles g (keep_allele allele_indices)).2.1.getD e0.1.2.toNat (-1) = _
        rw [allele_mapping_getD, if_pos hcond]
      rw [hnew]
      refine ⟨Int.natCast_nonneg _, ?_⟩
      show (kept_rank allele_indices e0.1.2.toNat : Int)
        < ((g.num_alleles_ - allele_indices.length : Nat) : Int)
      rw [← kept_rank_total allele_indices g.num_alleles_ hnd hlt]
      exact_mod_cast kept_rank_lt allele_indices (by omega) hcond.2

/-- After a merge pass on an object with a reference allele the allele dimension is
consistent. -/
theorem merge_stutter_alleles_dimension (m : MathOps α) (srt : StdSort)
    (g : SeqStutterGenotyper α) (chrom_seq : String) (stutter_seqs : List String)
    (new_log_aln_probs : Nat → α) (hdim : dimension_consistent g) (hne : 1 ≤ g.num_alleles_) :
    dimension_consistent
      (merge_stutter_alleles m srt g chrom_seq stutter_seqs new_log_aln_probs) := by
  obtain ⟨hsize, hopts, hrange⟩ := hdim
  have hperm := merged_str_block_perm srt g.hap_blocks_ stutter_seqs (hopts ▸ hne)
  have hnum : (merged_str_block srt g.hap_blocks_ stutter_seqs).num_options
      = g.num_alleles_ + stutter_seqs.length := by
    unfold RepeatBlock.num_options
    rw [hperm.length_eq, List.length_append, hopts]
    rfl
  refine ⟨?_, ?_, ?_⟩
  · show g.num_alleles_ + stutter_seqs.length = (get_alleles _ chrom_seq).1.length
    rw [get_alleles_length]
    exact hnum.symm
  · exact hnum.symm
  · intro entry hentry
    have hmem : entry ∈ g.trace_cache_.foldl (fun acc (e : (Int × Int) × AlignmentTrace) =>
        if (fun _ : Int × Int => true) e.1 then
          map_assign pair_lt acc
            ((fun k : Int × Int => (k.1, (merged_indices g
              (merged_str_block srt g.hap_blocks_ stutter_seqs) stutter_seqs).1.getD
                k.2.toNat (-1))) e.1) e.2
        else acc) [] := by
      have : (merge_stutter_alleles m srt g chrom_seq stutter_seqs new_log_aln_probs).trace_cache_
          = merged_trace_cache g.trace_cache_ (merged_indices g
              (merged_str_block srt g.hap_blocks_ stutter_seqs) stutter_seqs).1 := rfl
      rw [this] at hentry
      unfold merged_trace_cache at hentry
      simpa using hentry
    rcases rekey_mem pair_lt (fun _ : Int × Int => true)
      (fun k : Int × Int => (k.1, (merged_indices g
              (merged_str_block srt g.hap_blocks_ stutter_seqs) stutter_seqs).1.getD
                k.2.toNat (-1))) g.trace_cache_ [] entry hmem with h | ⟨e0, he0, _, he⟩
    · exact absurd h (List.not_mem_nil _)
    · obtain ⟨p1, p2⟩ := hrange e0 he0
      have hlt : e0.1.2.toNat < g.num_alleles_ := by omega
      have hnew : entry.1.2 = (merged_str_block srt g.hap_blocks_ stutter_seqs).index_of
          (g.hap_blocks_.get_seq e0.1.2.toNat) := by
        rw [he]
        show (merged_indices g _ stutter_seqs).1.getD e0.1.2.toNat (-1) = _
        rw [merged_indices_eq]
        simp [List.getD_eq_getElem?_getD, List.getElem?_range hlt]
      have hin := get_seq_index_of (merged_str_block srt g.hap_blocks_ stutter_seqs)
        (hperm.mem_iff.mpr (List.mem_append_left _
          (get_seq_mem g.hap_blocks_ (hopts ▸ hlt))))
      rw [hnew]
      refine ⟨hin.2.1, ?_⟩
      have := hin.2.2
      rw [hnum] at this
      exact this

/-- Claim C14: on an object with a reference allele whose allele dimension is consistent,
`remove_alleles` of distinct in-range non-reference indices and a merge pass of
`id_and_align_to_stutter_alleles` both leave it consistent: `num_alleles_` is the size of
`alleles_` and the number of alternates of the rebuilt repeat block, and every key
`(pool, allele)` of the trace cache has `0 <= allele < num_alleles_`. The write offset into the
new `A` ends at `num_reads_ * num_alleles_`, that is `num_alleles_` columns per read, and the
posterior tensor is the one the engine fills for the new `num_alleles_`. -/
theorem allele_dimension_consistent (m : MathOps α) (srt : StdSort) (g : SeqStutterGenotyper α)
    (allele_indices : List Nat) (chrom_seq : String) (stutter_seqs : List String)
    (new_log_aln_probs : Nat → α) (hdim : dimension_consistent g) (hne : 1 ≤ g.num_alleles_)
    (h0 : 0 ∉ allele_indices) (hnd : allele_indices.Nodup)
    (hlt : ∀ i ∈ allele_indices, i < g.num_alleles_) :
    (dimension_consistent (remove_alleles m g allele_indices)
      ∧ (fix_log_aln_probs g (keep_allele allele_indices)).2.2
          = g.num_reads_ * (remove_alleles m g allele_indices).num_alleles_
      ∧ remove_alleles m g allele_indices
          = (calc_log_sample_posteriors_default m
              { remove_alleles m g allele_indices with
                log_sample_posteriors_ := new_array
                sample_total_LLs_ := g.sample_total_LLs_ }).2)
    ∧ (dimension_consistent
        (merge_stutter_alleles m srt g chrom_seq stutter_seqs new_log_aln_probs)
      ∧ (merged_log_aln_probs g
            (merged_indices g (merged_str_block srt g.hap_blocks_ stutter_seqs) stutter_seqs).1
            (merged_indices g (merged_str_block srt g.hap_blocks_ stutter_seqs) stutter_seqs).2
            stutter_seqs.length new_log_aln_probs).2.2.2
          = g.num_reads_
            * (merge_stutter_alleles m srt g chrom_seq stutter_seqs new_log_aln_probs).num_alleles_
      ∧ merge_stutter_alleles m srt g chrom_seq stutter_seqs new_log_aln_probs
          = (calc_log_sample_posteriors_default m
              { merge_stutter_alleles m srt g chrom_seq stutter_seqs new_log_aln_probs with
                log_sample_posteriors_ := new_array
                sample_total_LLs_ := g.sample_total_LLs_ }).2) := by
  refine ⟨⟨remove_alleles_dimension m g allele_indices hdim h0 hnd hlt, ?_, rfl⟩,
    ⟨merge_stutter_alleles_dimension m srt g chrom_seq stutter_seqs new_log_aln_probs hdim hne,
      ?_, rfl⟩⟩
  · rw [(fix_log_aln_probs_ptrs g allele_indices).2,
      kept_rank_total allele_indices g.num_alleles_ hnd hlt]
    rfl
  · rw [merged_log_aln_probs_ptrs]
    rfl

/-- Witness of C14: the five-allele example, pruned of `{1, 3, 4}` (two alleles remain) or
merged with the candidate `"ACA"` (six alleles). -/
theorem allele_dimension_consistent_witness :
    (dimension_consistent (remove_alleles ⟨id, id⟩ (example_five_alleles ℚ) [1, 3, 4])
      ∧ (remove_alleles ⟨id, id⟩ (example_five_alleles ℚ) [1, 3, 4]).num_alleles_ = 2)
    ∧ dimension_consistent
        (merge_stutter_alleles ⟨id, id⟩ insertion_sort_by_length (example_five_alleles ℚ) ""
          ["ACA"] (fun _ => -3))
    ∧ (merge_stutter_alleles ⟨id, id⟩ insertion_sort_by_length (example_five_alleles ℚ) ""
          ["ACA"] (fun _ => -3)).num_alleles_ = 6 := by
  have h := allele_dimension_consistent ⟨id, id⟩ insertion_sort_by_length
    (example_five_alleles ℚ) [1, 3, 4] "" ["ACA"] (fun _ => -3)
    ⟨by decide, by decide, by
      intro entry h
      simp only [example_five_alleles, List.mem_cons, List.mem_singleton, List.not_mem_nil,
        or_false] at h
      rcases h with h | h | h <;> subst h <;> decide⟩
    (by decide) (by decide) (by decide) (by decide)
  exact ⟨⟨h.1.1, rfl⟩, h.2.1, rfl⟩

end Dimension

/-! ## Candidate alleles -/

section OrderedMaps

variable {κ ν : Type} [dec : DecidableEq κ] [LinearOrder κ]

/-- The assignment `m[k] = v` keeps the keys of a `std::map` in ascending order. -/
theorem map_assign_sorted (lt : κ → κ → Bool) (hlt : ∀ a b, lt a b = true ↔ a < b)
    (l : List (κ × ν)) (k : κ) (v : ν) (h : (l.map Prod.fst).Sorted (· < ·)) :
    ((@map_assign κ ν dec lt l k v).map Prod.fst).Sorted (· < ·) := by
  induction l with
  | nil => simp [map_assign]
  | cons e rest ih =>
    obtain ⟨k0, v0⟩ := e
    have hrest : (rest.map Prod.fst).Sorted (· < ·) := (List.sorted_cons.mp h).2
    have hhead : ∀ b ∈ rest.map Prod.fst, k0 < b := (List.sorted_cons.mp h).1
    unfold map_assign
    by_cases h1 : k < k0
    · rw [if_pos ((hlt k k0).mpr h1)]
      refine List.sorted_cons.mpr ⟨?_, h⟩
      intro b hb
      rcases List.mem_cons.mp hb with hb | hb
      · exact hb ▸ h1
      · exact lt_trans h1 (hhead b hb)
    · rw [if_neg (fun hc => h1 ((hlt k k0).mp hc))]
      by_cases h2 : k = k0
      · rw [if_pos h2]
        rw [h2]
        exact h
      · rw [if_neg h2]
        have hgt : k0 < k := lt_of_le_of_ne (not_lt.mp h1) (Ne.symm h2)
        refine List.sorted_cons.mpr ⟨?_, ih hrest⟩
        intro b hb
        obtain ⟨e, he, rfl⟩ := List.mem_map.mp hb
        rcases map_assign_mem _ _ _ _ _ he with he | he
        · rw [he]
          exact hgt
        · exact hhead _ (List.mem_map_of_mem _ he)

end OrderedMaps

section Sets

/-- Membership after `set.insert(x)`. -/
theorem set_insert_mem (l : List String) (x y : String) :
    y ∈ set_insert l x ↔ y = x ∨ y ∈ l := by
  induction l with
  | nil => simp [set_insert]
  | cons a rest ih =>
    unfold set_insert
    split_ifs with h1 h2
    · simp
    · subst h2
      simp
    · rw [List.mem_cons, ih, List.mem_cons]
      tauto

/-- The elements of a `std::set` stay in ascending order under `insert`. -/
theorem set_insert_sorted (l : List String) (x : String) (h : l.Sorted (· < ·)) :
    (set_insert l x).Sorted (· < ·) := by
  induction l with
  | nil => simp [set_insert]
  | cons a rest ih =>
    have hrest : rest.Sorted (· < ·) := (List.sorted_cons.mp h).2
    have hhead : ∀ b ∈ rest, a < b := (List.sorted_cons.mp h).1
    unfold set_insert
    split_ifs with h1 h2
    · refine List.sorted_cons.mpr ⟨?_, h⟩
      intro b hb
      rcases List.mem_cons.mp hb with hb | hb
      · exact hb ▸ h1
      · exact lt_trans h1 (hhead b hb)
    · exact h
    · have hgt : a < x := lt_of_le_of_ne (not_lt.mp h1) (Ne.symm h2)
      refine List.sorted_cons.mpr ⟨?_, ih hrest⟩
      intro b hb
      rcases (set_insert_mem rest x b).mp hb with hb | hb
      · exact hb ▸ hgt
      · exact hhead b hb

/-- The set after a loop of guarded inserts: the old elements and the inserted ones, in
ascending order. -/
theorem foldl_set_insert {β : Type} (entries : List β) (p : β → Prop) [DecidablePred p]
    (key : β → String) (init : List String) :
    (∀ y, y ∈ entries.foldl (fun set e => if p e then set_insert set (key e) else set) init
        ↔ y ∈ init ∨ ∃ e ∈ entries, p e ∧ key e = y)
    ∧ (init.Sorted (· < ·) →
        (entries.foldl (fun set e => if p e then set_insert set (key e) else set)
          init).Sorted (· < ·)) := by
  induction entries generalizing init with
  | nil => simp
  | cons e rest ih =>
    rw [List.foldl_cons]
    obtain ⟨ih1, ih2⟩ := ih (if p e then set_insert init (key e) else init)
    constructor
    · intro y
      rw [ih1]
      by_cases hp : p e
      · rw [if_pos hp, set_insert_mem]
        constructor
        · rintro ((h | h) | ⟨e', he', hpe, hk⟩)
          · exact Or.inr ⟨e, List.mem_cons_self _ _, hp, h.symm⟩
          · exact Or.inl h
          · exact Or.inr ⟨e', List.mem_cons_of_mem _ he', hpe, hk⟩
        · rintro (h | ⟨e', he', hpe, hk⟩)
          · exact Or.inl (Or.inr h)
          · rcases List.mem_cons.mp he' with h | h
            · subst h
              exact Or.inl (Or.inl hk.symm)
            · exact Or.inr ⟨e', h, hpe, hk⟩
      · rw [if_neg hp]
        constructor
        · rintro (h | ⟨e', he', hpe, hk⟩)
          · exact Or.inl h
          · exact Or.inr ⟨e', List.mem_cons_of_mem _ he', hpe, hk⟩
        · rintro (h | ⟨e', he', hpe, hk⟩)
          · exact Or.inl h
          · rcases List.mem_cons.mp he' with h | h
            · subst h
              exact absurd hpe hp
            · exact Or.inr ⟨e', h, hpe, hk⟩
    · intro hs
      apply ih2
      by_cases hp : p e
      · rw [if_pos hp]
        exact set_insert_sorted _ _ hs
      · rw [if_neg hp]
        exact hs

end Sets
section Counts

variable {α : Type}

/-- One more index in a filtered range. -/
theorem filter_range_succ_length (p : Nat → Bool) (i : Nat) :
    ((List.range (i + 1)).filter p).length
      = ((List.range i).filter p).length + if p i then 1 else 0 := by
  rw [List.range_succ, List.filter_append, List.length_append]
  by_cases h : p i <;> simp [h]

/-- The lookup after `counts[k]++`. -/
theorem map_find_increment (counts : List (String × Int)) (k k' : String) :
    map_find (map_increment counts k) k'
      = if k' = k then some ((map_find counts k).getD 0 + 1) else map_find counts k' := by
  unfold map_increment
  rw [map_find_assign]

/-- The counters of `get_stutter_candidate_alleles` after the read loop: `sample_counts[s]` is
the number of spanning tracebacks of sample `s`, and `sample_stutter_counts[s]` maps a sequence
to the number of spanning tracebacks of `s` with nonzero stutter size that report it, sequences
with no such traceback being absent; the keys of each map ascend. -/
theorem count_stutter_traces_spec (g : SeqStutterGenotyper α)
    (traced_alns : Nat → Option AlignmentTrace) :
    (∀ s, (count_stutter_traces g traced_alns).1 s
        = ((spanning_reads g traced_alns g.num_reads_ s).length : Int))
    ∧ (∀ s seq, map_find ((count_stutter_traces g traced_alns).2 s) seq
        = if (stutter_reads g traced_alns g.num_reads_ s seq).length = 0 then none
          else some ((stutter_reads g traced_alns g.num_reads_ s seq).length : Int))
    ∧ ∀ s, (((count_stutter_traces g traced_alns).2 s).map Prod.fst).Sorted (· < ·) := by
  unfold count_stutter_traces
  generalize g.num_reads_ = n
  induction n with
  | zero =>
    refine ⟨fun s => ?_, fun s seq => ?_, fun s => ?_⟩
    · simp [forLoop, spanning_reads]
    · simp [forLoop, stutter_reads, map_find]
    · simp [forLoop]
  | succ i ih =>
    rw [forLoop_succ]
    obtain ⟨ih1, ih2, ih3⟩ := ih
    generalize forLoop i _ _ = st at ih1 ih2 ih3 ⊢
    have hsp : ∀ s, (spanning_reads g traced_alns (i + 1) s).length
        = (spanning_reads g traced_alns i s).length
          + if (match traced_alns i with
              | none => false
              | some trace => spans_block g trace && decide (g.sample_label_ i = s))
            then 1 else 0 := fun s => filter_range_succ_length _ i
    have hstu : ∀ s seq, (stutter_reads g traced_alns (i + 1) s seq).length
        = (stutter_reads g traced_alns i s seq).length
          + if (match traced_alns i with
              | none => false
              | some trace => spans_block g trace && decide (trace.stutter_size ≠ 0)
                  && decide (g.sample_label_ i = s) && decide (trace.str_seq = seq))
            then 1 else 0 := fun s seq => filter_range_succ_length _ i
    cases htr : traced_alns i with
    | none =>
      simp only [htr] at hsp hstu
      refine ⟨fun s => ?_, fun s seq => ?_, fun s => ih3 s⟩
      · rw [hsp, ih1]
        simp
      · rw [hstu, ih2]
        simp
    | some trace =>
      simp only [htr] at hsp hstu
      dsimp only
      by_cases hspan : spans_block g trace = true
      · have h1 : trace.traced_aln_start < g.hap_blocks_.start := by
          unfold spans_block at hspan
          simp only [Bool.and_eq_true, decide_eq_true_eq] at hspan
          exact hspan.1
        have h2 : trace.traced_aln_stop > g.hap_blocks_.stop := by
          unfold spans_block at hspan
          simp only [Bool.and_eq_true, decide_eq_true_eq] at hspan
          exact hspan.2
        rw [if_pos h1, if_pos h2]
        refine ⟨fun s => ?_, fun s seq => ?_, fun s => ?_⟩
        · rw [hsp]
          dsimp only
          by_cases hs : g.sample_label_ i = s
          · subst hs
            simp [store, ih1, hspan]
          · have hs' : s ≠ g.sample_label_ i := fun h => hs h.symm
            simp [store, ih1, hspan, hs, hs']
        · rw [hstu]
          dsimp only
          by_cases hz : trace.stutter_size ≠ 0
          · rw [if_pos hz]
            by_cases hs : g.sample_label_ i = s
            · subst hs
              simp only [store, if_true]
              rw [map_find_increment, ih2]
              by_cases hq : seq = trace.str_seq
              · subst hq
                by_cases hc : (stutter_reads g traced_alns i (g.sample_label_ i)
                    trace.str_seq).length = 0
                · simp [hc, hspan, hz]
                · simp [hc, hspan, hz]
              · have hq' : ¬ trace.str_seq = seq := fun h => hq h.symm
                simp [hq, hq', hspan, hz, ih2]
            · have hs' : s ≠ g.sample_label_ i := fun h => hs h.symm
              simp [store, hs, hs', ih2]
          · rw [if_neg hz]
            have hz' : trace.stutter_size = 0 := not_not.mp hz
            simp [ih2, hz']
        · dsimp only
          by_cases hz : trace.stutter_size ≠ 0
          · rw [if_pos hz]
            by_cases hs : s = g.sample_label_ i
            · subst hs
              simp only [store, if_true]
              unfold map_increment
              exact map_assign_sorted (fun a b => decide (a < b))
                (fun a b => decide_eq_true_iff) _ _ _ (ih3 _)
            · simp only [store, hs, if_false]
              exact ih3 s
          · rw [if_neg hz]
            exact ih3 s
      · have hspan' : spans_block g trace = false := by simpa using hspan
        have hst : (if trace.traced_aln_start < g.hap_blocks_.start then
              if trace.traced_aln_stop > g.hap_blocks_.stop then
                (store st.1 (g.sample_label_ i) (st.1 (g.sample_label_ i) + 1),
                  if trace.stutter_size ≠ 0 then
                    store st.2 (g.sample_label_ i)
                      (map_increment (st.2 (g.sample_label_ i)) trace.str_seq)
                  else st.2)
              else st
            else st) = st := by
          by_cases h1 : trace.traced_aln_start < g.hap_blocks_.start
          · by_cases h2 : trace.traced_aln_stop > g.hap_blocks_.stop
            · exfalso
              apply hspan
              unfold spans_block
              simp [h1, h2]
            · rw [if_pos h1, if_neg h2]
          · rw [if_neg h1]
        rw [hst]
        refine ⟨fun s => ?_, fun s seq => ?_, fun s => ih3 s⟩
        · rw [hsp, ih1]
          simp [hspan']
        · rw [hstu, ih2]
          simp [hspan']

/-- The candidates that `get_stutter_candidate_alleles` returns: the sequences that are not
alternates of the repeat block and that, in some sample, are reported by at least 2 spanning
tracebacks with nonzero stutter size, these being at least 15% of the sample's spanning
tracebacks; the vector ascends. -/
theorem get_stutter_candidate_alleles_mem (g : SeqStutterGenotyper α)
    (traced_alns : Nat → Option AlignmentTrace) :
    (∀ S, S ∈ get_stutter_candidate_alleles g traced_alns ↔
      S ∉ g.hap_blocks_.alternates
        ∧ ∃ s, s < g.num_samples_
          ∧ 2 ≤ (stutter_reads g traced_alns g.num_reads_ s S).length
          ∧ (15 / 100 : ℚ) ≤ ((stutter_reads g traced_alns g.num_reads_ s S).length : ℚ)
              / ((spanning_reads g traced_alns g.num_reads_ s).length : ℚ))
    ∧ (get_stutter_candidate_alleles g traced_alns).Sorted (· < ·) := by
  obtain ⟨hc1, hc2, hc3⟩ := count_stutter_traces_spec g traced_alns
  unfold get_stutter_candidate_alleles
  dsimp only
  generalize count_stutter_traces g traced_alns = counts at hc1 hc2 hc3
  have hbody : ∀ i : Nat, (fun (candidate_set : List String) (seq_iter : String × Int) =>
      if (!g.hap_blocks_.contains seq_iter.1) = true then
        if seq_iter.2 ≥ 2 ∧ ((seq_iter.2 : ℚ) / (counts.1 i : ℚ) ≥ 15 / 100) then
          set_insert candidate_set seq_iter.1
        else candidate_set
      else candidate_set)
      = (fun candidate_set seq_iter =>
          if (seq_iter.1 ∉ g.hap_blocks_.alternates
              ∧ seq_iter.2 ≥ 2 ∧ ((seq_iter.2 : ℚ) / (counts.1 i : ℚ) ≥ 15 / 100)) then
            set_insert candidate_set seq_iter.1
          else candidate_set) := by
    intro i
    funext candidate_set seq_iter
    by_cases h1 : seq_iter.1 ∈ g.hap_blocks_.alternates
    · simp [RepeatBlock.contains, h1]
    · simp [RepeatBlock.contains, h1]
  have hentry : ∀ s S, (∃ e ∈ counts.2 s,
        (e.1 ∉ g.hap_blocks_.alternates
          ∧ e.2 ≥ 2 ∧ ((e.2 : ℚ) / (counts.1 s : ℚ) ≥ 15 / 100)) ∧ e.1 = S)
      ↔ S ∉ g.hap_blocks_.alternates
          ∧ 2 ≤ (stutter_reads g traced_alns g.num_reads_ s S).length
          ∧ (15 / 100 : ℚ) ≤ ((stutter_reads g traced_alns g.num_reads_ s S).length : ℚ)
              / ((spanning_reads g traced_alns g.num_reads_ s).length : ℚ) := by
    intro s S
    constructor
    · rintro ⟨e, he, ⟨hn, h2, hr⟩, rfl⟩
      have hfind := map_find_of_mem (counts.2 s) (hc3 s).nodup e he
      rw [hc2] at hfind
      by_cases hz : (stutter_reads g traced_alns g.num_reads_ s e.1).length = 0
      · rw [if_pos hz] at hfind
        exact absurd hfind (by simp)
      · rw [if_neg hz] at hfind
        have hv : ((stutter_reads g traced_alns g.num_reads_ s e.1).length : Int) = e.2 :=
          Option.some.inj hfind
        rw [← hv, hc1] at hr
        rw [← hv] at h2
        refine ⟨hn, by exact_mod_cast h2, ?_⟩
        simpa using hr
    · rintro ⟨hn, h2, hr⟩
      have hz : (stutter_reads g traced_alns g.num_reads_ s S).length ≠ 0 := by omega
      have hfind := hc2 s S
      rw [if_neg hz] at hfind
      refine ⟨(S, _), map_find_mem _ _ _ hfind, ⟨hn, ?_, ?_⟩, rfl⟩
      · show ((stutter_reads g traced_alns g.num_reads_ s S).length : Int) ≥ 2
        exact_mod_cast h2
      · rw [hc1]
        simpa using hr
  have hinv := forLoop_inv (fun i (set : List String) =>
      (∀ S, S ∈ set ↔ ∃ s, s < i ∧ ∃ e ∈ counts.2 s,
        (e.1 ∉ g.hap_blocks_.alternates
          ∧ e.2 ≥ 2 ∧ ((e.2 : ℚ) / (counts.1 s : ℚ) ≥ 15 / 100)) ∧ e.1 = S)
      ∧ set.Sorted (· < ·))
    g.num_samples_
    (fun i candidate_set =>
      (counts.2 i).foldl (fun candidate_set seq_iter =>
        if (!g.hap_blocks_.contains seq_iter.1) = true then
          if seq_iter.2 ≥ 2 ∧ ((seq_iter.2 : ℚ) / (counts.1 i : ℚ) ≥ 15 / 100) then
            set_insert candidate_set seq_iter.1
          else candidate_set
        else candidate_set) candidate_set) []
    ⟨by simp, List.sorted_nil⟩ (by
      intro i set _ ⟨hmem, hsorted⟩
      dsimp only
      rw [hbody i]
      obtain ⟨f1, f2⟩ := foldl_set_insert (counts.2 i)
        (fun e : String × Int => e.1 ∉ g.hap_blocks_.alternates
          ∧ e.2 ≥ 2 ∧ ((e.2 : ℚ) / (counts.1 i : ℚ) ≥ 15 / 100)) (fun e => e.1) set
      refine ⟨fun S => ?_, f2 hsorted⟩
      rw [f1, hmem]
      constructor
      · rintro (⟨s, hs, h⟩ | h)
        · exact ⟨s, Nat.lt_succ_of_lt hs, h⟩
        · exact ⟨i, Nat.lt_succ_self i, h⟩
      · rintro ⟨s, hs, h⟩
        rcases Nat.lt_succ_iff_lt_or_eq.mp hs with hlt | heq
        · exact Or.inl ⟨s, hlt, h⟩
        · subst heq
          exact Or.inr h)
  refine ⟨fun S => ?_, hinv.2⟩
  rw [hinv.1 S]
  constructor
  · rintro ⟨s, hs, h⟩
    obtain ⟨hn, h2, hr⟩ := (hentry s S).mp h
    exact ⟨hn, s, hs, h2, hr⟩
  · rintro ⟨hn, s, hs, h2, hr⟩
    exact ⟨s, hs, (hentry s S).mpr ⟨hn, h2, hr⟩⟩

end Counts
section CandidateClaims

variable {α : Type}

/-- Claim C16, amended: `get_stutter_candidate_alleles` returns a sequence `S` if and only if
`S` is not an alternate of the repeat block and there is a sample in which `S` is the traced
repeat sequence of at least 2 tracebacks that span the repeat block and have a nonzero stutter
size, these being at least 15% of the sample's spanning tracebacks; the returned vector has no
duplicates. -/
theorem get_stutter_candidate_alleles_spec (g : SeqStutterGenotyper α)
    (traced_alns : Nat → Option AlignmentTrace) :
    (∀ S, S ∈ get_stutter_candidate_alleles g traced_alns ↔
      S ∉ g.hap_blocks_.alternates
        ∧ ∃ s, s < g.num_samples_
          ∧ 2 ≤ (stutter_reads g traced_alns g.num_reads_ s S).length
          ∧ (15 / 100 : ℚ) ≤ ((stutter_reads g traced_alns g.num_reads_ s S).length : ℚ)
              / ((spanning_reads g traced_alns g.num_reads_ s).length : ℚ))
    ∧ (get_stutter_candidate_alleles g traced_alns).Nodup :=
  ⟨(get_stutter_candidate_alleles_mem g traced_alns).1,
    (get_stutter_candidate_alleles_mem g traced_alns).2.nodup⟩

/-- Counterexample to C16 as stated: `"ACACA"` is the traced repeat sequence of two spanning
reads of sample 0, all of its spanning tracebacks, and is not an alternate, yet nothing is
returned, because one of the two tracebacks has stutter size 0. -/
theorem get_stutter_candidate_alleles_counterexample :
    claimed_candidate (example_reference_only ℚ) example_mixed_traces "ACACA"
    ∧ get_stutter_candidate_alleles (example_reference_only ℚ) example_mixed_traces = [] := by
  refine ⟨⟨by decide, 0, by decide, by decide, ?_⟩, by decide⟩
  have h1 : (spanning_reads_reporting (example_reference_only ℚ) example_mixed_traces
      (example_reference_only ℚ).num_reads_ 0 "ACACA").length = 2 := by decide
  have h2 : (spanning_reads (example_reference_only ℚ) example_mixed_traces
      (example_reference_only ℚ).num_reads_ 0).length = 2 := by decide
  rw [h1, h2]
  norm_num

/-- When every spanning traceback with nonzero stutter size reports `S` or an alternate and `S`
is a candidate, `S` is the only candidate. -/
theorem get_stutter_candidate_alleles_singleton (g : SeqStutterGenotyper α)
    (traced_alns : Nat → Option AlignmentTrace) (S : String)
    (hS : S ∈ get_stutter_candidate_alleles g traced_alns)
    (honly : ∀ r trace, r < g.num_reads_ → traced_alns r = some trace →
      spans_block g trace = true → trace.stutter_size ≠ 0 →
      trace.str_seq = S ∨ trace.str_seq ∈ g.hap_blocks_.alternates) :
    get_stutter_candidate_alleles g traced_alns = [S] := by
  obtain ⟨hmem, hsorted⟩ := get_stutter_candidate_alleles_mem g traced_alns
  have hall : ∀ S', S' ∈ get_stutter_candidate_alleles g traced_alns → S' = S := by
    intro S' hS'
    obtain ⟨hn, s, _, h2, _⟩ := (hmem S').mp hS'
    have hpos : 0 < (stutter_reads g traced_alns g.num_reads_ s S').length := by omega
    obtain ⟨r, hr⟩ := List.exists_mem_of_length_pos hpos
    unfold stutter_reads at hr
    rw [List.mem_filter, List.mem_range] at hr
    obtain ⟨hlt, hp⟩ := hr
    cases htr : traced_alns r with
    | none => simp [htr] at hp
    | some trace =>
      simp only [htr, Bool.and_eq_true, decide_eq_true_eq] at hp
      obtain ⟨⟨⟨hsp, hz⟩, _⟩, hseq⟩ := hp
      rcases honly r trace hlt htr hsp hz with h | h
      · rw [← hseq, h]
      · exact absurd (hseq ▸ h) hn
  have hnd := hsorted.nodup
  generalize get_stutter_candidate_alleles g traced_alns = l at hS hall hnd
  match l, hS, hall, hnd with
  | [a], _, hall, _ => rw [hall a (List.mem_singleton_self a)]
  | a :: b :: rest, _, hall, hnd =>
    exfalso
    have ha := hall a (List.mem_cons_self _ _)
    have hb := hall b (List.mem_cons_of_mem _ (List.mem_cons_self _ _))
    have := (List.nodup_cons.mp hnd).1
    exact this (by rw [ha, ← hb]; exact List.mem_cons_self _ _)

end CandidateClaims

section CandidateMerge

variable {α : Type} [LinearOrderedField α]

/-- The merge pass after the length check, for any vector of tracebacks: if in some sample at
least 4 tracebacks that span the repeat block report with a nonzero stutter size a sequence `S`
that is not an alternate, and these are at least 15% of the sample's spanning tracebacks, then
`get_stutter_candidate_alleles` returns `S`, and `merge_stutter_alleles` on the returned
candidates adds `S` to the repeat block and raises `num_alleles_` by the number of candidates:
by 1 when no other unknown sequence is reported with nonzero stutter. -/
theorem stutter_candidate_added (m : MathOps α) (srt : StdSort) (g : SeqStutterGenotyper α)
    (chrom_seq : String) (traced_alns : Nat → Option AlignmentTrace) (S : String)
    (new_log_aln_probs : Nat → α) (s : Nat)
    (hne : 1 ≤ g.hap_blocks_.num_options) (hS : S ∉ g.hap_blocks_.alternates)
    (hs : s < g.num_samples_)
    (h4 : 4 ≤ (stutter_reads g traced_alns g.num_reads_ s S).length)
    (hratio : (15 / 100 : ℚ) ≤ ((stutter_reads g traced_alns g.num_reads_ s S).length : ℚ)
      / ((spanning_reads g traced_alns g.num_reads_ s).length : ℚ)) :
    S ∈ get_stutter_candidate_alleles g traced_alns
    ∧ S ∈ (merge_stutter_alleles m srt g chrom_seq
        (srt.sort (get_stutter_candidate_alleles g traced_alns))
        new_log_aln_probs).hap_blocks_.alternates
    ∧ (merge_stutter_alleles m srt g chrom_seq
        (srt.sort (get_stutter_candidate_alleles g traced_alns)) new_log_aln_probs).num_alleles_
      = g.num_alleles_ + (get_stutter_candidate_alleles g traced_alns).length
    ∧ ((∀ r trace, r < g.num_reads_ → traced_alns r = some trace →
          spans_block g trace = true → trace.stutter_size ≠ 0 →
          trace.str_seq = S ∨ trace.str_seq ∈ g.hap_blocks_.alternates) →
        (merge_stutter_alleles m srt g chrom_seq
          (srt.sort (get_stutter_candidate_alleles g traced_alns))
          new_log_aln_probs).num_alleles_ = g.num_alleles_ + 1) := by
  have hmem : S ∈ get_stutter_candidate_alleles g traced_alns :=
    ((get_stutter_candidate_alleles_mem g traced_alns).1 S).mpr
      ⟨hS, s, hs, by omega, hratio⟩
  have hlen : (merge_stutter_alleles m srt g chrom_seq
        (srt.sort (get_stutter_candidate_alleles g traced_alns)) new_log_aln_probs).num_alleles_
      = g.num_alleles_ + (get_stutter_candidate_alleles g traced_alns).length := by
    show g.num_alleles_ + (srt.sort (get_stutter_candidate_alleles g traced_alns)).length = _
    rw [(srt.perm _).length_eq]
  refine ⟨hmem, ?_, hlen, fun honly => ?_⟩
  · show S ∈ (merged_str_block srt g.hap_blocks_
      (srt.sort (get_stutter_candidate_alleles g traced_alns))).alternates
    rw [(merged_str_block_perm srt g.hap_blocks_ _ hne).mem_iff]
    exact List.mem_append_right _ ((srt.perm _).mem_iff.mpr hmem)
  · rw [hlen, get_stutter_candidate_alleles_singleton g traced_alns S hmem honly]
    rfl

/-- Counterexample to C17 as stated: the four spanning tracebacks of sample 0 report the unknown
sequence `"ACACA"` with stutter size 0, all of the sample's spanning tracebacks, and
`get_stutter_candidate_alleles` returns nothing, so the merge loop is not entered. -/
theorem stutter_size_zero_counterexample :
    (example_reference_only ℚ).hap_blocks_.alternates = ["ACAC"]
    ∧ (spanning_reads_reporting (example_reference_only ℚ) (example_traces 0)
        (example_reference_only ℚ).num_reads_ 0 "ACACA").length = 4
    ∧ (spanning_reads (example_reference_only ℚ) (example_traces 0)
        (example_reference_only ℚ).num_reads_ 0).length = 4
    ∧ (∀ r, r < 4 → ∃ trace, example_traces 0 r = some trace ∧ trace.stutter_size = 0)
    ∧ get_stutter_candidate_alleles (example_reference_only ℚ) (example_traces 0) = [] := by
  refine ⟨rfl, by decide, by decide, ?_, by decide⟩
  intro r hr
  exact ⟨⟨95, 110, 0, "ACACA"⟩, by simp [example_traces, hr], rfl⟩

end CandidateMerge

/-! ## Merging the columns of the alignment array -/

section Scatter

variable {α : Type}

/-- A loop of stores to pairwise distinct cells writes each of them once and leaves the other
cells alone. -/
theorem forLoop_scatter (n : Nat) (pos : Nat → Nat) (val : Nat → α) (arr : Nat → α)
    (hinj : ∀ i j, i < n → j < n → pos i = pos j → i = j) :
    (∀ j, j < n → forLoop n (fun j a => store a (pos j) (val j)) arr (pos j) = val j)
    ∧ ∀ x, (∀ j, j < n → pos j ≠ x) →
        forLoop n (fun j a => store a (pos j) (val j)) arr x = arr x := by
  induction n with
  | zero => exact ⟨fun j hj => absurd hj (Nat.not_lt_zero j), fun x _ => rfl⟩
  | succ n ih =>
    obtain ⟨ih1, ih2⟩ := ih (fun i j hi hj => hinj i j (Nat.lt_succ_of_lt hi)
      (Nat.lt_succ_of_lt hj))
    constructor
    · intro j hj
      rw [forLoop_succ]
      rcases Nat.lt_succ_iff_lt_or_eq.mp hj with h | h
      · have hne : pos j ≠ pos n := fun he =>
          absurd (hinj j n hj (Nat.lt_succ_self n) he) (Nat.ne_of_lt h)
        simp only [store, hne, if_false]
        exact ih1 j h
      · subst h
        simp [store]
    · intro x hx
      rw [forLoop_succ]
      have hne : x ≠ pos n := fun he => hx n (Nat.lt_succ_self n) he.symm
      simp only [store, hne, if_false]
      exact ih2 x (fun j hj => hx j (Nat.lt_succ_of_lt hj))

/-- The loop of line 402 on one read: the stores go to the cells
`log_aln_ptr_all[original_indices[j]]` and `log_aln_ptr_original` advances by `num_alleles_`. -/
theorem merged_row_original (g : SeqStutterGenotyper α) (original_indices : List Int)
    (st : (Nat → α) × Nat × Nat × Nat) (k : Nat) :
    forLoop k (fun j (st : (Nat → α) × Nat × Nat × Nat) =>
      (store st.1 ((st.2.2.2 : Int) + original_indices.getD j (-1)).toNat
          (g.log_aln_probs_ st.2.1),
        st.2.1 + 1, st.2.2.1, st.2.2.2)) st
      = (forLoop k (fun j a =>
            store a ((st.2.2.2 : Int) + original_indices.getD j (-1)).toNat
              (g.log_aln_probs_ (st.2.1 + j))) st.1,
          st.2.1 + k, st.2.2.1, st.2.2.2) := by
  induction k with
  | zero => rfl
  | succ k ih =>
    rw [forLoop_succ, ih, forLoop_succ]
    rfl

/-- The loop of line 404 on one read: the stores go to the cells
`log_aln_ptr_all[stutter_indices[j]]` and `log_aln_ptr_stutter` advances by the number of
candidates. -/
theorem merged_row_stutter (stutter_indices : List Int) (new_log_aln_probs : Nat → α)
    (st : (Nat → α) × Nat × Nat × Nat) (k : Nat) :
    forLoop k (fun j (st : (Nat → α) × Nat × Nat × Nat) =>
      (store st.1 ((st.2.2.2 : Int) + stutter_indices.getD j (-1)).toNat
          (new_log_aln_probs st.2.2.1),
        st.2.1, st.2.2.1 + 1, st.2.2.2)) st
      = (forLoop k (fun j a =>
            store a ((st.2.2.2 : Int) + stutter_indices.getD j (-1)).toNat
              (new_log_aln_probs (st.2.2.1 + j))) st.1,
          st.2.1, st.2.2.1 + k, st.2.2.2) := by
  induction k with
  | zero => rfl
  | succ k ih =>
    rw [forLoop_succ, ih, forLoop_succ]
    rfl

end Scatter

section MergeColumns

variable {α : Type} [LinearOrderedField α]

/-- The combined alignment array: when the new indices of the old alleles and of the candidates
are pairwise distinct and below `total_alleles`, column `original_indices[j]` of every read is
the old column `j` and column `stutter_indices[j]` is column `j` of the candidates' array. -/
theorem merged_log_aln_probs_cells (g : SeqStutterGenotyper α)
    (original_indices stutter_indices : List Int) (num_stutter : Nat)
    (new_log_aln_probs : Nat → α)
    (hoi : ∀ j, j < g.num_alleles_ → 0 ≤ original_indices.getD j (-1)
      ∧ original_indices.getD j (-1) < ((g.num_alleles_ + num_stutter : Nat) : Int))
    (hsi : ∀ j, j < num_stutter → 0 ≤ stutter_indices.getD j (-1)
      ∧ stutter_indices.getD j (-1) < ((g.num_alleles_ + num_stutter : Nat) : Int))
    (hoo : ∀ i j, i < g.num_alleles_ → j < g.num_alleles_ →
      original_indices.getD i (-1) = original_indices.getD j (-1) → i = j)
    (hss : ∀ i j, i < num_stutter → j < num_stutter →
      stutter_indices.getD i (-1) = stutter_indices.getD j (-1) → i = j)
    (hos : ∀ i j, i < g.num_alleles_ → j < num_stutter →
      original_indices.getD i (-1) ≠ stutter_indices.getD j (-1)) :
    ∀ r, r < g.num_reads_ →
      (∀ j, j < g.num_alleles_ →
        (merged_log_aln_probs g original_indices stutter_indices num_stutter
            new_log_aln_probs).1
            (r * (g.num_alleles_ + num_stutter) + (original_indices.getD j (-1)).toNat)
          = g.log_aln_probs_ (r * g.num_alleles_ + j))
      ∧ ∀ j, j < num_stutter →
        (merged_log_aln_probs g original_indices stutter_indices num_stutter
            new_log_aln_probs).1
            (r * (g.num_alleles_ + num_stutter) + (stutter_indices.getD j (-1)).toNat)
          = new_log_aln_probs (r * num_stutter + j) := by
  unfold merged_log_aln_probs
  dsimp only
  have hinv := forLoop_inv (fun i (st : (Nat → α) × Nat × Nat × Nat) =>
      st.2 = (i * g.num_alleles_, i * num_stutter, i * (g.num_alleles_ + num_stutter))
      ∧ ∀ r, r < i →
        (∀ j, j < g.num_alleles_ →
          st.1 (r * (g.num_alleles_ + num_stutter) + (original_indices.getD j (-1)).toNat)
            = g.log_aln_probs_ (r * g.num_alleles_ + j))
        ∧ ∀ j, j < num_stutter →
          st.1 (r * (g.num_alleles_ + num_stutter) + (stutter_indices.getD j (-1)).toNat)
            = new_log_aln_probs (r * num_stutter + j))
    g.num_reads_
    (fun _ st =>
      let st1 := forLoop g.num_alleles_ (fun j (st : (Nat → α) × Nat × Nat × Nat) =>
        (store st.1 ((st.2.2.2 : Int) + original_indices.getD j (-1)).toNat
            (g.log_aln_probs_ st.2.1),
          st.2.1 + 1, st.2.2.1, st.2.2.2)) st
      let st2 := forLoop num_stutter (fun j (st : (Nat → α) × Nat × Nat × Nat) =>
        (store st.1 ((st.2.2.2 : Int) + stutter_indices.getD j (-1)).toNat
            (new_log_aln_probs st.2.2.1),
          st.2.1, st.2.2.1 + 1, st.2.2.2)) st1
      (st2.1, st2.2.1, st2.2.2.1, st2.2.2.2 + (g.num_alleles_ + num_stutter)))
    (new_array, 0, 0, 0) ⟨by simp, fun r hr => absurd hr (Nat.not_lt_zero r)⟩ (by
      intro i st _ ⟨hptr, hrows⟩
      dsimp only
      rw [merged_row_original, merged_row_stutter]
      dsimp only
      have hp1 : st.2.1 = i * g.num_alleles_ := by rw [hptr]
      have hp2 : st.2.2.1 = i * num_stutter := by rw [hptr]
      have hp3 : st.2.2.2 = i * (g.num_alleles_ + num_stutter) := by rw [hptr]
      rw [hp1, hp2, hp3]
      have hposo : ∀ j, j < g.num_alleles_ →
          (((i * (g.num_alleles_ + num_stutter) : Nat) : Int)
              + original_indices.getD j (-1)).toNat
            = i * (g.num_alleles_ + num_stutter) + (original_indices.getD j (-1)).toNat := by
        intro j hj
        have := (hoi j hj).1
        omega
      have hposs : ∀ j, j < num_stutter →
          (((i * (g.num_alleles_ + num_stutter) : Nat) : Int)
              + stutter_indices.getD j (-1)).toNat
            = i * (g.num_alleles_ + num_stutter) + (stutter_indices.getD j (-1)).toNat := by
        intro j hj
        have := (hsi j hj).1
        omega
      obtain ⟨o1, o2⟩ := forLoop_scatter g.num_alleles_
        (fun j => (((i * (g.num_alleles_ + num_stutter) : Nat) : Int)
              + original_indices.getD j (-1)).toNat)
        (fun j => g.log_aln_probs_ (i * g.num_alleles_ + j)) st.1 (by
          intro a b ha hb hab
          dsimp only at hab
          rw [hposo a ha, hposo b hb] at hab
          have h1 := (hoi a ha).1
          have h2 := (hoi b hb).1
          exact hoo a b ha hb (by omega))
      obtain ⟨s1, s2⟩ := forLoop_scatter num_stutter
        (fun j => (((i * (g.num_alleles_ + num_stutter) : Nat) : Int)
              + stutter_indices.getD j (-1)).toNat)
        (fun j => new_log_aln_probs (i * num_stutter + j))
        (forLoop g.num_alleles_ (fun j a =>
            store a (((i * (g.num_alleles_ + num_stutter) : Nat) : Int)
              + original_indices.getD j (-1)).toNat
              (g.log_aln_probs_ (i * g.num_alleles_ + j))) st.1) (by
          intro a b ha hb hab
          dsimp only at hab
          rw [hposs a ha, hposs b hb] at hab
          have h1 := (hsi a ha).1
          have h2 := (hsi b hb).1
          exact hss a b ha hb (by omega))
      refine ⟨by simp only [Prod.mk.injEq]; exact ⟨by ring, by ring, by ring⟩, ?_⟩
      intro r hr
      rcases Nat.lt_succ_iff_lt_or_eq.mp hr with hlt | heq
      · have hrow : (r + 1) * (g.num_alleles_ + num_stutter)
            ≤ i * (g.num_alleles_ + num_stutter) := Nat.mul_le_mul_right _ hlt
        have hrow' : r * (g.num_alleles_ + num_stutter) + (g.num_alleles_ + num_stutter)
            ≤ i * (g.num_alleles_ + num_stutter) := by
          rw [← Nat.succ_mul]
          exact hrow
        have hfar : ∀ x, x < i * (g.num_alleles_ + num_stutter) →
            forLoop num_stutter (fun j a =>
              store a (((i * (g.num_alleles_ + num_stutter) : Nat) : Int)
                + stutter_indices.getD j (-1)).toNat
                (new_log_aln_probs (i * num_stutter + j)))
              (forLoop g.num_alleles_ (fun j a =>
                store a (((i * (g.num_alleles_ + num_stutter) : Nat) : Int)
                  + original_indices.getD j (-1)).toNat
                  (g.log_aln_probs_ (i * g.num_alleles_ + j))) st.1) x = st.1 x := by
          intro x hx
          rw [s2 x (fun j hj => by rw [hposs j hj]; omega),
            o2 x (fun j hj => by rw [hposo j hj]; omega)]
        obtain ⟨r1, r2⟩ := hrows r hlt
        constructor
        · intro j hj
          have hb := hoi j hj
          rw [hfar _ (by omega)]
          exact r1 j hj
        · intro j hj
          have hb := hsi j hj
          rw [hfar _ (by omega)]
          exact r2 j hj
      · subst heq
        constructor
        · intro j hj
          have e1 := o1 j hj
          rw [hposo j hj] at e1
          rw [s2 _ (fun j' hj' => by
            rw [hposs j' hj']
            have h1 := (hoi j hj).1
            have h2 := (hsi j' hj').1
            have h3 := hos j j' hj hj'
            omega)]
          exact e1
        · intro j hj
          have e1 := s1 j hj
          rw [hposs j hj] at e1
          exact e1)
  exact hinv.2

end MergeColumns

section MergeIndices

variable {α : Type}

/-- The alternates of a block are its sequences `get_seq(0), get_seq(1), ...`. -/
theorem map_get_seq_range (block : RepeatBlock) :
    (List.range block.num_options).map block.get_seq = block.alternates := by
  apply List.ext_getElem
  · simp [RepeatBlock.num_options]
  · intro i h1 h2
    simp [RepeatBlock.get_seq, List.getD_eq_getElem?_getD, List.getElem?_eq_getElem h2]

/-- In a block with pairwise distinct alternates `index_of` numbers the alternates
`0, 1, ...`. -/
theorem map_index_of_alternates (block : RepeatBlock) (hnd : block.alternates.Nodup) :
    block.alternates.map block.index_of
      = (List.range block.num_options).map Int.ofNat := by
  apply List.ext_getElem
  · simp [RepeatBlock.num_options]
  · intro i h1 h2
    have hi : i < block.num_options := by simpa [RepeatBlock.num_options] using h1
    have hget : block.alternates[i]?.getD "" = block.get_seq i := by
      simp [RepeatBlock.get_seq, List.getD_eq_getElem?_getD]
    have hi' : i < block.alternates.length := hi
    rw [List.getElem?_eq_getElem hi', Option.getD_some] at hget
    simp only [List.getElem_map, List.getElem_range]
    rw [hget]
    exact index_of_get_seq block hnd hi

/-- The index vectors of a merge pass, for pairwise distinct alternates and pairwise distinct
candidates that are not alternates: together they are a rearrangement of
`0, ..., total_alleles - 1`, and alternate `original_indices[j]` of the new block is the old
sequence `j`, alternate `stutter_indices[j]` is candidate `j`. -/
theorem merged_indices_spec (srt : StdSort) (g : SeqStutterGenotyper α)
    (stutter_seqs : List String) (hopts : g.num_alleles_ = g.hap_blocks_.num_options)
    (hne : 1 ≤ g.num_alleles_) (halt : g.hap_blocks_.alternates.Nodup)
    (hst : stutter_seqs.Nodup) (hnew : ∀ seq ∈ stutter_seqs, seq ∉ g.hap_blocks_.alternates) :
    ((merged_indices g (merged_str_block srt g.hap_blocks_ stutter_seqs) stutter_seqs).1
        ++ (merged_indices g (merged_str_block srt g.hap_blocks_ stutter_seqs)
            stutter_seqs).2).Perm
      ((List.range (g.num_alleles_ + stutter_seqs.length)).map Int.ofNat)
    ∧ (∀ j, j < g.num_alleles_ →
        (merged_indices g (merged_str_block srt g.hap_blocks_ stutter_seqs)
            stutter_seqs).1.getD j (-1)
          = (merged_str_block srt g.hap_blocks_ stutter_seqs).index_of
              (g.hap_blocks_.get_seq j)
        ∧ g.hap_blocks_.get_seq j
            ∈ (merged_str_block srt g.hap_blocks_ stutter_seqs).alternates)
    ∧ (∀ j, j < stutter_seqs.length →
        (merged_indices g (merged_str_block srt g.hap_blocks_ stutter_seqs)
            stutter_seqs).2.getD j (-1)
          = (merged_str_block srt g.hap_blocks_ stutter_seqs).index_of
              (stutter_seqs.getD j "")
        ∧ stutter_seqs.getD j ""
            ∈ (merged_str_block srt g.hap_blocks_ stutter_seqs).alternates)
    ∧ (merged_str_block srt g.hap_blocks_ stutter_seqs).alternates.Nodup
    ∧ (merged_str_block srt g.hap_blocks_ stutter_seqs).num_options
        = g.num_alleles_ + stutter_seqs.length := by
  have hperm := merged_str_block_perm srt g.hap_blocks_ stutter_seqs (hopts ▸ hne)
  have hnodup : (merged_str_block srt g.hap_blocks_ stutter_seqs).alternates.Nodup := by
    rw [hperm.nodup_iff]
    exact List.Nodup.append halt hst (fun a ha hb => hnew a hb ha)
  have hnum : (merged_str_block srt g.hap_blocks_ stutter_seqs).num_options
      = g.num_alleles_ + stutter_seqs.length := by
    unfold RepeatBlock.num_options
    rw [hperm.length_eq, List.length_append, hopts]
    rfl
  refine ⟨?_, ?_, ?_, hnodup, hnum⟩
  · rw [merged_indices_eq]
    dsimp only
    have h1 : (List.range g.num_alleles_).map
        (fun i => (merged_str_block srt g.hap_blocks_ stutter_seqs).index_of
          (g.hap_blocks_.get_seq i))
        = g.hap_blocks_.alternates.map
            (merged_str_block srt g.hap_blocks_ stutter_seqs).index_of := by
      rw [← map_get_seq_range g.hap_blocks_, List.map_map, hopts]
      rfl
    rw [h1, ← List.map_append, ← hnum, ← map_index_of_alternates _ hnodup]
    exact (hperm.map _).symm
  · intro j hj
    constructor
    · rw [merged_indices_eq]
      simp [List.getD_eq_getElem?_getD, List.getElem?_range hj]
    · exact hperm.mem_iff.mpr (List.mem_append_left _ (get_seq_mem g.hap_blocks_ (hopts ▸ hj)))
  · intro j hj
    have hget : stutter_seqs.getD j "" = stutter_seqs[j] := by
      simp [List.getD_eq_getElem?_getD, List.getElem?_eq_getElem hj]
    constructor
    · rw [merged_indices_eq]
      simp [List.getD_eq_getElem?_getD, List.getElem?_eq_getElem hj]
    · rw [hget]
      exact hperm.mem_iff.mpr (List.mem_append_right _ (List.getElem_mem _))

end MergeIndices

section MergeClaims

variable {α : Type} [LinearOrderedField α]

/-- Claim C19: in a merge pass on the candidates that `get_stutter_candidate_alleles` returned,
sorted by length, for an object with a reference allele whose alternates are pairwise distinct,
`original_indices` and `stutter_indices` together are a rearrangement of
`0, ..., total_alleles - 1`, one index per old allele and candidate. For every read `r` the new
`A[r, original_indices[j]]` is the old `A[r, j]` and the new `A[r, stutter_indices[j]]` is the
log-likelihood computed for candidate `j`, and the alternate of the new repeat block at each of
these indices is the sequence whose column was copied there. -/
theorem merge_columns_bijective (m : MathOps α) (srt : StdSort) (g : SeqStutterGenotyper α)
    (chrom_seq : String) (traced_alns : Nat → Option AlignmentTrace)
    (stutter_seqs : List String) (new_log_aln_probs : Nat → α)
    (hcand : stutter_seqs = srt.sort (get_stutter_candidate_alleles g traced_alns))
    (hopts : g.num_alleles_ = g.hap_blocks_.num_options) (hne : 1 ≤ g.num_alleles_)
    (halt : g.hap_blocks_.alternates.Nodup) :
    ((merged_indices g (merged_str_block srt g.hap_blocks_ stutter_seqs) stutter_seqs).1
        ++ (merged_indices g (merged_str_block srt g.hap_blocks_ stutter_seqs)
            stutter_seqs).2).Perm
      ((List.range (merge_stutter_alleles m srt g chrom_seq stutter_seqs
        new_log_aln_probs).num_alleles_).map Int.ofNat)
    ∧ (merged_indices g (merged_str_block srt g.hap_blocks_ stutter_seqs)
        stutter_seqs).1.length = g.num_alleles_
    ∧ (merged_indices g (merged_str_block srt g.hap_blocks_ stutter_seqs)
        stutter_seqs).2.length = stutter_seqs.length
    ∧ (∀ r j, r < g.num_reads_ → j < g.num_alleles_ →
        (merge_stutter_alleles m srt g chrom_seq stutter_seqs new_log_aln_probs).log_aln_probs_
            (r * (merge_stutter_alleles m srt g chrom_seq stutter_seqs
                new_log_aln_probs).num_alleles_
              + ((merged_indices g (merged_str_block srt g.hap_blocks_ stutter_seqs)
                  stutter_seqs).1.getD j (-1)).toNat)
          = g.log_aln_probs_ (r * g.num_alleles_ + j)
        ∧ (merge_stutter_alleles m srt g chrom_seq stutter_seqs
            new_log_aln_probs).hap_blocks_.get_seq
              ((merged_indices g (merged_str_block srt g.hap_blocks_ stutter_seqs)
                stutter_seqs).1.getD j (-1)).toNat
          = g.hap_blocks_.get_seq j)
    ∧ ∀ r j, r < g.num_reads_ → j < stutter_seqs.length →
        (merge_stutter_alleles m srt g chrom_seq stutter_seqs new_log_aln_probs).log_aln_probs_
            (r * (merge_stutter_alleles m srt g chrom_seq stutter_seqs
                new_log_aln_probs).num_alleles_
              + ((merged_indices g (merged_str_block srt g.hap_blocks_ stutter_seqs)
                  stutter_seqs).2.getD j (-1)).toNat)
          = new_log_aln_probs (r * stutter_seqs.length + j)
        ∧ (merge_stutter_alleles m srt g chrom_seq stutter_seqs
            new_log_aln_probs).hap_blocks_.get_seq
              ((merged_indices g (merged_str_block srt g.hap_blocks_ stutter_seqs)
                stutter_seqs).2.getD j (-1)).toNat
          = stutter_seqs.getD j "" := by
  obtain ⟨hmem, hsorted⟩ := get_stutter_candidate_alleles_mem g traced_alns
  have hst : stutter_seqs.Nodup := by
    rw [hcand, (srt.perm _).nodup_iff]
    exact hsorted.nodup
  have hnew : ∀ seq ∈ stutter_seqs, seq ∉ g.hap_blocks_.alternates := by
    intro seq hseq
    rw [hcand, (srt.perm _).mem_iff] at hseq
    exact ((hmem seq).mp hseq).1
  obtain ⟨hperm, horig, hstut, hnodup, hnum⟩ :=
    merged_indices_spec srt g stutter_seqs hopts hne halt hst hnew
  have hgetD_inj : ∀ i j, i < stutter_seqs.length → j < stutter_seqs.length →
      stutter_seqs.getD i "" = stutter_seqs.getD j "" → i = j := by
    intro i j hi hj h
    simp only [List.getD_eq_getElem?_getD, List.getElem?_eq_getElem hi,
      List.getElem?_eq_getElem hj, Option.getD_some] at h
    exact (List.Nodup.getElem_inj_iff hst).mp h
  have hcells := merged_log_aln_probs_cells g
    (merged_indices g (merged_str_block srt g.hap_blocks_ stutter_seqs) stutter_seqs).1
    (merged_indices g (merged_str_block srt g.hap_blocks_ stutter_seqs) stutter_seqs).2
    stutter_seqs.length new_log_aln_probs
    (fun j hj => by
      rw [(horig j hj).1, ← hnum]
      exact (get_seq_index_of _ (horig j hj).2).2)
    (fun j hj => by
      rw [(hstut j hj).1, ← hnum]
      exact (get_seq_index_of _ (hstut j hj).2).2)
    (fun i j hi hj h => by
      rw [(horig i hi).1, (horig j hj).1] at h
      exact get_seq_inj g.hap_blocks_ halt (hopts ▸ hi) (hopts ▸ hj)
        (index_of_inj _ (horig i hi).2 (horig j hj).2 h))
    (fun i j hi hj h => by
      rw [(hstut i hi).1, (hstut j hj).1] at h
      exact hgetD_inj i j hi hj (index_of_inj _ (hstut i hi).2 (hstut j hj).2 h))
    (fun i j hi hj h => by
      rw [(horig i hi).1, (hstut j hj).1] at h
      have hseq := index_of_inj _ (horig i hi).2 (hstut j hj).2 h
      have hj' : stutter_seqs.getD j "" ∈ stutter_seqs := by
        simp only [List.getD_eq_getElem?_getD, List.getElem?_eq_getElem hj, Option.getD_some]
        exact List.getElem_mem _
      exact hnew _ hj' (hseq ▸ get_seq_mem g.hap_blocks_ (hopts ▸ hi)))
  refine ⟨hperm, ?_, ?_, fun r j hr hj => ⟨(hcells r hr).1 j hj, ?_⟩,
    fun r j hr hj => ⟨(hcells r hr).2 j hj, ?_⟩⟩
  · rw [merged_indices_eq]
    simp
  · rw [merged_indices_eq]
    simp
  · rw [(horig j hj).1]
    exact (get_seq_index_of _ (horig j hj).2).1
  · rw [(hstut j hj).1]
    exact (get_seq_index_of _ (hstut j hj).2).1

/-- Witness of C19: the five-allele example with two spanning tracebacks that report `"ACACA"`
with stutter size 1, which makes `"ACACA"` the only candidate. -/
theorem merge_columns_bijective_witness :
    get_stutter_candidate_alleles (example_five_alleles ℚ) (example_traces 1) = ["ACACA"]
    ∧ ((merged_indices (example_five_alleles ℚ)
          (merged_str_block insertion_sort_by_length (example_five_alleles ℚ).hap_blocks_
            (insertion_sort_by_length.sort
              (get_stutter_candidate_alleles (example_five_alleles ℚ) (example_traces 1))))
          (insertion_sort_by_length.sort
            (get_stutter_candidate_alleles (example_five_alleles ℚ) (example_traces 1)))).1
        ++ (merged_indices (example_five_alleles ℚ)
          (merged_str_block insertion_sort_by_length (example_five_alleles ℚ).hap_blocks_
            (insertion_sort_by_length.sort
              (get_stutter_candidate_alleles (example_five_alleles ℚ) (example_traces 1))))
          (insertion_sort_by_length.sort
            (get_stutter_candidate_alleles (example_five_alleles ℚ) (example_traces 1)))).2).Perm
      ((List.range (merge_stutter_alleles ⟨id, id⟩ insertion_sort_by_length
        (example_five_alleles ℚ) ""
        (insertion_sort_by_length.sort
          (get_stutter_candidate_alleles (example_five_alleles ℚ) (example_traces 1)))
        (fun _ => -3)).num_alleles_).map Int.ofNat) := by
  refine ⟨?_, (merge_columns_bijective ⟨id, id⟩ insertion_sort_by_length
    (example_five_alleles ℚ) "" (example_traces 1) _ (fun _ => -3) rfl (by decide) (by decide)
    (by decide)).1⟩
  apply get_stutter_candidate_alleles_singleton
  · refine ((get_stutter_candidate_alleles_mem _ _).1 _).mpr
      ⟨by decide, 0, by decide, by decide, ?_⟩
    have h1 : (stutter_reads (example_five_alleles ℚ) (example_traces 1)
        (example_five_alleles ℚ).num_reads_ 0 "ACACA").length = 2 := by decide
    have h2 : (spanning_reads (example_five_alleles ℚ) (example_traces 1)
        (example_five_alleles ℚ).num_reads_ 0).length = 2 := by decide
    rw [h1, h2]
    norm_num
  · intro r trace hr htr _ _
    left
    have hr4 : r < 4 := Nat.lt_trans (show r < 2 from hr) (by decide)
    simp only [example_traces, hr4, if_true, Option.some.injEq] at htr
    rw [← htr]

end MergeClaims

/-! ## Pruning the uncalled alleles twice -/

section PruneLists

end PruneLists

section PruneGeneric

variable {α : Type} [LinearOrderedField α]

theorem remove_alleles_eq_pruned (m : MathOps α) (g : SeqStutterGenotyper α)
    (allele_indices : List Nat) :
    remove_alleles m g allele_indices
      = (calc_log_sample_posteriors_default m (pruned g allele_indices)).2 := rfl

/-- The MAP pair that the loops of `get_optimal_genotypes` leave for a sample with a cell above
`-DBL_MAX`: the first pair in loop order whose cell is maximal. -/
theorem optimal_genotypes_first_max (g : SeqStutterGenotyper α) (P : Nat → α) (s : Nat)
    (hs : s < g.num_samples_)
    (hP : ∃ a b, a < g.num_alleles_ ∧ b < g.num_alleles_ ∧ -DBL_MAX < P (cell_index g a b s)) :
    ∃ a b, a < g.num_alleles_ ∧ b < g.num_alleles_
      ∧ get_optimal_genotypes g P s = ((a : Int), (b : Int))
      ∧ (∀ a' b', a' < g.num_alleles_ → b' < g.num_alleles_ →
          P (cell_index g a' b' s) ≤ P (cell_index g a b s))
      ∧ (∀ a' b', a' < g.num_alleles_ → b' < g.num_alleles_ →
          P (cell_index g a' b' s) = P (cell_index g a b s) → a < a' ∨ (a = a' ∧ b ≤ b')) := by
  have hall : ∀ a b, a < g.num_alleles_ → lex_before g.num_alleles_ 0 a b :=
    fun a b ha => Or.inl ha
  rcases optimal_genotypes_loop_invariant g P s hs with ⟨_, _, h3⟩ | ⟨a, b, hb, h2, h3, _, _, h6⟩
  · obtain ⟨a, b, ha, hb, hlt⟩ := hP
    exact absurd (h3 a b hb (hall a b ha)) (not_le.mpr hlt)
  · have ha : a < g.num_alleles_ := by
      rcases h2 with h | ⟨_, h⟩
      · exact h
      · exact absurd h (Nat.not_lt_zero _)
    refine ⟨a, b, ha, hb, h3, fun a' b' ha' hb' => (h6 a' b' hb' (hall a' b' ha')).1,
      fun a' b' ha' hb' he => ?_⟩
    rcases (h6 a' b' hb' (hall a' b' ha')).2 he with h | ⟨e, h⟩
    · exact Or.inl h
    · exact Or.inr ⟨e, Nat.lt_succ_iff.mp h⟩

end PruneGeneric
section Transfer

variable {α : Type} [LinearOrderedField α]

end Transfer

section PruneReal

/-- With at least one and fewer than `2^31` alleles, every sample has a cell of the normalised
array above `-DBL_MAX`: the largest one is at least `-log(n*n)`. -/
theorem posterior_above_sentinel (g : SeqStutterGenotyper ℝ) (read_weights : Nat → Int)
    (hn : 1 ≤ g.num_alleles_) (hint : g.num_alleles_ < 2 ^ 31) {s : Nat}
    (hs : s < g.num_samples_) :
    ∃ a b, a < g.num_alleles_ ∧ b < g.num_alleles_
      ∧ -DBL_MAX < (calc_log_sample_posteriors ⟨Real.exp, Real.log⟩ g
          read_weights).2.log_sample_posteriors_ (cell_index g a b s) := by
  have hne : (Finset.range g.num_alleles_ ×ˢ Finset.range g.num_alleles_).Nonempty :=
    ⟨(0, 0), by simp; omega⟩
  obtain ⟨p, hp, hmax⟩ := Finset.exists_max_image _
    (fun p : Nat × Nat => (unnormalized ⟨Real.exp, Real.log⟩ g read_weights).post
      (cell_index g p.1 p.2 s)) hne
  rw [Finset.mem_product, Finset.mem_range, Finset.mem_range] at hp
  refine ⟨p.1, p.2, hp.1, hp.2, ?_⟩
  have hT := total_le_of_cells_le g read_weights hn hs
    ((unnormalized ⟨Real.exp, Real.log⟩ g read_weights).post (cell_index g p.1 p.2 s))
    (fun a b ha hb => hmax (a, b) (by simp [ha, hb]))
  rw [log_sample_posteriors_eq g read_weights hp.1 hp.2 hs]
  have hn0 : (0 : ℝ) < (g.num_alleles_ : ℝ) * g.num_alleles_ := by
    have : (0 : ℝ) < g.num_alleles_ := by exact_mod_cast hn
    positivity
  have hlog := Real.log_le_sub_one_of_pos hn0
  have hsq : ((g.num_alleles_ : ℝ) * g.num_alleles_) ≤ 2 ^ 31 * 2 ^ 31 := by
    have h1 : (g.num_alleles_ : ℝ) ≤ 2 ^ 31 := by exact_mod_cast hint.le
    have h0 : (0 : ℝ) ≤ g.num_alleles_ := by positivity
    exact mul_le_mul h1 h1 h0 (by positivity)
  have hK := half_DBL_MAX_gt
  have hbig : (2 : ℝ) ^ 31 * 2 ^ 31 < 10 ^ 100 := by norm_num
  have h33 : (0 : ℝ) < 2 ^ 33 := by positivity
  have h100 : (0 : ℝ) < 10 ^ 100 := by positivity
  linarith

end PruneReal

section PruneClaims

end PruneClaims

section PruneExample

theorem log_exp_add_self (x : ℝ) : Real.log (Real.exp x + Real.exp x) = x + Real.log 2 := by
  rw [← two_mul, Real.log_mul (by norm_num) (Real.exp_pos x).ne', Real.log_exp]
  ring

end PruneExample

/-! ## The allele of the traceback -/

/-- Over the reals `x - logsumexp(x, y)` exceeds `log ½` exactly when `x` exceeds `y`. -/
theorem sub_log_sum_exp_gt_iff (x y : ℝ) :
    x - log_sum_exp ⟨Real.exp, Real.log⟩ x y > LOG_ONE_HALF ⟨Real.exp, Real.log⟩ ↔ x > y := by
  rw [log_sum_exp_real]
  have hpos : 0 < Real.exp x + Real.exp y := by positivity
  have h2 : Real.log (1 / 2 : ℝ) = -Real.log 2 := by
    rw [one_div, Real.log_inv]
  show Real.log (1 / 2) < x - Real.log (Real.exp x + Real.exp y) ↔ y < x
  rw [h2]
  constructor
  · intro h
    have h3 : Real.log (Real.exp x + Real.exp y) < x + Real.log 2 := by linarith
    have h4 : Real.exp x + Real.exp y < Real.exp (x + Real.log 2) := by
      rw [← Real.exp_log hpos]
      exact Real.exp_lt_exp.mpr h3
    rw [Real.exp_add, Real.exp_log (by norm_num : (0 : ℝ) < 2)] at h4
    have h5 : Real.exp y < Real.exp x := by linarith
    exact Real.exp_lt_exp.mp h5
  · intro h
    have h5 : Real.exp y < Real.exp x := Real.exp_lt_exp.mpr h
    have h4 : Real.exp x + Real.exp y < Real.exp (x + Real.log 2) := by
      rw [Real.exp_add, Real.exp_log (by norm_num : (0 : ℝ) < 2)]
      linarith
    have h3 : Real.log (Real.exp x + Real.exp y) < x + Real.log 2 := by
      rw [← Real.log_exp (x + Real.log 2)]
      exact Real.log_lt_log hpos h4
    linarith

/-- The allele chosen by `write_vcf_record` is the allele chosen by `retrace_alignments`. -/
theorem write_vcf_best_gt_eq (g : SeqStutterGenotyper ℝ) (read_LL_ptr read_index : Nat)
    (gt_a gt_b : Int) :
    write_vcf_best_gt ⟨Real.exp, Real.log⟩ g read_LL_ptr read_index gt_a gt_b
      = retrace_best_gt ⟨Real.exp, Real.log⟩ g read_LL_ptr read_index gt_a gt_b := by
  unfold write_vcf_best_gt retrace_best_gt log_phase_one
  by_cases h : LOG_ONE_HALF ⟨Real.exp, Real.log⟩ + g.log_p1_ read_index
      + g.log_aln_probs_ ((read_LL_ptr : Int) + gt_a).toNat
      > LOG_ONE_HALF ⟨Real.exp, Real.log⟩ + g.log_p2_ read_index
        + g.log_aln_probs_ ((read_LL_ptr : Int) + gt_b).toNat
  · rw [if_pos h, if_pos ((sub_log_sum_exp_gt_iff _ _).mpr h)]
  · rw [if_neg h, if_neg (fun hc => h ((sub_log_sum_exp_gt_iff _ _).mp hc))]

/-- The two read loops run in lockstep: after `n` reads they hold the same pointer, the same
counters of processed alignments and the same trace cache. -/
theorem write_vcf_record_reads_lockstep (n : Nat) (body1 : Nat → RetraceState → RetraceState)
    (body2 : Nat → VcfReadState ℝ → VcfReadState ℝ) (s1 : RetraceState) (s2 : VcfReadState ℝ)
    (h0 : s2.read_LL_ptr = s1.read_LL_ptr ∧ s2.num_proc_alns = s1.num_proc_alns
      ∧ s2.trace_cache = s1.trace_cache)
    (hstep : ∀ i t1 t2, t2.read_LL_ptr = t1.read_LL_ptr ∧ t2.num_proc_alns = t1.num_proc_alns
      ∧ t2.trace_cache = t1.trace_cache →
      (body2 i t2).read_LL_ptr = (body1 i t1).read_LL_ptr
        ∧ (body2 i t2).num_proc_alns = (body1 i t1).num_proc_alns
        ∧ (body2 i t2).trace_cache = (body1 i t1).trace_cache) :
    (forLoop n body2 s2).read_LL_ptr = (forLoop n body1 s1).read_LL_ptr
      ∧ (forLoop n body2 s2).num_proc_alns = (forLoop n body1 s1).num_proc_alns
      ∧ (forLoop n body2 s2).trace_cache = (forLoop n body1 s1).trace_cache := by
  induction n with
  | zero => exact h0
  | succ k ih =>
    rw [forLoop_succ, forLoop_succ]
    exact hstep k _ _ ih

/-- In exact arithmetic, for every read and every pair `(gt_a, gt_b)` the allele that
`write_vcf_record` chooses for the traceback (`gt_a` iff `log_phase_one > log ½`) is the allele
that `retrace_alignments` chooses (`gt_a` iff `x > y`), the two functions look the trace up under
the same key `(pool_index, best_gt)`, and on the same object their read loops leave the same
trace cache. The two tests are one choice written in two ways; the rounding of `double`, under
which they can part on a tie `x = y`, is outside this statement. -/
theorem traceback_allele_agrees (aligner : HapAligner ℝ) (g : SeqStutterGenotyper ℝ)
    (read_LL_ptr read_index : Nat) (gt_a gt_b : Int) :
    write_vcf_best_gt ⟨Real.exp, Real.log⟩ g read_LL_ptr read_index gt_a gt_b
        = retrace_best_gt ⟨Real.exp, Real.log⟩ g read_LL_ptr read_index gt_a gt_b
      ∧ write_vcf_trace_key ⟨Real.exp, Real.log⟩ g read_LL_ptr read_index gt_a gt_b
        = retrace_trace_key ⟨Real.exp, Real.log⟩ g read_LL_ptr read_index gt_a gt_b
      ∧ (write_vcf_record_reads ⟨Real.exp, Real.log⟩ aligner g).trace_cache
        = (retrace_alignments ⟨Real.exp, Real.log⟩ aligner g).trace_cache := by
  refine ⟨write_vcf_best_gt_eq g _ _ _ _, ?_, ?_⟩
  · unfold write_vcf_trace_key retrace_trace_key
    rw [write_vcf_best_gt_eq]
  · unfold write_vcf_record_reads retrace_alignments
    refine (write_vcf_record_reads_lockstep g.num_reads_ _ _ _ _
      ⟨rfl, rfl, rfl⟩ ?_).2.2
    rintro i t1 t2 ⟨h1, h2, h3⟩
    dsimp only
    by_cases hseed : g.seed_positions_ i < 0
    · rw [if_pos hseed, if_pos hseed]
      exact ⟨by rw [h1], by rw [h2], h3⟩
    · rw [if_neg hseed, if_neg hseed]
      dsimp only
      unfold write_vcf_trace_key retrace_trace_key get_optimal_genotypes
      rw [write_vcf_best_gt_eq, h1, h2, h3]
      exact ⟨rfl, rfl, rfl⟩

/-! ## Uniform SNP priors -/

section Symmetry

variable {α : Type} [LinearOrderedField α]

/-- The helper `log_sum_exp` is symmetric in its arguments. -/
theorem log_sum_exp_comm (m : MathOps α) (x y : α) : log_sum_exp m x y = log_sum_exp m y x := by
  unfold log_sum_exp
  rcases lt_trichotomy x y with h | h | h
  · rw [if_neg (not_lt.mpr h.le), if_pos h]
  · subst h
    rfl
  · rw [if_pos h, if_neg (not_lt.mpr h.le)]

/-- With `log_p1 = log_p2` for the reads of sample `s`, the weighted read terms of `(a, b)` and
of `(b, a)` agree. -/
theorem read_sum_symm (m : MathOps α) (g : SeqStutterGenotyper α) (read_weights : Nat → Int)
    (a b s : Nat)
    (huniform : ∀ r, r < g.num_reads_ → g.sample_label_ r = s → g.log_p1_ r = g.log_p2_ r) :
    read_sum m g read_weights a b s = read_sum m g read_weights b a s := by
  unfold read_sum
  refine Finset.sum_congr rfl (fun r hr => ?_)
  by_cases h : g.sample_label_ r = s
  · rw [if_pos h, if_pos h]
    unfold read_LL_term
    rw [huniform r (Finset.mem_range.mp hr) h, log_sum_exp_comm]
  · rw [if_neg h, if_neg h]

end Symmetry

/-- With default diploid priors and `log_p1 = log_p2` for the reads of sample `s`, the posterior
of `s` is symmetric. -/
theorem log_sample_posteriors_symm (g : SeqStutterGenotyper ℝ)
    (hp : g.log_allele_priors_ = none) (hd : g.haploid_ = false)
    (hlabel : ∀ r, r < g.num_reads_ → g.sample_label_ r < g.num_samples_)
    {s : Nat} (hs : s < g.num_samples_)
    (huniform : ∀ r, r < g.num_reads_ → g.sample_label_ r = s → g.log_p1_ r = g.log_p2_ r)
    {a b : Nat} (ha : a < g.num_alleles_) (hb : b < g.num_alleles_) :
    (calc_log_sample_posteriors_default ⟨Real.exp, Real.log⟩ g).2.log_sample_posteriors_
        (cell_index g a b s)
      = (calc_log_sample_posteriors_default ⟨Real.exp, Real.log⟩ g).2.log_sample_posteriors_
        (cell_index g b a s) := by
  unfold calc_log_sample_posteriors_default
  rw [log_sample_posteriors_eq g _ ha hb hs, log_sample_posteriors_eq g _ hb ha hs,
    unnormalized_post _ g _ hlabel ha hb hs, unnormalized_post _ g _ hlabel hb ha hs,
    init_log_sample_priors_diploid _ g hp hd _ ha hb hs,
    init_log_sample_priors_diploid _ g hp hd _ hb ha hs,
    read_sum_symm _ g _ a b s huniform]
  by_cases h : a = b
  · subst h
    rfl
  · rw [if_neg h, if_neg (fun hc => h hc.symm)]

/-- The phase probability that `write_vcf_record` pushes for sample `s` with MAP genotype
`(a, b)`. -/
theorem write_vcf_record_phase_prob (g : SeqStutterGenotyper ℝ) (s a b : Nat)
    (hs : s < g.num_samples_)
    (hgt : get_optimal_genotypes g g.log_sample_posteriors_ s = ((a : Int), (b : Int))) :
    (write_vcf_record_phasing ⟨Real.exp, Real.log⟩ g).2[s]?
        = some (if a = b then 1
            else Real.exp (g.log_sample_posteriors_ (cell_index g a b s)
              - Real.log (Real.exp (g.log_sample_posteriors_ (cell_index g a b s))
                + Real.exp (g.log_sample_posteriors_ (cell_index g b a s))))) := by
  have hbest := log_phased_posteriors_eq g g.log_sample_posteriors_ hs hgt
  have hgt' : (optimal_genotypes_loop g g.log_sample_posteriors_).gts s
      = ((a : Int), (b : Int)) := hgt
  unfold write_vcf_record_phasing
  rw [forLoop_push_back g.num_samples_ _
    (fun sample_index =>
      if ((optimal_genotypes_loop g g.log_sample_posteriors_).gts sample_index).1
          = ((optimal_genotypes_loop g g.log_sample_posteriors_).gts sample_index).2 then
        (optimal_genotypes_loop g g.log_sample_posteriors_).log_phased_posteriors sample_index
      else log_sum_exp ⟨Real.exp, Real.log⟩
        ((optimal_genotypes_loop g g.log_sample_posteriors_).log_phased_posteriors sample_index)
        (g.log_sample_posteriors_
          (((optimal_genotypes_loop g g.log_sample_posteriors_).gts sample_index).2
              * g.num_alleles_ * g.num_samples_
            + ((optimal_genotypes_loop g g.log_sample_posteriors_).gts sample_index).1
              * g.num_samples_ + sample_index).toNat))
    (fun sample_index =>
      if ((optimal_genotypes_loop g g.log_sample_posteriors_).gts sample_index).1
          = ((optimal_genotypes_loop g g.log_sample_posteriors_).gts sample_index).2 then 1
      else Real.exp
        ((optimal_genotypes_loop g g.log_sample_posteriors_).log_phased_posteriors sample_index
          - log_sum_exp ⟨Real.exp, Real.log⟩
            ((optimal_genotypes_loop g g.log_sample_posteriors_).log_phased_posteriors
              sample_index)
            (g.log_sample_posteriors_
              (((optimal_genotypes_loop g g.log_sample_posteriors_).gts sample_index).2
                  * g.num_alleles_ * g.num_samples_
                + ((optimal_genotypes_loop g g.log_sample_posteriors_).gts sample_index).1
                  * g.num_samples_ + sample_index).toNat)))
    (fun i out => by dsimp only; split_ifs <;> rfl)]
  simp only [List.getElem?_map, List.getElem?_range hs, Option.map_some', hgt', hbest,
    toNat_cell_index, log_sum_exp_real, Nat.cast_inj]

/-- Equal log-posteriors of the two phasings give the phase probability one half. -/
theorem exp_sub_log_exp_add_self (x : ℝ) :
    Real.exp (x - Real.log (Real.exp x + Real.exp x)) = 1 / 2 := by
  have h : Real.exp x + Real.exp x = 2 * Real.exp x := by ring
  rw [h, Real.log_mul (by norm_num) (Real.exp_pos x).ne', Real.log_exp]
  have : x - (Real.log 2 + x) = -Real.log 2 := by ring
  rw [this, Real.exp_neg, Real.exp_log (by norm_num : (0 : ℝ) < 2), one_div]

/-- Claim C26: with default diploid priors and `log_p1[r] = log_p2[r]` for every read `r` of
sample `s`, the posterior after `calc_log_sample_posteriors` satisfies `P[a,b,s] = P[b,a,s]`
for all alleles `a`, `b`; and when the MAP pair `(gt_a, gt_b)` of `s` is heterozygous, the phase
probability that `write_vcf_record` reports for `s` is `1/2` and `gt_a < gt_b`. -/
theorem uniform_snp_priors_symmetric (g : SeqStutterGenotyper ℝ)
    (hp : g.log_allele_priors_ = none) (hd : g.haploid_ = false)
    (hlabel : ∀ r, r < g.num_reads_ → g.sample_label_ r < g.num_samples_)
    (s : Nat) (hs : s < g.num_samples_)
    (huniform : ∀ r, r < g.num_reads_ → g.sample_label_ r = s → g.log_p1_ r = g.log_p2_ r) :
    (∀ a b, a < g.num_alleles_ → b < g.num_alleles_ →
      (calc_log_sample_posteriors_default ⟨Real.exp, Real.log⟩ g).2.log_sample_posteriors_
          (cell_index g a b s)
        = (calc_log_sample_posteriors_default ⟨Real.exp, Real.log⟩ g).2.log_sample_posteriors_
          (cell_index g b a s))
    ∧ ∀ gt_a gt_b : Int,
        get_optimal_genotypes (calc_log_sample_posteriors_default ⟨Real.exp, Real.log⟩ g).2
          (calc_log_sample_posteriors_default ⟨Real.exp, Real.log⟩ g).2.log_sample_posteriors_ s
          = (gt_a, gt_b) →
        gt_a ≠ gt_b →
        (write_vcf_record_phasing ⟨Real.exp, Real.log⟩
          (calc_log_sample_posteriors_default ⟨Real.exp, Real.log⟩ g).2).2[s]? = some (1 / 2)
        ∧ gt_a < gt_b := by
  refine ⟨fun a b ha hb => log_sample_posteriors_symm g hp hd hlabel hs huniform ha hb, ?_⟩
  intro gt_a gt_b hgt hne
  have hs' : s < (calc_log_sample_posteriors_default ⟨Real.exp, Real.log⟩ g).2.num_samples_ := hs
  rcases optimal_genotypes_loop_invariant
      (calc_log_sample_posteriors_default ⟨Real.exp, Real.log⟩ g).2
      (calc_log_sample_posteriors_default ⟨Real.exp, Real.log⟩ g).2.log_sample_posteriors_ s hs'
    with ⟨h1, _, _⟩ | ⟨a, b, hb, hlex, h3, _, _, h6⟩
  · exfalso
    have e : ((-1 : Int), (-1 : Int)) = (gt_a, gt_b) := h1.symm.trans hgt
    exact hne ((congrArg Prod.fst e).symm.trans (congrArg Prod.snd e))
  · have e : (((a : Int)), ((b : Int))) = (gt_a, gt_b) := h3.symm.trans hgt
    have ea : (a : Int) = gt_a := congrArg Prod.fst e
    have eb : (b : Int) = gt_b := congrArg Prod.snd e
    have hb' : b < g.num_alleles_ := hb
    have ha' : a < g.num_alleles_ := by
      rcases hlex with h | ⟨_, h⟩
      · exact h
      · exact absurd h (Nat.not_lt_zero _)
    have hab : a ≠ b := fun hc => hne (by rw [← ea, ← eb, hc])
    have hsym := log_sample_posteriors_symm g hp hd hlabel hs huniform ha' hb'
    have hlt : a < b := by
      rcases (h6 b a ha' (Or.inl hb')).2 hsym.symm with h | ⟨h, _⟩
      · exact h
      · exact absurd h hab
    refine ⟨?_, by rw [← ea, ← eb]; exact_mod_cast hlt⟩
    have hgt2 : get_optimal_genotypes (calc_log_sample_posteriors_default ⟨Real.exp, Real.log⟩ g).2
        (calc_log_sample_posteriors_default ⟨Real.exp, Real.log⟩ g).2.log_sample_posteriors_ s
        = ((a : Int), (b : Int)) := h3
    rw [write_vcf_record_phase_prob _ s a b hs' hgt2, if_neg hab]
    have hsym' : (calc_log_sample_posteriors_default ⟨Real.exp, Real.log⟩ g).2.log_sample_posteriors_
        (cell_index (calc_log_sample_posteriors_default ⟨Real.exp, Real.log⟩ g).2 b a s)
        = (calc_log_sample_posteriors_default ⟨Real.exp, Real.log⟩ g).2.log_sample_posteriors_
        (cell_index (calc_log_sample_posteriors_default ⟨Real.exp, Real.log⟩ g).2 a b s) :=
      hsym.symm
    rw [hsym', exp_sub_log_exp_add_self]

/-- Witness of C26 on `example_uniform_snp`: the hypotheses hold for sample 0. -/
theorem uniform_snp_priors_symmetric_witness :
    (∀ a b, a < (example_uniform_snp ℝ).num_alleles_ → b < (example_uniform_snp ℝ).num_alleles_ →
      (calc_log_sample_posteriors_default ⟨Real.exp, Real.log⟩
          (example_uniform_snp ℝ)).2.log_sample_posteriors_
          (cell_index (example_uniform_snp ℝ) a b 0)
        = (calc_log_sample_posteriors_default ⟨Real.exp, Real.log⟩
          (example_uniform_snp ℝ)).2.log_sample_posteriors_
          (cell_index (example_uniform_snp ℝ) b a 0))
    ∧ ∀ gt_a gt_b : Int,
        get_optimal_genotypes
          (calc_log_sample_posteriors_default ⟨Real.exp, Real.log⟩ (example_uniform_snp ℝ)).2
          (calc_log_sample_posteriors_default ⟨Real.exp, Real.log⟩
            (example_uniform_snp ℝ)).2.log_sample_posteriors_ 0 = (gt_a, gt_b) →
        gt_a ≠ gt_b →
        (write_vcf_record_phasing ⟨Real.exp, Real.log⟩
          (calc_log_sample_posteriors_default ⟨Real.exp, Real.log⟩
            (example_uniform_snp ℝ)).2).2[0]? = some (1 / 2)
        ∧ gt_a < gt_b :=
  uniform_snp_priors_symmetric (example_uniform_snp ℝ) rfl rfl (fun _ _ => Nat.zero_lt_one) 0
    (by decide) (fun _ _ _ => rfl)

/-! ## The bootstrap tensor -/

section Bootstrap

variable {α : Type} [LinearOrderedField α]

theorem store_apply {β : Type} (arr : Nat → β) (i : Nat) (v : β) (j : Nat) :
    store arr i v j = if j = i then v else arr j := rfl

end Bootstrap

/-! ## Bootstrap MAP genotypes -/

section BootstrapMap

variable {α : Type} [LinearOrderedField α]

end BootstrapMap

section BootstrapWeights

variable {α : Type}

/-- The vector `reads_by_sample` lists, for every sample, its reads with a seed position in
ascending order. -/
theorem reads_by_sample_eq (g : SeqStutterGenotyper α) (j : Nat) :
    reads_by_sample g j = (List.range g.num_reads_).filter (fun r =>
      decide (g.seed_positions_ r ≥ 0) && decide (g.sample_label_ r = j)) := by
  unfold reads_by_sample
  refine forLoop_inv (fun k (rbs : Nat → List Nat) => ∀ j, rbs j = (List.range k).filter (fun r =>
      decide (g.seed_positions_ r ≥ 0) && decide (g.sample_label_ r = j))) g.num_reads_ _ _
    (fun j => rfl) ?_ j
  intro k rbs _ h j
  rw [List.range_succ, List.filter_append]
  by_cases hseed : g.seed_positions_ k ≥ 0
  · rw [if_pos hseed, store_apply]
    by_cases hj : j = g.sample_label_ k
    · rw [if_pos hj, ← hj, h j]
      simp [hseed, hj]
    · rw [if_neg hj, h j]
      have : ¬ g.sample_label_ k = j := fun hc => hj hc.symm
      simp [this]
  · rw [if_neg hseed, h j]
    simp [hseed]

theorem reads_by_sample_mem (g : SeqStutterGenotyper α) (j x : Nat)
    (hx : x ∈ reads_by_sample g j) :
    x < g.num_reads_ ∧ g.seed_positions_ x ≥ 0 ∧ g.sample_label_ x = j := by
  rw [reads_by_sample_eq, List.mem_filter, List.mem_range] at hx
  obtain ⟨h1, h2⟩ := hx
  simp only [Bool.and_eq_true, decide_eq_true_eq] at h2
  exact ⟨h1, h2.1, h2.2⟩

/-- The total weight of the reads of sample `j` after `w[x]++`. -/
theorem sample_weight_increment (g : SeqStutterGenotyper α) (w : Nat → Int) (x j : Nat)
    (hx : x < g.num_reads_) :
    (∑ r in Finset.range g.num_reads_,
        if g.sample_label_ r = j then store w x (w x + 1) r else 0)
      = (∑ r in Finset.range g.num_reads_, if g.sample_label_ r = j then w r else 0)
        + if g.sample_label_ x = j then 1 else 0 := by
  have h1 : ∀ r ∈ Finset.range g.num_reads_,
      (if g.sample_label_ r = j then store w x (w x + 1) r else 0)
        = (if g.sample_label_ r = j then w r else 0)
          + if r = x then (if g.sample_label_ x = j then 1 else 0) else 0 := by
    intro r _
    rw [store_apply]
    by_cases hr : r = x
    · subst hr
      by_cases hl : g.sample_label_ r = j <;> simp [hl]
    · simp [hr]
  rw [Finset.sum_congr rfl h1, Finset.sum_add_distrib, Finset.sum_ite_eq' (Finset.range _) x]
  simp [hx]

/-- The draws for sample `j0`: the number of calls grows by the number of seeded reads of
`j0`, the total weight of the reads of `j0` grows by the same number, the total weight of the
reads of any other sample is unchanged, and so is the weight of a read without seed. -/
theorem bootstrap_sample_spec (g : SeqStutterGenotyper α) (draws : Nat → Nat) (j0 : Nat)
    (st : (Nat → Int) × Nat) :
    (bootstrap_sample (reads_by_sample g) draws j0 st).2
        = st.2 + (reads_by_sample g j0).length
      ∧ (∀ j, (∑ r in Finset.range g.num_reads_,
          if g.sample_label_ r = j then
            (bootstrap_sample (reads_by_sample g) draws j0 st).1 r else 0)
        = (∑ r in Finset.range g.num_reads_, if g.sample_label_ r = j then st.1 r else 0)
          + if j0 = j then ((reads_by_sample g j0).length : Int) else 0)
      ∧ ∀ r, g.seed_positions_ r < 0 →
          (bootstrap_sample (reads_by_sample g) draws j0 st).1 r = st.1 r := by
  unfold bootstrap_sample
  dsimp only
  have key : ∀ k, k ≤ (reads_by_sample g j0).length →
      (forLoop k (fun _ (st : (Nat → Int) × Nat) =>
        (store st.1 ((reads_by_sample g j0).getD (draws st.2 % (reads_by_sample g j0).length) 0)
          (st.1 ((reads_by_sample g j0).getD (draws st.2 % (reads_by_sample g j0).length) 0) + 1),
          st.2 + 1)) st).2 = st.2 + k
      ∧ (∀ j, (∑ r in Finset.range g.num_reads_,
          if g.sample_label_ r = j then
            (forLoop k (fun _ (st : (Nat → Int) × Nat) =>
        (store st.1 ((reads_by_sample g j0).getD (draws st.2 % (reads_by_sample g j0).length) 0)
          (st.1 ((reads_by_sample g j0).getD (draws st.2 % (reads_by_sample g j0).length) 0) + 1),
          st.2 + 1)) st).1 r else 0)
        = (∑ r in Finset.range g.num_reads_, if g.sample_label_ r = j then st.1 r else 0)
          + if j0 = j then (k : Int) else 0)
      ∧ ∀ r, g.seed_positions_ r < 0 →
          (forLoop k (fun _ (st : (Nat → Int) × Nat) =>
        (store st.1 ((reads_by_sample g j0).getD (draws st.2 % (reads_by_sample g j0).length) 0)
          (st.1 ((reads_by_sample g j0).getD (draws st.2 % (reads_by_sample g j0).length) 0) + 1),
          st.2 + 1)) st).1 r = st.1 r := by
    intro k hk
    induction k with
    | zero => exact ⟨rfl, fun j => by simp [forLoop], fun r _ => rfl⟩
    | succ k ih =>
      obtain ⟨h1, h2, h3⟩ := ih (Nat.le_of_succ_le hk)
      rw [forLoop_succ]
      generalize forLoop k (fun _ (st : (Nat → Int) × Nat) =>
        (store st.1 ((reads_by_sample g j0).getD (draws st.2 % (reads_by_sample g j0).length) 0)
          (st.1 ((reads_by_sample g j0).getD (draws st.2 % (reads_by_sample g j0).length) 0) + 1),
          st.2 + 1)) st = t at h1 h2 h3 ⊢
      have hpos : 0 < (reads_by_sample g j0).length := by omega
      have hidx : draws t.2 % (reads_by_sample g j0).length < (reads_by_sample g j0).length :=
        Nat.mod_lt _ hpos
      have hmem : (reads_by_sample g j0).getD (draws t.2 % (reads_by_sample g j0).length) 0
          ∈ reads_by_sample g j0 := by
        rw [List.getD_eq_getElem _ _ hidx]
        exact List.getElem_mem _
      obtain ⟨e1, e2, e3⟩ := reads_by_sample_mem g j0 _ hmem
      refine ⟨?_, fun j => ?_, fun r hr => ?_⟩
      · show t.2 + 1 = _
        rw [h1]
        omega
      · show (∑ r in Finset.range g.num_reads_,
          if g.sample_label_ r = j then store t.1 _ _ r else 0) = _
        rw [sample_weight_increment g t.1 _ j e1, h2 j, e3]
        by_cases hj : j0 = j
        · simp [hj]
          ring
        · simp [hj]
      · show store t.1 _ _ r = _
        rw [store_apply, if_neg, h3 r hr]
        intro hc
        rw [← hc] at e2
        omega
  exact key _ (Nat.le_refl _)

/-- The vector `bootstrap_weights` of an iteration: the number of calls of `unif_dist(gen)`
does not decrease, the weights of the reads of every sample sum to the number of reads of the
sample with a seed position, and a read without seed position has weight 0. -/
theorem bootstrap_weights_spec (g : SeqStutterGenotyper α) (draws : Nat → Nat) (num_draws : Nat) :
    (∀ j, j < g.num_samples_ →
      (∑ r in Finset.range g.num_reads_,
        if g.sample_label_ r = j then
          (bootstrap_weights g (reads_by_sample g) draws num_draws).1 r else 0)
        = (num_seeded_reads g j : Int))
    ∧ ∀ r, g.seed_positions_ r < 0 →
        (bootstrap_weights g (reads_by_sample g) draws num_draws).1 r = 0 := by
  unfold bootstrap_weights
  have key := forLoop_inv (fun k (st : (Nat → Int) × Nat) =>
      (∀ j, (∑ r in Finset.range g.num_reads_, if g.sample_label_ r = j then st.1 r else 0)
        = if j < k then (num_seeded_reads g j : Int) else 0)
      ∧ ∀ r, g.seed_positions_ r < 0 → st.1 r = 0) g.num_samples_
    (fun j st => bootstrap_sample (reads_by_sample g) draws j st) (fun _ => 0, num_draws)
    ⟨fun j => by simp, fun _ _ => rfl⟩ (by
      rintro k st _ ⟨h1, h2⟩
      obtain ⟨_, e2, e3⟩ := bootstrap_sample_spec g draws k st
      refine ⟨fun j => ?_, fun r hr => by rw [e3 r hr, h2 r hr]⟩
      rw [e2 j, h1 j]
      have hlen : (reads_by_sample g k).length = num_seeded_reads g k := by
        rw [reads_by_sample_eq]
        rfl
      rcases Nat.lt_trichotomy j k with h | h | h
      · have hne : ¬ k = j := by omega
        simp [h, hne, Nat.lt_succ_of_lt h]
      · subst h
        simp [hlen]
      · have hne : ¬ k = j := by omega
        have h1 : ¬ j < k := by omega
        have h2 : ¬ j < k + 1 := by omega
        simp [hne, h1, h2])
  exact ⟨fun j hj => by rw [key.1 j, if_pos hj], key.2⟩

/-- The loop of lines 1446-1451 adds 1 to the count of every sample whose bootstrap pair
matches, and nothing else. -/
theorem count_matches_apply (g : SeqStutterGenotyper α) (ML_gts bootstrap_gts : Nat → Int × Int)
    (counts : Nat → Int) (i : Nat) :
    count_matches g ML_gts bootstrap_gts counts i
      = counts i + if i < g.num_samples_ ∧ unordered_match (bootstrap_gts i) (ML_gts i) = true
          then 1 else 0 := by
  unfold count_matches
  refine forLoop_inv (fun k (c : Nat → Int) => ∀ i,
      c i = counts i + if i < k ∧ unordered_match (bootstrap_gts i) (ML_gts i) = true
        then 1 else 0) g.num_samples_ _ _ (fun i => by simp) ?_ i
  intro k c _ hc i
  have hm : unordered_match (bootstrap_gts k) (ML_gts k) = true
      ↔ ((bootstrap_gts k).1 = (ML_gts k).1 ∧ (bootstrap_gts k).2 = (ML_gts k).2)
        ∨ ((bootstrap_gts k).1 = (ML_gts k).2 ∧ (bootstrap_gts k).2 = (ML_gts k).1) := by
    unfold unordered_match
    exact decide_eq_true_iff
  by_cases hik : i = k
  · subst hik
    have hci := hc i
    simp only [Nat.lt_irrefl, false_and, if_false, add_zero] at hci
    by_cases h1 : (bootstrap_gts i).1 = (ML_gts i).1 ∧ (bootstrap_gts i).2 = (ML_gts i).2
    · rw [if_pos h1, store_apply, if_pos rfl, hci, if_pos ⟨Nat.lt_succ_self i, hm.mpr (Or.inl h1)⟩]
    · rw [if_neg h1]
      by_cases h2 : (bootstrap_gts i).1 = (ML_gts i).2 ∧ (bootstrap_gts i).2 = (ML_gts i).1
      · rw [if_pos h2, store_apply, if_pos rfl, hci,
          if_pos ⟨Nat.lt_succ_self i, hm.mpr (Or.inr h2)⟩]
      · rw [if_neg h2, hci, if_neg, add_zero]
        rintro ⟨_, h⟩
        rcases hm.mp h with h | h
        · exact h1 h
        · exact h2 h
  · have hiff : (i < k + 1 ∧ unordered_match (bootstrap_gts i) (ML_gts i) = true)
        ↔ (i < k ∧ unordered_match (bootstrap_gts i) (ML_gts i) = true) := by
      constructor
      · rintro ⟨h, h'⟩
        exact ⟨by omega, h'⟩
      · rintro ⟨h, h'⟩
        exact ⟨by omega, h'⟩
    have hstore : ∀ v, store c k v i = c i := fun v => by rw [store_apply, if_neg hik]
    simp only [hiff]
    split_ifs <;> simp only [hstore, hc i, hiff] <;> simp_all

end BootstrapWeights

section BootstrapCounts

variable {α : Type} [LinearOrderedField α]

/-- One more iteration of the bootstrap loop. -/
theorem bootstrap_iterations_succ (m : MathOps α) (g : SeqStutterGenotyper α)
    (draws : Nat → Nat) (t i : Nat) :
    (bootstrap_iterations m g draws (t + 1)).ML_gt_counts i
      = (bootstrap_iterations m g draws t).ML_gt_counts i
        + if i < g.num_samples_
            ∧ unordered_match (bootstrap_gts m g draws (bootstrap_iterations m g draws t) i)
              (get_optimal_genotypes g g.log_sample_posteriors_ i) = true then 1 else 0 := by
  show count_matches g _ _ _ i = _
  rw [count_matches_apply]
  rfl

/-- The count of sample `i` after `num_iter` iterations is the number of matching
iterations. -/
theorem bootstrap_iterations_count (m : MathOps α) (g : SeqStutterGenotyper α)
    (draws : Nat → Nat) (num_iter : Nat) {i : Nat} (hi : i < g.num_samples_) :
    (bootstrap_iterations m g draws num_iter).ML_gt_counts i
      = (matching_iterations m g draws num_iter i : Int) := by
  induction num_iter with
  | zero => rfl
  | succ t ih =>
    rw [bootstrap_iterations_succ, ih]
    unfold matching_iterations
    rw [filter_range_succ_length]
    by_cases h : unordered_match (bootstrap_gts m g draws (bootstrap_iterations m g draws t) i)
        (get_optimal_genotypes g g.log_sample_posteriors_ i) = true
    · simp [h, hi]
    · simp [h]

theorem matching_iterations_le (m : MathOps α) (g : SeqStutterGenotyper α)
    (draws : Nat → Nat) (num_iter i : Nat) : matching_iterations m g draws num_iter i ≤ num_iter := by
  unfold matching_iterations
  exact (List.length_filter_le _ _).trans (by rw [List.length_range])

/-- The entries of the vector `bootstrap_qualities`. -/
theorem compute_bootstrap_qualities_entry (m : MathOps α) (g : SeqStutterGenotyper α)
    (draws : Nat → Nat) (num_iter : Nat) {i : Nat} (hi : i < g.num_samples_) :
    (compute_bootstrap_qualities m g num_iter draws)[i]?
      = some ((matching_iterations m g draws num_iter i : α) / (num_iter : α)) := by
  unfold compute_bootstrap_qualities
  dsimp only
  have h : ∀ n, forLoop n (fun i (bootstrap_qualities : List α) =>
      bootstrap_qualities
        ++ [1 * ((bootstrap_iterations m g draws num_iter).ML_gt_counts i : α) / (num_iter : α)]) []
      = (List.range n).map (fun i =>
        1 * ((bootstrap_iterations m g draws num_iter).ML_gt_counts i : α) / (num_iter : α)) := by
    intro n
    induction n with
    | zero => rfl
    | succ k ih => rw [forLoop_succ, ih, List.range_succ, List.map_append]; rfl
  rw [h, List.getElem?_map, List.getElem?_range hi, Option.map_some',
    bootstrap_iterations_count m g draws num_iter hi, one_mul]
  simp

end BootstrapCounts

/-- Claim C25: for every sequence of random draws and every `num_iter >= 1`,
`compute_bootstrap_qualities` returns for each sample `k/num_iter`, where `k` is the number of
iterations in which the bootstrap MAP pair equals the original MAP pair as an unordered pair;
an iteration raises the count of a sample by 0 or by 1, so `k ≤ num_iter` and the quality lies
in `[0, 1]`; in every iteration the bootstrap weights of the reads of each sample sum to the
sample's number of reads with `seed_position >= 0`, a read with `seed_position < 0` has weight
0, and for a sample without such reads the drawing loop, which holds the modulo, does not run. -/
theorem compute_bootstrap_qualities_spec (g : SeqStutterGenotyper ℝ) (draws : Nat → Nat)
    (num_iter : Nat) (hiter : 1 ≤ num_iter) :
    (∀ i, i < g.num_samples_ →
      (compute_bootstrap_qualities ⟨Real.exp, Real.log⟩ g num_iter draws)[i]?
          = some ((matching_iterations ⟨Real.exp, Real.log⟩ g draws num_iter i : ℝ)
              / (num_iter : ℝ))
        ∧ matching_iterations ⟨Real.exp, Real.log⟩ g draws num_iter i ≤ num_iter
        ∧ 0 ≤ (matching_iterations ⟨Real.exp, Real.log⟩ g draws num_iter i : ℝ) / (num_iter : ℝ)
        ∧ (matching_iterations ⟨Real.exp, Real.log⟩ g draws num_iter i : ℝ) / (num_iter : ℝ) ≤ 1)
    ∧ (∀ t i,
        (bootstrap_iterations ⟨Real.exp, Real.log⟩ g draws (t + 1)).ML_gt_counts i
            = (bootstrap_iterations ⟨Real.exp, Real.log⟩ g draws t).ML_gt_counts i
          ∨ (bootstrap_iterations ⟨Real.exp, Real.log⟩ g draws (t + 1)).ML_gt_counts i
            = (bootstrap_iterations ⟨Real.exp, Real.log⟩ g draws t).ML_gt_counts i + 1)
    ∧ (∀ t j, j < g.num_samples_ →
        (∑ r in Finset.range g.num_reads_,
          if g.sample_label_ r = j then iteration_weights ⟨Real.exp, Real.log⟩ g draws t r
          else 0) = (num_seeded_reads g j : Int))
    ∧ (∀ t r, g.seed_positions_ r < 0 →
        iteration_weights ⟨Real.exp, Real.log⟩ g draws t r = 0)
    ∧ ∀ j st, num_seeded_reads g j = 0 →
        bootstrap_sample (reads_by_sample g) draws j st = st := by
  have hpos : (0 : ℝ) < (num_iter : ℝ) := by exact_mod_cast hiter
  refine ⟨fun i hi => ⟨compute_bootstrap_qualities_entry _ g draws num_iter hi,
    matching_iterations_le _ g draws num_iter i, by positivity, ?_⟩, fun t i => ?_,
    fun t j hj => (bootstrap_weights_spec g draws _).1 j hj,
    fun t r hr => (bootstrap_weights_spec g draws _).2 r hr, fun j st h0 => ?_⟩
  · rw [div_le_one hpos]
    exact_mod_cast matching_iterations_le _ g draws num_iter i
  · rw [bootstrap_iterations_succ]
    split_ifs
    · exact Or.inr rfl
    · exact Or.inl (add_zero _)
  · have hlen : (reads_by_sample g j).length = 0 := by
      rw [reads_by_sample_eq]
      exact h0
    unfold bootstrap_sample
    dsimp only
    rw [hlen]
    rfl

/-- Witness of C25: one iteration on `example_diploid` with all draws 0. -/
theorem compute_bootstrap_qualities_spec_witness :
    (1 : Nat) ≤ 1
    ∧ ∀ t j, j < (example_diploid ℝ).num_samples_ →
        (∑ r in Finset.range (example_diploid ℝ).num_reads_,
          if (example_diploid ℝ).sample_label_ r = j then
            iteration_weights ⟨Real.exp, Real.log⟩ (example_diploid ℝ) (fun _ => 0) t r
          else 0) = (num_seeded_reads (example_diploid ℝ) j : Int) :=
  ⟨Nat.le_refl 1,
    (compute_bootstrap_qualities_spec (example_diploid ℝ) (fun _ => 0) 1 (Nat.le_refl 1)).2.2.1⟩

/-! ## The VCF record -/

section VcfRecordLoops

variable {α : Type} [LinearOrderedField α]

/-- The read loop of `filter_alignments` masks no read, since `use_read` returns `true`: seed
positions and alignment probabilities are unchanged. -/
theorem filter_alignments_reads (m : MathOps α) (aligner : HapAligner α)
    (g : SeqStutterGenotyper α) :
    (filter_alignments m aligner g).1
      = (calc_log_sample_posteriors_default m
          { g with trace_cache_ := (retrace_alignments m aligner g).trace_cache }).2 := by
  unfold filter_alignments
  dsimp only
  have key := forLoop_inv (fun _ (st : FilterState α) =>
      st.seed_positions = g.seed_positions_ ∧ st.log_aln_probs = g.log_aln_probs_)
    g.num_reads_ (fun read_index (st : FilterState α) =>
    if st.seed_positions read_index < 0 then
      { st with
        masked_reads := store st.masked_reads (g.sample_label_ read_index)
          (st.masked_reads (g.sample_label_ read_index) + 1)
        read_LL_ptr := st.read_LL_ptr + g.num_alleles_ }
    else if !use_read ((retrace_alignments m aligner g).traced_alns.getD read_index none) then
      { seed_positions := store st.seed_positions read_index (-2)
        log_aln_probs := fill st.log_aln_probs st.read_LL_ptr (st.read_LL_ptr + g.num_alleles_) 0
        masked_reads := store st.masked_reads (g.sample_label_ read_index)
          (st.masked_reads (g.sample_label_ read_index) + 1)
        read_LL_ptr := st.read_LL_ptr + g.num_alleles_
        filt_count := st.filt_count + 1
        keep_count := st.keep_count }
    else
      { st with
        keep_count := st.keep_count + 1
        read_LL_ptr := st.read_LL_ptr + g.num_alleles_ })
    { seed_positions := g.seed_positions_, log_aln_probs := g.log_aln_probs_,
      masked_reads := fun _ => 0, read_LL_ptr := 0, filt_count := 0, keep_count := 0 }
    ⟨rfl, rfl⟩ (by
      rintro i st _ ⟨h1, h2⟩
      dsimp only
      split_ifs with c1 c2
      · exact ⟨h1, h2⟩
      · exact absurd c2 (by simp [use_read])
      · exact ⟨h1, h2⟩)
  rw [key.1, key.2]

/-- With a single allele every entry of `gl_diffs` is `-1000`. -/
theorem write_vcf_gl_diffs_single (m : MathOps α) (g : SeqStutterGenotyper α)
    (LOG_E_BASE_10 TOLERANCE : α) (h : g.num_alleles_ = 1) :
    write_vcf_gl_diffs m g LOG_E_BASE_10 TOLERANCE = List.replicate g.num_samples_ (-1000) := by
  unfold write_vcf_gl_diffs
  dsimp only
  refine forLoop_inv (fun k (l : List α) => l = List.replicate k (-1000)) g.num_samples_ _ []
    rfl ?_
  intro k l _ hl
  rw [if_pos h, hl, ← List.replicate_succ']

/-- The counter `num_aligned_reads` of the read loop of `write_vcf_record` counts the reads of
each sample with a seed position. -/
theorem write_vcf_record_reads_aligned (m : MathOps α) (aligner : HapAligner α)
    (g : SeqStutterGenotyper α) (s : Nat) :
    (write_vcf_record_reads m aligner g).num_aligned_reads s = (num_seeded_reads g s : Int) := by
  unfold write_vcf_record_reads num_seeded_reads
  dsimp only
  refine forLoop_inv (fun k (st : VcfReadState α) => ∀ s,
      st.num_aligned_reads s = (((List.range k).filter (fun r =>
        decide (g.seed_positions_ r ≥ 0) && decide (g.sample_label_ r = s))).length : Int))
    g.num_reads_ _ _ (fun s => rfl) ?_ s
  intro k st _ hst s
  rw [filter_range_succ_length]
  by_cases hseed : g.seed_positions_ k < 0
  · rw [if_pos hseed]
    have : ¬ g.seed_positions_ k ≥ 0 := by omega
    simp [hst s, this]
  · rw [if_neg hseed]
    have h0 : g.seed_positions_ k ≥ 0 := by omega
    show store st.num_aligned_reads _ _ s = _
    rw [store_apply]
    by_cases hs : s = g.sample_label_ k
    · rw [if_pos hs, ← hs, hst s]
      simp [h0, hs]
    · rw [if_neg hs, hst s]
      have : ¬ g.sample_label_ k = s := fun hc => hs hc.symm
      simp [this]

end VcfRecordLoops

section AlleleCounts

variable {α : Type}

theorem store_succ_apply (c : Nat → Int) (i j : Nat) :
    store c i (c i + 1) j = c j + if j = i then 1 else 0 := by
  rw [store_apply]
  by_cases h : j = i
  · rw [if_pos h, if_pos h, h]
  · rw [if_neg h, if_neg h, add_zero]

/-- The set `samples_of_interest` holds exactly the given names. -/
theorem samples_of_interest_mem (sample_names : List String) (x : String) :
    x ∈ samples_of_interest sample_names ↔ x ∈ sample_names := by
  unfold samples_of_interest
  have h : ∀ (l init : List String), x ∈ l.foldl set_insert init ↔ x ∈ init ∨ x ∈ l := by
    intro l
    induction l with
    | nil => intro init; simp
    | cons a rest ih =>
      intro init
      rw [List.foldl_cons, ih, set_insert_mem, List.mem_cons]
      tauto
  rw [h]
  simp

/-- The vector `allele_counts` after the loop of lines 1108-1125: allele `a` has received 1 for
every contributing sample whose first MAP allele is `a` and, unless the genotyper is haploid,
1 for every contributing sample whose second MAP allele is `a`. -/
theorem allele_counts_apply (g : SeqStutterGenotyper α) (sample_names : List String)
    (gts : Nat → Int × Int) (num_aligned_reads : Nat → Int) (a : Nat) :
    (allele_counts g sample_names gts num_aligned_reads).1 a
      = ∑ s in Finset.range g.num_samples_,
          if contributes g sample_names num_aligned_reads s = true then
            (if (gts s).1.toNat = a then (1 : Int) else 0)
              + (if g.haploid_ = true then 0 else if (gts s).2.toNat = a then 1 else 0)
          else 0 := by
  unfold allele_counts
  refine forLoop_inv (fun k (st : (Nat → Int) × Int) => ∀ a,
      st.1 a = ∑ s in Finset.range k,
          if contributes g sample_names num_aligned_reads s = true then
            (if (gts s).1.toNat = a then (1 : Int) else 0)
              + (if g.haploid_ = true then 0 else if (gts s).2.toNat = a then 1 else 0)
          else 0) g.num_samples_ _ _ (fun a => by simp) ?_ a
  intro k st _ hst a
  rw [Finset.sum_range_succ, ← hst a]
  by_cases h1 : g.sample_names_.getD k "" ∈ samples_of_interest sample_names
  · by_cases h2 : g.require_one_read_ = true ∧ num_aligned_reads k = 0
    · have hc : contributes g sample_names num_aligned_reads k = false := by
        simp [contributes, h2.1, h2.2]
      rw [if_neg (not_not.mpr h1), if_pos h2, hc]
      simp
    · by_cases h3 : g.call_sample_ k = true
      · have hc : contributes g sample_names num_aligned_reads k = true := by
          simp only [contributes, h1, h3, decide_True, Bool.true_and, Bool.and_true,
            Bool.not_eq_true', Bool.and_eq_false_imp, decide_eq_false_iff_not]
          intro hr hz
          exact h2 ⟨hr, hz⟩
        rw [if_neg (not_not.mpr h1), if_neg h2, if_pos h3, hc, if_pos rfl]
        by_cases h4 : g.haploid_ = true
        · rw [if_pos h4, if_pos h4]
          show store st.1 _ _ a = _
          rw [store_succ_apply, add_zero]
          by_cases e : a = (gts k).1.toNat
          · rw [if_pos e, if_pos e.symm]
          · rw [if_neg e, if_neg (fun hc => e hc.symm)]
        · rw [if_neg h4, if_neg h4]
          show store (store st.1 _ _) _ _ a = _
          rw [store_succ_apply, store_succ_apply, add_assoc]
          congr 1
          by_cases e : a = (gts k).1.toNat <;> by_cases e' : a = (gts k).2.toNat
          · rw [if_pos e, if_pos e', if_pos e.symm, if_pos e'.symm]
          · rw [if_pos e, if_neg e', if_pos e.symm, if_neg (fun hc => e' hc.symm)]
          · rw [if_neg e, if_pos e', if_neg (fun hc => e hc.symm), if_pos e'.symm]
          · rw [if_neg e, if_neg e', if_neg (fun hc => e hc.symm), if_neg (fun hc => e' hc.symm)]
      · have hc : contributes g sample_names num_aligned_reads k = false := by
          simp [contributes, h3]
        rw [if_neg (not_not.mpr h1), if_neg h2, if_neg h3, hc]
        simp
  · have hc : contributes g sample_names num_aligned_reads k = false := by
      unfold contributes
      rw [decide_eq_false h1]
      rfl
    rw [if_pos h1, hc]
    simp

/-- When the MAP alleles of the contributing samples are alleles of the locus, the counts sum
to 2 (haploid: 1) times the number of contributing samples. -/
theorem allele_counts_sum (g : SeqStutterGenotyper α) (sample_names : List String)
    (gts : Nat → Int × Int) (num_aligned_reads : Nat → Int)
    (hgts : ∀ s, s < g.num_samples_ → contributes g sample_names num_aligned_reads s = true →
      (gts s).1.toNat < g.num_alleles_ ∧ (gts s).2.toNat < g.num_alleles_) :
    (∑ a in Finset.range g.num_alleles_,
        (allele_counts g sample_names gts num_aligned_reads).1 a)
      = (if g.haploid_ = true then 1 else 2)
        * (((Finset.range g.num_samples_).filter (fun s =>
            contributes g sample_names num_aligned_reads s = true)).card : Int) := by
  simp only [allele_counts_apply]
  rw [Finset.sum_comm]
  have h1 : ∀ s ∈ Finset.range g.num_samples_,
      (∑ a in Finset.range g.num_alleles_,
          if contributes g sample_names num_aligned_reads s = true then
            (if (gts s).1.toNat = a then (1 : Int) else 0)
              + (if g.haploid_ = true then 0 else if (gts s).2.toNat = a then 1 else 0)
          else 0)
        = if contributes g sample_names num_aligned_reads s = true then
            (if g.haploid_ = true then (1 : Int) else 2) else 0 := by
    intro s hs
    by_cases hc : contributes g sample_names num_aligned_reads s = true
    · obtain ⟨e1, e2⟩ := hgts s (Finset.mem_range.mp hs) hc
      simp only [hc, if_true]
      rw [Finset.sum_add_distrib, Finset.sum_ite_eq (Finset.range g.num_alleles_),
        if_pos (Finset.mem_range.mpr e1)]
      by_cases h4 : g.haploid_ = true
      · simp [h4]
      · have hx : ∀ x : Nat, (if g.haploid_ = true then (0 : Int)
            else if (gts s).2.toNat = x then 1 else 0)
            = if (gts s).2.toNat = x then 1 else 0 := fun x => if_neg h4
        simp only [hx]
        rw [Finset.sum_ite_eq (Finset.range g.num_alleles_), if_pos (Finset.mem_range.mpr e2),
          if_neg h4]
        rfl
    · simp [hc]
  rw [Finset.sum_congr rfl h1, Finset.sum_ite, Finset.sum_const_zero, add_zero,
    Finset.sum_const, nsmul_eq_mul, mul_comm]

end AlleleCounts

/-- The sample columns of the record, one for each name. -/
theorem write_vcf_record_samples (m : MathOps ℝ) (aligner : HapAligner ℝ)
    (LOG_E_BASE_10 TOLERANCE : ℝ) (g : SeqStutterGenotyper ℝ) (sample_names : List String) :
    (write_vcf_record m aligner LOG_E_BASE_10 TOLERANCE g sample_names).1.samples
      = sample_names.map (fun name =>
          write_vcf_sample m (filter_alignments m aligner g).1
            (write_vcf_record_reads m aligner (filter_alignments m aligner g).1)
            (write_vcf_gl_diffs m (filter_alignments m aligner g).1 LOG_E_BASE_10 TOLERANCE)
            name) := by
  unfold write_vcf_record
  dsimp only
  have h : ∀ (l : List String) (f : String → Option (SampleFields ℝ))
      (init : List (Option (SampleFields ℝ))),
      forLoop l.length (fun i out => out ++ [f (l.getD i "")]) init = init ++ l.map f := by
    intro l f
    induction l using List.reverseRecOn with
    | nil => intro init; simp [forLoop]
    | append_singleton l a ih =>
      intro init
      rw [List.length_append, List.length_singleton, forLoop_succ]
      have hpre : forLoop l.length (fun i out => out ++ [f ((l ++ [a]).getD i "")]) init
          = forLoop l.length (fun i out => out ++ [f (l.getD i "")]) init := by
        have hgen : ∀ k, k ≤ l.length →
            forLoop k (fun i out => out ++ [f ((l ++ [a]).getD i "")]) init
              = forLoop k (fun i out => out ++ [f (l.getD i "")]) init := by
          intro k hk
          induction k with
          | zero => rfl
          | succ j ihj =>
            rw [forLoop_succ, forLoop_succ, ihj (Nat.le_of_succ_le hk)]
            have hj : j < l.length := hk
            simp only [List.getD_eq_getElem?_getD, List.getElem?_append_left hj]
        exact hgen _ (Nat.le_refl _)
      rw [hpre, ih]
      simp
  rw [h]
  rfl

/-- With a single allele the GLDIFF field of an emitted sample is the missing value. -/
theorem write_vcf_sample_single (m : MathOps ℝ) (g : SeqStutterGenotyper ℝ)
    (reads : VcfReadState ℝ) (gl_diffs : List ℝ) (name : String) (fields : SampleFields ℝ)
    (hn : g.num_alleles_ = 1) (h : write_vcf_sample m g reads gl_diffs name = some fields) :
    fields.gl_diff = none := by
  unfold write_vcf_sample at h
  cases hf : map_find g.sample_indices_ name with
  | none =>
    rw [hf] at h
    exact absurd h (by simp)
  | some idx =>
    rw [hf] at h
    dsimp only at h
    by_cases c1 : g.require_one_read_ = true ∧ reads.num_aligned_reads idx.toNat = 0
    · rw [if_pos c1] at h
      exact absurd h (by simp)
    · rw [if_neg c1] at h
      by_cases c2 : (!g.call_sample_ idx.toNat) = true
      · rw [if_pos c2] at h
        exact absurd h (by simp)
      · rw [if_neg c2, Option.some.injEq] at h
        rw [← h]
        exact if_pos hn

/-- Claim C23, as the code has it: when `num_alleles == 1`, the entry of the vector `gl_diffs`
of `write_vcf_record` is the sentinel `-1000` for every sample, and the GLDIFF field written
for every emitted sample is the missing value `"."`. -/
theorem single_allele_gl_diff (aligner : HapAligner ℝ) (LOG_E_BASE_10 TOLERANCE : ℝ)
    (g : SeqStutterGenotyper ℝ) (sample_names : List String) (h : g.num_alleles_ = 1) :
    (∀ s, s < g.num_samples_ →
      (write_vcf_record ⟨Real.exp, Real.log⟩ aligner LOG_E_BASE_10 TOLERANCE g
        sample_names).1.gl_diffs[s]? = some (-1000 : ℝ))
    ∧ ∀ (i : Nat) (fields : SampleFields ℝ),
        (write_vcf_record ⟨Real.exp, Real.log⟩ aligner LOG_E_BASE_10 TOLERANCE g
          sample_names).1.samples[i]? = some (some fields) →
        fields.gl_diff = none := by
  have h1 : (filter_alignments ⟨Real.exp, Real.log⟩ aligner g).1.num_alleles_ = 1 := h
  constructor
  · intro s hs
    show (write_vcf_gl_diffs _ (filter_alignments ⟨Real.exp, Real.log⟩ aligner g).1 _ _)[s]? = _
    rw [write_vcf_gl_diffs_single _ _ _ _ h1]
    have hs' : s < (filter_alignments ⟨Real.exp, Real.log⟩ aligner g).1.num_samples_ := hs
    simp [List.getElem?_replicate, hs']
  · intro i fields hi
    rw [write_vcf_record_samples, List.getElem?_map] at hi
    cases hname : sample_names[i]? with
    | none => rw [hname] at hi; simp at hi
    | some name =>
      rw [hname, Option.map_some', Option.some.injEq] at hi
      exact write_vcf_sample_single _ _ _ _ name fields h1 hi

/-- Witness of C23 as amended: the single-allele locus `example_named_sample`. -/
theorem single_allele_gl_diff_witness :
    (write_vcf_record ⟨Real.exp, Real.log⟩ (example_aligner ℝ) (1 / Real.log 10) (1 / 1000)
        (example_named_sample ℝ) ["s"]).1.gl_diffs[0]? = some (-1000 : ℝ) :=
  (single_allele_gl_diff (example_aligner ℝ) (1 / Real.log 10) (1 / 1000)
    (example_named_sample ℝ) ["s"] rfl).1 0 Nat.zero_lt_one

/-- Counterexample to C23 as stated: for the single-allele locus `example_named_sample` the
sample `"s"` is emitted and its GLDIFF field is the missing value `"."`, not `-1000`. -/
theorem single_allele_gl_diff_counterexample :
    ((write_vcf_record ⟨Real.exp, Real.log⟩ (example_aligner ℝ) (1 / Real.log 10) (1 / 1000)
        (example_named_sample ℝ) ["s"]).1.samples[0]?).map (Option.map SampleFields.gl_diff)
      = some (some (none : Option ℝ))
    ∧ ((write_vcf_record ⟨Real.exp, Real.log⟩ (example_aligner ℝ) (1 / Real.log 10) (1 / 1000)
        (example_named_sample ℝ) ["s"]).1.samples[0]?).map (Option.map SampleFields.gl_diff)
      ≠ some (some (some (-1000 : ℝ))) := by
  have key : ((write_vcf_record ⟨Real.exp, Real.log⟩ (example_aligner ℝ) (1 / Real.log 10)
      (1 / 1000) (example_named_sample ℝ) ["s"]).1.samples[0]?).map
        (Option.map SampleFields.gl_diff) = some (some (none : Option ℝ)) := by
    rw [write_vcf_record_samples]
    simp only [List.map_cons, List.map_nil, List.getElem?_cons_zero, Option.map_some']
    unfold write_vcf_sample
    have hfind : map_find (filter_alignments ⟨Real.exp, Real.log⟩ (example_aligner ℝ)
        (example_named_sample ℝ)).1.sample_indices_ "s" = some 0 := by
      show map_find [("s", (0 : Int))] "s" = some 0
      decide
    rw [hfind]
    dsimp only
    have hreq : (filter_alignments ⟨Real.exp, Real.log⟩ (example_aligner ℝ)
        (example_named_sample ℝ)).1.require_one_read_ = false := rfl
    have hcall : (filter_alignments ⟨Real.exp, Real.log⟩ (example_aligner ℝ)
        (example_named_sample ℝ)).1.call_sample_ (0 : Int).toNat = true := rfl
    have hn : (filter_alignments ⟨Real.exp, Real.log⟩ (example_aligner ℝ)
        (example_named_sample ℝ)).1.num_alleles_ = 1 := rfl
    rw [if_neg (by rw [hreq]; simp), hcall, if_neg (by simp), if_pos hn]
    rfl
  refine ⟨key, ?_⟩
  rw [key]
  simp

/-! ## Allele counts of the record -/

section Contributes

variable {α : Type}

theorem contributes_iff (g : SeqStutterGenotyper α) (sample_names : List String)
    (num_aligned_reads : Nat → Int) (s : Nat) :
    contributes g sample_names num_aligned_reads s = true
      ↔ g.sample_names_.getD s "" ∈ sample_names
        ∧ ¬ (g.require_one_read_ = true ∧ num_aligned_reads s = 0)
        ∧ g.call_sample_ s = true := by
  unfold contributes
  rw [Bool.and_eq_true, Bool.and_eq_true, decide_eq_true_eq, samples_of_interest_mem,
    Bool.not_eq_true', Bool.and_eq_false_iff, decide_eq_false_iff_not]
  constructor
  · rintro ⟨⟨h1, h2⟩, h3⟩
    refine ⟨h1, ?_, h3⟩
    rintro ⟨e1, e2⟩
    rcases h2 with h | h
    · rw [e1] at h
      exact absurd h (by simp)
    · exact h e2
  · rintro ⟨h1, h2, h3⟩
    refine ⟨⟨h1, ?_⟩, h3⟩
    by_cases e : g.require_one_read_ = true
    · exact Or.inr (fun hz => h2 ⟨e, hz⟩)
    · exact Or.inl (by simpa using e)

theorem num_seeded_reads_eq_zero (g : SeqStutterGenotyper α) (s : Nat) :
    num_seeded_reads g s = 0
      ↔ ¬ ∃ r, r < g.num_reads_ ∧ g.sample_label_ r = s ∧ g.seed_positions_ r ≥ 0 := by
  unfold num_seeded_reads
  rw [List.length_eq_zero, List.filter_eq_nil_iff]
  constructor
  · rintro h ⟨r, h1, h2, h3⟩
    exact h r (List.mem_range.mpr h1) (by simp [h2, h3])
  · intro h r hr hc
    simp only [Bool.and_eq_true, decide_eq_true_eq] at hc
    exact h ⟨r, List.mem_range.mp hr, hc.2, hc.1⟩

end Contributes

/-- The MAP pairs of `write_vcf_record` name alleles of the locus. -/
theorem write_vcf_gts_range (aligner : HapAligner ℝ) (g : SeqStutterGenotyper ℝ)
    (hn : 1 ≤ g.num_alleles_) (hint : g.num_alleles_ < 2 ^ 31) {s : Nat}
    (hs : s < g.num_samples_) :
    ∃ a b, a < g.num_alleles_ ∧ b < g.num_alleles_
      ∧ write_vcf_gts ⟨Real.exp, Real.log⟩ aligner g s = ((a : Int), (b : Int)) := by
  unfold write_vcf_gts
  rw [filter_alignments_reads]
  obtain ⟨a, b, ha, hb, hgt, _, _⟩ := optimal_genotypes_first_max
    (calc_log_sample_posteriors_default ⟨Real.exp, Real.log⟩
      { g with trace_cache_ := (retrace_alignments ⟨Real.exp, Real.log⟩ aligner g).trace_cache }).2
    (calc_log_sample_posteriors_default ⟨Real.exp, Real.log⟩
      { g with trace_cache_ := (retrace_alignments ⟨Real.exp, Real.log⟩ aligner
          g).trace_cache }).2.log_sample_posteriors_ s hs
    (posterior_above_sentinel
      { g with trace_cache_ := (retrace_alignments ⟨Real.exp, Real.log⟩ aligner g).trace_cache }
      (fun _ => 1) hn hint hs)
  exact ⟨a, b, ha, hb, hgt⟩

/-- Claim C24: in `write_vcf_record` a sample adds to `allele_counts` exactly when its name is
among the samples of interest, its `call_sample` flag is true, and `require_one_read` is false
or the sample has a read with `seed_position >= 0`; allele `a` receives 1 for every contributing
sample whose first MAP allele is `a` and, for a diploid genotyper, 1 for every contributing
sample whose second MAP allele is `a`, so the counts sum to 2 (haploid: 1) times the number of
contributing samples; and a sample without a read with `seed_position >= 0` is written as the
missing column `"."` when `require_one_read` is set. -/
theorem write_vcf_record_allele_counts (aligner : HapAligner ℝ) (LOG_E_BASE_10 TOLERANCE : ℝ)
    (g : SeqStutterGenotyper ℝ) (sample_names : List String)
    (hn : 1 ≤ g.num_alleles_) (hint : g.num_alleles_ < 2 ^ 31) :
    (∀ s, write_vcf_contributes ⟨Real.exp, Real.log⟩ aligner g sample_names s = true
      ↔ g.sample_names_.getD s "" ∈ sample_names ∧ g.call_sample_ s = true
        ∧ (g.require_one_read_ = false
          ∨ ∃ r, r < g.num_reads_ ∧ g.sample_label_ r = s ∧ g.seed_positions_ r ≥ 0))
    ∧ (∀ a,
        (write_vcf_record ⟨Real.exp, Real.log⟩ aligner LOG_E_BASE_10 TOLERANCE g
          sample_names).1.allele_counts a
        = ∑ s in Finset.range g.num_samples_,
            if write_vcf_contributes ⟨Real.exp, Real.log⟩ aligner g sample_names s = true then
              (if (write_vcf_gts ⟨Real.exp, Real.log⟩ aligner g s).1.toNat = a then (1 : Int)
                else 0)
              + (if g.haploid_ = true then 0
                else if (write_vcf_gts ⟨Real.exp, Real.log⟩ aligner g s).2.toNat = a then 1
                else 0)
            else 0)
    ∧ (∑ a in Finset.range g.num_alleles_,
        (write_vcf_record ⟨Real.exp, Real.log⟩ aligner LOG_E_BASE_10 TOLERANCE g
          sample_names).1.allele_counts a)
      = (if g.haploid_ = true then 1 else 2)
        * (((Finset.range g.num_samples_).filter (fun s =>
            write_vcf_contributes ⟨Real.exp, Real.log⟩ aligner g sample_names s = true)).card
            : Int)
    ∧ ∀ (i : Nat) (name : String) (sample_index : Int), sample_names[i]? = some name →
        map_find g.sample_indices_ name = some sample_index →
        g.require_one_read_ = true → num_seeded_reads g sample_index.toNat = 0 →
        (write_vcf_record ⟨Real.exp, Real.log⟩ aligner LOG_E_BASE_10 TOLERANCE g
          sample_names).1.samples[i]? = some none := by
  have hseed : ∀ s, num_seeded_reads (filter_alignments ⟨Real.exp, Real.log⟩ aligner g).1 s
      = num_seeded_reads g s := by
    intro s
    rw [filter_alignments_reads]
    rfl
  refine ⟨fun s => ?_, fun a => ?_, ?_, ?_⟩
  · unfold write_vcf_contributes
    rw [contributes_iff, write_vcf_record_reads_aligned, hseed]
    have e1 : (filter_alignments ⟨Real.exp, Real.log⟩ aligner g).1.sample_names_
        = g.sample_names_ := rfl
    have e2 : (filter_alignments ⟨Real.exp, Real.log⟩ aligner g).1.require_one_read_
        = g.require_one_read_ := rfl
    have e3 : (filter_alignments ⟨Real.exp, Real.log⟩ aligner g).1.call_sample_
        = g.call_sample_ := rfl
    rw [e1, e2, e3]
    have hz : ((num_seeded_reads g s : Int) = 0) ↔ num_seeded_reads g s = 0 := by
      exact_mod_cast Iff.rfl
    rw [hz, num_seeded_reads_eq_zero]
    constructor
    · rintro ⟨h1, h2, h3⟩
      refine ⟨h1, h3, ?_⟩
      by_cases e : g.require_one_read_ = true
      · right
        by_contra hc
        exact h2 ⟨e, hc⟩
      · left
        simpa using e
    · rintro ⟨h1, h2, h3⟩
      refine ⟨h1, ?_, h2⟩
      rintro ⟨e, hc⟩
      rcases h3 with h | h
      · rw [e] at h
        exact absurd h (by simp)
      · exact hc h
  · exact allele_counts_apply _ _ _ _ a
  · refine allele_counts_sum (filter_alignments ⟨Real.exp, Real.log⟩ aligner g).1 sample_names
      _ _ ?_
    intro s hs _
    obtain ⟨a, b, ha, hb, hgt⟩ := write_vcf_gts_range aligner g hn hint hs
    have hgt' : (optimal_genotypes_loop (filter_alignments ⟨Real.exp, Real.log⟩ aligner g).1
        (filter_alignments ⟨Real.exp, Real.log⟩ aligner g).1.log_sample_posteriors_).gts s
        = ((a : Int), (b : Int)) := hgt
    rw [hgt']
    exact ⟨by simpa using ha, by simpa using hb⟩
  · intro i name sample_index hname hfind hreq hzero
    rw [write_vcf_record_samples, List.getElem?_map, hname, Option.map_some']
    unfold write_vcf_sample
    have hfind' : map_find (filter_alignments ⟨Real.exp, Real.log⟩ aligner g).1.sample_indices_
        name = some sample_index := hfind
    rw [hfind']
    dsimp only
    rw [if_pos]
    refine ⟨hreq, ?_⟩
    rw [write_vcf_record_reads_aligned, hseed, hzero]
    rfl

/-- Witness of C24 on the single-allele locus `example_named_sample`. -/
theorem write_vcf_record_allele_counts_witness :
    (∑ a in Finset.range (example_named_sample ℝ).num_alleles_,
        (write_vcf_record ⟨Real.exp, Real.log⟩ (example_aligner ℝ) (1 / Real.log 10) (1 / 1000)
          (example_named_sample ℝ) ["s"]).1.allele_counts a)
      = (if (example_named_sample ℝ).haploid_ = true then 1 else 2)
        * (((Finset.range (example_named_sample ℝ).num_samples_).filter (fun s =>
            write_vcf_contributes ⟨Real.exp, Real.log⟩ (example_aligner ℝ)
              (example_named_sample ℝ) ["s"] s = true)).card : Int) :=
  (write_vcf_record_allele_counts (example_aligner ℝ) (1 / Real.log 10) (1 / 1000)
    (example_named_sample ℝ) ["s"] (Nat.le_refl 1) (by show (1 : Nat) < 2 ^ 31; norm_num)).2.2.1

/-! ## The allele strings -/

section AlleleStrings

variable {α : Type}

/-- A loop that pushes the image of every element of a vector builds the mapped vector. -/
theorem forLoop_map_getD {β γ : Type} (l : List β) (d : β) (f : β → γ) (init : List γ) :
    forLoop l.length (fun i acc => acc ++ [f (l.getD i d)]) init = init ++ l.map f := by
  induction l using List.reverseRecOn generalizing init with
  | nil => simp [forLoop]
  | append_singleton l a ih =>
    rw [List.length_append, List.length_singleton, forLoop_succ]
    have hgen : ∀ k, k ≤ l.length →
        forLoop k (fun i acc => acc ++ [f ((l ++ [a]).getD i d)]) init
          = forLoop k (fun i acc => acc ++ [f (l.getD i d)]) init := by
      intro k hk
      induction k with
      | zero => rfl
      | succ j ihj =>
        rw [forLoop_succ, forLoop_succ, ihj (Nat.le_of_succ_le hk)]
        have hj : j < l.length := hk
        simp only [List.getD_eq_getElem?_getD, List.getElem?_append_left hj]
    rw [hgen _ (Nat.le_refl _), ih]
    simp

theorem uppercase_toList (s : String) : (uppercase s).toList = s.toList.map Char.toUpper := by
  unfold uppercase String.toUpper
  rw [String.map_eq]
  rfl

theorem first_base_append (s t : String) (hs : s ≠ "") :
    first_base (s ++ t) = first_base s := by
  unfold first_base
  obtain ⟨l⟩ := s
  obtain ⟨l'⟩ := t
  cases l with
  | nil => exact absurd rfl hs
  | cons a rest => rfl

theorem isEmpty_iff_eq (s : String) : s.isEmpty = true ↔ s = "" := by
  obtain ⟨l⟩ := s
  cases l with
  | nil => exact ⟨fun _ => rfl, fun _ => rfl⟩
  | cons a rest =>
    constructor
    · intro h
      exfalso
      have hpos : 0 < (String.mk (a :: rest)).utf8ByteSize := by
        show 0 < String.utf8ByteSize.go (a :: rest)
        unfold String.utf8ByteSize.go
        have := Char.utf8Size_pos a
        omega
      have : (String.mk (a :: rest)).utf8ByteSize = 0 := by
        have h' := h
        unfold String.isEmpty at h'
        simp only [beq_iff_eq, String.endPos] at h'
        exact congrArg String.Pos.byteIdx h'
      omega
    · intro h
      exact absurd (congrArg String.data h) (List.cons_ne_nil a rest)

/-- The method `get_alleles` in terms of its flanks. -/
theorem get_alleles_eq (g : SeqStutterGenotyper α) (chrom_seq : String) :
    get_alleles g chrom_seq
      = (g.hap_blocks_.alternates.map (fun alt =>
            left_flank g chrom_seq ++ alt ++ right_flank g chrom_seq),
          if pad_left g chrom_seq = true then min g.region_.start g.hap_blocks_.start - 1 + 1
          else min g.region_.start g.hap_blocks_.start + 1) := by
  have h := forLoop_map_getD g.hap_blocks_.alternates ""
    (fun alt => left_flank g chrom_seq ++ alt ++ right_flank g chrom_seq) []
  rw [List.nil_append] at h
  rw [← h]
  unfold get_alleles left_flank right_flank pad_left initial_left_flank first_base
    RepeatBlock.num_options RepeatBlock.get_seq
  dsimp only
  split_ifs <;> rfl

end AlleleStrings

section AlleleBases

variable {α : Type}

theorem pad_left_iff (g : SeqStutterGenotyper α) (chrom_seq : String) :
    pad_left g chrom_seq = true
      ↔ initial_left_flank g chrom_seq = ""
        ∧ ∃ i, 1 ≤ i ∧ i < g.hap_blocks_.num_options
          ∧ first_base (g.hap_blocks_.get_seq i) ≠ first_base (g.hap_blocks_.get_seq 0) := by
  unfold pad_left
  rw [Bool.and_eq_true, isEmpty_iff_eq, List.any_eq_true]
  constructor
  · rintro ⟨h1, i, hi, hne⟩
    rw [List.mem_range'_1] at hi
    exact ⟨h1, i, hi.1, by omega, by simpa using hne⟩
  · rintro ⟨h1, i, hi1, hi2, hne⟩
    exact ⟨h1, i, by rw [List.mem_range'_1]; omega, by simpa using hne⟩

/-- The padded left flank is one base of the chromosome. -/
theorem left_flank_length (g : SeqStutterGenotyper α) (chrom_seq : String)
    (hpad : pad_left g chrom_seq = true)
    (hpos : 1 ≤ min g.region_.start g.hap_blocks_.start)
    (hchrom : min g.region_.start g.hap_blocks_.start ≤ chrom_seq.length) :
    (left_flank g chrom_seq).length = 1 := by
  unfold left_flank
  rw [if_pos hpad]
  show (uppercase _).toList.length = 1
  rw [uppercase_toList, List.length_map]
  unfold substr
  show ((chrom_seq.toList.drop _).take _).length = 1
  rw [List.length_take, List.length_drop]
  have h1 : (1 : Int).toNat = 1 := rfl
  have h2 : (min g.region_.start g.hap_blocks_.start - 1).toNat < chrom_seq.toList.length := by
    have : chrom_seq.toList.length = chrom_seq.length := rfl
    omega
  omega

theorem empty_append (s : String) : "" ++ s = s := by
  obtain ⟨l⟩ := s
  rfl

theorem append_ne_empty (s t : String) (hs : s ≠ "") : s ++ t ≠ "" := by
  obtain ⟨l⟩ := s
  obtain ⟨l'⟩ := t
  cases l with
  | nil => exact absurd rfl hs
  | cons a rest =>
    intro h
    exact absurd (congrArg String.data h) (List.cons_ne_nil a _)

/-- Every allele string begins with the base with which the allele of the reference begins. -/
theorem allele_first_base (g : SeqStutterGenotyper α) (chrom_seq : String)
    (hne : ∀ alt ∈ g.hap_blocks_.alternates, alt ≠ "")
    (hpos : 1 ≤ min g.region_.start g.hap_blocks_.start)
    (hchrom : min g.region_.start g.hap_blocks_.start ≤ chrom_seq.length)
    (alt : String) (halt : alt ∈ g.hap_blocks_.alternates) :
    first_base (left_flank g chrom_seq ++ alt ++ right_flank g chrom_seq)
      = first_base (left_flank g chrom_seq ++ g.hap_blocks_.get_seq 0) := by
  by_cases hl : left_flank g chrom_seq = ""
  · have hpad : ¬ pad_left g chrom_seq = true := by
      intro hc
      have := left_flank_length g chrom_seq hc hpos hchrom
      rw [hl] at this
      exact absurd this (by decide)
    have hinit : initial_left_flank g chrom_seq = "" := by
      unfold left_flank at hl
      rw [if_neg hpad] at hl
      exact hl
    rw [hl, empty_append, empty_append, first_base_append _ _ (hne alt halt)]
    obtain ⟨i, hi, hget⟩ := List.mem_iff_getElem.mp halt
    have hseq : g.hap_blocks_.get_seq i = alt := by
      unfold RepeatBlock.get_seq
      rw [List.getD_eq_getElem _ _ hi, hget]
    rw [← hseq]
    by_cases h0 : i = 0
    · rw [h0]
    · by_contra hc
      exact hpad ((pad_left_iff g chrom_seq).mpr ⟨hinit, i, by omega, hi, hc⟩)
  · rw [first_base_append _ _ (append_ne_empty _ _ hl), first_base_append _ _ hl,
      first_base_append _ _ hl]

end AlleleBases

/-- Claim C27: for a repeat block with non-empty alternates at a locus inside the chromosome,
`get_alleles` outputs one string per alternate, in the order of the alternates, each equal to
`left_flank + alternate + right_flank` with the same flanks for all alleles; the left flank is
one base of the chromosome, and `pos_` is moved left by 1, exactly when the left flank of line
560 is empty and the first base of some alternate differs from the first base of alternate 0;
and all output strings begin with the same base. -/
theorem get_alleles_spec (g : SeqStutterGenotyper ℝ) (chrom_seq : String)
    (hne : ∀ alt ∈ g.hap_blocks_.alternates, alt ≠ "")
    (hpos : 1 ≤ min g.region_.start g.hap_blocks_.start)
    (hchrom : min g.region_.start g.hap_blocks_.start ≤ chrom_seq.length) :
    (get_alleles g chrom_seq).1
        = g.hap_blocks_.alternates.map (fun alt =>
            left_flank g chrom_seq ++ alt ++ right_flank g chrom_seq)
    ∧ (pad_left g chrom_seq = true
        ↔ initial_left_flank g chrom_seq = ""
          ∧ ∃ i, 1 ≤ i ∧ i < g.hap_blocks_.num_options
            ∧ first_base (g.hap_blocks_.get_seq i) ≠ first_base (g.hap_blocks_.get_seq 0))
    ∧ (pad_left g chrom_seq = true →
        left_flank g chrom_seq
            = uppercase (substr chrom_seq (min g.region_.start g.hap_blocks_.start - 1) 1)
          ∧ (left_flank g chrom_seq).length = 1
          ∧ (get_alleles g chrom_seq).2 = min g.region_.start g.hap_blocks_.start - 1 + 1)
    ∧ (pad_left g chrom_seq = false →
        left_flank g chrom_seq = initial_left_flank g chrom_seq
          ∧ (get_alleles g chrom_seq).2 = min g.region_.start g.hap_blocks_.start + 1)
    ∧ ∀ a ∈ (get_alleles g chrom_seq).1, ∀ a' ∈ (get_alleles g chrom_seq).1,
        first_base a = first_base a' := by
  refine ⟨by rw [get_alleles_eq], pad_left_iff g chrom_seq, fun hpad => ⟨?_, ?_, ?_⟩,
    fun hpad => ⟨?_, ?_⟩, ?_⟩
  · unfold left_flank
    rw [if_pos hpad]
  · exact left_flank_length g chrom_seq hpad hpos hchrom
  · rw [get_alleles_eq, if_pos hpad]
  · unfold left_flank
    rw [hpad]
    rfl
  · rw [get_alleles_eq, hpad]
    rfl
  · intro a ha a' ha'
    rw [get_alleles_eq, List.mem_map] at ha ha'
    obtain ⟨alt, halt, rfl⟩ := ha
    obtain ⟨alt', halt', rfl⟩ := ha'
    rw [allele_first_base g chrom_seq hne hpos hchrom alt halt,
      allele_first_base g chrom_seq hne hpos hchrom alt' halt']

/-- Witness of C27 on `example_padded_locus` and the chromosome `"ttacacgg"`, whose alternates
`"ACAC"` and `"GCAC"` begin with different bases. -/
theorem get_alleles_spec_witness :
    (∀ alt ∈ (example_padded_locus ℝ).hap_blocks_.alternates, alt ≠ "")
    ∧ ∀ a ∈ (get_alleles (example_padded_locus ℝ) "ttacacgg").1,
        ∀ a' ∈ (get_alleles (example_padded_locus ℝ) "ttacacgg").1,
        first_base a = first_base a' :=
  ⟨by decide,
    (get_alleles_spec (example_padded_locus ℝ) "ttacacgg" (by decide) (by decide)
      (by decide)).2.2.2.2⟩

/-! ## The guard of `init` -/

section InitBounds

variable {α : Type}

/-- The bounds kept by the read loops of `init` are the initial values or bounds of reads that
pass the filters and are realigned. -/
theorem init_read_bounds (alignments : List (List BamAlignment)) (log_p1 log_p2 : Nat → Nat → α)
    (i j : Nat) (read : BamAlignment) (st : InitState α)
    (hread : ∃ reads ∈ alignments, read ∈ reads)
    (hmin : st.min_start = INT_MAX ∨ usable_start alignments st.min_start)
    (hmax : st.max_stop = INT_MIN ∨ usable_stop alignments st.max_stop) :
    ((init_read log_p1 log_p2 i j read st).min_start = INT_MAX
        ∨ usable_start alignments (init_read log_p1 log_p2 i j read st).min_start)
      ∧ ((init_read log_p1 log_p2 i j read st).max_stop = INT_MIN
        ∨ usable_stop alignments (init_read log_p1 log_p2 i j read st).max_stop) := by
  obtain ⟨reads, hreads, hmem⟩ := hread
  have hstep : ∀ new_aln, read.realign = some new_aln → read.passes_filters = true →
      (min st.min_start new_aln.start = INT_MAX
          ∨ usable_start alignments (min st.min_start new_aln.start))
        ∧ (max st.max_stop new_aln.stop = INT_MIN
          ∨ usable_stop alignments (max st.max_stop new_aln.stop)) := by
    intro new_aln hre huse
    constructor
    · rcases min_choice st.min_start new_aln.start with h | h
      · rw [h]
        exact hmin
      · rw [h]
        exact Or.inr ⟨reads, hreads, read, hmem, new_aln, huse, hre, rfl⟩
    · rcases max_choice st.max_stop new_aln.stop with h | h
      · rw [h]
        exact hmax
      · rw [h]
        exact Or.inr ⟨reads, hreads, read, hmem, new_aln, huse, hre, rfl⟩
  have hfresh : ∀ st' : InitState α, st' = (
      match read.realign with
      | some new_aln =>
        ({ st with
          seq_to_alns := map_assign (fun a b => decide (a < b)) st.seq_to_alns read.QueryBases
            (i, (st.alns_ i ++ [new_aln]).length - 1)
          alns_ := store st.alns_ i (st.alns_ i ++ [new_aln])
          use_for_haps_ := store st.use_for_haps_ i (st.use_for_haps_ i ++ [read.passes_filters])
          min_start := if read.passes_filters then min st.min_start new_aln.start
            else st.min_start
          max_stop := if read.passes_filters then max st.max_stop new_aln.stop
            else st.max_stop
          log_p1_ := store st.log_p1_ st.read_index.toNat (log_p1 i j)
          log_p2_ := store st.log_p2_ st.read_index.toNat (log_p2 i j)
          sample_label_ := store st.sample_label_ st.read_index.toNat i
          read_index := st.read_index + 1 } : InitState α)
      | none =>
        { st with
          align_fail_count := st.align_fail_count + 1
          num_reads_ := st.num_reads_ - 1
          read_index := st.read_index - 1 + 1 }) →
      (st'.min_start = INT_MAX ∨ usable_start alignments st'.min_start)
        ∧ (st'.max_stop = INT_MIN ∨ usable_stop alignments st'.max_stop) := by
    intro st' hst'
    cases hre : read.realign with
    | none =>
      rw [hre] at hst'
      rw [hst']
      exact ⟨hmin, hmax⟩
    | some new_aln =>
      rw [hre] at hst'
      rw [hst']
      cases huse : read.passes_filters with
      | false => exact ⟨hmin, hmax⟩
      | true => exact hstep new_aln hre huse
  unfold init_read
  dsimp only
  cases hfind : map_find st.seq_to_alns read.QueryBases with
  | none => exact hfresh _ rfl
  | some iter =>
    dsimp only
    by_cases hlen : ((st.alns_ iter.1).getD iter.2 ⟨0, 0, ""⟩).sequence.length
        = read.QueryBases.length
    · rw [decide_eq_true hlen]
      exact ⟨hmin, hmax⟩
    · rw [decide_eq_false hlen]
      exact hfresh _ rfl

/-- The position that `get_alleles` leaves is the smaller of the region start and the block
start, or that value plus 1. -/
theorem get_alleles_pos (g : SeqStutterGenotyper α) (chrom_seq : String) :
    (get_alleles g chrom_seq).2 = min g.region_.start g.hap_blocks_.start
      ∨ (get_alleles g chrom_seq).2 = min g.region_.start g.hap_blocks_.start + 1 := by
  rw [get_alleles_eq]
  by_cases h : pad_left g chrom_seq = true
  · left
    rw [if_pos h]
    omega
  · right
    rw [if_neg h]

end InitBounds

section InitGuard

variable {α : Type} [LinearOrderedField α]

theorem init_reads_bounds (alignments : List (List BamAlignment))
    (log_p1 log_p2 : Nat → Nat → α) :
    ((init_reads alignments log_p1 log_p2).min_start = INT_MAX
        ∨ usable_start alignments (init_reads alignments log_p1 log_p2).min_start)
      ∧ ((init_reads alignments log_p1 log_p2).max_stop = INT_MIN
        ∨ usable_stop alignments (init_reads alignments log_p1 log_p2).max_stop) := by
  unfold init_reads
  dsimp only
  refine forLoop_inv (fun _ (st : InitState α) =>
      (st.min_start = INT_MAX ∨ usable_start alignments st.min_start)
        ∧ (st.max_stop = INT_MIN ∨ usable_stop alignments st.max_stop)) alignments.length _ _
    ⟨Or.inl rfl, Or.inl rfl⟩ ?_
  intro i st hi hst
  refine forLoop_inv (fun _ (st : InitState α) =>
      (st.min_start = INT_MAX ∨ usable_start alignments st.min_start)
        ∧ (st.max_stop = INT_MIN ∨ usable_stop alignments st.max_stop))
    (alignments.getD i []).length _ st hst ?_
  intro j st' hj hst'
  refine init_read_bounds alignments log_p1 log_p2 i j _ st' ?_ hst'.1 hst'.2
  refine ⟨alignments.getD i [], ?_, ?_⟩
  · rw [List.getD_eq_getElem _ _ hi]
    exact List.getElem_mem _
  · rw [List.getD_eq_getElem _ _ hj]
    exact List.getElem_mem _

/-- When the guard of line 239 holds, `init` leaves `pos_ = -1`. -/
theorem init_guard (source : HaplotypeSource α) (g : SeqStutterGenotyper α)
    (alignments : List (List BamAlignment)) (log_p1 log_p2 : Nat → Nat → α) (chrom_seq : String)
    (h : (init_reads alignments log_p1 log_p2).min_start ≥ g.region_.start - 5
      ∨ (init_reads alignments log_p1 log_p2).max_stop < g.region_.stop + 5) :
    (init source g alignments log_p1 log_p2 chrom_seq).pos_ = -1 := by
  unfold init
  dsimp only
  rw [if_pos h]
  rfl

/-- A call of `genotype` on an object with `pos_ = -1` returns `false` and leaves the object
as it is. -/
theorem genotype_failed_locus (m : MathOps α) (srt : StdSort) (aligner : HapAligner α)
    (chrom_seq : String) (fuel : Nat) (g : SeqStutterGenotyper α) (h : g.pos_ = -1) :
    genotype m srt aligner chrom_seq fuel g = some (false, g) := by
  unfold genotype
  rw [if_pos h]

/-- Without reference VCF and with the guard of line 239 not firing, `init` leaves in `pos_`
the smaller of the region start and the start of the generated repeat block, or that value
plus 1. -/
theorem init_bam_pos (source : HaplotypeSource α) (g : SeqStutterGenotyper α)
    (alignments : List (List BamAlignment)) (log_p1 log_p2 : Nat → Nat → α) (chrom_seq : String)
    (hguard : ¬ ((init_reads alignments log_p1 log_p2).min_start ≥ g.region_.start - 5
      ∨ (init_reads alignments log_p1 log_p2).max_stop < g.region_.stop + 5))
    (href : g.ref_vcf_ = false) :
    (init source g alignments log_p1 log_p2 chrom_seq).pos_
        = min g.region_.start
          (source.bam_hap_block (gen_hap_alns (init_reads alignments log_p1 log_p2).alns_
            (init_reads alignments log_p1 log_p2).use_for_haps_)).start
      ∨ (init source g alignments log_p1 log_p2 chrom_seq).pos_
        = min g.region_.start
          (source.bam_hap_block (gen_hap_alns (init_reads alignments log_p1 log_p2).alns_
            (init_reads alignments log_p1 log_p2).use_for_haps_)).start + 1 := by
  unfold init
  dsimp only
  rw [if_neg hguard]
  simp only [href, Bool.false_eq_true, if_false]
  split_ifs <;> exact get_alleles_pos _ _

end InitGuard

/-- Claim C22, as the code has it: if no read that passes the filters and is realigned starts
before `region.start - 5`, or no such read stops at or after `region.stop + 5`, then `init`
marks the locus as failed (`pos_ = -1`) and `genotype` returns `false` and leaves the object
as it is. The region bounds are 32-bit integers. -/
theorem init_no_spanning_reads (source : HaplotypeSource ℝ) (g : SeqStutterGenotyper ℝ)
    (alignments : List (List BamAlignment)) (log_p1 log_p2 : Nat → Nat → ℝ) (chrom_seq : String)
    (srt : StdSort) (aligner : HapAligner ℝ) (fuel : Nat)
    (hstart : g.region_.start ≤ INT_MAX) (hstop : INT_MIN ≤ g.region_.stop)
    (hnone : (∀ reads ∈ alignments, ∀ read ∈ reads, ∀ aln, read.passes_filters = true →
        read.realign = some aln → ¬ aln.start < g.region_.start - 5)
      ∨ (∀ reads ∈ alignments, ∀ read ∈ reads, ∀ aln, read.passes_filters = true →
        read.realign = some aln → ¬ aln.stop ≥ g.region_.stop + 5)) :
    (init source g alignments log_p1 log_p2 chrom_seq).pos_ = -1
      ∧ genotype ⟨Real.exp, Real.log⟩ srt aligner chrom_seq fuel
          (init source g alignments log_p1 log_p2 chrom_seq)
        = some (false, init source g alignments log_p1 log_p2 chrom_seq) := by
  have hpos : (init source g alignments log_p1 log_p2 chrom_seq).pos_ = -1 := by
    refine init_guard source g alignments log_p1 log_p2 chrom_seq ?_
    obtain ⟨hmin, hmax⟩ := init_reads_bounds alignments log_p1 log_p2
    rcases hnone with h | h
    · left
      rcases hmin with e | ⟨reads, hreads, read, hread, aln, h1, h2, h3⟩
      · rw [e]
        omega
      · rw [← h3]
        have := h reads hreads read hread aln h1 h2
        omega
    · right
      rcases hmax with e | ⟨reads, hreads, read, hread, aln, h1, h2, h3⟩
      · rw [e]
        unfold INT_MIN at hstop ⊢
        omega
      · rw [← h3]
        have := h reads hreads read hread aln h1 h2
        omega
  exact ⟨hpos, genotype_failed_locus _ srt aligner chrom_seq fuel _ hpos⟩

/-- Witness of C22 as amended: at the region 100-120 a single read realigned to 96-130 does not
start before 95. -/
theorem init_no_spanning_reads_witness :
    (init (example_source ℝ) (example_uninitialised ℝ)
        [[⟨"TTGA", true, some ⟨96, 130, "TTGA"⟩⟩]] (fun _ _ => 0) (fun _ _ => 0)
        example_region_chromosome).pos_ = -1 :=
  (init_no_spanning_reads (example_source ℝ) (example_uninitialised ℝ)
    [[⟨"TTGA", true, some ⟨96, 130, "TTGA"⟩⟩]] (fun _ _ => 0) (fun _ _ => 0)
    example_region_chromosome
    insertion_sort_by_length (example_aligner ℝ) 0 (by decide) (by decide)
    (Or.inl (by
      intro reads hreads read hread aln _ hre
      rw [List.mem_singleton] at hreads
      subst hreads
      rw [List.mem_singleton] at hread
      subst hread
      have e : aln = ⟨96, 130, "TTGA"⟩ := (Option.some.inj hre).symm
      subst e
      decide))).1

/-- Counterexample to C22 as stated: at the region 100-120 the two reads of
`example_one_sided_reads` are usable for haplotype generation, and neither has both
`start < 95` and `stop >= 125`; but the first starts at 80 and the second stops at 130, so the
guard of `init` does not fire and `pos_` is not `-1`. -/
theorem init_one_sided_reads_counterexample :
    (∀ reads ∈ example_one_sided_reads, ∀ read ∈ reads, ∀ aln, read.passes_filters = true →
      read.realign = some aln →
      ¬ (aln.start < (example_uninitialised ℝ).region_.start - 5
        ∧ aln.stop ≥ (example_uninitialised ℝ).region_.stop + 5))
    ∧ (init (example_source ℝ) (example_uninitialised ℝ) example_one_sided_reads
        (fun _ _ => 0) (fun _ _ => 0) example_region_chromosome).pos_ ≠ -1 := by
  constructor
  · intro reads hreads read hread aln _ hre
    unfold example_one_sided_reads at hreads
    rw [List.mem_singleton] at hreads
    subst hreads
    rcases List.mem_cons.mp hread with h | h
    · subst h
      have e : aln = ⟨80, 104, "ACGT"⟩ := (Option.some.inj hre).symm
      subst e
      decide
    · rw [List.mem_singleton] at h
      subst h
      have e : aln = ⟨96, 130, "TTGA"⟩ := (Option.some.inj hre).symm
      subst e
      decide
  · have hmin : (init_reads example_one_sided_reads (fun _ _ => (0 : ℝ))
        (fun _ _ => (0 : ℝ))).min_start = 80 := by decide
    have hmax : (init_reads example_one_sided_reads (fun _ _ => (0 : ℝ))
        (fun _ _ => (0 : ℝ))).max_stop = 130 := by decide
    have hpos := init_bam_pos (example_source ℝ) (example_uninitialised ℝ)
      example_one_sided_reads (fun _ _ => 0) (fun _ _ => 0) example_region_chromosome
      (by rw [hmin, hmax]; decide) rfl
    have hmin0 : min (example_uninitialised ℝ).region_.start
        ((example_source ℝ).bam_hap_block
          (gen_hap_alns (init_reads example_one_sided_reads (fun _ _ => (0 : ℝ))
            (fun _ _ => (0 : ℝ))).alns_
            (init_reads example_one_sided_reads (fun _ _ => (0 : ℝ))
              (fun _ _ => (0 : ℝ))).use_for_haps_)).start = 100 := by decide
    rw [hmin0] at hpos
    rcases hpos with h | h <;> rw [h] <;> decide

/-! ## The discovery loop -/

section DiscoveryLoop

variable {α : Type} [LinearOrderedField α]

/-- The loop returns at once when it is entered with no candidates. -/
theorem id_and_align_loop_empty (m : MathOps α) (srt : StdSort) (aligner : HapAligner α)
    (chrom_seq : String) (fuel : Nat) (g : SeqStutterGenotyper α) :
    id_and_align_loop m srt aligner chrom_seq (fuel + 1) [] g = some (true, g) := by
  unfold id_and_align_loop
  rw [if_neg (by simp)]

/-- The loop returns `false` at once when the shortest candidate is too short. -/
theorem id_and_align_loop_short (m : MathOps α) (srt : StdSort) (aligner : HapAligner α)
    (chrom_seq : String) (fuel : Nat) (stutter_seqs : List String) (g : SeqStutterGenotyper α)
    (hne : stutter_seqs ≠ []) (hshort : candidate_too_short srt aligner stutter_seqs = true) :
    id_and_align_loop m srt aligner chrom_seq (fuel + 1) stutter_seqs g = some (false, g) := by
  unfold id_and_align_loop
  rw [if_pos (by simpa using hne), if_pos hshort]

/-- An iteration that merges hands over to the next evaluation of the loop condition. -/
theorem id_and_align_loop_merge (m : MathOps α) (srt : StdSort) (aligner : HapAligner α)
    (chrom_seq : String) (fuel : Nat) (st : List String × SeqStutterGenotyper α)
    (h : merges srt aligner st.1) :
    id_and_align_loop m srt aligner chrom_seq (fuel + 1) st.1 st.2
      = id_and_align_loop m srt aligner chrom_seq fuel
          (loop_step m srt aligner chrom_seq st).1 (loop_step m srt aligner chrom_seq st).2 := by
  obtain ⟨hne, hshort⟩ := h
  conv_lhs => unfold id_and_align_loop
  rw [if_pos (by simpa using hne), hshort]
  rfl

/-- After `k` merging iterations the loop continues from the state of evaluation `k`. -/
theorem id_and_align_loop_run (m : MathOps α) (srt : StdSort) (aligner : HapAligner α)
    (chrom_seq : String) (k fuel : Nat) (st : List String × SeqStutterGenotyper α)
    (h : ∀ j, j < k → merges srt aligner ((loop_step m srt aligner chrom_seq)^[j] st).1) :
    id_and_align_loop m srt aligner chrom_seq (fuel + k) st.1 st.2
      = id_and_align_loop m srt aligner chrom_seq fuel
          ((loop_step m srt aligner chrom_seq)^[k] st).1
          ((loop_step m srt aligner chrom_seq)^[k] st).2 := by
  induction k generalizing st with
  | zero => rfl
  | succ k ih =>
    rw [← Nat.add_assoc, id_and_align_loop_merge m srt aligner chrom_seq (fuel + k) st (h 0 (Nat.succ_pos k)),
      ih (loop_step m srt aligner chrom_seq st) (fun j hj => by
        have := h (j + 1) (Nat.succ_lt_succ hj)
        rwa [Function.iterate_succ_apply] at this),
      Function.iterate_succ_apply]

/-- Every result of the loop is reached at some evaluation `k` of the loop condition, below the
bound, before which every iteration merged: with `true` when the vector of that evaluation is
empty, with `false` when its shortest candidate is too short. -/
theorem id_and_align_loop_result (m : MathOps α) (srt : StdSort) (aligner : HapAligner α)
    (chrom_seq : String) (fuel : Nat) (st : List String × SeqStutterGenotyper α) (b : Bool)
    (g' : SeqStutterGenotyper α)
    (h : id_and_align_loop m srt aligner chrom_seq fuel st.1 st.2 = some (b, g')) :
    ∃ k, k < fuel
      ∧ (∀ j, j < k → merges srt aligner ((loop_step m srt aligner chrom_seq)^[j] st).1)
      ∧ g' = ((loop_step m srt aligner chrom_seq)^[k] st).2
      ∧ ((((loop_step m srt aligner chrom_seq)^[k] st).1 = [] ∧ b = true)
        ∨ (((loop_step m srt aligner chrom_seq)^[k] st).1 ≠ []
          ∧ candidate_too_short srt aligner ((loop_step m srt aligner chrom_seq)^[k] st).1 = true
          ∧ b = false)) := by
  induction fuel generalizing st with
  | zero =>
    unfold id_and_align_loop at h
    exact absurd h (by simp)
  | succ fuel ih =>
    by_cases hne : st.1 = []
    · rw [hne, id_and_align_loop_empty] at h
      have e := Option.some.inj h
      refine ⟨0, Nat.succ_pos _, fun j hj => absurd hj (Nat.not_lt_zero j),
        (congrArg Prod.snd e).symm, Or.inl ⟨hne, (congrArg Prod.fst e).symm⟩⟩
    · by_cases hshort : candidate_too_short srt aligner st.1 = true
      · rw [id_and_align_loop_short m srt aligner chrom_seq fuel st.1 st.2 hne hshort] at h
        have e := Option.some.inj h
        exact ⟨0, Nat.succ_pos _, fun j hj => absurd hj (Nat.not_lt_zero j),
          (congrArg Prod.snd e).symm, Or.inr ⟨hne, hshort, (congrArg Prod.fst e).symm⟩⟩
      · have hm : merges srt aligner st.1 := ⟨hne, by simpa using hshort⟩
        rw [id_and_align_loop_merge m srt aligner chrom_seq fuel st hm] at h
        obtain ⟨k, hk, hj, hg, hres⟩ := ih (loop_step m srt aligner chrom_seq st) h
        refine ⟨k + 1, Nat.succ_lt_succ hk, fun j hlt => ?_, ?_, ?_⟩
        · cases j with
          | zero => exact hm
          | succ j =>
            rw [Function.iterate_succ_apply]
            exact hj j (Nat.lt_of_succ_lt_succ hlt)
        · rw [Function.iterate_succ_apply]
          exact hg
        · rw [Function.iterate_succ_apply]
          exact hres

end DiscoveryLoop

section SortedHead

/-- The first of the sorted candidates is a shortest candidate. -/
theorem sort_head_shortest (srt : StdSort) (stutter_seqs : List String)
    (hne : stutter_seqs ≠ []) :
    (srt.sort stutter_seqs).getD 0 "" ∈ stutter_seqs
      ∧ ∀ c ∈ stutter_seqs, ((srt.sort stutter_seqs).getD 0 "").length ≤ c.length := by
  have hperm := srt.perm stutter_seqs
  have hsorted := srt.sorted stutter_seqs
  cases hs : srt.sort stutter_seqs with
  | nil =>
    rw [hs] at hperm
    exact absurd (List.Perm.nil_eq hperm).symm hne
  | cons a rest =>
    rw [hs] at hperm hsorted
    have ha : (a :: rest).getD 0 "" = a := rfl
    rw [ha]
    refine ⟨hperm.subset (List.mem_cons_self a rest), fun c hc => ?_⟩
    rcases List.mem_cons.mp (hperm.symm.subset hc) with h | h
    · rw [h]
    · exact List.rel_of_sorted_cons hsorted c h

end SortedHead

/-- Claim C21: `id_and_align_to_stutter_alleles` returns `false` exactly when at some evaluation
`k` of the loop condition, all earlier iterations having merged, the discovered candidate list
is non-empty and its shortest candidate, the first after sorting, is shorter than
`|max_deletion|`; it returns `true` exactly when at such an evaluation the discovery pass
yielded no candidates; in both cases the result is returned for every bound above `k`. When the
function returns `false` at the first evaluation, the allele list, the alignment probabilities
and `num_alleles_` are those at the call. -/
theorem id_and_align_to_stutter_alleles_spec (srt : StdSort) (aligner : HapAligner ℝ)
    (chrom_seq : String) (g : SeqStutterGenotyper ℝ) :
    (∀ fuel g', id_and_align_to_stutter_alleles ⟨Real.exp, Real.log⟩ srt aligner chrom_seq fuel g
        = some (false, g')
      ↔ ∃ k, k < fuel
        ∧ (∀ j, j < k → merges srt aligner
            (loop_state ⟨Real.exp, Real.log⟩ srt aligner chrom_seq g j).1)
        ∧ (loop_state ⟨Real.exp, Real.log⟩ srt aligner chrom_seq g k).1 ≠ []
        ∧ candidate_too_short srt aligner
            (loop_state ⟨Real.exp, Real.log⟩ srt aligner chrom_seq g k).1 = true
        ∧ g' = (loop_state ⟨Real.exp, Real.log⟩ srt aligner chrom_seq g k).2)
    ∧ (∀ fuel g', id_and_align_to_stutter_alleles ⟨Real.exp, Real.log⟩ srt aligner chrom_seq
          fuel g = some (true, g')
      ↔ ∃ k, k < fuel
        ∧ (∀ j, j < k → merges srt aligner
            (loop_state ⟨Real.exp, Real.log⟩ srt aligner chrom_seq g j).1)
        ∧ (loop_state ⟨Real.exp, Real.log⟩ srt aligner chrom_seq g k).1 = []
        ∧ g' = (loop_state ⟨Real.exp, Real.log⟩ srt aligner chrom_seq g k).2)
    ∧ ((loop_state ⟨Real.exp, Real.log⟩ srt aligner chrom_seq g 0).2.alleles_ = g.alleles_
      ∧ (loop_state ⟨Real.exp, Real.log⟩ srt aligner chrom_seq g 0).2.log_aln_probs_
        = g.log_aln_probs_
      ∧ (loop_state ⟨Real.exp, Real.log⟩ srt aligner chrom_seq g 0).2.num_alleles_
        = g.num_alleles_)
    ∧ ∀ stutter_seqs, stutter_seqs ≠ [] →
        (srt.sort stutter_seqs).getD 0 "" ∈ stutter_seqs
        ∧ ∀ c ∈ stutter_seqs, ((srt.sort stutter_seqs).getD 0 "").length ≤ c.length := by
  refine ⟨fun fuel g' => ⟨fun h => ?_, ?_⟩, fun fuel g' => ⟨fun h => ?_, ?_⟩,
    ⟨rfl, rfl, rfl⟩, sort_head_shortest srt⟩
  · obtain ⟨k, hk, hj, hg, hres⟩ := id_and_align_loop_result _ srt aligner chrom_seq fuel
      (discover_candidates ⟨Real.exp, Real.log⟩ aligner g) false g' h
    rcases hres with ⟨_, hb⟩ | ⟨h1, h2, _⟩
    · exact absurd hb (by simp)
    · exact ⟨k, hk, hj, h1, h2, hg⟩
  · rintro ⟨k, hk, hj, h1, h2, hg⟩
    obtain ⟨d, hd⟩ := Nat.exists_eq_add_of_lt hk
    have hfuel : fuel = (d + 1) + k := by omega
    unfold id_and_align_to_stutter_alleles
    dsimp only
    rw [hfuel, id_and_align_loop_run _ srt aligner chrom_seq k (d + 1) _ hj, hg]
    exact id_and_align_loop_short _ srt aligner chrom_seq d _ _ h1 h2
  · obtain ⟨k, hk, hj, hg, hres⟩ := id_and_align_loop_result _ srt aligner chrom_seq fuel
      (discover_candidates ⟨Real.exp, Real.log⟩ aligner g) true g' h
    rcases hres with ⟨h1, _⟩ | ⟨_, _, hb⟩
    · exact ⟨k, hk, hj, h1, hg⟩
    · exact absurd hb (by simp)
  · rintro ⟨k, hk, hj, h1, hg⟩
    obtain ⟨d, hd⟩ := Nat.exists_eq_add_of_lt hk
    have hfuel : fuel = (d + 1) + k := by omega
    unfold id_and_align_to_stutter_alleles
    dsimp only
    have h1' : ((loop_step ⟨Real.exp, Real.log⟩ srt aligner chrom_seq)^[k]
        (discover_candidates ⟨Real.exp, Real.log⟩ aligner g)).1 = [] := h1
    rw [hfuel, id_and_align_loop_run _ srt aligner chrom_seq k (d + 1) _ hj, h1',
      id_and_align_loop_empty, hg]
    rfl

/-! ## Tracebacks of a call -/

section TraceCache

variable {α : Type}

theorem getD_some_mem {β : Type} (l : List (Option β)) (r : Nat) (t : β)
    (h : l.getD r none = some t) : some t ∈ l := by
  rw [List.getD_eq_getElem?_getD] at h
  cases hget : l[r]? with
  | none =>
    rw [hget] at h
    simp at h
  | some x =>
    rw [hget] at h
    simp only [Option.getD_some] at h
    rw [← h]
    exact List.getElem?_mem hget

/-- The trace that the cache lookup yields and every trace of the cache after it have a
property that the cached traces and the traces of the aligner have. -/
theorem cached_trace_all (aligner : HapAligner α) (g : SeqStutterGenotyper α)
    (P : AlignmentTrace → Prop) (cache : List ((Int × Int) × AlignmentTrace))
    (trace_key : Int × Int) (idx_1 idx_2 read_index : Nat)
    (hcache : ∀ entry ∈ cache, P entry.2)
    (horacle : ∀ idx_1 idx_2 seed best_gt,
      P (aligner.trace_optimal_aln g.hap_blocks_ idx_1 idx_2 seed best_gt)) :
    P (cached_trace aligner g cache trace_key idx_1 idx_2 read_index).1
      ∧ ∀ entry ∈ (cached_trace aligner g cache trace_key idx_1 idx_2 read_index).2,
          P entry.2 := by
  unfold cached_trace
  cases hfind : map_find cache trace_key with
  | none =>
    dsimp only
    refine ⟨horacle _ _ _ _, fun entry hentry => ?_⟩
    rcases map_assign_mem _ _ _ _ _ hentry with h | h
    · rw [h]
      exact horacle _ _ _ _
    · exact hcache entry h
  | some trace =>
    dsimp only
    exact ⟨hcache _ (map_find_mem _ _ _ hfind), hcache⟩


/-- When every traceback has the stutter size 0 or reports an alternate of the repeat block,
no candidate is discovered. -/
theorem no_stutter_candidates (g : SeqStutterGenotyper α)
    (traced_alns : Nat → Option AlignmentTrace)
    (h : ∀ r trace, traced_alns r = some trace →
      trace.stutter_size = 0 ∨ trace.str_seq ∈ g.hap_blocks_.alternates) :
    get_stutter_candidate_alleles g traced_alns = [] := by
  rw [List.eq_nil_iff_forall_not_mem]
  intro S hS
  obtain ⟨hn, s, _, h2, _⟩ := ((get_stutter_candidate_alleles_mem g traced_alns).1 S).mp hS
  have hpos : 0 < (stutter_reads g traced_alns g.num_reads_ s S).length := by omega
  obtain ⟨r, hr⟩ := List.exists_mem_of_length_pos hpos
  unfold stutter_reads at hr
  rw [List.mem_filter, List.mem_range] at hr
  obtain ⟨_, hp⟩ := hr
  cases htr : traced_alns r with
  | none => simp [htr] at hp
  | some trace =>
    simp only [htr, Bool.and_eq_true, decide_eq_true_eq] at hp
    obtain ⟨⟨⟨_, hz⟩, _⟩, hseq⟩ := hp
    rcases h r trace htr with h0 | h0
    · exact hz h0
    · rw [hseq] at h0
      exact hn h0

end TraceCache

section Retrace

variable {α : Type} [LinearOrderedField α]

/-- The vector `traced_alns` has an entry for every read, a trace for every read with a seed
position, and its traces and those of the cache after the call have every property that the
cached traces and the traces of the aligner have. -/
theorem retrace_alignments_all (m : MathOps α) (aligner : HapAligner α)
    (g : SeqStutterGenotyper α) (P : AlignmentTrace → Prop)
    (hcache : ∀ entry ∈ g.trace_cache_, P entry.2)
    (horacle : ∀ idx_1 idx_2 seed best_gt,
      P (aligner.trace_optimal_aln g.hap_blocks_ idx_1 idx_2 seed best_gt)) :
    (∀ entry ∈ (retrace_alignments m aligner g).trace_cache, P entry.2)
      ∧ (∀ r trace, (retrace_alignments m aligner g).traced_alns.getD r none = some trace →
          P trace)
      ∧ ∀ r, r < g.num_reads_ → g.seed_positions_ r ≥ 0 →
          ∃ trace, (retrace_alignments m aligner g).traced_alns.getD r none = some trace := by
  unfold retrace_alignments
  dsimp only
  have key := forLoop_inv (fun k (st : RetraceState) =>
      st.traced_alns.length = k
        ∧ (∀ entry ∈ st.trace_cache, P entry.2)
        ∧ (∀ x ∈ st.traced_alns, ∀ trace, x = some trace → P trace)
        ∧ ∀ r, r < k → g.seed_positions_ r ≥ 0 →
            ∃ trace, st.traced_alns.getD r none = some trace) g.num_reads_
    (fun read_index (st : RetraceState) =>
    if g.seed_positions_ read_index < 0 then
      { st with
        read_LL_ptr := st.read_LL_ptr + g.num_alleles_
        num_proc_alns := store st.num_proc_alns (g.sample_label_ read_index)
          (st.num_proc_alns (g.sample_label_ read_index) + 1)
        traced_alns := st.traced_alns ++ [none] }
    else
      { traced_alns := st.traced_alns ++ [some (cached_trace aligner g st.trace_cache
          (retrace_trace_key m g st.read_LL_ptr read_index
            (get_optimal_genotypes g g.log_sample_posteriors_ (g.sample_label_ read_index)).1
            (get_optimal_genotypes g g.log_sample_posteriors_ (g.sample_label_ read_index)).2)
          (g.sample_label_ read_index) (st.num_proc_alns (g.sample_label_ read_index))
          read_index).1]
        trace_cache := (cached_trace aligner g st.trace_cache
          (retrace_trace_key m g st.read_LL_ptr read_index
            (get_optimal_genotypes g g.log_sample_posteriors_ (g.sample_label_ read_index)).1
            (get_optimal_genotypes g g.log_sample_posteriors_ (g.sample_label_ read_index)).2)
          (g.sample_label_ read_index) (st.num_proc_alns (g.sample_label_ read_index))
          read_index).2
        num_proc_alns := store st.num_proc_alns (g.sample_label_ read_index)
          (st.num_proc_alns (g.sample_label_ read_index) + 1)
        read_LL_ptr := st.read_LL_ptr + g.num_alleles_ })
    { traced_alns := [], trace_cache := g.trace_cache_, num_proc_alns := fun _ => 0,
      read_LL_ptr := 0 }
    ⟨rfl, hcache, fun x hx => absurd hx (List.not_mem_nil x),
      fun r hr => absurd hr (Nat.not_lt_zero r)⟩ (by
      rintro k st _ ⟨h1, h2, h3, h4⟩
      dsimp only
      by_cases hseed : g.seed_positions_ k < 0
      · rw [if_pos hseed]
        refine ⟨by rw [List.length_append, h1, List.length_singleton], h2, ?_, ?_⟩
        · intro x hx trace hxt
          rcases List.mem_append.mp hx with h | h
          · exact h3 x h trace hxt
          · rw [List.mem_singleton] at h
            rw [h] at hxt
            exact absurd hxt (by simp)
        · intro r hr hr0
          have hrk : r < k := by
            rcases Nat.lt_succ_iff_lt_or_eq.mp hr with h | h
            · exact h
            · rw [h] at hr0
              omega
          obtain ⟨trace, ht⟩ := h4 r hrk hr0
          refine ⟨trace, ?_⟩
          show (st.traced_alns ++ [none]).getD r none = some trace
          rw [List.getD_eq_getElem?_getD, List.getElem?_append_left (by rw [h1]; exact hrk),
            ← List.getD_eq_getElem?_getD]
          exact ht
      · rw [if_neg hseed]
        obtain ⟨c1, c2⟩ := cached_trace_all aligner g P st.trace_cache
          (retrace_trace_key m g st.read_LL_ptr k
            (get_optimal_genotypes g g.log_sample_posteriors_ (g.sample_label_ k)).1
            (get_optimal_genotypes g g.log_sample_posteriors_ (g.sample_label_ k)).2)
          (g.sample_label_ k) (st.num_proc_alns (g.sample_label_ k)) k h2 horacle
        refine ⟨by
          show (st.traced_alns ++ [_]).length = k + 1
          rw [List.length_append, h1, List.length_singleton], c2, ?_, ?_⟩
        · intro x hx trace hxt
          rcases List.mem_append.mp hx with h | h
          · exact h3 x h trace hxt
          · rw [List.mem_singleton] at h
            rw [h] at hxt
            rw [← Option.some.inj hxt]
            exact c1
        · intro r hr hr0
          rcases Nat.lt_succ_iff_lt_or_eq.mp hr with h | h
          · obtain ⟨trace, ht⟩ := h4 r h hr0
            refine ⟨trace, ?_⟩
            show (st.traced_alns ++ [_]).getD r none = some trace
            rw [List.getD_eq_getElem?_getD, List.getElem?_append_left (by rw [h1]; exact h),
              ← List.getD_eq_getElem?_getD]
            exact ht
          · refine ⟨(cached_trace aligner g st.trace_cache
              (retrace_trace_key m g st.read_LL_ptr k
                (get_optimal_genotypes g g.log_sample_posteriors_ (g.sample_label_ k)).1
                (get_optimal_genotypes g g.log_sample_posteriors_ (g.sample_label_ k)).2)
              (g.sample_label_ k) (st.num_proc_alns (g.sample_label_ k)) k).1, ?_⟩
            show (st.traced_alns ++ [some _]).getD r none = some _
            rw [List.getD_eq_getElem?_getD, List.getElem?_append_right (by rw [h1, h]),
              h1, h, Nat.sub_self]
            rfl)
  obtain ⟨_, k2, k3, k4⟩ := key
  exact ⟨k2, fun r trace hr => k3 (some trace) (getD_some_mem _ r trace hr) trace rfl, k4⟩

end Retrace

/-! ## The position after a call of `genotype` -/

section GenotypeCall

variable {α : Type} [LinearOrderedField α]

theorem loop_iterate_ref_vcf (m : MathOps α) (srt : StdSort) (aligner : HapAligner α)
    (chrom_seq : String) (st : List String × SeqStutterGenotyper α) (k : Nat) :
    ((loop_step m srt aligner chrom_seq)^[k] st).2.ref_vcf_ = st.2.ref_vcf_ := by
  induction k with
  | zero => rfl
  | succ k ih =>
    rw [Function.iterate_succ_apply']
    exact ih

/-- The removal of the uncalled alleles changes neither `pos_` nor `ref_vcf_`. -/
theorem prune_uncalled_pos (m : MathOps α) (g : SeqStutterGenotyper α) :
    (prune_uncalled m g).pos_ = g.pos_ ∧ (prune_uncalled m g).ref_vcf_ = g.ref_vcf_ := by
  unfold prune_uncalled
  split_ifs <;> exact ⟨rfl, rfl⟩

/-- Every object that the discovery loop returns has the flag `ref_vcf_` of the call. -/
theorem id_and_align_ref_vcf (m : MathOps α) (srt : StdSort) (aligner : HapAligner α)
    (chrom_seq : String) (fuel : Nat) (g : SeqStutterGenotyper α) (b : Bool)
    (g' : SeqStutterGenotyper α)
    (h : id_and_align_to_stutter_alleles m srt aligner chrom_seq fuel g = some (b, g')) :
    g'.ref_vcf_ = g.ref_vcf_ := by
  obtain ⟨k, _, _, hg, _⟩ := id_and_align_loop_result m srt aligner chrom_seq fuel
    (discover_candidates m aligner g) b g' h
  rw [hg, loop_iterate_ref_vcf]
  rfl

/-- Without reference VCF a call of `genotype` that passes its two guards returns what the
discovery loop returns, after the removal of the uncalled alleles when the loop returns
`true`. -/
theorem genotype_bam (m : MathOps α) (srt : StdSort) (aligner : HapAligner α)
    (chrom_seq : String) (fuel : Nat) (g : SeqStutterGenotyper α)
    (href : g.ref_vcf_ = false) (hpos : g.pos_ ≠ -1)
    (hsize : ¬ ((g.hap_blocks_.min_size : Int) < |aligner.max_deletion|)) :
    genotype m srt aligner chrom_seq fuel g
      = match id_and_align_to_stutter_alleles m srt aligner chrom_seq fuel
          (aligned m aligner g) with
        | none => none
        | some (false, g2) => some (false, g2)
        | some (true, g2) => some (true, prune_uncalled m g2) := by
  unfold genotype
  rw [if_neg hpos, if_neg hsize]
  dsimp only
  have h1 : (aligned m aligner g).ref_vcf_ = false := href
  show (match (if (aligned m aligner g).ref_vcf_ = true then some (true, aligned m aligner g)
      else id_and_align_to_stutter_alleles m srt aligner chrom_seq fuel (aligned m aligner g)) with
    | none => none
    | some (false, g2) => some (false, g2)
    | some (true, g2) =>
      some (true, if (prune_uncalled m g2).ref_vcf_ = true then
        { prune_uncalled m g2 with pos_ := (prune_uncalled m g2).pos_ + 1 }
        else prune_uncalled m g2)) = _
  rw [h1, if_neg (by simp)]
  cases hres : id_and_align_to_stutter_alleles m srt aligner chrom_seq fuel
      (aligned m aligner g) with
  | none => rfl
  | some r =>
    obtain ⟨b, g2⟩ := r
    cases b with
    | false => rfl
    | true =>
      have h2 : (prune_uncalled m g2).ref_vcf_ = false := by
        rw [(prune_uncalled_pos m g2).2,
          id_and_align_ref_vcf m srt aligner chrom_seq fuel _ true g2 hres]
        exact h1
      show some (true, if (prune_uncalled m g2).ref_vcf_ = true then _ else _) = _
      rw [h2, if_neg (by simp)]

/-- Without reference VCF, when the first discovery pass of a call of `genotype` finds no
candidate, every successful return of the call leaves `pos_` as it was, and the call returns
successfully for every positive bound once its two guards are passed. -/
theorem genotype_no_candidates (m : MathOps α) (srt : StdSort) (aligner : HapAligner α)
    (chrom_seq : String) (g : SeqStutterGenotyper α) (href : g.ref_vcf_ = false)
    (hnone : (discover_candidates m aligner (aligned m aligner g)).1 = []) :
    (∀ fuel g2, genotype m srt aligner chrom_seq fuel g = some (true, g2) → g2.pos_ = g.pos_)
      ∧ (g.pos_ ≠ -1 → ¬ ((g.hap_blocks_.min_size : Int) < |aligner.max_deletion|) →
          ∀ fuel, 1 ≤ fuel →
            genotype m srt aligner chrom_seq fuel g
              = some (true, prune_uncalled m
                  (discover_candidates m aligner (aligned m aligner g)).2)) := by
  have hrun : ∀ fuel, 1 ≤ fuel →
      id_and_align_to_stutter_alleles m srt aligner chrom_seq fuel (aligned m aligner g)
        = some (true, (discover_candidates m aligner (aligned m aligner g)).2) := by
    intro fuel hfuel
    obtain ⟨d, rfl⟩ : ∃ d, fuel = d + 1 := ⟨fuel - 1, by omega⟩
    unfold id_and_align_to_stutter_alleles
    dsimp only
    rw [hnone, id_and_align_loop_empty]
  constructor
  · intro fuel g2 hret
    by_cases hpos : g.pos_ = -1
    · rw [genotype_failed_locus m srt aligner chrom_seq fuel g hpos] at hret
      exact absurd (congrArg Prod.fst (Option.some.inj hret)) (by simp)
    · by_cases hsize : (g.hap_blocks_.min_size : Int) < |aligner.max_deletion|
      · unfold genotype at hret
        rw [if_neg hpos, if_pos hsize] at hret
        exact absurd (congrArg Prod.fst (Option.some.inj hret)) (by simp)
      · rw [genotype_bam m srt aligner chrom_seq fuel g href hpos hsize] at hret
        cases fuel with
        | zero =>
          have h0 : id_and_align_to_stutter_alleles m srt aligner chrom_seq 0
              (aligned m aligner g) = none := by
            unfold id_and_align_to_stutter_alleles id_and_align_loop
            rfl
          rw [h0] at hret
          exact absurd hret (by simp)
        | succ d =>
          rw [hrun (d + 1) (Nat.succ_pos d)] at hret
          have e : prune_uncalled m (discover_candidates m aligner (aligned m aligner g)).2
              = g2 := congrArg Prod.snd (Option.some.inj hret)
          rw [← e, (prune_uncalled_pos m _).1]
          rfl
  · intro hpos hsize fuel hfuel
    rw [genotype_bam m srt aligner chrom_seq fuel g href hpos hsize, hrun fuel hfuel]

end GenotypeCall

/-- Claim C30, as the code has it: when no reference VCF was supplied and the first discovery
pass of the second call finds no candidate allele, re-entering `genotype` after a successful
retraining leaves `pos_` equal to its value after the first call; the second call returns
successfully for every positive bound once its two guards are passed. -/
theorem genotype_reentry_pos (srt : StdSort) (aligner retrained : HapAligner ℝ)
    (LOG_E_BASE_10 TOLERANCE : ℝ) (chrom_seq : String) (g : SeqStutterGenotyper ℝ)
    (href : g.ref_vcf_ = false)
    (hnone : reentry_candidates ⟨Real.exp, Real.log⟩ aligner retrained LOG_E_BASE_10 TOLERANCE g
      = []) :
    (∀ fuel g2,
      recompute_stutter_model ⟨Real.exp, Real.log⟩ srt aligner retrained LOG_E_BASE_10 TOLERANCE
        true chrom_seq fuel g = some (true, g2) → g2.pos_ = g.pos_)
    ∧ (g.pos_ ≠ -1 → ¬ ((g.hap_blocks_.min_size : Int) < |retrained.max_deletion|) →
        ∀ fuel, 1 ≤ fuel → ∃ g2,
          recompute_stutter_model ⟨Real.exp, Real.log⟩ srt aligner retrained LOG_E_BASE_10
            TOLERANCE true chrom_seq fuel g = some (true, g2) ∧ g2.pos_ = g.pos_) := by
  obtain ⟨h1, h2⟩ := genotype_no_candidates ⟨Real.exp, Real.log⟩ srt retrained chrom_seq
    (retraining_input ⟨Real.exp, Real.log⟩ aligner LOG_E_BASE_10 TOLERANCE g) href hnone
  have hrec : ∀ fuel,
      recompute_stutter_model ⟨Real.exp, Real.log⟩ srt aligner retrained LOG_E_BASE_10 TOLERANCE
        true chrom_seq fuel g
      = genotype ⟨Real.exp, Real.log⟩ srt retrained chrom_seq fuel
          (retraining_input ⟨Real.exp, Real.log⟩ aligner LOG_E_BASE_10 TOLERANCE g) := by
    intro fuel
    unfold recompute_stutter_model
    dsimp only
    rw [if_pos rfl]
    rfl
  constructor
  · intro fuel g2 hret
    rw [hrec] at hret
    exact h1 fuel g2 hret
  · intro hpos hsize fuel hfuel
    have hret := h2 hpos hsize fuel hfuel
    rw [← hrec] at hret
    exact ⟨_, hret, h1 fuel _ (by rw [← hrec]; exact hret)⟩

/-! ## A locus whose position moves on re-entry -/

section Reentry

variable {α : Type} [LinearOrderedField α]

/-- When every cached trace and every trace of the aligner has the stutter size 0 or reports an
alternate of the repeat block, the discovery pass finds no candidate. -/
theorem discover_none (m : MathOps α) (aligner : HapAligner α) (g : SeqStutterGenotyper α)
    (P : AlignmentTrace → Prop)
    (hcache : ∀ entry ∈ g.trace_cache_, P entry.2)
    (horacle : ∀ idx_1 idx_2 seed best_gt,
      P (aligner.trace_optimal_aln g.hap_blocks_ idx_1 idx_2 seed best_gt))
    (hP : ∀ trace, P trace →
      trace.stutter_size = 0 ∨ trace.str_seq ∈ g.hap_blocks_.alternates) :
    (discover_candidates m aligner g).1 = [] := by
  unfold discover_candidates
  dsimp only
  refine no_stutter_candidates g _ (fun r trace hr => hP trace ?_)
  exact (retrace_alignments_all m aligner g P hcache horacle).2.1 r trace hr

/-- With a single allele no allele is removed. -/
theorem prune_uncalled_single (m : MathOps α) (g : SeqStutterGenotyper α)
    (hn : g.num_alleles_ = 1) : prune_uncalled m g = g := by
  have h : get_uncalled_alleles g = [] := by
    unfold get_uncalled_alleles
    dsimp only
    rw [hn]
    rfl
  unfold prune_uncalled
  rw [h]
  simp

end Reentry

section MergedCache

/-- The traces of the re-keyed cache of a merge pass are traces of the cache before it. -/
theorem merged_trace_cache_all (P : AlignmentTrace → Prop)
    (cache : List ((Int × Int) × AlignmentTrace)) (original_indices : List Int)
    (h : ∀ entry ∈ cache, P entry.2) :
    ∀ entry ∈ merged_trace_cache cache original_indices, P entry.2 := by
  unfold merged_trace_cache
  have key : ∀ (l init : List ((Int × Int) × AlignmentTrace)),
      (∀ entry ∈ l, P entry.2) → (∀ entry ∈ init, P entry.2) →
      ∀ entry ∈ l.foldl (fun new_trace_cache entry =>
        map_assign pair_lt new_trace_cache
          (entry.1.1, original_indices.getD entry.1.2.toNat (-1)) entry.2) init, P entry.2 := by
    intro l
    induction l with
    | nil => intro init _ hinit; exact hinit
    | cons c rest ih =>
      intro init hl hinit
      rw [List.foldl_cons]
      refine ih _ (fun e he => hl e (List.mem_cons_of_mem c he)) (fun e he => ?_)
      rcases map_assign_mem _ _ _ _ _ he with h1 | h1
      · rw [h1]
        exact hl c (List.mem_cons_self c rest)
      · exact hinit e h1
  exact key cache [] h (fun e he => absurd he (List.not_mem_nil e))

end MergedCache

/-- The first call of `genotype` on `example_locus` finds no candidate. -/
theorem example_locus_no_candidates (aligner : HapAligner ℝ) (g : SeqStutterGenotyper ℝ)
    (hcache : g.trace_cache_ = [])
    (horacle : ∀ b idx_1 idx_2 seed best_gt,
      (aligner.trace_optimal_aln b idx_1 idx_2 seed best_gt).stutter_size = 0) :
    (discover_candidates ⟨Real.exp, Real.log⟩ aligner g).1 = [] :=
  discover_none _ aligner g (fun t => t.stutter_size = 0)
    (fun entry hentry => by rw [hcache] at hentry; exact absurd hentry (List.not_mem_nil _))
    (fun _ _ _ _ => horacle _ _ _ _ _) (fun _ h => Or.inl h)

/-- Witness of C21: on `example_locus` with `example_aligner`, whose tracebacks have the
stutter size 0, the first discovery pass finds no candidate and the function returns `true`. -/
theorem id_and_align_to_stutter_alleles_spec_witness :
    id_and_align_to_stutter_alleles ⟨Real.exp, Real.log⟩ insertion_sort_by_length
        (example_aligner ℝ) example_chromosome 1 (example_locus ℝ)
      = some (true, (loop_state ⟨Real.exp, Real.log⟩ insertion_sort_by_length (example_aligner ℝ)
          example_chromosome (example_locus ℝ) 0).2) :=
  ((id_and_align_to_stutter_alleles_spec insertion_sort_by_length (example_aligner ℝ)
    example_chromosome (example_locus ℝ)).2.1 1 _).mpr
    ⟨0, Nat.zero_lt_one, fun j hj => absurd hj (Nat.not_lt_zero j),
      example_locus_no_candidates (example_aligner ℝ) (example_locus ℝ) rfl
        (fun _ _ _ _ _ => rfl), rfl⟩

/-- Witness of C30 as amended: on `example_locus`, retrained to a model under which the
tracebacks still have the stutter size 0, the second call returns `true` with `pos_`
unchanged. -/
theorem genotype_reentry_pos_witness :
    ∃ g2, recompute_stutter_model ⟨Real.exp, Real.log⟩ insertion_sort_by_length
        (example_aligner ℝ) (example_aligner ℝ) (1 / Real.log 10) (1 / 1000) true
        example_chromosome 1 (example_locus ℝ) = some (true, g2)
      ∧ g2.pos_ = (example_locus ℝ).pos_ :=
  (genotype_reentry_pos insertion_sort_by_length (example_aligner ℝ) (example_aligner ℝ)
    (1 / Real.log 10) (1 / 1000) example_chromosome (example_locus ℝ) rfl
    (example_locus_no_candidates (example_aligner ℝ) _ rfl (fun _ _ _ _ _ => rfl))).2
    (by decide) (by decide) 1 (Nat.le_refl 1)

section PaddedPosition

variable {α : Type}

theorem uppercase_empty : uppercase "" = "" := by
  have h := uppercase_toList ""
  have h2 : (uppercase "").data = [] := h
  exact String.ext h2

/-- When the repeat block starts at the region start and some alternate begins with another
base than alternate 0, `get_alleles` leaves the region start in `pos_`. -/
theorem get_alleles_pos_padded (g : SeqStutterGenotyper α) (chrom_seq : String)
    (hstart : g.hap_blocks_.start = g.region_.start)
    (hbase : ∃ i, 1 ≤ i ∧ i < g.hap_blocks_.num_options
      ∧ first_base (g.hap_blocks_.get_seq i) ≠ first_base (g.hap_blocks_.get_seq 0)) :
    (get_alleles g chrom_seq).2 = g.region_.start := by
  have hinit : initial_left_flank g chrom_seq = "" := by
    unfold initial_left_flank
    rw [if_pos (by rw [hstart]), hstart, sub_self]
    have : substr chrom_seq g.region_.start 0 = "" := rfl
    rw [this, uppercase_empty]
  rw [get_alleles_eq, if_pos ((pad_left_iff g chrom_seq).mpr ⟨hinit, hbase⟩), hstart, min_self]
  omega

end PaddedPosition

section StutterPass

variable {α : Type} [LinearOrderedField α]

/-- The position after a merge pass is the position that `get_alleles` computes for the merged
repeat block. -/
theorem stutter_pass_pos (m : MathOps α) (srt : StdSort) (aligner : HapAligner α)
    (chrom_seq : String) (g : SeqStutterGenotyper α) (stutter_seqs : List String) :
    (stutter_pass m srt aligner chrom_seq g stutter_seqs).pos_
      = (get_alleles { g with hap_blocks_ := merged_str_block srt g.hap_blocks_ stutter_seqs }
          chrom_seq).2 := rfl

end StutterPass

/-- On `example_locus` after the first call, every traceback of the second call under
`example_retrained_aligner` reports `"GCACAC"` with the stutter size 2, and this sequence is the
only candidate of the first discovery pass. -/
theorem example_retrained_candidates (g : SeqStutterGenotyper ℝ)
    (hcache : g.trace_cache_ = []) (hblock : g.hap_blocks_ = ⟨100, 104, ["ACAC"]⟩)
    (hreads : g.num_reads_ = 4) (hsamples : g.num_samples_ = 1)
    (hlabel : ∀ r, g.sample_label_ r = 0) (hseed : ∀ r, g.seed_positions_ r = 0) :
    (discover_candidates ⟨Real.exp, Real.log⟩ (example_retrained_aligner ℝ) g).1 = ["GCACAC"]
      ∧ ∀ entry ∈ (discover_candidates ⟨Real.exp, Real.log⟩ (example_retrained_aligner ℝ)
          g).2.trace_cache_, entry.2 = ⟨95, 110, 2, "GCACAC"⟩ := by
  obtain ⟨hall1, hall2, hall3⟩ := retrace_alignments_all ⟨Real.exp, Real.log⟩
    (example_retrained_aligner ℝ) g (fun t => t = ⟨95, 110, 2, "GCACAC"⟩)
    (fun entry hentry => by rw [hcache] at hentry; exact absurd hentry (List.not_mem_nil _))
    (fun _ _ _ _ => rfl)
  refine ⟨?_, hall1⟩
  have htr : ∀ r, r < 4 →
      (retrace_alignments ⟨Real.exp, Real.log⟩ (example_retrained_aligner ℝ) g).traced_alns.getD
        r none = some ⟨95, 110, 2, "GCACAC"⟩ := by
    intro r hr
    obtain ⟨trace, ht⟩ := hall3 r (by rw [hreads]; exact hr) (by rw [hseed])
    have := hall2 r trace ht
    rw [this] at ht
    exact ht
  have hspan : spans_block g ⟨95, 110, 2, "GCACAC"⟩ = true := by
    unfold spans_block
    rw [hblock]
    decide
  have hsr : stutter_reads g (fun r =>
      (retrace_alignments ⟨Real.exp, Real.log⟩ (example_retrained_aligner ℝ)
        g).traced_alns.getD r none) g.num_reads_ 0 "GCACAC" = List.range 4 := by
    unfold stutter_reads
    rw [hreads, List.filter_eq_self]
    intro r hr
    rw [List.mem_range] at hr
    dsimp only
    rw [htr r hr]
    simp only [hspan, hlabel]
    decide
  have hsp : spanning_reads g (fun r =>
      (retrace_alignments ⟨Real.exp, Real.log⟩ (example_retrained_aligner ℝ)
        g).traced_alns.getD r none) g.num_reads_ 0 = List.range 4 := by
    unfold spanning_reads
    rw [hreads, List.filter_eq_self]
    intro r hr
    rw [List.mem_range] at hr
    dsimp only
    rw [htr r hr]
    simp only [hspan, hlabel]
    decide
  unfold discover_candidates
  dsimp only
  refine get_stutter_candidate_alleles_singleton g _ "GCACAC" ?_ ?_
  · refine ((get_stutter_candidate_alleles_mem g _).1 "GCACAC").mpr
      ⟨by rw [hblock]; decide, 0, by rw [hsamples]; exact Nat.zero_lt_one, ?_, ?_⟩
    · rw [hsr]
      decide
    · rw [hsr, hsp]
      norm_num
  · intro r trace hr htrace _ _
    left
    rw [hreads] at hr
    have h := htr r hr
    rw [h] at htrace
    rw [← Option.some.inj htrace]

section CallFields

variable {α : Type} [LinearOrderedField α]

/-- The members that the alignment step of `genotype` leaves alone. -/
theorem aligned_fields (m : MathOps α) (aligner : HapAligner α) (g : SeqStutterGenotyper α) :
    (aligned m aligner g).trace_cache_ = g.trace_cache_
      ∧ (aligned m aligner g).hap_blocks_ = g.hap_blocks_
      ∧ (aligned m aligner g).num_reads_ = g.num_reads_
      ∧ (aligned m aligner g).num_samples_ = g.num_samples_
      ∧ (aligned m aligner g).num_alleles_ = g.num_alleles_
      ∧ (aligned m aligner g).sample_label_ = g.sample_label_
      ∧ (aligned m aligner g).seed_positions_ = (aligner.calc_hap_aln_probs g.hap_blocks_).2
      ∧ (aligned m aligner g).region_ = g.region_
      ∧ (aligned m aligner g).pos_ = g.pos_
      ∧ (aligned m aligner g).ref_vcf_ = g.ref_vcf_ :=
  ⟨rfl, rfl, rfl, rfl, rfl, rfl, rfl, rfl, rfl, rfl⟩

/-- The members that a discovery pass leaves alone. -/
theorem discover_fields (m : MathOps α) (aligner : HapAligner α) (g : SeqStutterGenotyper α) :
    (discover_candidates m aligner g).2.hap_blocks_ = g.hap_blocks_
      ∧ (discover_candidates m aligner g).2.num_reads_ = g.num_reads_
      ∧ (discover_candidates m aligner g).2.num_samples_ = g.num_samples_
      ∧ (discover_candidates m aligner g).2.num_alleles_ = g.num_alleles_
      ∧ (discover_candidates m aligner g).2.sample_label_ = g.sample_label_
      ∧ (discover_candidates m aligner g).2.region_ = g.region_
      ∧ (discover_candidates m aligner g).2.pos_ = g.pos_
      ∧ (discover_candidates m aligner g).2.ref_vcf_ = g.ref_vcf_ :=
  ⟨rfl, rfl, rfl, rfl, rfl, rfl, rfl, rfl⟩

/-- The members of the object on which `recompute_stutter_model` calls `genotype`. -/
theorem retraining_input_fields (m : MathOps α) (aligner : HapAligner α)
    (LOG_E_BASE_10 TOLERANCE : α) (g : SeqStutterGenotyper α) :
    (retraining_input m aligner LOG_E_BASE_10 TOLERANCE g).trace_cache_ = []
      ∧ (retraining_input m aligner LOG_E_BASE_10 TOLERANCE g).hap_blocks_ = g.hap_blocks_
      ∧ (retraining_input m aligner LOG_E_BASE_10 TOLERANCE g).num_reads_ = g.num_reads_
      ∧ (retraining_input m aligner LOG_E_BASE_10 TOLERANCE g).num_samples_ = g.num_samples_
      ∧ (retraining_input m aligner LOG_E_BASE_10 TOLERANCE g).num_alleles_ = g.num_alleles_
      ∧ (retraining_input m aligner LOG_E_BASE_10 TOLERANCE g).sample_label_ = g.sample_label_
      ∧ (retraining_input m aligner LOG_E_BASE_10 TOLERANCE g).region_ = g.region_
      ∧ (retraining_input m aligner LOG_E_BASE_10 TOLERANCE g).pos_ = g.pos_
      ∧ (retraining_input m aligner LOG_E_BASE_10 TOLERANCE g).ref_vcf_ = g.ref_vcf_ :=
  ⟨rfl, rfl, rfl, rfl, rfl, rfl, rfl, rfl, rfl⟩

/-- The object of the second call of `genotype` after its alignment step, in terms of the
object `g` after the first call. -/
theorem reentry_fields (m : MathOps α) (aligner retrained : HapAligner α)
    (LOG_E_BASE_10 TOLERANCE : α) (g : SeqStutterGenotyper α) :
    (aligned m retrained (retraining_input m aligner LOG_E_BASE_10 TOLERANCE g)).trace_cache_
        = []
      ∧ (aligned m retrained (retraining_input m aligner LOG_E_BASE_10 TOLERANCE g)).hap_blocks_
        = g.hap_blocks_
      ∧ (aligned m retrained (retraining_input m aligner LOG_E_BASE_10 TOLERANCE g)).num_reads_
        = g.num_reads_
      ∧ (aligned m retrained (retraining_input m aligner LOG_E_BASE_10 TOLERANCE g)).num_samples_
        = g.num_samples_
      ∧ (aligned m retrained
          (retraining_input m aligner LOG_E_BASE_10 TOLERANCE g)).sample_label_
        = g.sample_label_
      ∧ (aligned m retrained
          (retraining_input m aligner LOG_E_BASE_10 TOLERANCE g)).seed_positions_
        = (retrained.calc_hap_aln_probs g.hap_blocks_).2
      ∧ (aligned m retrained (retraining_input m aligner LOG_E_BASE_10 TOLERANCE g)).region_
        = g.region_ := by
  obtain ⟨a1, a2, a3, a4, _, a6, a7, a8, _, _⟩ := aligned_fields m retrained
    (retraining_input m aligner LOG_E_BASE_10 TOLERANCE g)
  obtain ⟨r1, r2, r3, r4, _, r6, r7, _, _⟩ := retraining_input_fields m aligner LOG_E_BASE_10
    TOLERANCE g
  exact ⟨a1.trans r1, a2.trans r2, a3.trans r3, a4.trans r4, a6.trans r6, by rw [a7, r2],
    a8.trans r7⟩

end CallFields

/-- Counterexample to C30 as stated: on `example_locus`, without reference VCF, the first call
of `genotype` finds no candidate and returns with `pos_ = 101`. After retraining, the tracebacks
of the second call report the sequence `"GCACAC"`, which begins with another base than the
reference `"ACAC"`; the merge pass adds it, `get_alleles` prepends the base before the repeat,
and the second call returns with `pos_ = 100`. -/
theorem genotype_reentry_counterexample :
    ∃ g g2 : SeqStutterGenotyper ℝ,
      genotype ⟨Real.exp, Real.log⟩ insertion_sort_by_length (example_aligner ℝ)
          example_chromosome 3 (example_locus ℝ) = some (true, g)
        ∧ g.ref_vcf_ = false ∧ g.pos_ = 101
        ∧ recompute_stutter_model ⟨Real.exp, Real.log⟩ insertion_sort_by_length
            (example_aligner ℝ) (example_retrained_aligner ℝ) (1 / Real.log 10) (1 / 1000) true
            example_chromosome 3 g = some (true, g2)
        ∧ g2.pos_ = 100 := by
  have hfirst := (genotype_no_candidates ⟨Real.exp, Real.log⟩ insertion_sort_by_length
    (example_aligner ℝ) example_chromosome (example_locus ℝ) rfl
    (example_locus_no_candidates (example_aligner ℝ) _ rfl (fun _ _ _ _ _ => rfl))).2
    (by decide) (by decide) 3 (by decide)
  rw [prune_uncalled_single _ _ rfl] at hfirst
  generalize hG : (discover_candidates ⟨Real.exp, Real.log⟩ (example_aligner ℝ)
    (aligned ⟨Real.exp, Real.log⟩ (example_aligner ℝ) (example_locus ℝ))).2 = G at hfirst
  have hGblock : G.hap_blocks_ = ⟨100, 104, ["ACAC"]⟩ := by rw [← hG]; rfl
  have hGreads : G.num_reads_ = 4 := by rw [← hG]; rfl
  have hGsamples : G.num_samples_ = 1 := by rw [← hG]; rfl
  have hGlabel : G.sample_label_ = fun _ => 0 := by rw [← hG]; rfl
  have hGregion : G.region_ = ⟨100, 104⟩ := by rw [← hG]; rfl
  have hGpos : G.pos_ = 101 := by rw [← hG]; rfl
  have hGref : G.ref_vcf_ = false := by rw [← hG]; rfl
  obtain ⟨f1, f2, f3, f4, f5, f6, f7⟩ := reentry_fields ⟨Real.exp, Real.log⟩ (example_aligner ℝ)
    (example_retrained_aligner ℝ) (1 / Real.log 10) (1 / 1000) G
  obtain ⟨q1, q2, q3, q4, _, q6, q7, q8, q9⟩ := retraining_input_fields ⟨Real.exp, Real.log⟩
    (example_aligner ℝ) (1 / Real.log 10) (1 / 1000) G
  generalize hH : aligned ⟨Real.exp, Real.log⟩ (example_retrained_aligner ℝ)
    (retraining_input ⟨Real.exp, Real.log⟩ (example_aligner ℝ) (1 / Real.log 10) (1 / 1000) G)
    = H at f1 f2 f3 f4 f5 f6 f7
  obtain ⟨hD0, hcache0⟩ := example_retrained_candidates H f1 (f2.trans hGblock)
    (f3.trans hGreads) (f4.trans hGsamples) (fun r => by rw [f5, hGlabel])
    (fun r => by rw [f6]; rfl)
  obtain ⟨d1, _, _, _, _, d6, _, _⟩ := discover_fields ⟨Real.exp, Real.log⟩
    (example_retrained_aligner ℝ) H
  generalize hD : discover_candidates ⟨Real.exp, Real.log⟩ (example_retrained_aligner ℝ) H = D
    at hD0 hcache0 d1 d6
  have hDblock : D.2.hap_blocks_ = ⟨100, 104, ["ACAC"]⟩ := by rw [d1, f2, hGblock]
  have hDregion : D.2.region_ = ⟨100, 104⟩ := by rw [d6, f7, hGregion]
  have hmerge : merges insertion_sort_by_length (example_retrained_aligner ℝ) D.1 := by
    rw [hD0]
    exact ⟨by decide, by decide⟩
  have hmblock : merged_str_block insertion_sort_by_length D.2.hap_blocks_
      (insertion_sort_by_length.sort ["GCACAC"]) = ⟨100, 104, ["ACAC", "GCACAC"]⟩ := by
    rw [hDblock]
    rfl
  have hD1 : (loop_step ⟨Real.exp, Real.log⟩ insertion_sort_by_length
      (example_retrained_aligner ℝ) example_chromosome D).1 = [] := by
    unfold loop_step
    rw [hD0]
    refine discover_none _ _ _ (fun t => t = ⟨95, 110, 2, "GCACAC"⟩) ?_ (fun _ _ _ _ => rfl) ?_
    · exact merged_trace_cache_all (fun t => t = ⟨95, 110, 2, "GCACAC"⟩) _ _ hcache0
    · intro trace ht
      right
      rw [ht]
      show "GCACAC" ∈ (merged_str_block insertion_sort_by_length D.2.hap_blocks_
        (insertion_sort_by_length.sort ["GCACAC"])).alternates
      rw [hmblock]
      decide
  have hloop : id_and_align_to_stutter_alleles ⟨Real.exp, Real.log⟩ insertion_sort_by_length
      (example_retrained_aligner ℝ) example_chromosome 3 H
      = some (true, (loop_step ⟨Real.exp, Real.log⟩ insertion_sort_by_length
          (example_retrained_aligner ℝ) example_chromosome D).2) := by
    unfold id_and_align_to_stutter_alleles
    dsimp only
    rw [hD, id_and_align_loop_merge _ _ _ _ 2 _ hmerge, hD1, id_and_align_loop_empty]
  have hsecond : recompute_stutter_model ⟨Real.exp, Real.log⟩ insertion_sort_by_length
      (example_aligner ℝ) (example_retrained_aligner ℝ) (1 / Real.log 10) (1 / 1000) true
      example_chromosome 3 G
      = genotype ⟨Real.exp, Real.log⟩ insertion_sort_by_length (example_retrained_aligner ℝ)
          example_chromosome 3
          (retraining_input ⟨Real.exp, Real.log⟩ (example_aligner ℝ) (1 / Real.log 10)
            (1 / 1000) G) := by
    unfold recompute_stutter_model
    dsimp only
    rw [if_pos rfl]
    rfl
  rw [genotype_bam _ _ _ _ _ _ (q9.trans hGref) (by rw [q8, hGpos]; decide)
    (by rw [q2, hGblock]; decide), hH, hloop] at hsecond
  refine ⟨G, prune_uncalled ⟨Real.exp, Real.log⟩ (loop_step ⟨Real.exp, Real.log⟩
    insertion_sort_by_length (example_retrained_aligner ℝ) example_chromosome D).2, hfirst, hGref,
    hGpos, hsecond, ?_⟩
  rw [(prune_uncalled_pos _ _).1]
  show (stutter_pass ⟨Real.exp, Real.log⟩ insertion_sort_by_length (example_retrained_aligner ℝ)
    example_chromosome D.2 (insertion_sort_by_length.sort D.1)).pos_ = 100
  rw [stutter_pass_pos, hD0, get_alleles_pos_padded _ _ (by
      show (merged_str_block insertion_sort_by_length D.2.hap_blocks_
        (insertion_sort_by_length.sort ["GCACAC"])).start = D.2.region_.start
      rw [hmblock, hDregion]) ⟨1, Nat.le_refl 1, by
      show 1 < (merged_str_block insertion_sort_by_length D.2.hap_blocks_
        (insertion_sort_by_length.sort ["GCACAC"])).num_options
      rw [hmblock]
      decide, by
      show first_base ((merged_str_block insertion_sort_by_length D.2.hap_blocks_
          (insertion_sort_by_length.sort ["GCACAC"])).get_seq 1)
        ≠ first_base ((merged_str_block insertion_sort_by_length D.2.hap_blocks_
          (insertion_sort_by_length.sort ["GCACAC"])).get_seq 0)
      rw [hmblock]
      decide⟩]
  exact hDregion ▸ rfl

/-! ## One refinement iteration on a discovered candidate -/

section CandidateLength

variable {α : Type}

/-- The test of line 364 holds exactly when some candidate is shorter than `abs(max_deletion)`,
the first of the sorted candidates being a shortest one. -/
theorem candidate_too_short_iff (srt : StdSort) (aligner : HapAligner α)
    (stutter_seqs : List String) (hne : stutter_seqs ≠ []) :
    candidate_too_short srt aligner stutter_seqs = true
      ↔ ∃ c ∈ stutter_seqs, (c.length : Int) < |aligner.max_deletion| := by
  obtain ⟨hmem, hmin⟩ := sort_head_shortest srt stutter_seqs hne
  unfold candidate_too_short
  rw [decide_eq_true_iff]
  constructor
  · intro h
    exact ⟨_, hmem, h⟩
  · rintro ⟨c, hc, hlt⟩
    have := hmin c hc
    omega

end CandidateLength

section CandidateIteration

variable {α : Type} [LinearOrderedField α]

/-- Claim C17, amended: if in some sample at least 4 tracebacks of `retrace_alignments` that
span the repeat block report with a nonzero stutter size a sequence `S` that is not an
alternate, and these are at least 15% of the sample's spanning tracebacks, then
`get_stutter_candidate_alleles` returns `S`. When no returned candidate is shorter than
`abs(max_deletion)`, the first iteration of the loop of `id_and_align_to_stutter_alleles` runs
to the next evaluation of the loop condition, after it `S` is an alternate of the repeat block
and `num_alleles_` has grown by the number of returned candidates: by 1 when no other unknown
sequence is reported with nonzero stutter. When a returned candidate is shorter, the call
returns `false` in that iteration and the object is the one after the discovery. -/
theorem stutter_candidate_iteration (m : MathOps α) (srt : StdSort) (aligner : HapAligner α)
    (chrom_seq : String) (g : SeqStutterGenotyper α) (S : String) (s : Nat)
    (hne : 1 ≤ g.hap_blocks_.num_options) (hS : S ∉ g.hap_blocks_.alternates)
    (hs : s < g.num_samples_)
    (h4 : 4 ≤ (stutter_reads g
      (fun r => (retrace_alignments m aligner g).traced_alns.getD r none)
      g.num_reads_ s S).length)
    (hratio : (15 / 100 : ℚ) ≤ ((stutter_reads g
        (fun r => (retrace_alignments m aligner g).traced_alns.getD r none)
        g.num_reads_ s S).length : ℚ)
      / ((spanning_reads g
        (fun r => (retrace_alignments m aligner g).traced_alns.getD r none)
        g.num_reads_ s).length : ℚ)) :
    S ∈ (discover_candidates m aligner g).1
    ∧ ((∀ c ∈ (discover_candidates m aligner g).1, |aligner.max_deletion| ≤ (c.length : Int)) →
        (∀ fuel, id_and_align_to_stutter_alleles m srt aligner chrom_seq (fuel + 1) g
          = id_and_align_loop m srt aligner chrom_seq fuel
              (loop_step m srt aligner chrom_seq (discover_candidates m aligner g)).1
              (loop_step m srt aligner chrom_seq (discover_candidates m aligner g)).2)
        ∧ S ∈ (loop_step m srt aligner chrom_seq
            (discover_candidates m aligner g)).2.hap_blocks_.alternates
        ∧ (loop_step m srt aligner chrom_seq (discover_candidates m aligner g)).2.num_alleles_
          = g.num_alleles_ + (discover_candidates m aligner g).1.length
        ∧ ((∀ r trace, r < g.num_reads_ →
              (retrace_alignments m aligner g).traced_alns.getD r none = some trace →
              spans_block g trace = true → trace.stutter_size ≠ 0 →
              trace.str_seq = S ∨ trace.str_seq ∈ g.hap_blocks_.alternates) →
            (loop_step m srt aligner chrom_seq
              (discover_candidates m aligner g)).2.num_alleles_ = g.num_alleles_ + 1))
    ∧ ((∃ c ∈ (discover_candidates m aligner g).1, (c.length : Int) < |aligner.max_deletion|) →
        ∀ fuel, id_and_align_to_stutter_alleles m srt aligner chrom_seq (fuel + 1) g
          = some (false, (discover_candidates m aligner g).2)) := by
  have hD : (discover_candidates m aligner g).1
      = get_stutter_candidate_alleles g
          (fun r => (retrace_alignments m aligner g).traced_alns.getD r none) := rfl
  have hmem : S ∈ (discover_candidates m aligner g).1 := by
    rw [hD]
    exact ((get_stutter_candidate_alleles_mem g _).1 S).mpr ⟨hS, s, hs, by omega, hratio⟩
  have hnil : (discover_candidates m aligner g).1 ≠ [] := List.ne_nil_of_mem hmem
  refine ⟨hmem, fun hlong => ?_, fun hshort fuel => ?_⟩
  · have hmerge : merges srt aligner (discover_candidates m aligner g).1 := by
      refine ⟨hnil, ?_⟩
      rw [← Bool.not_eq_true, candidate_too_short_iff srt aligner _ hnil]
      rintro ⟨c, hc, hlt⟩
      have := hlong c hc
      omega
    have hlen : (loop_step m srt aligner chrom_seq
          (discover_candidates m aligner g)).2.num_alleles_
        = g.num_alleles_ + (discover_candidates m aligner g).1.length := by
      show g.num_alleles_ + (srt.sort (discover_candidates m aligner g).1).length = _
      rw [(srt.perm _).length_eq]
    refine ⟨fun fuel => ?_, ?_, hlen, fun honly => ?_⟩
    · unfold id_and_align_to_stutter_alleles
      dsimp only
      exact id_and_align_loop_merge m srt aligner chrom_seq fuel _ hmerge
    · show S ∈ (merged_str_block srt g.hap_blocks_
        (srt.sort (discover_candidates m aligner g).1)).alternates
      rw [(merged_str_block_perm srt g.hap_blocks_ _ hne).mem_iff]
      exact List.mem_append_right _ ((srt.perm _).mem_iff.mpr hmem)
    · rw [hlen, hD, get_stutter_candidate_alleles_singleton g _ S (hD ▸ hmem) honly]
      rfl
  · unfold id_and_align_to_stutter_alleles
    dsimp only
    exact id_and_align_loop_short m srt aligner chrom_seq fuel _ _ hnil
      ((candidate_too_short_iff srt aligner _ hnil).mpr hshort)

end CandidateIteration

/-- On a locus with the repeat block 100-104, four reads of one sample with seed positions and
an empty trace cache, every traceback under `example_retrained_aligner` is the trace from 95
to 110 that reports `"GCACAC"` with the stutter size 2, so all four reads span the block and
report it with nonzero stutter. -/
theorem example_retrained_traces (g : SeqStutterGenotyper ℝ)
    (hcache : g.trace_cache_ = []) (hblock : g.hap_blocks_ = ⟨100, 104, ["ACAC"]⟩)
    (hreads : g.num_reads_ = 4) (hlabel : ∀ r, g.sample_label_ r = 0)
    (hseed : ∀ r, g.seed_positions_ r = 0) :
    (∀ r trace,
      (retrace_alignments ⟨Real.exp, Real.log⟩ (example_retrained_aligner ℝ) g).traced_alns.getD
        r none = some trace → trace = ⟨95, 110, 2, "GCACAC"⟩)
    ∧ stutter_reads g (fun r =>
        (retrace_alignments ⟨Real.exp, Real.log⟩ (example_retrained_aligner ℝ)
          g).traced_alns.getD r none) g.num_reads_ 0 "GCACAC" = List.range 4
    ∧ spanning_reads g (fun r =>
        (retrace_alignments ⟨Real.exp, Real.log⟩ (example_retrained_aligner ℝ)
          g).traced_alns.getD r none) g.num_reads_ 0 = List.range 4 := by
  obtain ⟨_, hall2, hall3⟩ := retrace_alignments_all ⟨Real.exp, Real.log⟩
    (example_retrained_aligner ℝ) g (fun t => t = ⟨95, 110, 2, "GCACAC"⟩)
    (fun entry hentry => by rw [hcache] at hentry; exact absurd hentry (List.not_mem_nil _))
    (fun _ _ _ _ => rfl)
  have htr : ∀ r, r < 4 →
      (retrace_alignments ⟨Real.exp, Real.log⟩ (example_retrained_aligner ℝ) g).traced_alns.getD
        r none = some ⟨95, 110, 2, "GCACAC"⟩ := by
    intro r hr
    obtain ⟨trace, ht⟩ := hall3 r (by rw [hreads]; exact hr) (by rw [hseed])
    have := hall2 r trace ht
    rw [this] at ht
    exact ht
  have hspan : spans_block g ⟨95, 110, 2, "GCACAC"⟩ = true := by
    unfold spans_block
    rw [hblock]
    decide
  refine ⟨hall2, ?_, ?_⟩
  · unfold stutter_reads
    rw [hreads, List.filter_eq_self]
    intro r hr
    rw [List.mem_range] at hr
    dsimp only
    rw [htr r hr]
    simp only [hspan, hlabel]
    decide
  · unfold spanning_reads
    rw [hreads, List.filter_eq_self]
    intro r hr
    rw [List.mem_range] at hr
    dsimp only
    rw [htr r hr]
    simp only [hspan, hlabel]
    decide

/-- Witness of C17 as amended: on `example_locus`, whose only alternate is the reference
`"ACAC"`, the four tracebacks under `example_retrained_aligner` report `"GCACAC"` with the
stutter size 2; the sequence is returned, it is not shorter than `abs(max_deletion) = 2`, and
after one iteration `num_alleles_` is `1 + 1`. -/
theorem stutter_candidate_iteration_witness :
    "GCACAC" ∈ (discover_candidates ⟨Real.exp, Real.log⟩ (example_retrained_aligner ℝ)
        (example_locus ℝ)).1
    ∧ (loop_step ⟨Real.exp, Real.log⟩ insertion_sort_by_length (example_retrained_aligner ℝ)
        example_chromosome
        (discover_candidates ⟨Real.exp, Real.log⟩ (example_retrained_aligner ℝ)
          (example_locus ℝ))).2.num_alleles_ = (example_locus ℝ).num_alleles_ + 1 := by
  obtain ⟨htr, hsr, hsp⟩ := example_retrained_traces (example_locus ℝ) rfl rfl rfl
    (fun _ => rfl) (fun _ => rfl)
  have h := stutter_candidate_iteration ⟨Real.exp, Real.log⟩ insertion_sort_by_length
    (example_retrained_aligner ℝ) example_chromosome (example_locus ℝ) "GCACAC" 0
    (by decide) (by decide) (by decide)
    (by rw [hsr]; decide)
    (by rw [hsr, hsp]; norm_num)
  refine ⟨h.1, (h.2.1 ?_).2.2.2 ?_⟩
  · intro c hc
    rw [(example_retrained_candidates (example_locus ℝ) rfl rfl rfl rfl (fun _ => rfl)
      (fun _ => rfl)).1, List.mem_singleton] at hc
    rw [hc]
    decide
  · intro r trace _ htrace _ _
    left
    rw [htr r trace htrace]

/-! ## The traceback allele on a tie -/

/-- On a tie, when the two arguments of `log_sum_exp` at lines 1041-1042 are equal, the exact
value of `log_phase_one` is `LOG_ONE_HALF` itself, so the strict test of line 1047 fails and in
exact arithmetic both `write_vcf_record` and `retrace_alignments` take `gt_b`. The test of
line 1047 is therefore decided by the rounding of `double` alone: a rounded difference above
`LOG_ONE_HALF` makes the program take `gt_a` there, against line 807. -/
theorem log_phase_one_tie (g : SeqStutterGenotyper ℝ) (read_LL_ptr read_index : Nat)
    (gt_a gt_b : Int)
    (htie : LOG_ONE_HALF ⟨Real.exp, Real.log⟩ + g.log_p1_ read_index
        + g.log_aln_probs_ ((read_LL_ptr : Int) + gt_a).toNat
      = LOG_ONE_HALF ⟨Real.exp, Real.log⟩ + g.log_p2_ read_index
        + g.log_aln_probs_ ((read_LL_ptr : Int) + gt_b).toNat) :
    log_phase_one ⟨Real.exp, Real.log⟩ g read_LL_ptr read_index gt_a gt_b
        = LOG_ONE_HALF ⟨Real.exp, Real.log⟩
      ∧ write_vcf_best_gt ⟨Real.exp, Real.log⟩ g read_LL_ptr read_index gt_a gt_b = gt_b
      ∧ retrace_best_gt ⟨Real.exp, Real.log⟩ g read_LL_ptr read_index gt_a gt_b = gt_b := by
  have h1 : log_phase_one ⟨Real.exp, Real.log⟩ g read_LL_ptr read_index gt_a gt_b
      = LOG_ONE_HALF ⟨Real.exp, Real.log⟩ := by
    unfold log_phase_one
    dsimp only
    rw [← htie, log_sum_exp_real, log_exp_add_self]
    show _ = Real.log (1 / 2)
    rw [one_div, Real.log_inv]
    ring
  refine ⟨h1, ?_, ?_⟩
  · unfold write_vcf_best_gt
    rw [h1, if_neg (lt_irrefl _)]
  · unfold retrace_best_gt
    rw [htie, if_neg (lt_irrefl _)]

end HipSTR
